import Mathlib

/-!
# Progress engine of the zhpe provider (prov/zhpe/src/zhpe_progress.c)

A shallow embedding of the progress engine: status propagation, the receive
state machine with its three lists and the ordered completion drain of the
work list, the descriptor ring reader, the target side of remote atomics and
of key requests, the completion reporter, the transmit handlers with the
WRITEDATA message, the request for remote keys, the wake-up of the progress
thread, the registration of contexts, the transmit progress pass and the
parser of the thread affinity.

Conventions of the embedding.

* Pointers to receive entries are indices into an arena (`entries`); the three
  intrusive lists of a receive context are lists of such indices.
* Calls into code outside the source file (`zhpe_send_status`,
  `zhpe_rx_release_entry`, `zhpe_iov_op`, ...) and calls of the completion
  reporter are recorded, in program order, in the `out` log of the context.
  What such a call returns is read from an `rx_env` record supplied with each
  step, so every result holds for all outcomes of the collaborators.
* Constants and inline helpers declared in headers (`zhpe.h`, `rdma/fabric.h`,
  `rdma/fi_errno.h`) are fields of `zhpe_defs`, so every result holds for all
  values of them.  Enumerations whose members are the labels of one `switch`
  are inductive types.
* Locks, statistics and log messages are not modelled: every function is the
  sequential code between its lock operations.  Payload bytes are not
  modelled, only the byte counts the copy helpers return.
* `abort()` sets the `aborted` flag of the context.
* `rx_work_hist` is a history variable: it records every
  `dlist_insert_tail(..., &rx_ctx->rx_work_list)` and is read by no code.
* The ring reader runs over rings whose contents are fixed during the call;
  its handlers act on an abstract world state.  The unbounded inner loop takes
  a fuel argument and returns `none` when it runs out; the theorems show that
  `mask + 2` loop tests are enough.
* Target memory of the atomics is a map from addresses to bytes; a word of
  `w` bits is the `w / 8` bytes at its address.  The host is little-endian.
* Transmit entries are indices into the array `pentries`; the calls leaving
  the transmit handlers are recorded in the `out` log of the transmit side and
  their results are read from a `tx_env` record.
* The completion reporter returns the list of the calls it makes on counters
  and queues; an unbound counter or queue is `none`.
* The signal socket of the progress thread is the number of unread bytes in
  it; a successful write adds one and a successful read takes one.
* The transmit progress pass is parametric in the handlers it calls; they act
  on the retry list of the endpoint and an abstract world state.
* The loops driven by `ffs` and the loops of the affinity parser are embedded
  as they are written, with a fuel argument that counts the tests of the loop
  condition; the theorems give the number of tests that is enough, or show
  that none is.  Text is the list of the characters before the terminating
  NUL, and the integers of the parser are unbounded.
-/

namespace Zhpe

/-! ## Data model -/

/-- One element `struct zhpe_iov` of an iov array. -/
structure zhpe_iov where
  iov_base : Nat
  iov_len : Nat
  iov_key : Nat
  iov_zaddr : Nat
  deriving DecidableEq, Repr

/-- The cursor `struct zhpe_iov_state` over an iov array. -/
structure zhpe_iov_state where
  viov : List zhpe_iov
  off : Nat
  idx : Nat
  cnt : Nat
  missing : Nat
  deriving DecidableEq, Repr

/-- Constants, globals and inline helpers used by `zhpe_progress.c` whose
declarations live in headers. -/
structure zhpe_defs where
  FI_ETRUNC : Nat
  FI_ENOSYS : Nat
  FI_ENOKEY : Nat
  FI_ENOMEM : Nat
  FI_ENOMSG : Nat
  FI_ENOSPC : Nat
  FI_EAGAIN : Nat
  FI_EIO : Nat
  FI_COMPLETION : Nat
  FI_MULTI_RECV : Nat
  FI_DISCARD : Nat
  FI_CLAIM : Nat
  FI_TAGGED : Nat
  FI_REMOTE_CQ_DATA : Nat
  FI_SEND : Nat
  FI_RECV : Nat
  FI_READ : Nat
  FI_WRITE : Nat
  FI_REMOTE_READ : Nat
  FI_REMOTE_WRITE : Nat
  FI_RMA : Nat
  FI_ATOMIC : Nat
  FI_INJECT : Nat
  FI_TRANSMIT_COMPLETE : Nat
  FI_DELIVERY_COMPLETE : Nat
  FI_PROGRESS_AUTO : Nat
  EIO : Nat
  ZHPE_TRIGGERED_OP : Nat
  ZHPE_NO_COMPLETION : Nat
  ZHPE_PE_PROV : Nat
  ZHPE_PE_RETRY : Nat
  ZHPE_PE_KEY_WAIT : Nat
  ZHPE_MSG_ANY_COMPLETE : Nat
  ZHPE_MSG_DELIVERY_COMPLETE : Nat
  ZHPE_MSG_TRANSMIT_COMPLETE : Nat
  ZHPE_MSG_INLINE : Nat
  ZHPE_MSG_TAGGED : Nat
  ZHPE_MSG_REMOTE_CQ_DATA : Nat
  ZHPE_MSG_VALID_TOGGLE : Nat
  ZHPE_ZIOV_LEN_KEY_INT : Nat
  ZHPE_EP_MAX_IO_OPS : Int
  ZHPE_EP_MAX_IO_BYTES : Nat
  zhpe_ep_max_eager_sz : Nat
  ZHPE_RX_BUF : Nat
  ZHPE_RX_BUF_EAGER : Nat
  OFI_UNLIKELY : Int → Int
  zhpe_ziov_state_avail : zhpe_iov_state → Nat
  zhpe_ziov_state_ptr : zhpe_iov_state → Nat
  zhpe_ziov_state_adv : zhpe_iov_state → Nat → zhpe_iov_state
  zhpe_ziov_state_reset : zhpe_iov_state → zhpe_iov_state

/-- Receive entry states (`ZHPE_RX_STATE_*`), named as in the source. -/
inductive zhpe_rx_state
  | ZHPE_RX_STATE_IDLE
  | ZHPE_RX_STATE_INLINE
  | ZHPE_RX_STATE_EAGER
  | ZHPE_RX_STATE_EAGER_CLAIMED
  | ZHPE_RX_STATE_EAGER_DONE
  | ZHPE_RX_STATE_RND
  | ZHPE_RX_STATE_RND_BUF
  | ZHPE_RX_STATE_RND_DIRECT
  | ZHPE_RX_STATE_COMPLETE
  | ZHPE_RX_STATE_DROP
  | ZHPE_RX_STATE_DISCARD
  deriving DecidableEq, Repr

open zhpe_rx_state

/-- Message opcodes: the case labels of the dispatch `switch` of
`zhpe_pe_progress_rx_ep`, and every other value of `op_type`. -/
inductive zhpe_op
  | ZHPE_OP_ATOMIC
  | ZHPE_OP_KEY_EXPORT
  | ZHPE_OP_KEY_RESPONSE
  | ZHPE_OP_KEY_REQUEST
  | ZHPE_OP_KEY_REVOKE
  | ZHPE_OP_SEND
  | ZHPE_OP_STATUS
  | ZHPE_OP_WRITEDATA
  | other (op_type : Nat)
  deriving DecidableEq, Repr

open zhpe_op

/-- The fields of `struct zhpe_msg_hdr` read by the progress engine. -/
structure zhpe_msg_hdr where
  op_type : zhpe_op
  flags : Nat
  inline_len : Nat
  deriving DecidableEq, Repr

/-- The fields of `struct zhpe_pe_root` read by the progress engine.  The
receive side never reads `flags`; it is 0 where a receive entry is written
out. -/
structure zhpe_pe_root where
  conn : Nat
  context : Nat
  status : Int
  completions : Int
  flags : Nat := 0
  deriving DecidableEq, Repr

/-- The fields of `struct zhpe_rx_entry`. -/
structure zhpe_rx_entry where
  pe_root : zhpe_pe_root
  rx_state : zhpe_rx_state
  zhdr : zhpe_msg_hdr
  addr : Nat
  context : Nat
  flags : Nat
  tag : Nat
  ignore : Nat
  cq_data : Nat
  total_len : Nat
  rem : Nat
  buf : Nat
  buffered : Nat
  lstate : zhpe_iov_state
  ustate : zhpe_iov_state
  rstate : zhpe_iov_state
  deriving DecidableEq, Repr

/-- The completion record `zcqe.cqe`. -/
structure fi_cq_tagged_entry where
  op_context : Nat
  flags : Nat
  len : Nat
  buf : Nat
  data : Nat
  tag : Nat
  deriving DecidableEq, Repr

/-- The completion descriptor `struct zhpe_cqe` (its `comp` pointer is the
completion block of the receive context). -/
structure zhpe_cqe where
  addr : Nat
  cqe : fi_cq_tagged_entry
  deriving DecidableEq, Repr

/-- Calls leaving the receive path, in program order.
`report_complete` is the call of `zhpe_pe_rx_report_complete` in the drain of
`zhpe_pe_rx_complete`; `report_direct` is a call of the completion reporter
from `zhpe_pe_rx_peek_recv` or `zhpe_pe_rx_claim_recv`.  The first component
of the entry-related calls is the receive entry they are made for. -/
inductive rx_out
  | report_complete (rx_entry : Nat) (zcqe : zhpe_cqe) (status : Int) (rem : Nat)
  | report_direct (zcqe : zhpe_cqe) (status : Int) (rem : Nat)
  | send_status (rx_entry : Nat) (conn : Nat) (zhdr : zhpe_msg_hdr) (status : Int) (rem : Nat)
  | release_entry (rx_entry : Nat)
  | iov_op_get (rx_entry : Nat) (max_bytes : Nat) (max_ops : Int)
  | pe_retry (rx_entry : Nat)
  | pe_signal
  deriving DecidableEq, Repr

/-- The part of `struct zhpe_rx_ctx` used by the receive path. -/
structure zhpe_rx_ctx where
  entries : Nat → zhpe_rx_entry
  rx_posted_list : List Nat
  rx_buffered_list : List Nat
  rx_work_list : List Nat
  min_multi_recv : Nat
  buffered_len : Nat
  total_buffered_recv : Nat
  internal0 : Nat → Option Nat
  out : List rx_out
  aborted : Bool
  rx_work_hist : List Nat

/-- Outcomes, within one step, of the collaborators outside the source file.
`zhpe_conn_rkey_get riov` is the key data of the remote key that
`zhpe_conn_rkey_get` finds for the key of the iov element `riov`, if any;
`zhpeq_rem_key_access kdata riov get` is the result of `zhpeq_rem_key_access`
together with the address it stores in `iov_zaddr`. -/
structure rx_env where
  zhpe_rx_new_entry : Option Nat
  zhpe_slab_alloc : Int
  copied : Nat
  zhpe_mr_reg_int_iov : Int
  zhpe_conn_rkey_get : zhpe_iov → Option Nat
  zhpeq_rem_key_access : Nat → zhpe_iov → Bool → Int × Nat
  zhpe_iov_op : Int
  iov_op_completions : Int
  iov_op_rem : Nat
  zhpe_pe_retry : Int

/-- The matcher `zhpe_rx_match_entry(entry, buffered, addr, tag, ignore, flags)`. -/
abbrev rx_matcher := zhpe_rx_entry → Bool → Nat → Nat → Nat → Nat → Bool

/-! ## List and entry primitives -/

/-- Store to one entry of the arena. -/
def rx_set (rx_ctx : zhpe_rx_ctx) (id : Nat) (f : zhpe_rx_entry → zhpe_rx_entry) :
    zhpe_rx_ctx :=
  { rx_ctx with entries := Function.update rx_ctx.entries id (f (rx_ctx.entries id)) }

/-- The macro `set_rx_state` (lines 41-45). -/
def set_rx_state (rx_ctx : zhpe_rx_ctx) (rx_entry : Nat) (state : zhpe_rx_state) :
    zhpe_rx_ctx :=
  rx_set rx_ctx rx_entry (fun e => { e with rx_state := state })

/-- Append a call to the `out` log. -/
def rx_emit (rx_ctx : zhpe_rx_ctx) (o : List rx_out) : zhpe_rx_ctx :=
  { rx_ctx with out := rx_ctx.out ++ o }

/-- The call `dlist_remove(&entry->lentry)`: the entry leaves the list it is on. -/
def rx_dlist_remove (rx_ctx : zhpe_rx_ctx) (id : Nat) : zhpe_rx_ctx :=
  { rx_ctx with
      rx_posted_list := rx_ctx.rx_posted_list.erase id,
      rx_buffered_list := rx_ctx.rx_buffered_list.erase id,
      rx_work_list := rx_ctx.rx_work_list.erase id }

/-- The call `dlist_insert_tail(&entry->lentry, &rx_ctx->rx_work_list)`. -/
def rx_work_insert_tail (rx_ctx : zhpe_rx_ctx) (id : Nat) : zhpe_rx_ctx :=
  { rx_ctx with
      rx_work_list := rx_ctx.rx_work_list ++ [id],
      rx_work_hist := rx_ctx.rx_work_hist ++ [id] }

/-- The call `dlist_insert_tail(&entry->lentry, &rx_ctx->rx_posted_list)`. -/
def rx_posted_insert_tail (rx_ctx : zhpe_rx_ctx) (id : Nat) : zhpe_rx_ctx :=
  { rx_ctx with rx_posted_list := rx_ctx.rx_posted_list ++ [id] }

/-- The call `dlist_insert_tail(&entry->lentry, &rx_ctx->rx_buffered_list)`. -/
def rx_buffered_insert_tail (rx_ctx : zhpe_rx_ctx) (id : Nat) : zhpe_rx_ctx :=
  { rx_ctx with rx_buffered_list := rx_ctx.rx_buffered_list ++ [id] }

/-- The operation `x & ~m` on unsigned words. -/
def bit_clear (x m : Nat) : Nat := x ^^^ (x &&& m)

/-- Subtraction of 64-bit unsigned words. -/
def sub64 (x y : Nat) : Nat := (x + 2 ^ 64 - y % 2 ^ 64) % 2 ^ 64

/-! ## Status propagation -/

/-- `zhpe_pe_root_update_status` (lines 49-55). -/
def zhpe_pe_root_update_status (pe_root : zhpe_pe_root) (status : Int) : zhpe_pe_root :=
  if status < 0 ∧ pe_root.status ≥ 0 then { pe_root with status := status } else pe_root

/-! ## Ordered completion drain -/

/-- The descriptor built by `zhpe_pe_rx_report_complete` (lines 152-171). -/
def rx_zcqe (rx_entry : zhpe_rx_entry) : zhpe_cqe :=
  { addr := rx_entry.addr,
    cqe := { op_context := rx_entry.context, flags := rx_entry.flags,
             len := rx_entry.total_len, buf := rx_entry.buf,
             data := rx_entry.cq_data, tag := rx_entry.tag } }

/-- `zhpe_pe_rx_report_complete` (lines 152-171), called from the drain: the
descriptor handed to `zhpe_pe_report_complete` together with `status` and
`rem`. -/
def zhpe_pe_rx_report_complete (id : Nat) (rx_entry : zhpe_rx_entry) (status : Int)
    (rem : Nat) : rx_out :=
  rx_out.report_complete id (rx_zcqe rx_entry) status rem

/-- The first loop of `zhpe_pe_rx_complete` (lines 235-245): entries are taken
off the head of the work list into `dcomplete` or `ddrop` until the first entry
in another state.  Returns `(dcomplete, ddrop, remaining work list)`. -/
def rx_work_scan (entries : Nat → zhpe_rx_entry) :
    List Nat → List Nat → List Nat → List Nat × List Nat × List Nat
  | [], dcomplete, ddrop => (dcomplete, ddrop, [])
  | dentry :: dnext, dcomplete, ddrop =>
    if (entries dentry).rx_state = ZHPE_RX_STATE_COMPLETE then
      rx_work_scan entries dnext (dcomplete ++ [dentry]) ddrop
    else if (entries dentry).rx_state = ZHPE_RX_STATE_DROP then
      rx_work_scan entries dnext dcomplete (ddrop ++ [dentry])
    else (dcomplete, ddrop, dentry :: dnext)

/-- Body of the second loop of `zhpe_pe_rx_complete` (lines 250-259). -/
def rx_complete_report (K : zhpe_defs) (entries : Nat → zhpe_rx_entry) (rx_cur : Nat) :
    List rx_out :=
  let status := (entries rx_cur).pe_root.status
  zhpe_pe_rx_report_complete rx_cur (entries rx_cur) status (entries rx_cur).rem ::
    (if (entries rx_cur).zhdr.flags &&& K.ZHPE_MSG_ANY_COMPLETE ≠ 0 then
      [rx_out.send_status rx_cur (entries rx_cur).pe_root.conn (entries rx_cur).zhdr status
        (entries rx_cur).rem]
    else [])

/-- `zhpe_pe_rx_complete` (lines 213-273). -/
def zhpe_pe_rx_complete (K : zhpe_defs) (rx_ctx : zhpe_rx_ctx) (rx_entry : Nat)
    (status : Int) : zhpe_rx_ctx :=
  let e := rx_ctx.entries rx_entry
  let status := if status ≥ 0 ∧ e.rem ≠ 0 then -(K.FI_ETRUNC : Int) else status
  let e := { e with pe_root := zhpe_pe_root_update_status e.pe_root status,
                    rx_state := ZHPE_RX_STATE_COMPLETE }
  let entries := Function.update rx_ctx.entries rx_entry e
  match rx_work_scan entries rx_ctx.rx_work_list [] [] with
  | (dcomplete, ddrop, rest) =>
    if dcomplete = [] ∧ ddrop = [] then
      { rx_ctx with entries := entries, rx_work_list := rest }
    else
      { rx_ctx with
          entries := entries,
          rx_work_list := rest,
          out := rx_ctx.out ++ dcomplete.flatMap (rx_complete_report K entries)
                  ++ dcomplete.map rx_out.release_entry
                  ++ ddrop.map rx_out.release_entry }

/-! ## Receive state machine -/

/-- `zhpe_pe_rx_discard_recv` (lines 190-211). -/
def zhpe_pe_rx_discard_recv (K : zhpe_defs) (rx_ctx : zhpe_rx_ctx) (rx_entry : Nat) :
    zhpe_rx_ctx :=
  let rx_ctx := rx_dlist_remove rx_ctx rx_entry
  if (rx_ctx.entries rx_entry).rx_state = ZHPE_RX_STATE_EAGER then
    set_rx_state (rx_work_insert_tail rx_ctx rx_entry) rx_entry ZHPE_RX_STATE_DISCARD
  else
    let zhdr := (rx_ctx.entries rx_entry).zhdr
    let conn := (rx_ctx.entries rx_entry).pe_root.conn
    let rx_ctx := rx_emit rx_ctx [rx_out.release_entry rx_entry]
    if zhdr.flags &&& K.ZHPE_MSG_ANY_COMPLETE ≠ 0 then
      rx_emit rx_ctx [rx_out.send_status rx_entry conn zhdr 0 0]
    else rx_ctx

/-- The loop of `zhpe_pe_rem_setup` (lines 830-854) over the bit positions
`bits`.  `ffs` picks the lowest set bit of `missing`, and the body either
clears that bit or leaves the loop, so the loop visits the set bits of
`missing` in ascending order.  The pointer stored in `iov_rkey` is read only
by the transfer functions outside the file and is not modelled. -/
def zhpe_pe_rem_setup_bits (K : zhpe_defs) (zhpe_conn_rkey_get : zhpe_iov → Option Nat)
    (zhpeq_rem_key_access : Nat → zhpe_iov → Bool → Int × Nat) (get : Bool) :
    List Nat → zhpe_iov_state → Int → zhpe_iov_state × Int
  | [], rstate, ret => (rstate, ret)
  | i :: bits, rstate, ret =>
    if rstate.missing &&& 2 ^ i ≠ 0 then
      let riov := rstate.viov.getD i ⟨0, 0, 0, 0⟩
      match zhpe_conn_rkey_get riov with
      | none => (rstate, -(K.FI_ENOKEY : Int))
      | some kdata =>
        let r := zhpeq_rem_key_access kdata riov get
        let rstate :=
          { rstate with
              missing := bit_clear rstate.missing (2 ^ i),
              viov := rstate.viov.set i { riov with iov_zaddr := r.2 } }
        if r.1 < 0 then (rstate, r.1)
        else zhpe_pe_rem_setup_bits K zhpe_conn_rkey_get zhpeq_rem_key_access get bits rstate r.1
    else zhpe_pe_rem_setup_bits K zhpe_conn_rkey_get zhpeq_rem_key_access get bits rstate ret

/-- `zhpe_pe_rem_setup` (lines 821-857): the iov state after the call and the
value returned; `missing` is a 32-bit mask. -/
def zhpe_pe_rem_setup (K : zhpe_defs) (zhpe_conn_rkey_get : zhpe_iov → Option Nat)
    (zhpeq_rem_key_access : Nat → zhpe_iov → Bool → Int × Nat)
    (rstate : zhpe_iov_state) (get : Bool) : zhpe_iov_state × Int :=
  zhpe_pe_rem_setup_bits K zhpe_conn_rkey_get zhpeq_rem_key_access get (List.range 32) rstate 0

/-- The copy-out shared by the `EAGER_CLAIMED` fall-through and `RND_BUF` in
`zhpe_pe_rx_get` (lines 968-977). -/
def rx_get_copy_complete (K : zhpe_defs) (o : rx_env) (rx_ctx : zhpe_rx_ctx)
    (rx_entry : Nat) : zhpe_rx_ctx :=
  let rx_ctx := rx_set rx_ctx rx_entry (fun e =>
    { e with lstate := K.zhpe_ziov_state_reset e.lstate })
  let rx_ctx := rx_set rx_ctx rx_entry (fun e =>
    { e with rem := sub64 e.total_len o.copied })
  zhpe_pe_rx_complete K rx_ctx rx_entry 0

/-- `zhpe_pe_rx_get` from the label `complete` on (lines 930-985). -/
def rx_get_complete (K : zhpe_defs) (o : rx_env) (rx_ctx : zhpe_rx_ctx)
    (rx_entry : Nat) : zhpe_rx_ctx :=
  if (rx_ctx.entries rx_entry).pe_root.completions ≠ 0 then rx_ctx
  else
    match (rx_ctx.entries rx_entry).rx_state with
    | ZHPE_RX_STATE_RND_DIRECT => zhpe_pe_rx_complete K rx_ctx rx_entry 0
    | ZHPE_RX_STATE_EAGER | ZHPE_RX_STATE_EAGER_CLAIMED =>
      if (rx_ctx.entries rx_entry).rx_state = ZHPE_RX_STATE_DISCARD then
        zhpe_pe_rx_discard_recv K rx_ctx rx_entry
      else
        let rx_ctx :=
          if (rx_ctx.entries rx_entry).rx_state = ZHPE_RX_STATE_EAGER then
            set_rx_state rx_ctx rx_entry ZHPE_RX_STATE_EAGER_DONE
          else rx_ctx
        let zhdr := (rx_ctx.entries rx_entry).zhdr
        let rx_ctx := rx_set rx_ctx rx_entry (fun e =>
          { e with zhdr := { e.zhdr with
              flags := bit_clear e.zhdr.flags K.ZHPE_MSG_TRANSMIT_COMPLETE } })
        let state := (rx_ctx.entries rx_entry).rx_state
        let rx_ctx :=
          if zhdr.flags &&& K.ZHPE_MSG_TRANSMIT_COMPLETE ≠ 0 then
            rx_emit rx_ctx [rx_out.send_status rx_entry
              (rx_ctx.entries rx_entry).pe_root.conn zhdr
              (rx_ctx.entries rx_entry).pe_root.status (rx_ctx.entries rx_entry).rem]
          else rx_ctx
        if state = ZHPE_RX_STATE_EAGER_DONE then rx_ctx
        else rx_get_copy_complete K o rx_ctx rx_entry
    | ZHPE_RX_STATE_RND_BUF => rx_get_copy_complete K o rx_ctx rx_entry
    | _ => rx_ctx

/-- `zhpe_pe_rx_get` from the chunking limits to the label `complete`
(lines 907-928). -/
def rx_get_issue (K : zhpe_defs) (o : rx_env) (rx_ctx : zhpe_rx_ctx)
    (rx_entry : Nat) : zhpe_rx_ctx :=
  let e := rx_ctx.entries rx_entry
  if e.pe_root.completions ≥ K.ZHPE_EP_MAX_IO_OPS then rx_ctx
  else
    let max_ops := K.ZHPE_EP_MAX_IO_OPS - e.pe_root.completions
    let max_bytes := if e.rem > K.ZHPE_EP_MAX_IO_BYTES then K.ZHPE_EP_MAX_IO_BYTES else e.rem
    if max_bytes = 0 ∨ max_ops = 0 then rx_get_complete K o rx_ctx rx_entry
    else
      let rx_ctx := rx_emit rx_ctx [rx_out.iov_op_get rx_entry max_bytes max_ops]
      let rx_ctx := rx_set rx_ctx rx_entry (fun e =>
        { e with pe_root := { e.pe_root with completions := o.iov_op_completions },
                 rem := o.iov_op_rem })
      let rc := o.zhpe_iov_op
      if rc > 0 then rx_ctx
      else if rc < 0 then
        if rc = -(K.FI_EAGAIN : Int) then
          let rx_ctx := rx_emit rx_ctx [rx_out.pe_retry rx_entry]
          let rc := o.zhpe_pe_retry
          if rc ≥ 0 then rx_ctx
          else
            rx_get_complete K o (rx_set rx_ctx rx_entry (fun e =>
              { e with pe_root := zhpe_pe_root_update_status e.pe_root rc })) rx_entry
        else
          rx_get_complete K o (rx_set rx_ctx rx_entry (fun e =>
            { e with pe_root := zhpe_pe_root_update_status e.pe_root rc })) rx_entry
      else rx_get_complete K o rx_ctx rx_entry

/-- `zhpe_pe_rx_get` (lines 859-985). -/
def zhpe_pe_rx_get (K : zhpe_defs) (o : rx_env) (rx_ctx : zhpe_rx_ctx) (rx_entry : Nat)
    (retry : Bool) : zhpe_rx_ctx :=
  let e := rx_ctx.entries rx_entry
  if e.pe_root.status < 0 then rx_get_complete K o rx_ctx rx_entry
  else
    match e.rx_state with
    | ZHPE_RX_STATE_EAGER | ZHPE_RX_STATE_EAGER_CLAIMED | ZHPE_RX_STATE_RND_BUF
    | ZHPE_RX_STATE_RND_DIRECT =>
      if e.total_len ≠ e.rem ∨ retry = true then rx_get_issue K o rx_ctx rx_entry
      else
        let rc : Int := if e.lstate.missing ≠ 0 then o.zhpe_mr_reg_int_iov else 0
        let r : zhpe_iov_state × Int :=
          if rc ≥ 0 then
            zhpe_pe_rem_setup K o.zhpe_conn_rkey_get o.zhpeq_rem_key_access e.rstate true
          else (e.rstate, rc)
        let rx_ctx := rx_set rx_ctx rx_entry (fun e => { e with rstate := r.1 })
        if r.2 < 0 then
          rx_get_complete K o (rx_set rx_ctx rx_entry (fun e =>
            { e with pe_root := zhpe_pe_root_update_status e.pe_root r.2 })) rx_entry
        else rx_get_issue K o rx_ctx rx_entry
    | ZHPE_RX_STATE_DISCARD =>
      if e.pe_root.completions ≠ 0 then rx_ctx
      else zhpe_pe_rx_discard_recv K rx_ctx rx_entry
    | _ => { rx_ctx with aborted := true }

/-- The list part of `rx_user_claim` for a user entry that is consumed
(lines 376-380 and 386-389). -/
def rx_user_drop (rx_ctx : zhpe_rx_ctx) (rx_user : Nat) (user_linked : Bool) :
    zhpe_rx_ctx :=
  let rx_ctx := if user_linked then rx_dlist_remove rx_ctx rx_user else rx_ctx
  set_rx_state (rx_work_insert_tail rx_ctx rx_user) rx_user ZHPE_RX_STATE_DROP

/-- `rx_user_claim`, lines 359-367: the claimed state and the user's
completion flag, context and buffer are taken over by the buffered entry. -/
def rx_user_claim_take (K : zhpe_defs) (rx_ctx : zhpe_rx_ctx) (rx_buffered rx_user : Nat) :
    zhpe_rx_ctx :=
  let rx_ctx :=
    if (rx_ctx.entries rx_buffered).rx_state = ZHPE_RX_STATE_EAGER then
      set_rx_state rx_ctx rx_buffered ZHPE_RX_STATE_EAGER_CLAIMED
    else rx_ctx
  let rx_ctx := rx_set rx_ctx rx_buffered (fun b =>
    { b with flags := b.flags ||| ((rx_ctx.entries rx_user).flags &&& K.FI_COMPLETION) })
  let rx_ctx := rx_set rx_ctx rx_buffered (fun b =>
    { b with context := (rx_ctx.entries rx_user).context })
  let rx_ctx := rx_set rx_ctx rx_buffered (fun b =>
    { b with ustate := (rx_ctx.entries rx_user).lstate })
  rx_set rx_ctx rx_buffered (fun b => { b with buf := K.zhpe_ziov_state_ptr b.ustate })

/-- `rx_user_claim`, lines 371-390: the user entry is consumed (moved to the
work list in state DROP) or, for a multi-receive buffer with enough room left,
stays posted. -/
def rx_user_claim_link (K : zhpe_defs) (rx_ctx : zhpe_rx_ctx) (rx_buffered rx_user : Nat)
    (user_linked : Bool) (avail msg_len : Nat) : zhpe_rx_ctx :=
  if (rx_ctx.entries rx_user).flags &&& K.FI_MULTI_RECV ≠ 0 then
    let rx_ctx := rx_set rx_ctx rx_buffered (fun b =>
      { b with ustate := { b.ustate with missing := 0 } })
    let rx_ctx := rx_set rx_ctx rx_user (fun u =>
      { u with lstate := K.zhpe_ziov_state_adv u.lstate msg_len })
    if avail - msg_len < rx_ctx.min_multi_recv then
      let rx_ctx := rx_set rx_ctx rx_buffered (fun b =>
        { b with flags := b.flags ||| K.FI_MULTI_RECV })
      rx_user_drop rx_ctx rx_user user_linked
    else if user_linked = false then rx_posted_insert_tail rx_ctx rx_user
    else rx_ctx
  else
    let rx_ctx := rx_set rx_ctx rx_user (fun u =>
      { u with lstate := { u.lstate with missing := 0 } })
    rx_user_drop rx_ctx rx_user user_linked

/-- `rx_user_claim`, lines 393-447: the `switch` on the state the buffered
entry had when it was claimed. -/
def rx_user_claim_switch (K : zhpe_defs) (o : rx_env) (rx_ctx : zhpe_rx_ctx)
    (rx_buffered : Nat) (state : zhpe_rx_state) (msg_len : Nat) : zhpe_rx_ctx :=
  match state with
  | ZHPE_RX_STATE_RND =>
    let rx_ctx := rx_set rx_ctx rx_buffered (fun b =>
      { b with rstate := { b.rstate with viov :=
          match b.rstate.viov with
          | [] => []
          | r :: t =>
            { r with iov_len := (r.iov_len &&& K.ZHPE_ZIOV_LEN_KEY_INT) ||| msg_len } :: t } })
    let rx_ctx := set_rx_state rx_ctx rx_buffered ZHPE_RX_STATE_RND_DIRECT
    let rx_ctx := rx_set rx_ctx rx_buffered (fun b => { b with lstate := b.ustate })
    zhpe_pe_rx_get K o rx_ctx rx_buffered false
  | ZHPE_RX_STATE_EAGER_CLAIMED => rx_ctx
  | ZHPE_RX_STATE_EAGER_DONE =>
    let rx_ctx := rx_set rx_ctx rx_buffered (fun b =>
      { b with lstate := K.zhpe_ziov_state_reset b.lstate })
    let rx_ctx := rx_set rx_ctx rx_buffered (fun b =>
      { b with rem := sub64 b.total_len o.copied })
    zhpe_pe_rx_complete K rx_ctx rx_buffered 0
  | ZHPE_RX_STATE_INLINE =>
    let rx_ctx := rx_set rx_ctx rx_buffered (fun b =>
      { b with rem := sub64 b.rem o.copied })
    let rx_ctx := rx_set rx_ctx rx_buffered (fun b =>
      { b with rstate := { b.rstate with cnt := 0 } })
    zhpe_pe_rx_complete K rx_ctx rx_buffered 0
  | _ => { rx_ctx with aborted := true }

/-- `rx_user_claim` (lines 346-451). -/
def rx_user_claim (K : zhpe_defs) (o : rx_env) (rx_ctx : zhpe_rx_ctx)
    (rx_buffered rx_user : Nat) (user_linked : Bool) : zhpe_rx_ctx :=
  let state0 := (rx_ctx.entries rx_buffered).rx_state
  let state := if state0 = ZHPE_RX_STATE_EAGER then ZHPE_RX_STATE_EAGER_CLAIMED else state0
  let rx_ctx := rx_user_claim_take K rx_ctx rx_buffered rx_user
  let avail := K.zhpe_ziov_state_avail (rx_ctx.entries rx_buffered).ustate
  let total_len := (rx_ctx.entries rx_buffered).total_len
  let msg_len := if total_len > avail then avail else total_len
  let rx_ctx := rx_user_claim_link K rx_ctx rx_buffered rx_user user_linked avail msg_len
  rx_user_claim_switch K o rx_ctx rx_buffered state msg_len

/-- `zhpe_pe_rx_post_recv` (lines 453-477). -/
def zhpe_pe_rx_post_recv (K : zhpe_defs) (M : rx_matcher) (o : rx_env)
    (rx_ctx : zhpe_rx_ctx) (rx_user : Nat) : zhpe_rx_ctx :=
  let u := rx_ctx.entries rx_user
  match rx_ctx.rx_buffered_list.find?
      (fun b => M (rx_ctx.entries b) true u.addr u.tag u.ignore u.flags) with
  | some rx_buffered =>
    let rx_ctx := rx_dlist_remove rx_ctx rx_buffered
    let rx_ctx := rx_work_insert_tail rx_ctx rx_buffered
    rx_emit (rx_user_claim K o rx_ctx rx_buffered rx_user false) [rx_out.pe_signal]
  | none => rx_emit (rx_posted_insert_tail rx_ctx rx_user) [rx_out.pe_signal]

/-- `zhpe_pe_rx_peek_recv` (lines 275-320). -/
def zhpe_pe_rx_peek_recv (K : zhpe_defs) (M : rx_matcher) (rx_ctx : zhpe_rx_ctx)
    (fiaddr tag ignore flags context : Nat) : zhpe_rx_ctx :=
  match rx_ctx.rx_buffered_list.find?
      (fun b => M (rx_ctx.entries b) true fiaddr tag ignore flags) with
  | none =>
    rx_emit rx_ctx [rx_out.report_direct
      { addr := fiaddr,
        cqe := { op_context := context, flags := flags, len := 0, buf := 0, data := 0,
                 tag := tag } }
      (-(K.FI_ENOMSG : Int)) 0]
  | some rx_buffered =>
    let b := rx_ctx.entries rx_buffered
    let zcqe : zhpe_cqe :=
      { addr := b.addr,
        cqe := { op_context := context, flags := b.flags ||| (flags &&& K.FI_COMPLETION),
                 len := b.total_len, buf := 0, data := b.cq_data, tag := b.tag } }
    let rx_ctx :=
      if flags &&& K.FI_DISCARD ≠ 0 then zhpe_pe_rx_discard_recv K rx_ctx rx_buffered
      else if flags &&& K.FI_CLAIM ≠ 0 then
        let rx_ctx :=
          { rx_ctx with internal0 := Function.update rx_ctx.internal0 context (some rx_buffered) }
        rx_work_insert_tail (rx_dlist_remove rx_ctx rx_buffered) rx_buffered
      else rx_ctx
    rx_emit rx_ctx [rx_out.report_direct zcqe 0 0]

/-- `zhpe_pe_rx_claim_recv` (lines 479-496). -/
def zhpe_pe_rx_claim_recv (K : zhpe_defs) (o : rx_env) (rx_ctx : zhpe_rx_ctx)
    (rx_claimed rx_user : Nat) : zhpe_rx_ctx :=
  if (rx_ctx.entries rx_user).flags &&& K.FI_DISCARD ≠ 0 then
    let rx_ctx := rx_emit rx_ctx [rx_out.report_direct (rx_zcqe (rx_ctx.entries rx_user)) 0 0]
    let rx_ctx := rx_emit rx_ctx [rx_out.release_entry rx_user]
    zhpe_pe_rx_discard_recv K rx_ctx rx_claimed
  else rx_user_claim K o rx_ctx rx_claimed rx_user false

/-- `zhpe_pe_tx_handle_rx_get` (lines 743-757); `success` is
`zq_cqe->z.status == ZHPEQ_CQ_STATUS_SUCCESS`. -/
def zhpe_pe_tx_handle_rx_get (K : zhpe_defs) (o : rx_env) (rx_ctx : zhpe_rx_ctx)
    (rx_entry : Nat) (success : Bool) : zhpe_rx_ctx :=
  let rx_ctx :=
    if success = false then
      rx_set rx_ctx rx_entry (fun e =>
        { e with pe_root := zhpe_pe_root_update_status e.pe_root (-( K.FI_EIO : Int)) })
    else rx_ctx
  let rx_ctx := rx_set rx_ctx rx_entry (fun e =>
    { e with pe_root := { e.pe_root with completions := e.pe_root.completions - 1 } })
  zhpe_pe_rx_get K o rx_ctx rx_entry false

/-- `zhpe_pe_retry_rx_get` (lines 813-819). -/
def zhpe_pe_retry_rx_get (K : zhpe_defs) (o : rx_env) (rx_ctx : zhpe_rx_ctx)
    (rx_entry : Nat) : zhpe_rx_ctx :=
  zhpe_pe_rx_get K o rx_ctx rx_entry true

/-- An incoming SEND: the connection it arrived on, its header and the decoded
(host byte order) payload fields read by `zhpe_pe_rx_handle_send`.  `data` are
the 64-bit words that follow an inline payload. -/
structure rx_send_msg where
  conn : Nat
  fi_addr : Nat
  zhdr : zhpe_msg_hdr
  data : List Nat
  indirect_len : Nat
  indirect_vaddr : Nat
  indirect_key : Nat
  indirect_tag : Nat
  indirect_cq_data : Nat
  deriving DecidableEq, Repr

/-- `rx_riov_init` (lines 987-1000). -/
def rx_riov_init (rx_ctx : zhpe_rx_ctx) (rx_entry : Nat) (m : rx_send_msg) : zhpe_rx_ctx :=
  rx_set rx_ctx rx_entry (fun e =>
    { e with rstate :=
        { viov := [{ iov_len := m.indirect_len, iov_base := m.indirect_vaddr,
                     iov_key := m.indirect_key, iov_zaddr := 0 }],
          off := 0, idx := 0, cnt := 1, missing := 1 } })

/-- `rx_basic_init` (lines 1002-1018). -/
def rx_basic_init (rx_ctx : zhpe_rx_ctx) (rx_entry : Nat) (m : rx_send_msg)
    (msg_len tag cq_data flags : Nat) : zhpe_rx_ctx :=
  rx_set rx_ctx rx_entry (fun e =>
    { e with pe_root := { e.pe_root with conn := m.conn, completions := 0 },
             rem := msg_len, total_len := msg_len, addr := m.fi_addr,
             cq_data := cq_data, tag := tag, zhdr := m.zhdr,
             flags := e.flags ||| flags })

/-- `rx_buffered_init` (lines 1020-1044); `rx_user` is `none` for a null
pointer. -/
def rx_buffered_init (K : zhpe_defs) (rx_ctx : zhpe_rx_ctx) (rx_buffered : Nat)
    (m : rx_send_msg) (rx_user : Option Nat) : zhpe_rx_ctx × Bool :=
  let rx_ctx := rx_set rx_ctx rx_buffered (fun b => { b with buffered := K.ZHPE_RX_BUF })
  if (rx_ctx.entries rx_buffered).zhdr.flags &&& K.ZHPE_MSG_INLINE ≠ 0 then
    (set_rx_state rx_ctx rx_buffered ZHPE_RX_STATE_INLINE, false)
  else
    let rx_ctx := rx_riov_init rx_ctx rx_buffered m
    if rx_user.isSome ∨ (rx_ctx.entries rx_buffered).total_len > K.zhpe_ep_max_eager_sz then
      (set_rx_state rx_ctx rx_buffered ZHPE_RX_STATE_RND, false)
    else (set_rx_state rx_ctx rx_buffered ZHPE_RX_STATE_EAGER, true)

/-- `rx_buf_alloc` (lines 322-344). -/
def rx_buf_alloc (K : zhpe_defs) (o : rx_env) (rx_ctx : zhpe_rx_ctx) (rx_buffered : Nat)
    (msg_len : Nat) : zhpe_rx_ctx × Int :=
  let old := rx_ctx.buffered_len
  let rx_ctx := { rx_ctx with buffered_len := rx_ctx.buffered_len + msg_len }
  if old + msg_len > rx_ctx.total_buffered_recv then
    ({ rx_ctx with buffered_len := rx_ctx.buffered_len - msg_len }, -(K.FI_ENOSPC : Int))
  else
    let rx_ctx := rx_set rx_ctx rx_buffered (fun b =>
      { b with lstate := { b.lstate with cnt := 1 } })
    let ret := o.zhpe_slab_alloc
    if ret ≥ 0 then
      (rx_set rx_ctx rx_buffered (fun b => { b with buffered := K.ZHPE_RX_BUF_EAGER }), ret)
    else ({ rx_ctx with buffered_len := rx_ctx.buffered_len - msg_len }, ret)

/-- The header parse of `zhpe_pe_rx_handle_send` (lines 1061-1083): returns
`(msg_len, tag, cq_data, flags)`. -/
def rx_send_parse (K : zhpe_defs) (m : rx_send_msg) : Nat × Nat × Nat × Nat :=
  let tagged := m.zhdr.flags &&& K.ZHPE_MSG_TAGGED ≠ 0
  let has_data := m.zhdr.flags &&& K.ZHPE_MSG_REMOTE_CQ_DATA ≠ 0
  let flags := (if tagged then K.FI_TAGGED else 0) |||
    (if has_data then K.FI_REMOTE_CQ_DATA else 0)
  if m.zhdr.flags &&& K.ZHPE_MSG_INLINE ≠ 0 then
    let tag := if tagged then m.data.headD 0 else 0
    let data := if tagged then m.data.tail else m.data
    let cq_data := if has_data then data.headD 0 else 0
    (m.zhdr.inline_len, tag, cq_data, flags)
  else
    (bit_clear m.indirect_len K.ZHPE_ZIOV_LEN_KEY_INT,
     if tagged then m.indirect_tag else 0,
     if has_data then m.indirect_cq_data else 0, flags)

/-- `zhpe_pe_rx_handle_send` (lines 1046-1153): the context after the call and
the value returned. -/
def zhpe_pe_rx_handle_send (K : zhpe_defs) (M : rx_matcher) (o : rx_env)
    (rx_ctx : zhpe_rx_ctx) (m : rx_send_msg) : zhpe_rx_ctx × Int :=
  match rx_send_parse K m with
  | (msg_len, tag, cq_data, flags) =>
    match rx_ctx.rx_posted_list.find?
        (fun p => M (rx_ctx.entries p) false m.fi_addr tag (rx_ctx.entries p).ignore flags) with
    | none =>
      match o.zhpe_rx_new_entry with
      | none => (rx_ctx, -(K.FI_ENOMEM : Int))
      | some rx_entry =>
        let rx_ctx := rx_basic_init rx_ctx rx_entry m msg_len tag cq_data flags
        let rx_ctx := rx_buffered_insert_tail rx_ctx rx_entry
        match rx_buffered_init K rx_ctx rx_entry m none with
        | (rx_ctx, false) => (rx_ctx, 0)
        | (rx_ctx, true) =>
          match rx_buf_alloc K o rx_ctx rx_entry msg_len with
          | (rx_ctx, rc) =>
            if rc < 0 then (set_rx_state rx_ctx rx_entry ZHPE_RX_STATE_RND, 0)
            else (zhpe_pe_rx_get K o rx_ctx rx_entry false, 0)
    | some rx_posted =>
      if (rx_ctx.entries rx_posted).flags &&& K.FI_MULTI_RECV ≠ 0 then
        match o.zhpe_rx_new_entry with
        | none => (rx_ctx, -(K.FI_ENOMEM : Int))
        | some rx_entry =>
          let rx_ctx := rx_basic_init rx_ctx rx_entry m msg_len tag cq_data flags
          let rx_ctx := rx_work_insert_tail rx_ctx rx_entry
          let rx_ctx := (rx_buffered_init K rx_ctx rx_entry m (some rx_posted)).1
          (rx_user_claim K o rx_ctx rx_entry rx_posted true, 0)
      else
        let rx_entry := rx_posted
        let rx_ctx := rx_dlist_remove rx_ctx rx_entry
        let rx_ctx := rx_work_insert_tail rx_ctx rx_entry
        let rx_ctx := rx_basic_init rx_ctx rx_entry m msg_len tag cq_data flags
        let rx_ctx := rx_set rx_ctx rx_entry (fun e =>
          { e with buf := K.zhpe_ziov_state_ptr e.lstate })
        if (rx_ctx.entries rx_entry).zhdr.flags &&& K.ZHPE_MSG_INLINE ≠ 0 then
          let rx_ctx := rx_set rx_ctx rx_entry (fun e =>
            { e with rem := sub64 e.rem o.copied })
          (zhpe_pe_rx_complete K rx_ctx rx_entry 0, 0)
        else
          let rx_ctx := rx_riov_init rx_ctx rx_entry m
          let rx_ctx := set_rx_state rx_ctx rx_entry ZHPE_RX_STATE_RND_DIRECT
          (zhpe_pe_rx_get K o rx_ctx rx_entry false, 0)

/-- One step on a receive context: a user call, a SEND arrival, or the
completion (or retry) of a transfer of an entry. -/
inductive rx_step
  | post_recv (rx_user : Nat)
  | peek_recv (fiaddr tag ignore flags context : Nat)
  | claim_recv (rx_claimed rx_user : Nat)
  | handle_send (m : rx_send_msg)
  | tx_handle_rx_get (rx_entry : Nat) (success : Bool)
  | retry_rx_get (rx_entry : Nat)
  deriving DecidableEq, Repr

/-- One step of the receive context; nothing runs after `abort()`. -/
def rx_step_apply (K : zhpe_defs) (M : rx_matcher) (rx_ctx : zhpe_rx_ctx)
    (s : rx_step × rx_env) : zhpe_rx_ctx :=
  if rx_ctx.aborted then rx_ctx
  else
    match s.1 with
    | rx_step.post_recv rx_user => zhpe_pe_rx_post_recv K M s.2 rx_ctx rx_user
    | rx_step.peek_recv fiaddr tag ignore flags context =>
      zhpe_pe_rx_peek_recv K M rx_ctx fiaddr tag ignore flags context
    | rx_step.claim_recv rx_claimed rx_user =>
      zhpe_pe_rx_claim_recv K s.2 rx_ctx rx_claimed rx_user
    | rx_step.handle_send m => (zhpe_pe_rx_handle_send K M s.2 rx_ctx m).1
    | rx_step.tx_handle_rx_get rx_entry success =>
      zhpe_pe_tx_handle_rx_get K s.2 rx_ctx rx_entry success
    | rx_step.retry_rx_get rx_entry => zhpe_pe_retry_rx_get K s.2 rx_ctx rx_entry

/-- The context after a sequence of steps. -/
def rx_run (K : zhpe_defs) (M : rx_matcher) (rx_ctx : zhpe_rx_ctx)
    (steps : List (rx_step × rx_env)) : zhpe_rx_ctx :=
  steps.foldl (rx_step_apply K M) rx_ctx

/-- The entries reported by the drain of `zhpe_pe_rx_complete`, in the order
of the `out` log. -/
def rx_reported (out : List rx_out) : List Nat :=
  out.filterMap (fun o =>
    match o with
    | rx_out.report_complete id _ _ _ => some id
    | _ => none)

/-- An entry the drain takes off the work list: state COMPLETE or DROP. -/
def rx_terminal (entries : Nat → zhpe_rx_entry) (id : Nat) : Bool :=
  decide ((entries id).rx_state = ZHPE_RX_STATE_COMPLETE) ||
    decide ((entries id).rx_state = ZHPE_RX_STATE_DROP)

/-- Work-list order is append order: the history of appends splits into a part
that holds, in order, every entry reported so far and a later part that holds,
in order, the entries now on the work list. -/
def rx_ordered (rx_ctx : zhpe_rx_ctx) : Prop :=
  ∃ h1 h2, rx_ctx.rx_work_hist = h1 ++ h2 ∧ (rx_reported rx_ctx.out).Sublist h1 ∧
    rx_ctx.rx_work_list.Sublist h2

/-! ## The drained run of the work list -/

/-- The entry written by `zhpe_pe_rx_complete` before the drain. -/
def rx_completed_entry (K : zhpe_defs) (e : zhpe_rx_entry) (status : Int) : zhpe_rx_entry :=
  { e with
      pe_root := zhpe_pe_root_update_status e.pe_root
        (if status ≥ 0 ∧ e.rem ≠ 0 then -(K.FI_ETRUNC : Int) else status),
      rx_state := ZHPE_RX_STATE_COMPLETE }

/-- The entries of the drained part of a work list that are COMPLETE. -/
def rx_dcomplete (entries : Nat → zhpe_rx_entry) (l : List Nat) : List Nat :=
  (l.takeWhile (rx_terminal entries)).filter
    (fun id => decide ((entries id).rx_state = ZHPE_RX_STATE_COMPLETE))

/-- The entries of the drained part of a work list that are DROP. -/
def rx_ddrop (entries : Nat → zhpe_rx_entry) (l : List Nat) : List Nat :=
  (l.takeWhile (rx_terminal entries)).filter
    (fun id => decide ((entries id).rx_state = ZHPE_RX_STATE_DROP))

/-- What one call of `zhpe_pe_rx_complete` appends to the `out` log. -/
def rx_complete_emitted (K : zhpe_defs) (ctx : zhpe_rx_ctx) (e : Nat) (status : Int) :
    List rx_out :=
  (zhpe_pe_rx_complete K ctx e status).out.drop ctx.out.length

/-! ## Descriptor ring reader -/

/-- Connection states: `ZHPE_CONN_STATE_READY` and every other value. -/
inductive zhpe_conn_state
  | ZHPE_CONN_STATE_READY
  | other (state : Nat)
  deriving DecidableEq, Repr

open zhpe_conn_state

/-- The receive ring `struct zhpe_rx_local` of a connection: `zentries idx` is
the header of slot `idx` (at `zentries + zhpe_ring_off(conn, idx)`). -/
structure zhpe_rx_local where
  head : Nat
  mask : Nat
  zentries : Nat → zhpe_msg_hdr

/-- The fields of `struct zhpe_conn` read by the ring reader. -/
structure zhpe_conn where
  state : zhpe_conn_state
  rx_local : zhpe_rx_local

/-- The message handlers called by the dispatch `switch`, acting on a world
state `σ`: each takes the connection (its index in the map) and the header and
returns its result code. -/
structure rx_handlers (σ : Type) where
  handle_atomic : Nat → zhpe_msg_hdr → σ → σ × Int
  handle_key_import : Nat → zhpe_msg_hdr → σ → σ × Int
  handle_key_request : Nat → zhpe_msg_hdr → σ → σ × Int
  handle_key_revoke : Nat → zhpe_msg_hdr → σ → σ × Int
  handle_send : Nat → zhpe_msg_hdr → σ → σ × Int
  handle_status : Nat → zhpe_msg_hdr → σ → σ × Int
  handle_writedata : Nat → zhpe_msg_hdr → σ → σ × Int

/-- What the ring reader does to a slot: `dispatch` is the `switch` on the
opcode of the slot read at ring index `rindex`, `release` the call
`zhpe_rx_local_release(conn, idx)`. -/
inductive rx_ring_event
  | dispatch (conn : Nat) (rindex : Nat) (zhdr : zhpe_msg_hdr)
  | release (conn : Nat) (idx : Nat)
  deriving DecidableEq, Repr

/-- The expected validity toggle `valid` at ring index `rindex`
(lines 1445-1446); `valid` is a `uint8_t`. -/
def rx_ring_valid (K : zhpe_defs) (mask rindex : Nat) : Nat :=
  if rindex &&& (mask + 1) ≠ 0 then 0 else K.ZHPE_MSG_VALID_TOGGLE % 256

/-- The slot at ring index `rindex` is ready (the negation of the test of
line 1449). -/
def rx_slot_ready (K : zhpe_defs) (ring : zhpe_rx_local) (rindex : Nat) : Bool :=
  decide ((ring.zentries (rindex &&& ring.mask)).flags &&& K.ZHPE_MSG_VALID_TOGGLE =
    rx_ring_valid K ring.mask rindex)

/-- The dispatch `switch` (lines 1452-1491). -/
def rx_dispatch {σ : Type} (K : zhpe_defs) (H : rx_handlers σ) (conn : Nat)
    (zhdr : zhpe_msg_hdr) (s : σ) : σ × Int :=
  match zhdr.op_type with
  | ZHPE_OP_ATOMIC => H.handle_atomic conn zhdr s
  | ZHPE_OP_KEY_EXPORT => H.handle_key_import conn zhdr s
  | ZHPE_OP_KEY_RESPONSE => H.handle_key_import conn zhdr s
  | ZHPE_OP_KEY_REQUEST => H.handle_key_request conn zhdr s
  | ZHPE_OP_KEY_REVOKE => H.handle_key_revoke conn zhdr s
  | ZHPE_OP_SEND => H.handle_send conn zhdr s
  | ZHPE_OP_STATUS => H.handle_status conn zhdr s
  | ZHPE_OP_WRITEDATA => H.handle_writedata conn zhdr s
  | zhpe_op.other _ => (s, -(K.FI_ENOSYS : Int))

/-- The inner loop of `zhpe_pe_progress_rx_ep` (lines 1443-1496) over a ring
whose contents do not change, with at most `fuel` evaluations of the loop test:
returns the final `rindex`, `ret`, world state and the events so far. -/
def rx_ring_scan {σ : Type} (K : zhpe_defs) (H : rx_handlers σ) (conn : Nat)
    (ring : zhpe_rx_local) :
    Nat → Nat → Int → σ → List rx_ring_event → Option (Nat × Int × σ × List rx_ring_event)
  | 0, _, _, _, _ => none
  | fuel + 1, rindex, ret, s, tr =>
    let idx := rindex &&& ring.mask
    let valid := rx_ring_valid K ring.mask rindex
    let zhdr := ring.zentries idx
    if zhdr.flags &&& K.ZHPE_MSG_VALID_TOGGLE ≠ valid then some (rindex, ret, s, tr)
    else
      let r := rx_dispatch K H conn zhdr s
      rx_ring_scan K H conn ring fuel ((rindex + 1) % 2 ^ 32) r.2 r.1
        (tr ++ [rx_ring_event.dispatch conn rindex zhdr, rx_ring_event.release conn idx])

/-- The outer loop of `zhpe_pe_progress_rx_ep` (lines 1430-1502) from
connection `i` on: returns `ret`, the connections, the world state and the
events. -/
def rx_ep_loop {σ : Type} (K : zhpe_defs) (H : rx_handlers σ) (fuel : Nat) :
    Nat → List zhpe_conn → Int → σ → List rx_ring_event →
      Option (Int × List zhpe_conn × σ × List rx_ring_event)
  | _, [], ret, s, tr => some (ret, [], s, tr)
  | i, conn :: rest, ret, s, tr =>
    if conn.state ≠ ZHPE_CONN_STATE_READY then
      (rx_ep_loop K H fuel (i + 1) rest ret s tr).map
        (fun r => (r.1, conn :: r.2.1, r.2.2.1, r.2.2.2))
    else
      match rx_ring_scan K H i conn.rx_local fuel conn.rx_local.head ret s tr with
      | none => none
      | some (rindex, ret, s, tr) =>
        let conn := { conn with rx_local := { conn.rx_local with head := rindex } }
        if K.OFI_UNLIKELY ret < 0 then some (ret, conn :: rest, s, tr)
        else
          (rx_ep_loop K H fuel (i + 1) rest ret s tr).map
            (fun r => (r.1, conn :: r.2.1, r.2.2.1, r.2.2.2))

/-- `zhpe_pe_progress_rx_ep` (lines 1409-1508) on the connection map `table`
(its `used` entries). -/
def zhpe_pe_progress_rx_ep {σ : Type} (K : zhpe_defs) (H : rx_handlers σ) (fuel : Nat)
    (table : List zhpe_conn) (s : σ) :
    Option (Int × List zhpe_conn × σ × List rx_ring_event) :=
  if table.length = 0 then some (0, table, s, [])
  else rx_ep_loop K H fuel 0 table 0 s []

/-- The ring indices of the run of ready slots that starts at `rindex`, looking
at no more than `n` slots. -/
def rx_ready_slots (K : zhpe_defs) (ring : zhpe_rx_local) : Nat → Nat → List Nat
  | 0, _ => []
  | n + 1, rindex =>
    if rx_slot_ready K ring rindex then
      rindex :: rx_ready_slots K ring n ((rindex + 1) % 2 ^ 32)
    else []

/-- The world state and result code after the dispatch of the slots at the
ring indices `slots`, in order. -/
def rx_slots_run {σ : Type} (K : zhpe_defs) (H : rx_handlers σ) (conn : Nat)
    (ring : zhpe_rx_local) (slots : List Nat) (s : σ) (ret : Int) : σ × Int :=
  slots.foldl (fun acc r => rx_dispatch K H conn (ring.zentries (r &&& ring.mask)) acc.1)
    (s, ret)

/-- The events of the slots at the ring indices `slots`: each is dispatched
and then released. -/
def rx_slots_trace (conn : Nat) (ring : zhpe_rx_local) (slots : List Nat) :
    List rx_ring_event :=
  slots.flatMap (fun r =>
    [rx_ring_event.dispatch conn r (ring.zentries (r &&& ring.mask)),
     rx_ring_event.release conn (r &&& ring.mask)])

/-- The events of a connection the reader visits: for a READY connection, a
dispatch and a release for each slot of the run of ready slots at `head`. -/
def rx_conn_trace (K : zhpe_defs) (i : Nat) (conn : zhpe_conn) : List rx_ring_event :=
  if conn.state ≠ ZHPE_CONN_STATE_READY then []
  else
    rx_slots_trace i conn.rx_local
      (rx_ready_slots K conn.rx_local (conn.rx_local.mask + 1) conn.rx_local.head)

/-- The `head` of a connection the reader has visited. -/
def rx_conn_head (K : zhpe_defs) (conn : zhpe_conn) : Nat :=
  if conn.state ≠ ZHPE_CONN_STATE_READY then conn.rx_local.head
  else
    (conn.rx_local.head +
      (rx_ready_slots K conn.rx_local (conn.rx_local.mask + 1) conn.rx_local.head).length)
      % 2 ^ 32

/-- A connection after the reader has visited it. -/
def rx_conn_visit (K : zhpe_defs) (conn : zhpe_conn) : zhpe_conn :=
  { conn with rx_local := { conn.rx_local with head := rx_conn_head K conn } }

/-- The events of the connections `i`, `i + 1`, ... when all are visited. -/
def rx_ep_trace (K : zhpe_defs) : Nat → List zhpe_conn → List rx_ring_event
  | _, [] => []
  | i, conn :: rest => rx_conn_trace K i conn ++ rx_ep_trace K (i + 1) rest

/-- A ring the reader can scan: the capacity `mask + 1` is a power of two
below `2 ^ 32` and `head` is a 32-bit index. -/
def rx_ring_wf (ring : zhpe_rx_local) : Prop :=
  ∃ p, p < 32 ∧ ring.mask + 1 = 2 ^ p ∧ ring.head < 2 ^ 32

/-! ## Target side of remote atomics -/

/-- Atomic operations: the case labels of `ATOMIC_OP` and every other value. -/
inductive fi_op
  | FI_ATOMIC_READ
  | FI_ATOMIC_WRITE
  | FI_BAND
  | FI_BOR
  | FI_BXOR
  | FI_CSWAP
  | FI_SUM
  | other (op : Nat)
  deriving DecidableEq, Repr

open fi_op

/-- Atomic datatypes: the case labels of the `switch` of
`zhpe_pe_rx_handle_atomic` and every other value. -/
inductive fi_datatype
  | FI_UINT8
  | FI_UINT16
  | FI_UINT32
  | FI_UINT64
  | other (datatype : Nat)
  deriving DecidableEq, Repr

open fi_datatype

/-- The decoded (host byte order) payload `zpay->atomic_req`. -/
structure zhpe_msg_atomic_req where
  op : fi_op
  datatype : fi_datatype
  datasize : Nat
  vaddr : Nat
  zkey_key : Nat
  zkey_internal : Nat
  operand : Nat
  compare : Nat
  deriving DecidableEq, Repr

/-- The unsigned word of `n` bytes at address `dst` of a byte-addressed memory
(little-endian host). -/
def mem_load (mem : Nat → Nat) : Nat → Nat → Nat
  | _, 0 => 0
  | dst, n + 1 => mem dst % 256 + 256 * mem_load mem (dst + 1) n

/-- Store of the low `n` bytes of `v` at address `dst`. -/
def mem_store (mem : Nat → Nat) : Nat → Nat → Nat → (Nat → Nat)
  | _, 0, _ => mem
  | dst, n + 1, v => mem_store (Function.update mem dst (v % 256)) (dst + 1) n (v / 256)

/-- The macro `ATOMIC_OP(_size)` (lines 564-601) on memory `mem`: returns the
memory and the local `rem` after it. -/
def ATOMIC_OP (size : Nat) (op : fi_op) (mem : Nat → Nat) (dst o64 c64 rem : Nat) :
    (Nat → Nat) × Nat :=
  let old := mem_load mem dst (size / 8)
  match op with
  | FI_ATOMIC_READ => (mem, old)
  | FI_ATOMIC_WRITE => (mem_store mem dst (size / 8) (o64 % 2 ^ size), rem)
  | FI_BAND => (mem_store mem dst (size / 8) (old &&& (o64 % 2 ^ size)), old)
  | FI_BOR => (mem_store mem dst (size / 8) (old ||| (o64 % 2 ^ size)), old)
  | FI_BXOR => (mem_store mem dst (size / 8) (old ^^^ (o64 % 2 ^ size)), old)
  | FI_CSWAP =>
    (if old = c64 % 2 ^ size then mem_store mem dst (size / 8) (o64 % 2 ^ size) else mem, old)
  | FI_SUM => (mem_store mem dst (size / 8) ((old + o64 % 2 ^ size) % 2 ^ size), old)
  | fi_op.other _ => (mem, rem)

/-- The result of `zhpe_pe_rx_handle_atomic`: the target memory after the call
and the `zhpe_send_status(conn, *zhdr, status, rem)` it made, if any. -/
structure atomic_result where
  mem : Nat → Nat
  send_status : Option (Int × Nat)
  ret : Int

/-- `zhpe_pe_rx_handle_atomic` (lines 603-659).  `zhpe_mr_find` maps a key
`(key, internal)` to the key data of its memory region, if there is one;
`zhpeq_lcl_key_access kdata dst datasize` is the access check; `rem` is the
indeterminate initial value of the local `rem`. -/
def zhpe_pe_rx_handle_atomic (K : zhpe_defs) (zhpe_mr_find : Nat → Bool → Option Nat)
    (zhpeq_lcl_key_access : Nat → Nat → Nat → Int) (mem : Nat → Nat)
    (zhdr : zhpe_msg_hdr) (zpay : zhpe_msg_atomic_req) (rem : Nat) : atomic_result :=
  let o64 := zpay.operand
  let c64 := zpay.compare
  let dst := zpay.vaddr
  let done := fun (m : Nat → Nat) (status : Int) (rem : Nat) =>
    ({ mem := m,
       send_status :=
        if zhdr.flags &&& K.ZHPE_MSG_DELIVERY_COMPLETE ≠ 0 then some (status, rem) else none,
       ret := 0 } : atomic_result)
  let exec := fun (_ : Unit) =>
    match zpay.datatype with
    | FI_UINT8 => done (ATOMIC_OP 8 zpay.op mem dst o64 c64 rem).1 0
        (ATOMIC_OP 8 zpay.op mem dst o64 c64 rem).2
    | FI_UINT16 => done (ATOMIC_OP 16 zpay.op mem dst o64 c64 rem).1 0
        (ATOMIC_OP 16 zpay.op mem dst o64 c64 rem).2
    | FI_UINT32 => done (ATOMIC_OP 32 zpay.op mem dst o64 c64 rem).1 0
        (ATOMIC_OP 32 zpay.op mem dst o64 c64 rem).2
    | FI_UINT64 => done (ATOMIC_OP 64 zpay.op mem dst o64 c64 rem).1 0
        (ATOMIC_OP 64 zpay.op mem dst o64 c64 rem).2
    | fi_datatype.other _ => done mem 0 rem
  match zhpe_mr_find zpay.zkey_key (decide (zpay.zkey_internal ≠ 0)) with
  | some kdata =>
    let status := zhpeq_lcl_key_access kdata dst zpay.datasize
    if status < 0 then done mem status rem
    else exec ()
  | none => exec ()


/-! ## Worked examples -/

/-- One choice of the header constants and helpers, used by the worked
examples: an iov state has one element, `off` bytes of which are consumed. -/
def zhpe_defs_example : zhpe_defs :=
  { FI_ETRUNC := 265, FI_ENOSYS := 38, FI_ENOKEY := 266, FI_ENOMEM := 12, FI_ENOMSG := 42,
    FI_ENOSPC := 28, FI_EAGAIN := 11, FI_EIO := 5,
    FI_COMPLETION := 2 ^ 24, FI_MULTI_RECV := 2 ^ 16, FI_DISCARD := 2 ^ 58, FI_CLAIM := 2 ^ 59,
    FI_TAGGED := 2 ^ 3, FI_REMOTE_CQ_DATA := 2 ^ 17,
    FI_SEND := 2 ^ 11, FI_RECV := 2 ^ 10, FI_READ := 2 ^ 8, FI_WRITE := 2 ^ 9,
    FI_REMOTE_READ := 2 ^ 12, FI_REMOTE_WRITE := 2 ^ 13, FI_RMA := 2 ^ 2, FI_ATOMIC := 2 ^ 4,
    FI_INJECT := 2 ^ 25, FI_TRANSMIT_COMPLETE := 2 ^ 27, FI_DELIVERY_COMPLETE := 2 ^ 28,
    FI_PROGRESS_AUTO := 1, EIO := 5,
    ZHPE_TRIGGERED_OP := 2 ^ 61, ZHPE_NO_COMPLETION := 2 ^ 60,
    ZHPE_PE_PROV := 1, ZHPE_PE_RETRY := 2, ZHPE_PE_KEY_WAIT := 4,
    ZHPE_MSG_ANY_COMPLETE := 24, ZHPE_MSG_DELIVERY_COMPLETE := 16,
    ZHPE_MSG_TRANSMIT_COMPLETE := 8, ZHPE_MSG_INLINE := 1, ZHPE_MSG_TAGGED := 2,
    ZHPE_MSG_REMOTE_CQ_DATA := 4, ZHPE_MSG_VALID_TOGGLE := 128,
    ZHPE_ZIOV_LEN_KEY_INT := 2 ^ 63, ZHPE_EP_MAX_IO_OPS := 2, ZHPE_EP_MAX_IO_BYTES := 2 ^ 20,
    zhpe_ep_max_eager_sz := 8192, ZHPE_RX_BUF := 1, ZHPE_RX_BUF_EAGER := 2,
    OFI_UNLIKELY := fun x => x,
    zhpe_ziov_state_avail := fun s => (s.viov.map (fun v => v.iov_len)).sum - s.off,
    zhpe_ziov_state_ptr := fun s => (s.viov.headD ⟨0, 0, 0, 0⟩).iov_base + s.off,
    zhpe_ziov_state_adv := fun s n => { s with off := s.off + n },
    zhpe_ziov_state_reset := fun s => { s with off := 0 } }

/-- An example matcher: the tags are equal. -/
def rx_match_example : rx_matcher := fun e _ _ tag _ _ => decide (e.tag = tag)

/-- An idle receive entry with a user buffer of `len` bytes and tag `tag`. -/
def rx_entry_example (len tag : Nat) : zhpe_rx_entry :=
  { pe_root := { conn := 0, context := 0, status := 0, completions := 0 },
    rx_state := ZHPE_RX_STATE_IDLE,
    zhdr := { op_type := ZHPE_OP_SEND, flags := 0, inline_len := 0 },
    addr := 0, context := tag, flags := 2 ^ 10, tag := tag, ignore := 0, cq_data := 0,
    total_len := 0, rem := 0, buf := 0, buffered := 0,
    lstate := { viov := [⟨4096 * tag, len, 0, 0⟩], off := 0, idx := 0, cnt := 1, missing := 0 },
    ustate := { viov := [], off := 0, idx := 0, cnt := 0, missing := 0 },
    rstate := { viov := [], off := 0, idx := 0, cnt := 0, missing := 0 } }

/-- An example context: entry `i` of the arena is an idle receive of 4096
bytes with tag `i`; `posted` are the posted receives. -/
def rx_ctx_example (posted : List Nat) : zhpe_rx_ctx :=
  { entries := fun i => rx_entry_example 4096 i,
    rx_posted_list := posted, rx_buffered_list := [], rx_work_list := [],
    min_multi_recv := 2048, buffered_len := 0, total_buffered_recv := 2 ^ 20,
    internal0 := fun _ => none, out := [], aborted := false, rx_work_hist := [] }

/-- Outcomes of the collaborators in the examples: every call succeeds, a GET
of the whole message is issued as one operation and copies are complete. -/
def rx_env_example : rx_env :=
  { zhpe_rx_new_entry := none, zhpe_slab_alloc := 0, copied := 0, zhpe_mr_reg_int_iov := 0,
    zhpe_conn_rkey_get := fun riov => some riov.iov_key,
    zhpeq_rem_key_access := fun _ riov _ => (0, riov.iov_base),
    zhpe_iov_op := 0, iov_op_completions := 1, iov_op_rem := 0, zhpe_pe_retry := 0 }

/-- A rendezvous SEND of `len` bytes with tag `tag`. -/
def rx_send_example (len tag : Nat) : rx_send_msg :=
  { conn := 0, fi_addr := 0,
    zhdr := { op_type := ZHPE_OP_SEND, flags := 2, inline_len := 0 },
    data := [], indirect_len := len, indirect_vaddr := 0, indirect_key := 7,
    indirect_tag := tag, indirect_cq_data := 0 }

/-- Two messages arrive for two posted receives; the transfer of the second
finishes before the transfer of the first. -/
def rx_steps_example : List (rx_step × rx_env) :=
  [(rx_step.handle_send (rx_send_example 1000 1), rx_env_example),
   (rx_step.handle_send (rx_send_example 1000 2), rx_env_example),
   (rx_step.tx_handle_rx_get 2 true, rx_env_example),
   (rx_step.tx_handle_rx_get 1 true, rx_env_example)]

/-- Scenario S2: a rendezvous message of 16 KiB matched to a receive of 4 KiB
whose GET has moved 4 KiB, so that 12 KiB remain. -/
def rx_ctx_truncated : zhpe_rx_ctx :=
  { rx_ctx_example [] with
      entries := fun i =>
        { rx_entry_example 4096 i with
            rx_state := ZHPE_RX_STATE_RND_DIRECT, total_len := 16384, rem := 12288 },
      rx_work_list := [1], rx_work_hist := [1] }

/-- Example handlers: the world state counts the handler calls and every
handler returns 0. -/
def rx_handlers_example : rx_handlers Nat :=
  { handle_atomic := fun _ _ s => (s + 1, 0),
    handle_key_import := fun _ _ s => (s + 1, 0),
    handle_key_request := fun _ _ s => (s + 1, 0),
    handle_key_revoke := fun _ _ s => (s + 1, 0),
    handle_send := fun _ _ s => (s + 1, 0),
    handle_status := fun _ _ s => (s + 1, 0),
    handle_writedata := fun _ _ s => (s + 1, 0) }

/-- A READY connection with a ring of 4 slots and `head = 2`: slots 2 and 3
carry the toggle of the current revolution, slots 0 and 1 still carry it from
the revolution before. -/
def rx_conn_example : zhpe_conn :=
  { state := ZHPE_CONN_STATE_READY,
    rx_local := { head := 2, mask := 3,
                  zentries := fun _ => { op_type := ZHPE_OP_WRITEDATA, flags := 128,
                                         inline_len := 0 } } }

/-- A connection that is not READY, with the same ring. -/
def rx_conn_idle_example : zhpe_conn :=
  { rx_conn_example with state := zhpe_conn_state.other 0 }

/-- A READY connection whose ring of 4 slots holds, from `head = 0`, a ready
descriptor with the unknown opcode 99, a ready WRITEDATA descriptor, and two
slots that are not ready. -/
def rx_conn_illegal_example : zhpe_conn :=
  { state := ZHPE_CONN_STATE_READY,
    rx_local := { head := 0, mask := 3,
                  zentries := fun idx =>
                    if idx = 0 then { op_type := zhpe_op.other 99, flags := 128, inline_len := 0 }
                    else if idx = 1 then
                      { op_type := ZHPE_OP_WRITEDATA, flags := 128, inline_len := 0 }
                    else { op_type := ZHPE_OP_WRITEDATA, flags := 0, inline_len := 0 } } }

/-- An atomic request: 64-bit `FI_ATOMIC_WRITE` of `0xdead` to address 4096
under key 7. -/
def atomic_req_example : zhpe_msg_atomic_req :=
  { op := FI_ATOMIC_WRITE, datatype := FI_UINT64, datasize := 8, vaddr := 4096,
    zkey_key := 7, zkey_internal := 0, operand := 0xdead, compare := 0 }

/-! ## The three lists of a receive context -/

/-- The entry is on one of the three lists. -/
def rx_on_list (rx_ctx : zhpe_rx_ctx) (id : Nat) : Prop :=
  id ∈ rx_ctx.rx_posted_list ∨ id ∈ rx_ctx.rx_buffered_list ∨ id ∈ rx_ctx.rx_work_list

/-- The three lists are duplicate-free and pairwise disjoint: no entry is
linked twice. -/
def rx_lists_ok (rx_ctx : zhpe_rx_ctx) : Prop :=
  (rx_ctx.rx_posted_list ++ rx_ctx.rx_buffered_list ++ rx_ctx.rx_work_list).Nodup

instance (rx_ctx : zhpe_rx_ctx) : Decidable (rx_lists_ok rx_ctx) :=
  inferInstanceAs (Decidable (List.Nodup _))

instance (rx_ctx : zhpe_rx_ctx) (id : Nat) : Decidable (rx_on_list rx_ctx id) :=
  inferInstanceAs (Decidable (_ ∨ _ ∨ _))

/-- The completion descriptor `zhpe_pe_rx_peek_recv` fills in for a buffered
entry it found (lines 302-306). -/
def rx_peek_zcqe (K : zhpe_defs) (b : zhpe_rx_entry) (flags context : Nat) : zhpe_cqe :=
  { addr := b.addr,
    cqe := { op_context := context, flags := b.flags ||| (flags &&& K.FI_COMPLETION),
             len := b.total_len, buf := 0, data := b.cq_data, tag := b.tag } }

/-- The posted and buffered lists of the context are `p` and `b`. -/
def rx_pb (p b : List Nat) (rx_ctx : zhpe_rx_ctx) : Prop :=
  rx_ctx.rx_posted_list = p ∧ rx_ctx.rx_buffered_list = b

/-- A context with two buffered inline messages of 32 bytes, entries 3 and 4
(entry `i < 10` carries tag `i`); entry `10 + i` is an idle user receive of
4096 bytes for tag `i`. -/
def rx_ctx_buffered_example : zhpe_rx_ctx :=
  { rx_ctx_example [] with
      entries := fun i =>
        if i < 10 then
          { rx_entry_example 4096 i with
              rx_state := ZHPE_RX_STATE_INLINE, total_len := 32, rem := 32 }
        else rx_entry_example 4096 (i % 10),
      rx_buffered_list := [3, 4] }

/-- Outcomes as in `rx_env_example`, with a copy of `n` bytes. -/
def rx_env_copy_example (n : Nat) : rx_env :=
  { rx_env_example with copied := n }


/-- The three lists are `p`, `b` and `w` and entry `e` is in state EAGER or
EAGER_DONE. -/
def rx_eager_at (p b w : List Nat) (e : Nat) (rx_ctx : zhpe_rx_ctx) : Prop :=
  rx_ctx.rx_posted_list = p ∧ rx_ctx.rx_buffered_list = b ∧ rx_ctx.rx_work_list = w ∧
    ((rx_ctx.entries e).rx_state = ZHPE_RX_STATE_EAGER ∨
      (rx_ctx.entries e).rx_state = ZHPE_RX_STATE_EAGER_DONE)

/-- Outcomes as in `rx_env_example`, with `zhpe_rx_new_entry` returning the
entry `e`. -/
def rx_env_new_example (e : Nat) : rx_env :=
  { rx_env_example with zhpe_rx_new_entry := some e }

/-- The completions in a log: for each `report_complete`, the entry, the
completion flags, the status and `rem`. -/
def rx_completions (out : List rx_out) : List (Nat × Nat × Int × Nat) :=
  out.filterMap (fun o =>
    match o with
    | rx_out.report_complete id zcqe status rem => some (id, zcqe.cqe.flags, status, rem)
    | _ => none)

/-- Scenario S3: one posted receive, entry 20, of 8 KiB with `FI_MULTI_RECV`
(`2 ^ 16`); `min_multi_recv` is 2048. -/
def rx_ctx_multi_example : zhpe_rx_ctx :=
  { rx_ctx_example [20] with
      entries := fun i =>
        if i = 20 then { rx_entry_example 8192 20 with flags := 2 ^ 10 ||| 2 ^ 16 }
        else rx_entry_example 4096 i }

/-- Scenario S3: rendezvous messages of 3000, 3000 and 2500 bytes arrive for
the receive (entries 1, 2 and 3 are allocated for them) and the GET of each
finishes before the next message arrives.  The GET of the third message is
limited to the 2192 bytes left in the buffer, so that 308 bytes remain. -/
def rx_steps_multi_example : List (rx_step × rx_env) :=
  [(rx_step.handle_send (rx_send_example 3000 20), rx_env_new_example 1),
   (rx_step.tx_handle_rx_get 1 true, rx_env_example),
   (rx_step.handle_send (rx_send_example 3000 20), rx_env_new_example 2),
   (rx_step.tx_handle_rx_get 2 true, rx_env_example),
   (rx_step.handle_send (rx_send_example 2500 20),
     { rx_env_new_example 3 with iov_op_rem := 308 }),
   (rx_step.tx_handle_rx_get 3 true,
     { rx_env_example with iov_op_completions := 0, iov_op_rem := 308 })]

/-- Scenario S3 at the first message: entry 1, a rendezvous message of 3000
bytes in state RND, is on the work list and is about to be claimed against the
posted receive 20. -/
def rx_ctx_claim_example : zhpe_rx_ctx :=
  { rx_ctx_multi_example with
      entries := fun i =>
        if i = 1 then
          { rx_entry_example 4096 1 with
              rx_state := ZHPE_RX_STATE_RND, total_len := 3000, rem := 3000 }
        else rx_ctx_multi_example.entries i,
      rx_work_list := [1], rx_work_hist := [1] }

/-- Entry `e` is in state RND_DIRECT or COMPLETE. -/
def rx_direct_at (e : Nat) (rx_ctx : zhpe_rx_ctx) : Prop :=
  (rx_ctx.entries e).rx_state = ZHPE_RX_STATE_RND_DIRECT ∨
    (rx_ctx.entries e).rx_state = ZHPE_RX_STATE_COMPLETE

/-- Since the log was `base`, the entry has stayed on a list or has been
released: the log has grown by `s`, and the entry is on one of the three lists
or `zhpe_rx_release_entry` was called for it in `s`. -/
def rx_cov (base : List rx_out) (id : Nat) (rx_ctx : zhpe_rx_ctx) : Prop :=
  ∃ s, rx_ctx.out = base ++ s ∧ (rx_on_list rx_ctx id ∨ rx_out.release_entry id ∈ s)

/-- A buffered message in state EAGER whose GET is in flight: entry 5, with
one outstanding completion; the sender asked for `ZHPE_MSG_DELIVERY_COMPLETE`
(16). -/
def rx_ctx_eager_example : zhpe_rx_ctx :=
  { rx_ctx_example [] with
      entries := fun i =>
        { rx_entry_example 4096 i with
            pe_root := { conn := 0, context := 0, status := 0, completions := 1 },
            rx_state := ZHPE_RX_STATE_EAGER,
            zhdr := { op_type := ZHPE_OP_SEND, flags := 2 ||| 16, inline_len := 0 },
            total_len := 1000, rem := 0 },
      rx_buffered_list := [5] }

/-- A context for the retry of a GET: entry 1 is RND_DIRECT on the work list,
nothing of its 1000 bytes has been moved, and no key is missing in its local
or remote iov state. -/
def rx_ctx_retry_example : zhpe_rx_ctx :=
  { rx_ctx_example [] with
      entries := fun i =>
        { rx_entry_example 4096 i with
            rx_state := ZHPE_RX_STATE_RND_DIRECT, total_len := 1000, rem := 1000,
            rstate := { viov := [⟨0, 1000, 7, 0⟩], off := 0, idx := 0, cnt := 1,
                        missing := 0 } },
      rx_work_list := [1], rx_work_hist := [1] }

/-! ## Key requests -/

/-- One decoded (host byte order) element of `zpay->key_req.zkeys`. -/
structure zhpe_key where
  key : Nat
  internal : Nat
  deriving DecidableEq, Repr

/-- Calls made by `zhpe_pe_rx_handle_key_request`, in program order. -/
inductive key_out
  | conn_key_export (zhdr : zhpe_msg_hdr) (zmr : Nat)
  | mr_put (zmr : Nat)
  | send_status (zhdr : zhpe_msg_hdr) (status : Int) (rem : Nat)
  deriving DecidableEq, Repr

/-- The loop of `zhpe_pe_rx_handle_key_request` (lines 700-713) over the keys
still to do: `ret` is the local `ret`, `out` the calls made so far.
`zhpe_mr_find key internal` is the memory region of a key, if there is one;
`zhpe_conn_key_export zmr` is the result of the export of the region. -/
def key_request_loop (K : zhpe_defs) (zhpe_mr_find : Nat → Bool → Option Nat)
    (zhpe_conn_key_export : Nat → Int) (zhdr : zhpe_msg_hdr) :
    List zhpe_key → Int → List key_out → List key_out × Int
  | [], ret, out => (out, ret)
  | zkey :: zkeys, ret, out =>
    let r : Int × List key_out :=
      if ret ≥ 0 then
        match zhpe_mr_find zkey.key (decide (zkey.internal ≠ 0)) with
        | some zmr =>
          (zhpe_conn_key_export zmr,
            out ++ [key_out.conn_key_export zhdr zmr, key_out.mr_put zmr])
        | none => (-(K.FI_ENOKEY : Int), out)
      else (ret, out)
    let out := if r.1 < 0 then r.2 ++ [key_out.send_status zhdr r.1 0] else r.2
    key_request_loop K zhpe_mr_find zhpe_conn_key_export zhdr zkeys r.1 out

/-- `zhpe_pe_rx_handle_key_request` (lines 684-716) on the keys `zkeys` of the
payload: the calls made and the value returned. -/
def zhpe_pe_rx_handle_key_request (K : zhpe_defs) (zhpe_mr_find : Nat → Bool → Option Nat)
    (zhpe_conn_key_export : Nat → Int) (zhdr : zhpe_msg_hdr) (zkeys : List zhpe_key) :
    List key_out × Int :=
  ((key_request_loop K zhpe_mr_find zhpe_conn_key_export zhdr zkeys 0 []).1, 0)

/-- The calls that export the region of a key, if it has one. -/
def key_export_calls (zhpe_mr_find : Nat → Bool → Option Nat) (zhdr : zhpe_msg_hdr)
    (zkey : zhpe_key) : List key_out :=
  match zhpe_mr_find zkey.key (decide (zkey.internal ≠ 0)) with
  | some zmr => [key_out.conn_key_export zhdr zmr, key_out.mr_put zmr]
  | none => []

/-- The result of the lookup and export of one key: the result of the export
if the key has a region, `-FI_ENOKEY` otherwise. -/
def key_export_rc (K : zhpe_defs) (zhpe_mr_find : Nat → Bool → Option Nat)
    (zhpe_conn_key_export : Nat → Int) (zkey : zhpe_key) : Int :=
  match zhpe_mr_find zkey.key (decide (zkey.internal ≠ 0)) with
  | some zmr => zhpe_conn_key_export zmr
  | none => -(K.FI_ENOKEY : Int)

/-- An example key table: key `k` has the region `k` when `k` is even, and no
region when `k` is odd. -/
def mr_find_example : Nat → Bool → Option Nat :=
  fun key _ => if key % 2 = 0 then some key else none


/-! ## Completion reporting -/

/-- The fields of `struct zhpe_comp` read by `zhpe_pe_report_complete`; an
unbound queue or counter (a null pointer) is `none`. -/
structure zhpe_comp where
  send_cq : Option Nat
  recv_cq : Option Nat
  send_cq_event : Nat
  recv_cq_event : Nat
  send_cntr : Option Nat
  recv_cntr : Option Nat
  read_cntr : Option Nat
  write_cntr : Option Nat
  rem_read_cntr : Option Nat
  rem_write_cntr : Option Nat
  eq : Option Nat
  deriving DecidableEq, Repr

/-- Calls made by `zhpe_pe_report_complete`, in program order.
`zhpe_cq_report_error` carries the entry, `olen`, `err` and `prov_errno`;
`zhpe_eq_report_error` carries the event queue, the queue the report was for
and the error code. -/
inductive comp_out
  | fi_cntr_add (cntr_fid : Nat) (value : Nat)
  | fi_cntr_adderr (cntr : Nat) (value : Nat)
  | zhpe_cntr_inc (cntr : Nat)
  | zhpe_cq_report_error (cq : Nat) (cqe : fi_cq_tagged_entry) (olen : Nat) (err : Int)
      (prov_errno : Int)
  | report_completion (cq : Nat) (addr : Nat) (cqe : fi_cq_tagged_entry)
  | zhpe_eq_report_error (eq : Nat) (cq : Nat) (err : Nat)
  | abort
  deriving DecidableEq, Repr

/-- Outcomes of the collaborators of `zhpe_pe_report_complete`:
`completion_cntr ctx` is `trigger.work.completion_cntr` of the triggered
context `ctx`, and `report_completion` the result of `cq->report_completion`. -/
structure comp_env where
  completion_cntr : Nat → Option Nat
  report_completion : Int

/-- The `switch` of `zhpe_pe_report_complete` (lines 83-126): the queue, the
event flag and the counter of the class selected by the flags; `none` is the
`default` label. -/
def report_complete_class (K : zhpe_defs) (comp : zhpe_comp) (flags : Nat) :
    Option (Option Nat × Nat × Option Nat) :=
  let sel := flags &&& (K.FI_SEND ||| K.FI_RECV ||| K.FI_READ ||| K.FI_WRITE |||
    K.FI_REMOTE_READ ||| K.FI_REMOTE_WRITE)
  if sel = K.FI_SEND then some (comp.send_cq, comp.send_cq_event, comp.send_cntr)
  else if sel = K.FI_RECV then some (comp.recv_cq, comp.recv_cq_event, comp.recv_cntr)
  else if sel = K.FI_READ then some (comp.send_cq, comp.send_cq_event, comp.read_cntr)
  else if sel = K.FI_WRITE then some (comp.send_cq, comp.send_cq_event, comp.write_cntr)
  else if sel = K.FI_REMOTE_READ then some (none, 0, comp.rem_read_cntr)
  else if sel = K.FI_REMOTE_WRITE then some (comp.recv_cq, 0, comp.rem_write_cntr)
  else none

/-- `zhpe_pe_report_complete` from the `switch` on (lines 83-149). -/
def report_complete_untriggered (K : zhpe_defs) (o : comp_env) (comp : zhpe_comp)
    (zcqe : zhpe_cqe) (err : Int) (rem : Nat) : List comp_out :=
  match report_complete_class K comp zcqe.cqe.flags with
  | none => [comp_out.abort]
  | some (cq, event, cntr) =>
    if err < 0 then
      (match cntr with
        | some c => [comp_out.fi_cntr_adderr c 1]
        | none => []) ++
      (match cq with
        | some q => [comp_out.zhpe_cq_report_error q zcqe.cqe rem (-err) (-err)]
        | none => [])
    else
      (match cntr with
        | some c => [comp_out.zhpe_cntr_inc c]
        | none => []) ++
      (match cq with
        | some q =>
          if event = 0 ∨ zcqe.cqe.flags &&& K.FI_COMPLETION ≠ 0 then
            comp_out.report_completion q zcqe.addr zcqe.cqe ::
              (if o.report_completion < 0 then
                match comp.eq with
                | some eq => [comp_out.zhpe_eq_report_error eq q K.FI_ENOSPC]
                | none => []
              else [])
          else []
        | none => [])

/-- `zhpe_pe_report_complete` (lines 57-150) for the descriptor `zcqe` whose
`comp` is `comp`. -/
def zhpe_pe_report_complete (K : zhpe_defs) (o : comp_env) (comp : zhpe_comp)
    (zcqe : zhpe_cqe) (err : Int) (rem : Nat) : List comp_out :=
  let untriggered :=
    if zcqe.cqe.flags &&& K.ZHPE_NO_COMPLETION ≠ 0 then []
    else report_complete_untriggered K o comp zcqe err rem
  if zcqe.cqe.flags &&& K.ZHPE_TRIGGERED_OP ≠ 0 then
    match o.completion_cntr zcqe.cqe.op_context with
    | some cntr_fid => [comp_out.fi_cntr_add cntr_fid 1]
    | none => untriggered
  else untriggered

/-- A completion structure with both queues, every counter and the event
queue bound; the receive queue reports selected completions only. -/
def zhpe_comp_example : zhpe_comp :=
  { send_cq := some 1, recv_cq := some 2, send_cq_event := 0, recv_cq_event := 1,
    send_cntr := some 11, recv_cntr := some 12, read_cntr := some 13, write_cntr := some 14,
    rem_read_cntr := some 15, rem_write_cntr := some 16, eq := some 20 }

/-- No triggered context has a counter and the queue accepts the report. -/
def comp_env_example : comp_env :=
  { completion_cntr := fun _ => none, report_completion := 0 }

/-! ## WRITEDATA messages -/

/-- The payload `struct zhpe_msg_writedata`, its fields as they are on the wire. -/
structure zhpe_msg_writedata where
  flags : Nat
  cq_data : Nat
  deriving DecidableEq, Repr

/-- Reversal of the eight bytes of a 64-bit value. -/
def bswap64 (x : Nat) : Nat :=
  x % 256 * 2 ^ 56 + x / 2 ^ 8 % 256 * 2 ^ 48 + x / 2 ^ 16 % 256 * 2 ^ 40 +
  x / 2 ^ 24 % 256 * 2 ^ 32 + x / 2 ^ 32 % 256 * 2 ^ 24 + x / 2 ^ 40 % 256 * 2 ^ 16 +
  x / 2 ^ 48 % 256 * 2 ^ 8 + x / 2 ^ 56 % 256

/-- `htobe64` on a little-endian host (the byte order `mem_load` assumes). -/
def htobe64 (x : Nat) : Nat := bswap64 x

/-- `be64toh` on a little-endian host. -/
def be64toh (x : Nat) : Nat := bswap64 x

/-- The descriptor built by `zhpe_pe_rx_handle_writedata` (lines 545-558) for a
connection with address `fi_addr`; the fields not named by the initialiser are
zero. -/
def rx_writedata_zcqe (K : zhpe_defs) (fi_addr : Nat) (zpay : zhpe_msg_writedata) : zhpe_cqe :=
  let flags := be64toh zpay.flags &&&
    (K.FI_REMOTE_READ ||| K.FI_REMOTE_WRITE ||| K.FI_REMOTE_CQ_DATA ||| K.FI_RMA ||| K.FI_ATOMIC)
  let flags :=
    if flags &&& (K.FI_REMOTE_WRITE ||| K.FI_REMOTE_CQ_DATA) = K.FI_REMOTE_CQ_DATA then
      flags ||| K.FI_REMOTE_WRITE
    else flags
  { addr := fi_addr,
    cqe := { op_context := 0, flags := flags, len := 0, buf := 0,
             data := be64toh zpay.cq_data, tag := 0 } }

/-- `zhpe_pe_rx_handle_writedata` (lines 542-562): the calls made by the
completion reporter on the receive context's `comp`, and the return value. -/
def zhpe_pe_rx_handle_writedata (K : zhpe_defs) (o : comp_env) (comp : zhpe_comp)
    (fi_addr : Nat) (zpay : zhpe_msg_writedata) : List comp_out × Int :=
  (zhpe_pe_report_complete K o comp (rx_writedata_zcqe K fi_addr zpay) 0 0, 0)


/-! ## Transmit entries -/

/-- The fields of `struct zhpe_pe_entry` used by the transmit handlers.
`result` is an address, 0 for the null pointer; for an entry made by the
provider (`ZHPE_PE_PROV`) `pe_root.context` is the entry of the user, 0 for
the null pointer. -/
structure zhpe_pe_entry where
  pe_root : zhpe_pe_root
  flags : Nat
  rem : Nat
  cq_data : Nat
  rx_id : Nat
  result : Nat
  result_type : fi_datatype
  lstate : zhpe_iov_state
  rstate : zhpe_iov_state
  deriving DecidableEq, Repr

/-- Calls leaving the transmit handlers, in program order.
`zhpe_pe_tx_report_complete` carries the entry, the flags argument and the
status and `rem` the entry has at the call (what `_zhpe_pe_tx_report_complete`
hands to `zhpe_pe_report_complete`); `zhpe_tx_op` carries the connection, the
opcode and `rx_id` of the header, the flags argument, the payload and the
entry. -/
inductive tx_out
  | zhpe_pe_tx_report_complete (pe_entry : Nat) (flags : Nat) (status : Int) (rem : Nat)
  | zhpe_tx_release (conn : Nat) (pe_entry : Nat)
  | zhpe_tx_op (conn : Nat) (op_type : zhpe_op) (rx_id : Nat) (flags : Nat)
      (writedata : zhpe_msg_writedata) (pe_entry : Nat)
  | zhpe_iov_to_get_imm (pe_entry : Nat) (len : Nat)
  | zhpe_put_imm_to_iov (pe_entry : Nat) (len : Nat)
  | zhpe_iov_op (pe_entry : Nat) (max_bytes : Nat) (max_ops : Int) (get : Bool)
  | zhpe_pe_retry (conn : Nat) (pe_entry : Nat)
  | copy_mem_to_iov (pe_entry : Nat)
  deriving DecidableEq, Repr

/-- The transmit side: the entry array `pentries`, the memory result pointers
point into, and the log of calls. -/
structure zhpe_tx where
  pentries : Nat → zhpe_pe_entry
  mem : Nat → Nat
  out : List tx_out

/-- Outcomes, within one step, of the collaborators of the transmit handlers.
`transfer` is the result of the one transfer call a step makes
(`zhpe_iov_to_get_imm`, `zhpe_put_imm_to_iov` or `zhpe_iov_op`), and
`transfer_completions` and `transfer_rem` are the completion counter and `rem`
it leaves. -/
structure tx_env where
  zhpe_conn_rkey_get : zhpe_iov → Option Nat
  zhpeq_rem_key_access : Nat → zhpe_iov → Bool → Int × Nat
  transfer : Int
  transfer_completions : Int
  transfer_rem : Nat
  zhpe_pe_retry : Int
  zhpe_tx_op : Int

/-- Store to one entry of `pentries`. -/
def tx_set (tx : zhpe_tx) (id : Nat) (f : zhpe_pe_entry → zhpe_pe_entry) : zhpe_tx :=
  { tx with pentries := Function.update tx.pentries id (f (tx.pentries id)) }

/-- Append calls to the `out` log. -/
def tx_emit (tx : zhpe_tx) (o : List tx_out) : zhpe_tx :=
  { tx with out := tx.out ++ o }

/-- The terminal pair of calls `zhpe_pe_tx_report_complete(pe_entry,
FI_TRANSMIT_COMPLETE | FI_DELIVERY_COMPLETE); zhpe_tx_release(conn, pe_entry)`. -/
def tx_report_release (K : zhpe_defs) (tx : zhpe_tx) (pe_entry : Nat) : zhpe_tx :=
  let e := tx.pentries pe_entry
  tx_emit tx
    [tx_out.zhpe_pe_tx_report_complete pe_entry
       (K.FI_TRANSMIT_COMPLETE ||| K.FI_DELIVERY_COMPLETE) e.pe_root.status e.rem,
     tx_out.zhpe_tx_release e.pe_root.conn pe_entry]

/-- `zhpe_pe_tx_handle_entry` (lines 498-523).  `zq_cqe` is `none` for a null
pointer and otherwise `some (z.status == ZHPEQ_CQ_STATUS_SUCCESS)`. -/
def zhpe_pe_tx_handle_entry (K : zhpe_defs) (tx : zhpe_tx) (pe_entry : Nat)
    (zq_cqe : Option Bool) : zhpe_tx × Int :=
  let tx :=
    if zq_cqe = some false then
      tx_set tx pe_entry (fun e =>
        { e with pe_root := zhpe_pe_root_update_status e.pe_root (-( K.FI_EIO : Int)) })
    else tx
  let tx := tx_set tx pe_entry (fun e =>
    { e with pe_root := { e.pe_root with completions := e.pe_root.completions - 1 } })
  let e := tx.pentries pe_entry
  if e.pe_root.completions = 0 then
    let tx :=
      if e.pe_root.flags &&& K.ZHPE_PE_PROV = 0 then
        tx_emit tx [tx_out.zhpe_pe_tx_report_complete pe_entry
          (K.FI_TRANSMIT_COMPLETE ||| K.FI_DELIVERY_COMPLETE) e.pe_root.status e.rem]
      else if e.pe_root.context ≠ 0 then
        let pe_entryu := e.pe_root.context
        let u := tx.pentries pe_entryu
        tx_emit tx
          [tx_out.zhpe_pe_tx_report_complete pe_entryu
             (K.FI_TRANSMIT_COMPLETE ||| K.FI_DELIVERY_COMPLETE) u.pe_root.status u.rem,
           tx_out.zhpe_tx_release u.pe_root.conn pe_entryu]
      else tx
    (tx_emit tx [tx_out.zhpe_tx_release e.pe_root.conn pe_entry], 0)
  else (tx, 0)

/-- `zhpe_pe_writedata` (lines 1182-1195): the message handed to `zhpe_tx_op`
and the value returned. -/
def zhpe_pe_writedata (K : zhpe_defs) (o : tx_env) (tx : zhpe_tx) (pe_entry : Nat) :
    zhpe_tx × Int :=
  let e := tx.pentries pe_entry
  let writedata : zhpe_msg_writedata :=
    { flags := htobe64 e.flags, cq_data := htobe64 e.cq_data }
  (tx_emit tx [tx_out.zhpe_tx_op e.pe_root.conn ZHPE_OP_WRITEDATA e.rx_id
     (K.ZHPE_PE_PROV ||| K.ZHPE_PE_RETRY) writedata pe_entry], o.zhpe_tx_op)

/-- `zhpe_pe_tx_rma` from the label `complete` on (lines 1255-1271). -/
def tx_rma_complete (K : zhpe_defs) (o : tx_env) (tx : zhpe_tx) (pe_entry : Nat) : zhpe_tx :=
  let e := tx.pentries pe_entry
  if e.pe_root.completions ≠ 0 then tx
  else if e.flags &&& (K.FI_REMOTE_READ ||| K.FI_REMOTE_WRITE ||| K.FI_REMOTE_CQ_DATA) ≠ 0 then
    let r := zhpe_pe_writedata K o tx pe_entry
    if r.2 ≥ 0 then r.1
    else tx_report_release K r.1 pe_entry
  else tx_report_release K tx pe_entry

/-- `zhpe_pe_tx_rma` after the transfer call returned `rc` (lines 1243-1253). -/
def tx_rma_after (K : zhpe_defs) (o : tx_env) (tx : zhpe_tx) (pe_entry : Nat) (rc : Int) :
    zhpe_tx :=
  if rc > 0 then tx
  else if rc < 0 then
    if rc = -(K.FI_EAGAIN : Int) then
      let tx := tx_emit tx [tx_out.zhpe_pe_retry (tx.pentries pe_entry).pe_root.conn pe_entry]
      let rc := o.zhpe_pe_retry
      if rc ≥ 0 then tx
      else
        tx_rma_complete K o (tx_set tx pe_entry (fun e =>
          { e with pe_root := zhpe_pe_root_update_status e.pe_root rc })) pe_entry
    else
      tx_rma_complete K o (tx_set tx pe_entry (fun e =>
        { e with pe_root := zhpe_pe_root_update_status e.pe_root rc })) pe_entry
  else tx_rma_complete K o tx pe_entry

/-- `zhpe_pe_tx_rma` from the limit on operations in flight to the transfer
call (lines 1216-1242). -/
def tx_rma_issue (K : zhpe_defs) (o : tx_env) (tx : zhpe_tx) (pe_entry : Nat) : zhpe_tx :=
  let e := tx.pentries pe_entry
  if e.pe_root.completions ≥ K.ZHPE_EP_MAX_IO_OPS then tx
  else if e.flags &&& K.FI_INJECT ≠ 0 then
    let tx :=
      if e.flags &&& K.FI_READ ≠ 0 then tx_emit tx [tx_out.zhpe_iov_to_get_imm pe_entry e.rem]
      else tx_emit tx [tx_out.zhpe_put_imm_to_iov pe_entry e.rem]
    let tx := tx_set tx pe_entry (fun e =>
      { e with pe_root := { e.pe_root with completions := o.transfer_completions },
               rem := o.transfer_rem })
    tx_rma_after K o tx pe_entry o.transfer
  else
    let max_ops := K.ZHPE_EP_MAX_IO_OPS - e.pe_root.completions
    let max_bytes := if e.rem > K.ZHPE_EP_MAX_IO_BYTES then K.ZHPE_EP_MAX_IO_BYTES else e.rem
    if max_bytes = 0 ∨ max_ops = 0 then tx_rma_complete K o tx pe_entry
    else
      let tx := tx_emit tx
        [tx_out.zhpe_iov_op pe_entry max_bytes max_ops (decide (e.flags &&& K.FI_READ ≠ 0))]
      let tx := tx_set tx pe_entry (fun e =>
        { e with pe_root := { e.pe_root with completions := o.transfer_completions },
                 rem := o.transfer_rem })
      tx_rma_after K o tx pe_entry o.transfer

/-- `zhpe_pe_tx_rma` (lines 1197-1272). -/
def zhpe_pe_tx_rma (K : zhpe_defs) (o : tx_env) (tx : zhpe_tx) (pe_entry : Nat) : zhpe_tx :=
  let e := tx.pentries pe_entry
  if e.pe_root.status < 0 then tx_rma_complete K o tx pe_entry
  else if e.pe_root.flags &&& K.ZHPE_PE_KEY_WAIT ≠ 0 then
    if e.pe_root.completions ≠ 0 then tx
    else
      let r := zhpe_pe_rem_setup K o.zhpe_conn_rkey_get o.zhpeq_rem_key_access e.rstate
        (decide (e.flags &&& K.FI_WRITE = 0))
      let tx := tx_set tx pe_entry (fun e =>
        { e with
            pe_root := zhpe_pe_root_update_status
              { e.pe_root with flags := bit_clear e.pe_root.flags K.ZHPE_PE_KEY_WAIT } r.2,
            rstate := r.1 })
      if r.2 < 0 then tx_rma_complete K o tx pe_entry
      else tx_rma_issue K o tx pe_entry
  else tx_rma_issue K o tx pe_entry

/-- `zhpe_pe_tx_handle_rma` (lines 1155-1173). -/
def zhpe_pe_tx_handle_rma (K : zhpe_defs) (o : tx_env) (tx : zhpe_tx) (pe_entry : Nat)
    (zq_cqe : Option Bool) : zhpe_tx × Int :=
  let tx := tx_set tx pe_entry (fun e =>
    { e with pe_root := { e.pe_root with completions := e.pe_root.completions - 1 } })
  let tx :=
    match zq_cqe with
    | none => tx
    | some success =>
      let tx :=
        if success = false then
          tx_set tx pe_entry (fun e =>
            { e with pe_root := zhpe_pe_root_update_status e.pe_root (-( K.FI_EIO : Int)) })
        else tx
      let e := tx.pentries pe_entry
      if e.pe_root.completions = 0 ∧
          e.flags &&& (K.FI_INJECT ||| K.FI_READ) = K.FI_INJECT ||| K.FI_READ then
        tx_emit tx [tx_out.copy_mem_to_iov pe_entry]
      else tx
  (zhpe_pe_tx_rma K o tx pe_entry, 0)

/-- `zhpe_pe_retry_tx_rma` (lines 1175-1179). -/
def zhpe_pe_retry_tx_rma (K : zhpe_defs) (o : tx_env) (tx : zhpe_tx) (pe_entry : Nat) :
    zhpe_tx :=
  zhpe_pe_tx_rma K o tx pe_entry

/-- `zhpe_pe_tx_handle_atomic` (lines 1295-1340). -/
def zhpe_pe_tx_handle_atomic (K : zhpe_defs) (o : tx_env) (tx : zhpe_tx) (pe_entry : Nat)
    (zq_cqe : Option Bool) : zhpe_tx × Int :=
  let tx :=
    if zq_cqe = some false then
      tx_set tx pe_entry (fun e =>
        { e with pe_root := zhpe_pe_root_update_status e.pe_root (-( K.FI_EIO : Int)) })
    else tx
  let tx := tx_set tx pe_entry (fun e =>
    { e with pe_root := { e.pe_root with completions := e.pe_root.completions - 1 } })
  let e := tx.pentries pe_entry
  if e.pe_root.completions = 0 then
    let tx :=
      if e.result ≠ 0 then
        match e.result_type with
        | FI_UINT8 => { tx with mem := mem_store tx.mem e.result 1 e.rem }
        | FI_UINT16 => { tx with mem := mem_store tx.mem e.result 2 e.rem }
        | FI_UINT32 => { tx with mem := mem_store tx.mem e.result 4 e.rem }
        | FI_UINT64 => { tx with mem := mem_store tx.mem e.result 8 e.rem }
        | fi_datatype.other _ => tx
      else tx
    if e.flags &&& K.FI_REMOTE_CQ_DATA ≠ 0 then
      let r := zhpe_pe_writedata K o tx pe_entry
      if r.2 ≥ 0 then (r.1, 0)
      else (tx_report_release K r.1 pe_entry, 0)
    else (tx_report_release K tx pe_entry, 0)
  else (tx, 0)

/-- The handler `zhpe_pe_tx_handle_entry` called once for each element of
`zq_cqes`, in order, on the same entry. -/
def tx_handle_entry_calls (K : zhpe_defs) (pe_entry : Nat) :
    List (Option Bool) → zhpe_tx → zhpe_tx
  | [], tx => tx
  | c :: cs, tx => tx_handle_entry_calls K pe_entry cs (zhpe_pe_tx_handle_entry K tx pe_entry c).1

/-- An idle transmit entry of connection 3 with user context `ctx`. -/
def pe_entry_example (ctx : Nat) : zhpe_pe_entry :=
  { pe_root := { conn := 3, context := ctx, status := 0, completions := 0 },
    flags := 0, rem := 0, cq_data := 0, rx_id := 9, result := 0, result_type := FI_UINT64,
    lstate := { viov := [], off := 0, idx := 0, cnt := 0, missing := 0 },
    rstate := { viov := [], off := 0, idx := 0, cnt := 0, missing := 0 } }

/-- A transmit side on zeroed memory whose entry 1 is `e`; every other entry
`i` is idle with context `100 + i`. -/
def zhpe_tx_example (e : zhpe_pe_entry) : zhpe_tx :=
  { pentries := fun i => if i = 1 then e else pe_entry_example (100 + i),
    mem := fun _ => 0, out := [] }

/-- Outcomes in the examples: every key is cached, a transfer is issued as one
operation that moves everything, and `zhpe_tx_op` accepts the message. -/
def tx_env_example : tx_env :=
  { zhpe_conn_rkey_get := fun riov => some riov.iov_key,
    zhpeq_rem_key_access := fun _ riov _ => (0, riov.iov_base),
    transfer := 0, transfer_completions := 1, transfer_rem := 0,
    zhpe_pe_retry := 0, zhpe_tx_op := 0 }

/-- The status `zhpe_pe_root_update_status(pe_root, -FI_EIO)` leaves in an
entry with status `status` when it is called for a failed transport completion
(`zq_cqe` not null and not successful), and `status` otherwise. -/
def tx_cqe_status (K : zhpe_defs) (status : Int) (zq_cqe : Option Bool) : Int :=
  if zq_cqe = some false ∧ 0 < K.FI_EIO ∧ status ≥ 0 then -( K.FI_EIO : Int) else status

/-- An RMA WRITE of connection 3 with remote CQ data 0xDEADBEEF
(`FI_RMA | FI_WRITE | FI_REMOTE_CQ_DATA`) that has `rem` bytes still to move,
recorded status `status` and `completions` operations in flight. -/
def pe_entry_write_example (rem : Nat) (status completions : Int) : zhpe_pe_entry :=
  { pe_entry_example 77 with
      pe_root := { conn := 3, context := 77, status := status, completions := completions },
      flags := 2 ^ 2 ||| 2 ^ 9 ||| 2 ^ 17, rem := rem, cq_data := 0xDEADBEEF }


/-! ## Wake-up of the progress thread -/

/-- The fields of `struct zhpe_pe` used by `zhpe_pe_signal`, `zhpe_pe_wait`
and the registration of contexts, with `progress_mode` of its domain; `pipe`
is the number of bytes written to the signal socket and not yet read.  The
lists `tx_list` and `rx_list` hold the list nodes `pe_lentry` of the
registered contexts; a context of either kind is identified with the address
of its node.  Both lists are empty where they are not written out. -/
structure zhpe_pe where
  progress_mode : Nat
  wcnt : Nat
  rcnt : Nat
  waittime : Nat
  pipe : Nat
  tx_list : List Nat := []
  rx_list : List Nat := []
  deriving DecidableEq, Repr

/-- `zhpe_pe_signal` (lines 1342-1357).  The counters are `w` bits wide;
`write_rc` is the result of `ofi_write_socket`, which has put one byte into the
socket when it is 1. -/
def zhpe_pe_signal (K : zhpe_defs) (w : Nat) (write_rc : Int) (pe : zhpe_pe) : zhpe_pe :=
  if pe.progress_mode ≠ K.FI_PROGRESS_AUTO then pe
  else if pe.wcnt = pe.rcnt then
    if write_rc ≠ 1 then pe
    else { pe with wcnt := (pe.wcnt + 1) % 2 ^ w, pipe := pe.pipe + 1 }
  else pe

/-- `zhpe_pe_wait` (lines 1629-1653).  `poll_rc` is the result of `poll`,
`read_rc` the result of `ofi_read_socket`, which has taken one byte out of the
socket when it is 1, and `now` the result of `fi_gettime_ms`. -/
def zhpe_pe_wait (w : Nat) (poll_rc read_rc : Int) (now : Nat) (pe : zhpe_pe) : zhpe_pe :=
  let pe :=
    if poll_rc > 0 then
      if pe.rcnt ≠ pe.wcnt then
        if read_rc = 1 then { pe with rcnt := (pe.rcnt + 1) % 2 ^ w, pipe := pe.pipe - 1 }
        else pe
      else pe
    else pe
  { pe with waittime := now }

/-- One step of the wake-up protocol, with the outcomes of its system calls. -/
inductive pe_step
  | signal (write_rc : Int)
  | wait (poll_rc : Int) (read_rc : Int) (now : Nat)
  deriving DecidableEq, Repr

/-- The steps run one after the other. -/
def pe_steps (K : zhpe_defs) (w : Nat) : List pe_step → zhpe_pe → zhpe_pe
  | [], pe => pe
  | pe_step.signal write_rc :: steps, pe => pe_steps K w steps (zhpe_pe_signal K w write_rc pe)
  | pe_step.wait poll_rc read_rc now :: steps, pe =>
    pe_steps K w steps (zhpe_pe_wait w poll_rc read_rc now pe)

/-- The socket call of the step succeeds: it transfers its one byte. -/
def pe_step_ok : pe_step → Prop
  | pe_step.signal write_rc => write_rc = 1
  | pe_step.wait _ read_rc _ => read_rc = 1

instance (s : pe_step) : Decidable (pe_step_ok s) := by
  cases s <;> unfold pe_step_ok <;> infer_instance

/-- The state of the wake-up protocol between steps: AUTO mode, both counters
within their `w` bits, and either the counters are equal and the socket is
empty, or `wcnt` is one ahead of `rcnt` and the socket holds one byte. -/
def pe_wake_inv (K : zhpe_defs) (w : Nat) (pe : zhpe_pe) : Prop :=
  pe.progress_mode = K.FI_PROGRESS_AUTO ∧ pe.wcnt < 2 ^ w ∧ pe.rcnt < 2 ^ w ∧
  ((pe.wcnt = pe.rcnt ∧ pe.pipe = 0) ∨ (pe.wcnt = (pe.rcnt + 1) % 2 ^ w ∧ pe.pipe = 1))

/-- A progress engine in AUTO mode with equal counters and an empty socket. -/
def zhpe_pe_example : zhpe_pe :=
  { progress_mode := 1, wcnt := 255, rcnt := 255, waittime := 0, pipe := 0 }

/-! ## Transmit progress -/

/-- One entry read from the transmit completion queue: `context` is `none`
for `ZHPE_CONTEXT_IGNORE_PTR` and otherwise the `zhpe_pe_root` it points to;
`success` is `z.status == ZHPEQ_CQ_STATUS_SUCCESS`. -/
structure zhpeq_cq_entry where
  context : Option Nat
  success : Bool
  deriving DecidableEq, Repr

/-- The part of `struct zhpe_ep_attr` that the handlers run by
`zhpe_pe_progress_tx_ctx` work on: the retry list `pe_retry_list`, and
everything else as `world`. -/
structure zhpe_ep_attr (σ : Type) where
  world : σ
  pe_retry_list : List Nat
  deriving DecidableEq

/-- Handler calls made by `zhpe_pe_progress_tx_ctx`, in program order. -/
inductive tx_event
  | handler (pe_root : Nat) (zq_cqe : zhpeq_cq_entry)
  | retry_handler (pe_retry : Nat)
  deriving DecidableEq, Repr

/-- The state of a pass of `zhpe_pe_progress_tx_ctx`: the endpoint, the
handler calls made, the local `ret`, and whether control has left for the
label `done`. -/
structure tx_pass (σ : Type) where
  ep_attr : zhpe_ep_attr σ
  events : List tx_event
  ret : Int
  done : Bool

/-- The `for` loop over the completion entries (lines 1562-1576). -/
def tx_cq_loop {σ : Type} (K : zhpe_defs)
    (handler : Nat → zhpeq_cq_entry → zhpe_ep_attr σ → zhpe_ep_attr σ × Int) :
    List zhpeq_cq_entry → tx_pass σ → tx_pass σ
  | [], p => p
  | c :: cs, p =>
    match c.context with
    | none =>
      if c.success then tx_cq_loop K handler cs p
      else { p with ret := -( K.EIO : Int), done := true }
    | some pe_root =>
      let r := handler pe_root c p.ep_attr
      let p := { p with ep_attr := r.1, events := p.events ++ [tx_event.handler pe_root c],
                        ret := r.2 }
      if r.2 < 0 then { p with done := true }
      else tx_cq_loop K handler cs p

/-- `zhpe_pe_progress_tx_ctx` up to the end of the loop over the completion
entries (lines 1553-1576).  `ztx` is `ep_attr->ztx != NULL`, `entries` the
result of `zhpeq_cq_read` and `zq_cqe` the array it filled. -/
def tx_cq_phase {σ : Type} (K : zhpe_defs)
    (handler : Nat → zhpeq_cq_entry → zhpe_ep_attr σ → zhpe_ep_attr σ × Int)
    (ztx : Bool) (entries : Int) (zq_cqe : List zhpeq_cq_entry) (ep_attr : zhpe_ep_attr σ) :
    tx_pass σ :=
  if ztx = false then { ep_attr := ep_attr, events := [], ret := 0, done := true }
  else if entries < 0 then { ep_attr := ep_attr, events := [], ret := entries, done := true }
  else
    tx_cq_loop K handler (zq_cqe.take entries.toNat)
      { ep_attr := ep_attr, events := [], ret := 0, done := false }

/-- The loop `dlist_foreach_safe(&head, ...)` over the local list `head`
(lines 1585-1589). -/
def tx_retry_loop {σ : Type} (retry_handler : Nat → zhpe_ep_attr σ → zhpe_ep_attr σ) :
    List Nat → tx_pass σ → tx_pass σ
  | [], p => p
  | pe_retry :: head, p =>
    tx_retry_loop retry_handler head
      { p with ep_attr := retry_handler pe_retry p.ep_attr,
               events := p.events ++ [tx_event.retry_handler pe_retry] }

/-- `zhpe_pe_progress_tx_ctx` (lines 1537-1597): the endpoint after the pass,
the handler calls made, and the value returned. -/
def zhpe_pe_progress_tx_ctx {σ : Type} (K : zhpe_defs)
    (handler : Nat → zhpeq_cq_entry → zhpe_ep_attr σ → zhpe_ep_attr σ × Int)
    (retry_handler : Nat → zhpe_ep_attr σ → zhpe_ep_attr σ)
    (ztx : Bool) (entries : Int) (zq_cqe : List zhpeq_cq_entry) (ep_attr : zhpe_ep_attr σ) :
    zhpe_ep_attr σ × List tx_event × Int :=
  let p := tx_cq_phase K handler ztx entries zq_cqe ep_attr
  let p :=
    if p.done then p
    else if p.ep_attr.pe_retry_list ≠ [] then
      let head := p.ep_attr.pe_retry_list
      tx_retry_loop retry_handler head
        { p with ep_attr := { p.ep_attr with pe_retry_list := [] } }
    else p
  (p.ep_attr, p.events, p.ret)

/-- An example completion handler: it counts the call in `world` and succeeds. -/
def tx_handler_example : Nat → zhpeq_cq_entry → zhpe_ep_attr Nat → zhpe_ep_attr Nat × Int :=
  fun _ _ ep => ({ ep with world := ep.world + 1 }, 0)

/-- An example retry handler: the retry of an odd entry fails again and puts
the entry back on the endpoint's retry list, the retry of an even one succeeds. -/
def tx_retry_handler_example : Nat → zhpe_ep_attr Nat → zhpe_ep_attr Nat :=
  fun pe_retry ep =>
    if pe_retry % 2 = 1 then { ep with pe_retry_list := ep.pe_retry_list ++ [pe_retry] }
    else { ep with world := ep.world + 100 }

/-! ## Registration of contexts -/

/-- `zhpe_pe_add_tx_ctx` (lines 1359-1375).  The loop compares the context of
every node of `tx_list` with `ctx`; `w` and `write_rc` are those of the call of
`zhpe_pe_signal`. -/
def zhpe_pe_add_tx_ctx (K : zhpe_defs) (w : Nat) (write_rc : Int) (pe : zhpe_pe) (ctx : Nat) :
    zhpe_pe :=
  if pe.tx_list.any (fun curr_ctx => decide (curr_ctx = ctx)) then pe
  else zhpe_pe_signal K w write_rc { pe with tx_list := pe.tx_list ++ [ctx] }

/-- `zhpe_pe_add_rx_ctx` (lines 1377-1393).  The loop runs over `tx_list` and
takes each of its nodes for the node of a receive context; the context it
computes equals `ctx` exactly when the node is the node of `ctx`. -/
def zhpe_pe_add_rx_ctx (K : zhpe_defs) (w : Nat) (write_rc : Int) (pe : zhpe_pe) (ctx : Nat) :
    zhpe_pe :=
  if pe.tx_list.any (fun curr_ctx => decide (curr_ctx = ctx)) then pe
  else zhpe_pe_signal K w write_rc { pe with rx_list := pe.rx_list ++ [ctx] }

/-- A progress engine in AUTO mode on which the transmit context 7 and the
receive context 5 are registered. -/
def zhpe_pe_ctx_example : zhpe_pe :=
  { zhpe_pe_example with tx_list := [7], rx_list := [5] }

/-! ## Missing remote keys -/

/-- The function `ffs` on a 32-bit word: one plus the index of the lowest set
bit, and 0 for the word 0. -/
def ffs (x : Nat) : Nat :=
  match (List.range 32).find? (fun i => decide (x &&& 2 ^ i ≠ 0)) with
  | some i => i + 1
  | none => 0

/-- The indices of the set bits of a 32-bit mask, in ascending order. -/
def missing_slots (missing : Nat) : List Nat :=
  (List.range 32).filter (fun i => decide (missing &&& 2 ^ i ≠ 0))

/-- The loop of `zhpe_pe_rem_setup` (lines 830-854) as it is written, with
`i = ffs(rstate->missing) - 1` computed at each test of the loop condition;
a test takes one unit of `fuel`.  `ret` is the local `ret`.  `visits` records
the iterations made so far: the slot `i` of the iteration and the key data of
the remote key stored in `riov[i].iov_rkey`, or `none` when
`zhpe_conn_rkey_get` found none. -/
def rem_setup_loop (K : zhpe_defs) (zhpe_conn_rkey_get : zhpe_iov → Option Nat)
    (zhpeq_rem_key_access : Nat → zhpe_iov → Bool → Int × Nat) (get : Bool) :
    Nat → zhpe_iov_state → Int → List (Nat × Option Nat) →
      Option (zhpe_iov_state × Int × List (Nat × Option Nat))
  | 0, _, _, _ => none
  | fuel + 1, rstate, ret, visits =>
    if ffs rstate.missing = 0 then some (rstate, ret, visits)
    else
      let i := ffs rstate.missing - 1
      let riov := rstate.viov.getD i ⟨0, 0, 0, 0⟩
      match zhpe_conn_rkey_get riov with
      | none => some (rstate, -(K.FI_ENOKEY : Int), visits ++ [(i, none)])
      | some kdata =>
        let r := zhpeq_rem_key_access kdata riov get
        let rstate :=
          { rstate with
              missing := bit_clear rstate.missing (2 ^ i),
              viov := rstate.viov.set i { riov with iov_zaddr := r.2 } }
        if r.1 < 0 then some (rstate, r.1, visits ++ [(i, some kdata)])
        else
          rem_setup_loop K zhpe_conn_rkey_get zhpeq_rem_key_access get fuel rstate r.1
            (visits ++ [(i, some kdata)])

/-- The body of the loop of `zhpe_pe_rem_setup` run for the slots of a list,
one after the other, until an iteration leaves the loop. -/
def rem_setup_slots (K : zhpe_defs) (zhpe_conn_rkey_get : zhpe_iov → Option Nat)
    (zhpeq_rem_key_access : Nat → zhpe_iov → Bool → Int × Nat) (get : Bool) :
    List Nat → zhpe_iov_state → Int → List (Nat × Option Nat) →
      zhpe_iov_state × Int × List (Nat × Option Nat)
  | [], rstate, ret, visits => (rstate, ret, visits)
  | i :: slots, rstate, _, visits =>
    let riov := rstate.viov.getD i ⟨0, 0, 0, 0⟩
    match zhpe_conn_rkey_get riov with
    | none => (rstate, -(K.FI_ENOKEY : Int), visits ++ [(i, none)])
    | some kdata =>
      let r := zhpeq_rem_key_access kdata riov get
      let rstate :=
        { rstate with
            missing := bit_clear rstate.missing (2 ^ i),
            viov := rstate.viov.set i { riov with iov_zaddr := r.2 } }
      if r.1 < 0 then (rstate, r.1, visits ++ [(i, some kdata)])
      else
        rem_setup_slots K zhpe_conn_rkey_get zhpeq_rem_key_access get slots rstate r.1
          (visits ++ [(i, some kdata)])

/-- An iov state with four slots of which 1 and 3 miss their remote key. -/
def rstate_missing_example : zhpe_iov_state :=
  { viov := [⟨0, 100, 10, 0⟩, ⟨4096, 100, 11, 0⟩, ⟨8192, 100, 12, 0⟩, ⟨12288, 100, 13, 0⟩],
    off := 0, idx := 0, cnt := 4, missing := 10 }

/-! ## Request for remote keys -/

/-- The loop of `zhpe_pe_rkey_request` (lines 1284-1289) as it is written; a
test of the loop condition takes one unit of `fuel`.  `missing` is the local
copy of the mask, `zkeys` the keys copied to `key_req.zkeys` so far and
`completions` the 8-bit counter `*completions`.  `zhpe_ziov_to_zkey` is the
inline helper of that name. -/
def rkey_request_loop (zhpe_ziov_to_zkey : zhpe_iov → zhpe_key) (ziov : List zhpe_iov) :
    Nat → Nat → List zhpe_key → Nat → Option (List zhpe_key × Nat)
  | 0, _, _, _ => none
  | fuel + 1, missing, zkeys, completions =>
    if ffs missing = 0 then some (zkeys, completions)
    else
      let i := ffs missing - 1
      rkey_request_loop zhpe_ziov_to_zkey ziov fuel (bit_clear missing (2 ^ i))
        (zkeys ++ [zhpe_ziov_to_zkey (ziov.getD i ⟨0, 0, 0, 0⟩)]) ((completions + 1) % 2 ^ 8)

/-- `zhpe_pe_rkey_request` (lines 1274-1293): the opcode, the flags argument and
the keys of the message handed to `zhpe_prov_op`, and `*completions` after the
call. -/
def zhpe_pe_rkey_request (K : zhpe_defs) (zhpe_ziov_to_zkey : zhpe_iov → zhpe_key) (fuel : Nat)
    (rstate : zhpe_iov_state) (completions : Nat) :
    Option (zhpe_op × Nat × List zhpe_key × Nat) :=
  match rkey_request_loop zhpe_ziov_to_zkey rstate.viov fuel rstate.missing [] completions with
  | none => none
  | some (zkeys, completions) => some (ZHPE_OP_KEY_REQUEST, K.ZHPE_PE_RETRY, zkeys, completions)

/-- The number of responses among the calls of
`zhpe_pe_rx_handle_key_request`: the exports that succeed and the STATUS
messages; an export that fails sends nothing. -/
def key_responses (zhpe_conn_key_export : Nat → Int) (out : List key_out) : Nat :=
  out.countP (fun o =>
    match o with
    | key_out.conn_key_export _ zmr => decide (0 ≤ zhpe_conn_key_export zmr)
    | key_out.mr_put _ => false
    | key_out.send_status _ _ _ => true)

/-- An example of `zhpe_ziov_to_zkey`: the key of the element, not internal. -/
def ziov_to_zkey_example : zhpe_iov → zhpe_key := fun ziov => ⟨ziov.iov_key, 0⟩

/-! ## Thread affinity -/

/-- The library function `strtok_r(s, delim, &saveptr)` for a delimiter set of
one character, on the text `s` up to its terminating NUL: the token and the
text `saveptr` points to afterwards, or `none` when there is no token. -/
def strtok_r (delim : Char) (s : List Char) : Option (List Char × List Char) :=
  let s := s.dropWhile (fun c => decide (c = delim))
  if s = [] then none
  else some (s.takeWhile (fun c => decide (c ≠ delim)),
             (s.dropWhile (fun c => decide (c ≠ delim))).drop 1)

/-- The library function `atoi` on values that fit an `int`: white space, an
optional sign, and the decimal digits up to the first other character. -/
def atoi (s : List Char) : Int :=
  let s := s.dropWhile (fun c => decide (c.toNat = 32 ∨ (9 ≤ c.toNat ∧ c.toNat ≤ 13)))
  let neg := decide (s.head? = some '-')
  let s := if s.head? = some '-' ∨ s.head? = some '+' then s.drop 1 else s
  let n : Nat := (s.takeWhile (fun c => decide (48 ≤ c.toNat ∧ c.toNat ≤ 57))).foldl
    (fun acc c => 10 * acc + (c.toNat - 48)) 0
  if neg then -(n : Int) else n

/-- The parse of one item `a` of the affinity string (lines 1669-1687):
`first`, `last` and `stride`, or `none` when an `assert` fails. -/
def affinity_item (a : List Char) : Option (Int × Int × Int) :=
  match strtok_r '-' a with
  | none => none
  | some (b, saveptrb) =>
    let first := atoi b
    match strtok_r '-' saveptrb with
    | none => some (first, first, 1)
    | some (b, _) =>
      match strtok_r ':' b with
      | none => none
      | some (c, saveptrc) =>
        let last := atoi c
        let stride :=
          match strtok_r ':' saveptrc with
          | some (c, _) => atoi c
          | none => 1
        some (first, if last = -1 then first else last, stride)

/-- The loop `for (j = first; j <= last; j += stride) CPU_SET(j, &mycpuset)`
(lines 1689-1690); a test of the loop condition takes one unit of `fuel`, and
`mycpuset` lists the CPUs set so far, in the order of the calls. -/
def cpu_set_loop : Nat → Int → Int → Int → List Int → Option (List Int)
  | 0, _, _, _, _ => none
  | fuel + 1, j, last, stride, mycpuset =>
    if j ≤ last then cpu_set_loop fuel (j + stride) last stride (mycpuset ++ [j])
    else some mycpuset

/-- The outcome of `zhpe_thread_set_affinity`: the CPU set handed to
`pthread_setaffinity_np`, or a failed `assert`. -/
inductive affinity_result
  | cpus (mycpuset : List Int)
  | assert_failed
  deriving DecidableEq, Repr

/-- The loop `while (a)` of `zhpe_thread_set_affinity` (lines 1668-1692): `a`
is the current token with the text after it, `none` for a null pointer.  A
test of the loop condition takes one unit of `fuel`, and the inner loop gets
what is left. -/
def affinity_loop : Nat → Option (List Char × List Char) → List Int → Option affinity_result
  | 0, _, _ => none
  | _ + 1, none, mycpuset => some (affinity_result.cpus mycpuset)
  | fuel + 1, some (a, saveptra), mycpuset =>
    match affinity_item a with
    | none => some affinity_result.assert_failed
    | some (first, last, stride) =>
      match cpu_set_loop fuel first last stride mycpuset with
      | none => none
      | some mycpuset => affinity_loop fuel (strtok_r ',' saveptra) mycpuset

/-- `zhpe_thread_set_affinity` (lines 1656-1697) on the text `s`; `none` when
`fuel` loop tests are not enough. -/
def zhpe_thread_set_affinity (fuel : Nat) (s : List Char) : Option affinity_result :=
  affinity_loop fuel (strtok_r ',' s) []

/-- An atomic request: 16-bit `FI_CSWAP` at address 100 under key 7, with
operand `0xabcd5678` and compare value `0x1234`. -/
def atomic_req_cswap_example : zhpe_msg_atomic_req :=
  { op := FI_CSWAP, datatype := FI_UINT16, datasize := 2, vaddr := 100,
    zkey_key := 7, zkey_internal := 0, operand := 0xabcd5678, compare := 0x1234 }

/-- A target memory holding the bytes `0x34 0x12` at address 100 and `0xff`
everywhere else. -/
def atomic_mem_example : Nat → Nat :=
  fun a => if a = 100 then 0x34 else if a = 101 then 0x12 else 0xff

/-! # Theorems -/

/-! ## Helper lemmas: the completion drain -/

theorem rx_work_scan_eq (entries : Nat → zhpe_rx_entry) (l dc dd : List Nat) :
    rx_work_scan entries l dc dd =
      (dc ++ rx_dcomplete entries l, dd ++ rx_ddrop entries l,
       l.dropWhile (rx_terminal entries)) := by
  induction l generalizing dc dd with
  | nil => simp [rx_work_scan, rx_dcomplete, rx_ddrop]
  | cons a t ih =>
    unfold rx_work_scan
    by_cases hc : (entries a).rx_state = ZHPE_RX_STATE_COMPLETE
    · simp [hc, ih, rx_dcomplete, rx_ddrop, rx_terminal, List.takeWhile_cons,
        List.dropWhile_cons]
    · by_cases hd : (entries a).rx_state = ZHPE_RX_STATE_DROP
      · simp [hd, ih, rx_dcomplete, rx_ddrop, rx_terminal, List.takeWhile_cons,
          List.dropWhile_cons]
      · simp [hc, hd, rx_dcomplete, rx_ddrop, rx_terminal, List.takeWhile_cons,
          List.dropWhile_cons]

theorem rx_complete_eq (K : zhpe_defs) (ctx : zhpe_rx_ctx) (e : Nat) (status : Int) :
    zhpe_pe_rx_complete K ctx e status =
      { ctx with
          entries := Function.update ctx.entries e (rx_completed_entry K (ctx.entries e) status),
          rx_work_list := ctx.rx_work_list.dropWhile (rx_terminal
            (Function.update ctx.entries e (rx_completed_entry K (ctx.entries e) status))),
          out := ctx.out ++
            (rx_dcomplete (Function.update ctx.entries e
                (rx_completed_entry K (ctx.entries e) status)) ctx.rx_work_list).flatMap
              (rx_complete_report K (Function.update ctx.entries e
                (rx_completed_entry K (ctx.entries e) status)))
            ++ (rx_dcomplete (Function.update ctx.entries e
                (rx_completed_entry K (ctx.entries e) status)) ctx.rx_work_list).map
                  rx_out.release_entry
            ++ (rx_ddrop (Function.update ctx.entries e
                (rx_completed_entry K (ctx.entries e) status)) ctx.rx_work_list).map
                  rx_out.release_entry } := by
  unfold zhpe_pe_rx_complete
  simp only [rx_work_scan_eq, List.nil_append]
  change (if _ then _ else _) = _
  by_cases h : rx_dcomplete (Function.update ctx.entries e
      (rx_completed_entry K (ctx.entries e) status)) ctx.rx_work_list = [] ∧
    rx_ddrop (Function.update ctx.entries e
      (rx_completed_entry K (ctx.entries e) status)) ctx.rx_work_list = []
  · have h1 := h.1
    have h2 := h.2
    unfold rx_completed_entry at h h1 h2
    rw [if_pos h]
    simp only [rx_completed_entry, h1, h2, List.flatMap_nil, List.map_nil, List.append_nil]
  · unfold rx_completed_entry at h
    rw [if_neg h]
    rfl

theorem rx_complete_entries (K : zhpe_defs) (ctx : zhpe_rx_ctx) (e : Nat) (status : Int) :
    (zhpe_pe_rx_complete K ctx e status).entries =
      Function.update ctx.entries e (rx_completed_entry K (ctx.entries e) status) := by
  rw [rx_complete_eq]

theorem rx_complete_work_list (K : zhpe_defs) (ctx : zhpe_rx_ctx) (e : Nat) (status : Int) :
    (zhpe_pe_rx_complete K ctx e status).rx_work_list =
      ctx.rx_work_list.dropWhile
        (rx_terminal (zhpe_pe_rx_complete K ctx e status).entries) := by
  rw [rx_complete_eq]

theorem rx_complete_out (K : zhpe_defs) (ctx : zhpe_rx_ctx) (e : Nat) (status : Int) :
    (zhpe_pe_rx_complete K ctx e status).out =
      ctx.out ++
        (rx_dcomplete (zhpe_pe_rx_complete K ctx e status).entries ctx.rx_work_list).flatMap
          (rx_complete_report K (zhpe_pe_rx_complete K ctx e status).entries)
        ++ (rx_dcomplete (zhpe_pe_rx_complete K ctx e status).entries
              ctx.rx_work_list).map rx_out.release_entry
        ++ (rx_ddrop (zhpe_pe_rx_complete K ctx e status).entries
              ctx.rx_work_list).map rx_out.release_entry := by
  rw [rx_complete_eq]

theorem rx_complete_frame (K : zhpe_defs) (ctx : zhpe_rx_ctx) (e : Nat) (status : Int) :
    (zhpe_pe_rx_complete K ctx e status).rx_posted_list = ctx.rx_posted_list ∧
    (zhpe_pe_rx_complete K ctx e status).rx_buffered_list = ctx.rx_buffered_list ∧
    (zhpe_pe_rx_complete K ctx e status).rx_work_hist = ctx.rx_work_hist ∧
    (zhpe_pe_rx_complete K ctx e status).aborted = ctx.aborted := by
  rw [rx_complete_eq]
  simp

theorem rx_complete_emitted_eq (K : zhpe_defs) (ctx : zhpe_rx_ctx) (e : Nat) (status : Int) :
    rx_complete_emitted K ctx e status =
      (rx_dcomplete (zhpe_pe_rx_complete K ctx e status).entries ctx.rx_work_list).flatMap
          (rx_complete_report K (zhpe_pe_rx_complete K ctx e status).entries)
        ++ (rx_dcomplete (zhpe_pe_rx_complete K ctx e status).entries
              ctx.rx_work_list).map rx_out.release_entry
        ++ (rx_ddrop (zhpe_pe_rx_complete K ctx e status).entries
              ctx.rx_work_list).map rx_out.release_entry := by
  unfold rx_complete_emitted
  rw [rx_complete_out, List.append_assoc, List.append_assoc, List.drop_left,
    ← List.append_assoc]

theorem rx_complete_out_emitted (K : zhpe_defs) (ctx : zhpe_rx_ctx) (e : Nat) (status : Int) :
    (zhpe_pe_rx_complete K ctx e status).out = ctx.out ++ rx_complete_emitted K ctx e status := by
  rw [rx_complete_emitted_eq, rx_complete_out, List.append_assoc, List.append_assoc,
    ← List.append_assoc (List.flatMap _ _)]

theorem mem_rx_dcomplete (entries : Nat → zhpe_rx_entry) (l : List Nat) (id : Nat) :
    id ∈ rx_dcomplete entries l ↔
      id ∈ l.takeWhile (rx_terminal entries) ∧
        (entries id).rx_state = ZHPE_RX_STATE_COMPLETE := by
  simp [rx_dcomplete, List.mem_filter]

theorem mem_rx_ddrop (entries : Nat → zhpe_rx_entry) (l : List Nat) (id : Nat) :
    id ∈ rx_ddrop entries l ↔
      id ∈ l.takeWhile (rx_terminal entries) ∧
        (entries id).rx_state = ZHPE_RX_STATE_DROP := by
  simp [rx_ddrop, List.mem_filter]

theorem rx_terminal_of_mem_takeWhile (entries : Nat → zhpe_rx_entry) (l : List Nat) (id : Nat)
    (h : id ∈ l.takeWhile (rx_terminal entries)) : rx_terminal entries id = true :=
  (List.mem_takeWhile_imp h)

theorem rx_terminal_iff (entries : Nat → zhpe_rx_entry) (id : Nat) :
    rx_terminal entries id = true ↔
      (entries id).rx_state = ZHPE_RX_STATE_COMPLETE ∨
        (entries id).rx_state = ZHPE_RX_STATE_DROP := by
  simp [rx_terminal]

theorem mem_rx_complete_report (K : zhpe_defs) (entries : Nat → zhpe_rx_entry) (id : Nat)
    (o : rx_out) :
    o ∈ rx_complete_report K entries id ↔
      o = rx_out.report_complete id (rx_zcqe (entries id)) (entries id).pe_root.status
            (entries id).rem ∨
      ((entries id).zhdr.flags &&& K.ZHPE_MSG_ANY_COMPLETE ≠ 0 ∧
        o = rx_out.send_status id (entries id).pe_root.conn (entries id).zhdr
              (entries id).pe_root.status (entries id).rem) := by
  unfold rx_complete_report zhpe_pe_rx_report_complete
  by_cases h : (entries id).zhdr.flags &&& K.ZHPE_MSG_ANY_COMPLETE = 0
  · simp [h]
  · simp [h]

/-- Membership in what a call of `zhpe_pe_rx_complete` appends to the log. -/
theorem mem_rx_complete_emitted (K : zhpe_defs) (ctx : zhpe_rx_ctx) (e : Nat) (status : Int)
    (o : rx_out) :
    o ∈ rx_complete_emitted K ctx e status ↔
      (∃ id ∈ rx_dcomplete (zhpe_pe_rx_complete K ctx e status).entries ctx.rx_work_list,
          o ∈ rx_complete_report K (zhpe_pe_rx_complete K ctx e status).entries id) ∨
      (∃ id ∈ rx_dcomplete (zhpe_pe_rx_complete K ctx e status).entries ctx.rx_work_list,
          o = rx_out.release_entry id) ∨
      (∃ id ∈ rx_ddrop (zhpe_pe_rx_complete K ctx e status).entries ctx.rx_work_list,
          o = rx_out.release_entry id) := by
  rw [rx_complete_emitted_eq]
  simp only [List.mem_append, List.mem_flatMap, List.mem_map, or_assoc]
  constructor
  · rintro (h | ⟨id, h1, h2⟩ | ⟨id, h1, h2⟩)
    · exact Or.inl h
    · exact Or.inr (Or.inl ⟨id, h1, h2.symm⟩)
    · exact Or.inr (Or.inr ⟨id, h1, h2.symm⟩)
  · rintro (h | ⟨id, h1, h2⟩ | ⟨id, h1, h2⟩)
    · exact Or.inl h
    · exact Or.inr (Or.inl ⟨id, h1, h2.symm⟩)
    · exact Or.inr (Or.inr ⟨id, h1, h2.symm⟩)

/-! ## Claims -/

/-- C1: `zhpe_pe_root_update_status` sets the status to `s` when `s < 0` and the
current status is non-negative and changes nothing otherwise; so after any
sequence of calls the status is the first negative value applied (the initial
status when that is already negative or no negative value was applied), and a
status that is negative stays what it is under all further calls. -/
theorem update_status_keeps_first_negative (r : zhpe_pe_root) (s : Int) (ss more : List Int) :
    zhpe_pe_root_update_status r s =
        { r with status := if s < 0 ∧ r.status ≥ 0 then s else r.status } ∧
    (ss.foldl zhpe_pe_root_update_status r).status =
        (if r.status < 0 then r.status
         else ((ss.find? (fun x => decide (x < 0))).getD r.status)) ∧
    ((ss.foldl zhpe_pe_root_update_status r).status < 0 →
        ((ss ++ more).foldl zhpe_pe_root_update_status r).status =
          (ss.foldl zhpe_pe_root_update_status r).status ∧
        ((ss ++ more).foldl zhpe_pe_root_update_status r).status < 0) := by
  have hneg : ∀ (l : List Int) (q : zhpe_pe_root), q.status < 0 →
      l.foldl zhpe_pe_root_update_status q = q := by
    intro l
    induction l with
    | nil => intro q _; rfl
    | cons a t ih =>
      intro q hq
      have : zhpe_pe_root_update_status q a = q := by
        unfold zhpe_pe_root_update_status
        rw [if_neg]
        omega
      rw [List.foldl_cons, this]
      exact ih q hq
  refine ⟨?_, ?_, ?_⟩
  · unfold zhpe_pe_root_update_status
    split <;> rfl
  · induction ss generalizing r with
    | nil => simp
    | cons a t ih =>
      rw [List.foldl_cons, ih]
      unfold zhpe_pe_root_update_status
      by_cases ha : a < 0
      · by_cases hr : r.status < 0
        · have : ¬ (r.status ≥ 0) := by omega
          simp [ha, hr, this]
        · have : r.status ≥ 0 := by omega
          simp [ha, hr, this]
      · by_cases hr : r.status < 0
        · simp [ha, hr]
        · simp [ha, hr]
  · intro h
    rw [List.foldl_append, hneg more _ h]
    exact ⟨rfl, h⟩

/-- C2: `zhpe_pe_rx_complete(e)` marks `e` COMPLETE (no other entry changes)
and then takes off the work list exactly the longest run of entries at its
head that are COMPLETE or DROP: the list before the call is that run followed
by the list after the call, the run holds only such entries, the first entry
left (if any) is in another state, exactly the entries of the run are released,
exactly its COMPLETE entries are reported, and the posted and buffered lists
are untouched.  When the head of the list is in neither state the list and the
log of reports and releases are unchanged. -/
theorem rx_complete_drains_terminal_head (K : zhpe_defs) (ctx : zhpe_rx_ctx) (e : Nat)
    (status : Int) :
    ((zhpe_pe_rx_complete K ctx e status).entries e).rx_state = ZHPE_RX_STATE_COMPLETE ∧
    (∀ id, id ≠ e → (zhpe_pe_rx_complete K ctx e status).entries id = ctx.entries id) ∧
    ctx.rx_work_list =
      ctx.rx_work_list.takeWhile (rx_terminal (zhpe_pe_rx_complete K ctx e status).entries)
        ++ (zhpe_pe_rx_complete K ctx e status).rx_work_list ∧
    (∀ id ∈ ctx.rx_work_list.takeWhile
        (rx_terminal (zhpe_pe_rx_complete K ctx e status).entries),
      ((zhpe_pe_rx_complete K ctx e status).entries id).rx_state = ZHPE_RX_STATE_COMPLETE ∨
      ((zhpe_pe_rx_complete K ctx e status).entries id).rx_state = ZHPE_RX_STATE_DROP) ∧
    (∀ id, (zhpe_pe_rx_complete K ctx e status).rx_work_list.head? = some id →
      ((zhpe_pe_rx_complete K ctx e status).entries id).rx_state ≠ ZHPE_RX_STATE_COMPLETE ∧
      ((zhpe_pe_rx_complete K ctx e status).entries id).rx_state ≠ ZHPE_RX_STATE_DROP) ∧
    (zhpe_pe_rx_complete K ctx e status).out = ctx.out ++ rx_complete_emitted K ctx e status ∧
    (∀ id, rx_out.release_entry id ∈ rx_complete_emitted K ctx e status ↔
      id ∈ ctx.rx_work_list.takeWhile
        (rx_terminal (zhpe_pe_rx_complete K ctx e status).entries)) ∧
    (∀ id, (∃ z s r, rx_out.report_complete id z s r ∈ rx_complete_emitted K ctx e status) ↔
      (id ∈ ctx.rx_work_list.takeWhile
          (rx_terminal (zhpe_pe_rx_complete K ctx e status).entries) ∧
        ((zhpe_pe_rx_complete K ctx e status).entries id).rx_state =
          ZHPE_RX_STATE_COMPLETE)) ∧
    (zhpe_pe_rx_complete K ctx e status).rx_posted_list = ctx.rx_posted_list ∧
    (zhpe_pe_rx_complete K ctx e status).rx_buffered_list = ctx.rx_buffered_list ∧
    (∀ id, ctx.rx_work_list.head? = some id →
      ((zhpe_pe_rx_complete K ctx e status).entries id).rx_state ≠ ZHPE_RX_STATE_COMPLETE →
      ((zhpe_pe_rx_complete K ctx e status).entries id).rx_state ≠ ZHPE_RX_STATE_DROP →
      (zhpe_pe_rx_complete K ctx e status).rx_work_list = ctx.rx_work_list ∧
      (zhpe_pe_rx_complete K ctx e status).out = ctx.out) := by
  refine ⟨?_, ?_, ?_, ?_, ?_, rx_complete_out_emitted K ctx e status, ?_, ?_,
    (rx_complete_frame K ctx e status).1, (rx_complete_frame K ctx e status).2.1, ?_⟩
  · rw [rx_complete_entries]
    simp [rx_completed_entry]
  · intro id hid
    rw [rx_complete_entries, Function.update_noteq hid]
  · conv_rhs => rw [rx_complete_work_list]
    exact (List.takeWhile_append_dropWhile _ _).symm
  · intro id hid
    exact (rx_terminal_iff _ _).1 (rx_terminal_of_mem_takeWhile _ _ _ hid)
  · intro id hid
    rw [rx_complete_work_list] at hid
    have hne : ctx.rx_work_list.dropWhile
        (rx_terminal (zhpe_pe_rx_complete K ctx e status).entries) ≠ [] := by
      intro h0
      rw [h0] at hid
      simp at hid
    have hh := List.head_dropWhile_not
      (rx_terminal (zhpe_pe_rx_complete K ctx e status).entries) ctx.rx_work_list hne
    rw [List.head?_eq_head hne] at hid
    have hid2 : (ctx.rx_work_list.dropWhile
        (rx_terminal (zhpe_pe_rx_complete K ctx e status).entries)).head hne = id :=
      Option.some.inj hid
    rw [hid2] at hh
    have hnt : ¬ (rx_terminal (zhpe_pe_rx_complete K ctx e status).entries id = true) := by
      simp [hh]
    rw [rx_terminal_iff] at hnt
    exact ⟨fun h => hnt (Or.inl h), fun h => hnt (Or.inr h)⟩
  · intro id
    rw [mem_rx_complete_emitted]
    constructor
    · rintro (⟨i, _, h2⟩ | ⟨i, h1, h2⟩ | ⟨i, h1, h2⟩)
      · rw [mem_rx_complete_report] at h2
        rcases h2 with h2 | ⟨_, h2⟩ <;> cases h2
      · cases h2
        exact ((mem_rx_dcomplete _ _ _).1 h1).1
      · cases h2
        exact ((mem_rx_ddrop _ _ _).1 h1).1
    · intro hid
      rcases (rx_terminal_iff _ _).1 (rx_terminal_of_mem_takeWhile _ _ _ hid) with hc | hd
      · exact Or.inr (Or.inl ⟨id, (mem_rx_dcomplete _ _ _).2 ⟨hid, hc⟩, rfl⟩)
      · exact Or.inr (Or.inr ⟨id, (mem_rx_ddrop _ _ _).2 ⟨hid, hd⟩, rfl⟩)
  · intro id
    constructor
    · rintro ⟨z, s, r, h⟩
      rw [mem_rx_complete_emitted] at h
      rcases h with ⟨i, h1, h2⟩ | ⟨i, _, h2⟩ | ⟨i, _, h2⟩
      · rw [mem_rx_complete_report] at h2
        rcases h2 with h2 | ⟨_, h2⟩
        · cases h2
          exact (mem_rx_dcomplete _ _ _).1 h1
        · cases h2
      · cases h2
      · cases h2
    · intro hid
      exact ⟨_, _, _, (mem_rx_complete_emitted K ctx e status _).2
        (Or.inl ⟨id, (mem_rx_dcomplete _ _ _).2 hid,
          (mem_rx_complete_report _ _ _ _).2 (Or.inl rfl)⟩)⟩
  · intro id hhead hc hd
    have hnt : rx_terminal (zhpe_pe_rx_complete K ctx e status).entries id = false := by
      cases hb : rx_terminal (zhpe_pe_rx_complete K ctx e status).entries id
      · rfl
      · rcases (rx_terminal_iff _ _).1 hb with h | h
        · exact absurd h hc
        · exact absurd h hd
    cases hl : ctx.rx_work_list with
    | nil => rw [hl] at hhead; simp at hhead
    | cons a t =>
      rw [hl] at hhead
      simp at hhead
      subst hhead
      have htw : ctx.rx_work_list.takeWhile
          (rx_terminal (zhpe_pe_rx_complete K ctx e status).entries) = [] := by
        rw [hl, List.takeWhile_cons, hnt]
        rfl
      constructor
      · rw [rx_complete_work_list, hl, List.dropWhile_cons, hnt]
        rfl
      · rw [rx_complete_out]
        simp [rx_dcomplete, rx_ddrop, htw]

theorem mem_takeWhile_of_run {α : Type} (p : α → Bool) (a : α) (l1 l2 : List α)
    (h1 : ∀ x ∈ l1, p x = true) (ha : p a = true) :
    a ∈ (l1 ++ a :: l2).takeWhile p := by
  induction l1 with
  | nil => simp [List.takeWhile_cons, ha]
  | cons b t ih =>
    have hb : p b = true := h1 b (List.mem_cons_self _ _)
    have ht : ∀ x ∈ t, p x = true := fun x hx => h1 x (List.mem_cons_of_mem _ hx)
    simp only [List.cons_append, List.takeWhile_cons, hb, if_true]
    exact List.mem_cons_of_mem _ (ih ht)

/-- The entry `e` is drained by the call that completes it when every entry
before it on the work list is already COMPLETE or DROP. -/
theorem rx_complete_self_drained (K : zhpe_defs) (ctx : zhpe_rx_ctx) (e : Nat) (status : Int)
    (l1 l2 : List Nat) (hl : ctx.rx_work_list = l1 ++ e :: l2)
    (h1 : ∀ x ∈ l1, rx_terminal ctx.entries x = true) :
    e ∈ rx_dcomplete (zhpe_pe_rx_complete K ctx e status).entries ctx.rx_work_list := by
  have hst : ((zhpe_pe_rx_complete K ctx e status).entries e).rx_state =
      ZHPE_RX_STATE_COMPLETE := by
    rw [rx_complete_entries]
    simp [rx_completed_entry]
  rw [mem_rx_dcomplete]
  refine ⟨?_, hst⟩
  rw [hl]
  apply mem_takeWhile_of_run
  · intro x hx
    by_cases hxe : x = e
    · subst hxe
      exact (rx_terminal_iff _ _).2 (Or.inl hst)
    · have := h1 x hx
      rw [rx_terminal_iff] at this ⊢
      rw [rx_complete_entries, Function.update_noteq hxe]
      exact this
  · exact (rx_terminal_iff _ _).2 (Or.inl hst)

/-- Every report of the drain carries the descriptor, recorded status and
remaining count of its entry. -/
theorem rx_complete_report_fields (K : zhpe_defs) (ctx : zhpe_rx_ctx) (e : Nat) (status : Int)
    (id : Nat) (z : zhpe_cqe) (s : Int) (r : Nat)
    (h : rx_out.report_complete id z s r ∈ rx_complete_emitted K ctx e status) :
    z = rx_zcqe ((zhpe_pe_rx_complete K ctx e status).entries id) ∧
    s = ((zhpe_pe_rx_complete K ctx e status).entries id).pe_root.status ∧
    r = ((zhpe_pe_rx_complete K ctx e status).entries id).rem := by
  rw [mem_rx_complete_emitted] at h
  rcases h with ⟨i, _, h2⟩ | ⟨i, _, h2⟩ | ⟨i, _, h2⟩
  · rw [mem_rx_complete_report] at h2
    rcases h2 with h2 | ⟨_, h2⟩
    · cases h2
      exact ⟨rfl, rfl, rfl⟩
    · cases h2
  · cases h2
  · cases h2

/-- C4: when `zhpe_pe_rx_complete` is called with a non-negative status on an
entry whose recorded status is non-negative, then with `rem` non-zero the
recorded status becomes `-FI_ETRUNC`, every report of the entry by the drain is
an error completion (negative status `-FI_ETRUNC`) carrying `len = total_len`
and the remaining count `rem`, and that report is made in this call when all
entries before it on the work list are COMPLETE or DROP; with `rem` zero the
recorded status stays as it was (non-negative) and the report carries it. -/
theorem rx_complete_truncation_status (K : zhpe_defs) (ctx : zhpe_rx_ctx) (e : Nat)
    (status : Int) (hK : 0 < K.FI_ETRUNC) (hs : 0 ≤ status)
    (hrec : 0 ≤ (ctx.entries e).pe_root.status) :
    ((ctx.entries e).rem ≠ 0 →
      ((zhpe_pe_rx_complete K ctx e status).entries e).pe_root.status =
          -(K.FI_ETRUNC : Int) ∧
      (∀ z s r, rx_out.report_complete e z s r ∈ rx_complete_emitted K ctx e status →
        s = -(K.FI_ETRUNC : Int) ∧ s < 0 ∧ z.cqe.len = (ctx.entries e).total_len ∧
          r = (ctx.entries e).rem ∧ z = rx_zcqe (ctx.entries e)) ∧
      (∀ l1 l2, ctx.rx_work_list = l1 ++ e :: l2 →
        (∀ x ∈ l1, rx_terminal ctx.entries x = true) →
        rx_out.report_complete e (rx_zcqe (ctx.entries e)) (-(K.FI_ETRUNC : Int))
          (ctx.entries e).rem ∈ rx_complete_emitted K ctx e status)) ∧
    ((ctx.entries e).rem = 0 →
      ((zhpe_pe_rx_complete K ctx e status).entries e).pe_root.status =
          (ctx.entries e).pe_root.status ∧
      (∀ z s r, rx_out.report_complete e z s r ∈ rx_complete_emitted K ctx e status →
        s = (ctx.entries e).pe_root.status ∧ 0 ≤ s ∧
          z.cqe.len = (ctx.entries e).total_len ∧ r = 0) ∧
      (∀ l1 l2, ctx.rx_work_list = l1 ++ e :: l2 →
        (∀ x ∈ l1, rx_terminal ctx.entries x = true) →
        rx_out.report_complete e (rx_zcqe (ctx.entries e)) (ctx.entries e).pe_root.status 0
          ∈ rx_complete_emitted K ctx e status)) := by
  have hz : rx_zcqe ((zhpe_pe_rx_complete K ctx e status).entries e) =
      rx_zcqe (ctx.entries e) := by
    rw [rx_complete_entries]
    simp [rx_completed_entry, rx_zcqe]
  have hrem : ((zhpe_pe_rx_complete K ctx e status).entries e).rem = (ctx.entries e).rem := by
    rw [rx_complete_entries]
    simp [rx_completed_entry]
  have hself : ∀ l1 l2, ctx.rx_work_list = l1 ++ e :: l2 →
      (∀ x ∈ l1, rx_terminal ctx.entries x = true) →
      rx_out.report_complete e (rx_zcqe (ctx.entries e))
        ((zhpe_pe_rx_complete K ctx e status).entries e).pe_root.status
        (ctx.entries e).rem ∈ rx_complete_emitted K ctx e status := by
    intro l1 l2 hl h1
    rw [mem_rx_complete_emitted]
    refine Or.inl ⟨e, rx_complete_self_drained K ctx e status l1 l2 hl h1, ?_⟩
    rw [mem_rx_complete_report, hz, hrem]
    exact Or.inl rfl
  constructor
  · intro hr
    have hst : ((zhpe_pe_rx_complete K ctx e status).entries e).pe_root.status =
        -(K.FI_ETRUNC : Int) := by
      rw [rx_complete_entries]
      have h1 : (-(K.FI_ETRUNC : Int)) < 0 := by omega
      simp [rx_completed_entry, zhpe_pe_root_update_status, hs, hr, h1, hrec]
    refine ⟨hst, ?_, ?_⟩
    · intro z s r h
      obtain ⟨h1, h2, h3⟩ := rx_complete_report_fields K ctx e status e z s r h
      rw [hst] at h2
      rw [hz] at h1
      rw [hrem] at h3
      refine ⟨h2, by omega, ?_, h3, h1⟩
      rw [h1]
      rfl
    · intro l1 l2 hl h1
      have := hself l1 l2 hl h1
      rwa [hst] at this
  · intro hr
    have hst : ((zhpe_pe_rx_complete K ctx e status).entries e).pe_root.status =
        (ctx.entries e).pe_root.status := by
      rw [rx_complete_entries]
      have h1 : ¬ (status < 0) := by omega
      simp [rx_completed_entry, zhpe_pe_root_update_status, hr, h1]
    refine ⟨hst, ?_, ?_⟩
    · intro z s r h
      obtain ⟨h1, h2, h3⟩ := rx_complete_report_fields K ctx e status e z s r h
      rw [hst] at h2
      rw [hz] at h1
      rw [hrem, hr] at h3
      refine ⟨h2, by omega, ?_, h3⟩
      rw [h1]
      rfl
    · intro l1 l2 hl h1
      have := hself l1 l2 hl h1
      rwa [hst, hr] at this

/-- C5: among the calls a drain of `zhpe_pe_rx_complete` makes, a STATUS reply
is sent for an entry exactly when the entry is drained as COMPLETE and its
saved header has an `ANY_COMPLETE` flag set, and every such reply carries the
connection, saved header, final recorded status and `rem` of the entry; an
entry drained as DROP gets neither a completion report nor a STATUS reply. -/
theorem rx_complete_status_reply (K : zhpe_defs) (ctx : zhpe_rx_ctx) (e : Nat) (status : Int)
    (id : Nat) :
    ((∃ c h s r, rx_out.send_status id c h s r ∈ rx_complete_emitted K ctx e status) ↔
      (id ∈ rx_dcomplete (zhpe_pe_rx_complete K ctx e status).entries ctx.rx_work_list ∧
        ((zhpe_pe_rx_complete K ctx e status).entries id).zhdr.flags &&&
          K.ZHPE_MSG_ANY_COMPLETE ≠ 0)) ∧
    (∀ c h s r, rx_out.send_status id c h s r ∈ rx_complete_emitted K ctx e status →
      c = ((zhpe_pe_rx_complete K ctx e status).entries id).pe_root.conn ∧
      h = ((zhpe_pe_rx_complete K ctx e status).entries id).zhdr ∧
      s = ((zhpe_pe_rx_complete K ctx e status).entries id).pe_root.status ∧
      r = ((zhpe_pe_rx_complete K ctx e status).entries id).rem) ∧
    (id ∈ rx_dcomplete (zhpe_pe_rx_complete K ctx e status).entries ctx.rx_work_list →
      rx_out.report_complete id (rx_zcqe ((zhpe_pe_rx_complete K ctx e status).entries id))
        ((zhpe_pe_rx_complete K ctx e status).entries id).pe_root.status
        ((zhpe_pe_rx_complete K ctx e status).entries id).rem
          ∈ rx_complete_emitted K ctx e status) ∧
    (id ∈ rx_ddrop (zhpe_pe_rx_complete K ctx e status).entries ctx.rx_work_list →
      (∀ z s r, rx_out.report_complete id z s r ∉ rx_complete_emitted K ctx e status) ∧
      (∀ c h s r, rx_out.send_status id c h s r ∉ rx_complete_emitted K ctx e status)) := by
  have key : ∀ c h s r, rx_out.send_status id c h s r ∈ rx_complete_emitted K ctx e status →
      id ∈ rx_dcomplete (zhpe_pe_rx_complete K ctx e status).entries ctx.rx_work_list ∧
      ((zhpe_pe_rx_complete K ctx e status).entries id).zhdr.flags &&&
          K.ZHPE_MSG_ANY_COMPLETE ≠ 0 ∧
      c = ((zhpe_pe_rx_complete K ctx e status).entries id).pe_root.conn ∧
      h = ((zhpe_pe_rx_complete K ctx e status).entries id).zhdr ∧
      s = ((zhpe_pe_rx_complete K ctx e status).entries id).pe_root.status ∧
      r = ((zhpe_pe_rx_complete K ctx e status).entries id).rem := by
    intro c h s r hm
    rw [mem_rx_complete_emitted] at hm
    rcases hm with ⟨i, h1, h2⟩ | ⟨i, _, h2⟩ | ⟨i, _, h2⟩
    · rw [mem_rx_complete_report] at h2
      rcases h2 with h2 | ⟨hf, h2⟩
      · cases h2
      · cases h2
        exact ⟨h1, hf, rfl, rfl, rfl, rfl⟩
    · cases h2
    · cases h2
  refine ⟨⟨?_, ?_⟩, ?_, ?_, ?_⟩
  · rintro ⟨c, h, s, r, hm⟩
    exact ⟨(key c h s r hm).1, (key c h s r hm).2.1⟩
  · rintro ⟨hd, hf⟩
    exact ⟨_, _, _, _, (mem_rx_complete_emitted K ctx e status _).2
      (Or.inl ⟨id, hd, (mem_rx_complete_report _ _ _ _).2 (Or.inr ⟨hf, rfl⟩)⟩)⟩
  · intro c h s r hm
    exact (key c h s r hm).2.2
  · intro hd
    exact (mem_rx_complete_emitted K ctx e status _).2
      (Or.inl ⟨id, hd, (mem_rx_complete_report _ _ _ _).2 (Or.inl rfl)⟩)
  · intro hd
    have hdrop := ((mem_rx_ddrop _ _ _).1 hd).2
    constructor
    · intro z s r hm
      rw [mem_rx_complete_emitted] at hm
      rcases hm with ⟨i, h1, h2⟩ | ⟨i, _, h2⟩ | ⟨i, _, h2⟩
      · rw [mem_rx_complete_report] at h2
        rcases h2 with h2 | ⟨_, h2⟩
        · cases h2
          have := ((mem_rx_dcomplete _ _ _).1 h1).2
          rw [hdrop] at this
          cases this
        · cases h2
      · cases h2
      · cases h2
    · intro c h s r hm
      have := ((mem_rx_dcomplete _ _ _).1 (key c h s r hm).1).2
      rw [hdrop] at this
      cases this

/-- Scenario S2: 16 KiB sent into a 4 KiB receive is reported as an error
completion with `-FI_ETRUNC`, `len = 16384` and `rem = 12288`. -/
theorem rx_complete_truncation_status_witness :
    rx_complete_emitted zhpe_defs_example rx_ctx_truncated 1 0 =
      [rx_out.report_complete 1 ⟨0, ⟨1, 1024, 16384, 0, 0, 1⟩⟩ (-265) 12288,
       rx_out.release_entry 1] ∧
    ((zhpe_pe_rx_complete zhpe_defs_example rx_ctx_truncated 1 0).entries 1).pe_root.status =
      -(zhpe_defs_example.FI_ETRUNC : Int) ∧
    rx_out.report_complete 1 (rx_zcqe (rx_ctx_truncated.entries 1))
        (-(zhpe_defs_example.FI_ETRUNC : Int)) (rx_ctx_truncated.entries 1).rem
      ∈ rx_complete_emitted zhpe_defs_example rx_ctx_truncated 1 0 :=
  ⟨by decide,
    ((rx_complete_truncation_status zhpe_defs_example rx_ctx_truncated 1 0 (by decide)
      (by decide) (by decide)).1 (by decide)).1,
    ((rx_complete_truncation_status zhpe_defs_example rx_ctx_truncated 1 0 (by decide)
      (by decide) (by decide)).1 (by decide)).2.2 [] [] rfl (by simp)⟩

/-! ## Helper lemmas: work-list order is append order -/

theorem rx_ordered_of_eq (ctx ctx2 : zhpe_rx_ctx)
    (hh : ctx2.rx_work_hist = ctx.rx_work_hist)
    (ho : rx_reported ctx2.out = rx_reported ctx.out)
    (hw : ctx2.rx_work_list = ctx.rx_work_list) (h : rx_ordered ctx) : rx_ordered ctx2 := by
  unfold rx_ordered at h ⊢
  rw [hh, ho, hw]
  exact h

theorem rx_ordered_set (ctx : zhpe_rx_ctx) (id : Nat) (f : zhpe_rx_entry → zhpe_rx_entry)
    (h : rx_ordered ctx) : rx_ordered (rx_set ctx id f) :=
  rx_ordered_of_eq ctx _ rfl rfl rfl h

theorem rx_ordered_set_state (ctx : zhpe_rx_ctx) (id : Nat) (s : zhpe_rx_state)
    (h : rx_ordered ctx) : rx_ordered (set_rx_state ctx id s) :=
  rx_ordered_of_eq ctx _ rfl rfl rfl h

theorem rx_ordered_posted_insert (ctx : zhpe_rx_ctx) (id : Nat)
    (h : rx_ordered ctx) : rx_ordered (rx_posted_insert_tail ctx id) :=
  rx_ordered_of_eq ctx _ rfl rfl rfl h

theorem rx_ordered_buffered_insert (ctx : zhpe_rx_ctx) (id : Nat)
    (h : rx_ordered ctx) : rx_ordered (rx_buffered_insert_tail ctx id) :=
  rx_ordered_of_eq ctx _ rfl rfl rfl h

theorem rx_reported_append (a b : List rx_out) :
    rx_reported (a ++ b) = rx_reported a ++ rx_reported b := by
  simp [rx_reported, List.filterMap_append]

theorem rx_ordered_emit (ctx : zhpe_rx_ctx) (o : List rx_out) (ho : rx_reported o = [])
    (h : rx_ordered ctx) : rx_ordered (rx_emit ctx o) := by
  refine rx_ordered_of_eq ctx _ rfl ?_ rfl h
  show rx_reported (ctx.out ++ o) = rx_reported ctx.out
  rw [rx_reported_append, ho, List.append_nil]

theorem rx_ordered_remove (ctx : zhpe_rx_ctx) (id : Nat)
    (h : rx_ordered ctx) : rx_ordered (rx_dlist_remove ctx id) := by
  obtain ⟨h1, h2, hh, hr, hw⟩ := h
  exact ⟨h1, h2, hh, hr, (List.erase_sublist id ctx.rx_work_list).trans hw⟩

theorem rx_ordered_work_insert (ctx : zhpe_rx_ctx) (id : Nat)
    (h : rx_ordered ctx) : rx_ordered (rx_work_insert_tail ctx id) := by
  obtain ⟨h1, h2, hh, hr, hw⟩ := h
  refine ⟨h1, h2 ++ [id], ?_, hr, ?_⟩
  · show ctx.rx_work_hist ++ [id] = h1 ++ (h2 ++ [id])
    rw [hh, List.append_assoc]
  · show (ctx.rx_work_list ++ [id]).Sublist (h2 ++ [id])
    exact List.Sublist.append hw (List.Sublist.refl _)

theorem rx_reported_complete_report (K : zhpe_defs) (entries : Nat → zhpe_rx_entry)
    (l : List Nat) :
    rx_reported (l.flatMap (rx_complete_report K entries)) = l := by
  induction l with
  | nil => rfl
  | cons a t ih =>
    rw [List.flatMap_cons, rx_reported_append, ih]
    unfold rx_complete_report zhpe_pe_rx_report_complete
    by_cases h : (entries a).zhdr.flags &&& K.ZHPE_MSG_ANY_COMPLETE = 0
    · simp [h, rx_reported]
    · simp [h, rx_reported]

theorem rx_reported_release (l : List Nat) :
    rx_reported (l.map rx_out.release_entry) = [] := by
  induction l with
  | nil => rfl
  | cons a t ih =>
    rw [List.map_cons]
    show rx_reported ([rx_out.release_entry a] ++ _) = []
    rw [rx_reported_append, ih]
    rfl

/-- What the drain reports is, in order, the COMPLETE entries of the drained run. -/
theorem rx_reported_emitted (K : zhpe_defs) (ctx : zhpe_rx_ctx) (e : Nat) (status : Int) :
    rx_reported (rx_complete_emitted K ctx e status) =
      rx_dcomplete (zhpe_pe_rx_complete K ctx e status).entries ctx.rx_work_list := by
  rw [rx_complete_emitted_eq, rx_reported_append, rx_reported_append,
    rx_reported_complete_report, rx_reported_release, rx_reported_release]
  simp

theorem sublist_append_split {α : Type} (l1 l2 h : List α) (hs : (l1 ++ l2).Sublist h) :
    ∃ a b, h = a ++ b ∧ l1.Sublist a ∧ l2.Sublist b := by
  induction h generalizing l1 with
  | nil =>
    have : l1 ++ l2 = [] := List.eq_nil_of_sublist_nil hs
    have h1 : l1 = [] := (List.append_eq_nil.1 this).1
    have h2 : l2 = [] := (List.append_eq_nil.1 this).2
    subst h1; subst h2
    exact ⟨[], [], rfl, List.Sublist.refl _, List.Sublist.refl _⟩
  | cons x t ih =>
    cases l1 with
    | nil =>
      exact ⟨[], x :: t, rfl, List.Sublist.refl _, by simpa using hs⟩
    | cons y l1t =>
      rw [List.cons_append] at hs
      cases hs with
      | cons _ hs2 =>
        obtain ⟨a, b, hab, ha, hb⟩ := ih (y :: l1t) (by simpa using hs2)
        exact ⟨x :: a, b, by rw [hab]; rfl, List.Sublist.cons _ ha, hb⟩
      | cons₂ _ hs2 =>
        obtain ⟨a, b, hab, ha, hb⟩ := ih l1t hs2
        exact ⟨x :: a, b, by rw [hab]; rfl, List.Sublist.cons₂ _ ha, hb⟩

theorem rx_ordered_complete (K : zhpe_defs) (ctx : zhpe_rx_ctx) (e : Nat) (status : Int)
    (h : rx_ordered ctx) : rx_ordered (zhpe_pe_rx_complete K ctx e status) := by
  obtain ⟨h1, h2, hh, hr, hw⟩ := h
  have hsplit : ctx.rx_work_list =
      ctx.rx_work_list.takeWhile (rx_terminal (zhpe_pe_rx_complete K ctx e status).entries) ++
      (zhpe_pe_rx_complete K ctx e status).rx_work_list := by
    conv_rhs => rw [rx_complete_work_list]
    exact (List.takeWhile_append_dropWhile _ _).symm
  rw [hsplit] at hw
  obtain ⟨a, b, hab, ha, hb⟩ := sublist_append_split _ _ _ hw
  refine ⟨h1 ++ a, b, ?_, ?_, hb⟩
  · rw [(rx_complete_frame K ctx e status).2.2.1, hh, hab, List.append_assoc]
  · rw [rx_complete_out_emitted, rx_reported_append, rx_reported_emitted]
    refine List.Sublist.append hr (List.Sublist.trans ?_ ha)
    unfold rx_dcomplete
    exact List.filter_sublist _

theorem rx_ordered_discard (K : zhpe_defs) (ctx : zhpe_rx_ctx) (e : Nat)
    (h : rx_ordered ctx) : rx_ordered (zhpe_pe_rx_discard_recv K ctx e) := by
  unfold zhpe_pe_rx_discard_recv
  simp only []
  repeat (first
    | assumption
    | with_reducible apply rx_ordered_set_state
    | with_reducible apply rx_ordered_work_insert
    | with_reducible apply rx_ordered_remove
    | rfl
    | with_reducible apply rx_ordered_emit
    | split)

theorem rx_ordered_get_copy_complete (K : zhpe_defs) (o : rx_env) (ctx : zhpe_rx_ctx) (e : Nat)
    (h : rx_ordered ctx) : rx_ordered (rx_get_copy_complete K o ctx e) := by
  unfold rx_get_copy_complete
  simp only []
  repeat (first
    | assumption
    | with_reducible apply rx_ordered_complete
    | with_reducible apply rx_ordered_set)

theorem rx_ordered_get_complete (K : zhpe_defs) (o : rx_env) (ctx : zhpe_rx_ctx) (e : Nat)
    (h : rx_ordered ctx) : rx_ordered (rx_get_complete K o ctx e) := by
  unfold rx_get_complete
  simp only []
  repeat (first
    | assumption
    | with_reducible apply rx_ordered_complete
    | with_reducible apply rx_ordered_get_copy_complete
    | with_reducible apply rx_ordered_discard
    | with_reducible apply rx_ordered_set_state
    | with_reducible apply rx_ordered_set
    | rfl
    | with_reducible apply rx_ordered_emit
    | split)

theorem rx_ordered_get_issue (K : zhpe_defs) (o : rx_env) (ctx : zhpe_rx_ctx) (e : Nat)
    (h : rx_ordered ctx) : rx_ordered (rx_get_issue K o ctx e) := by
  unfold rx_get_issue
  simp only []
  repeat (first
    | assumption
    | with_reducible apply rx_ordered_get_complete
    | with_reducible apply rx_ordered_set
    | rfl
    | with_reducible apply rx_ordered_emit
    | split)

theorem rx_ordered_aborted (ctx : zhpe_rx_ctx) (h : rx_ordered ctx) :
    rx_ordered { ctx with aborted := true } :=
  rx_ordered_of_eq ctx _ rfl rfl rfl h

theorem rx_ordered_get (K : zhpe_defs) (o : rx_env) (ctx : zhpe_rx_ctx) (e : Nat)
    (retry : Bool) (h : rx_ordered ctx) : rx_ordered (zhpe_pe_rx_get K o ctx e retry) := by
  unfold zhpe_pe_rx_get
  simp only []
  repeat (first
    | assumption
    | with_reducible apply rx_ordered_get_complete
    | with_reducible apply rx_ordered_get_issue
    | with_reducible apply rx_ordered_discard
    | with_reducible apply rx_ordered_aborted
    | with_reducible apply rx_ordered_set
    | split)

theorem rx_ordered_user_drop (ctx : zhpe_rx_ctx) (u : Nat) (linked : Bool)
    (h : rx_ordered ctx) : rx_ordered (rx_user_drop ctx u linked) := by
  unfold rx_user_drop
  simp only []
  repeat (first
    | assumption
    | with_reducible apply rx_ordered_set_state
    | with_reducible apply rx_ordered_work_insert
    | with_reducible apply rx_ordered_remove
    | split)

theorem rx_ordered_user_claim_take (K : zhpe_defs) (ctx : zhpe_rx_ctx) (b u : Nat)
    (h : rx_ordered ctx) : rx_ordered (rx_user_claim_take K ctx b u) := by
  unfold rx_user_claim_take
  simp only []
  repeat (first
    | assumption
    | with_reducible apply rx_ordered_set_state
    | with_reducible apply rx_ordered_set
    | split)

theorem rx_ordered_user_claim_link (K : zhpe_defs) (ctx : zhpe_rx_ctx) (b u : Nat)
    (linked : Bool) (avail msg_len : Nat) (h : rx_ordered ctx) :
    rx_ordered (rx_user_claim_link K ctx b u linked avail msg_len) := by
  unfold rx_user_claim_link
  simp only []
  repeat (first
    | assumption
    | with_reducible apply rx_ordered_user_drop
    | with_reducible apply rx_ordered_posted_insert
    | with_reducible apply rx_ordered_set
    | split)

theorem rx_ordered_user_claim_switch (K : zhpe_defs) (o : rx_env) (ctx : zhpe_rx_ctx) (b : Nat)
    (state : zhpe_rx_state) (msg_len : Nat) (h : rx_ordered ctx) :
    rx_ordered (rx_user_claim_switch K o ctx b state msg_len) := by
  unfold rx_user_claim_switch
  simp only []
  repeat (first
    | assumption
    | with_reducible apply rx_ordered_complete
    | with_reducible apply rx_ordered_get
    | with_reducible apply rx_ordered_aborted
    | with_reducible apply rx_ordered_set_state
    | with_reducible apply rx_ordered_set
    | split)

theorem rx_ordered_user_claim (K : zhpe_defs) (o : rx_env) (ctx : zhpe_rx_ctx) (b u : Nat)
    (linked : Bool) (h : rx_ordered ctx) : rx_ordered (rx_user_claim K o ctx b u linked) := by
  unfold rx_user_claim
  simp only []
  apply rx_ordered_user_claim_switch
  apply rx_ordered_user_claim_link
  exact rx_ordered_user_claim_take K ctx b u h

theorem rx_ordered_post_recv (K : zhpe_defs) (M : rx_matcher) (o : rx_env) (ctx : zhpe_rx_ctx)
    (u : Nat) (h : rx_ordered ctx) : rx_ordered (zhpe_pe_rx_post_recv K M o ctx u) := by
  unfold zhpe_pe_rx_post_recv
  simp only []
  repeat (first
    | assumption
    | with_reducible apply rx_ordered_user_claim
    | with_reducible apply rx_ordered_work_insert
    | with_reducible apply rx_ordered_remove
    | with_reducible apply rx_ordered_posted_insert
    | rfl
    | with_reducible apply rx_ordered_emit
    | split)

theorem rx_ordered_internal0 (ctx : zhpe_rx_ctx) (f : Nat → Option Nat) (h : rx_ordered ctx) :
    rx_ordered { ctx with internal0 := f } :=
  rx_ordered_of_eq ctx _ rfl rfl rfl h

theorem rx_ordered_peek_recv (K : zhpe_defs) (M : rx_matcher) (ctx : zhpe_rx_ctx)
    (fiaddr tag ignore flags context : Nat) (h : rx_ordered ctx) :
    rx_ordered (zhpe_pe_rx_peek_recv K M ctx fiaddr tag ignore flags context) := by
  unfold zhpe_pe_rx_peek_recv
  split
  · exact rx_ordered_emit _ _ (by rfl) h
  · simp only []
    apply rx_ordered_emit _ _ (by rfl)
    split
    · exact rx_ordered_discard K _ _ h
    · split
      · apply rx_ordered_work_insert
        apply rx_ordered_remove
        exact rx_ordered_internal0 _ _ h
      · exact h

theorem rx_ordered_claim_recv (K : zhpe_defs) (o : rx_env) (ctx : zhpe_rx_ctx) (c u : Nat)
    (h : rx_ordered ctx) : rx_ordered (zhpe_pe_rx_claim_recv K o ctx c u) := by
  unfold zhpe_pe_rx_claim_recv
  simp only []
  repeat (first
    | assumption
    | with_reducible apply rx_ordered_discard
    | with_reducible apply rx_ordered_user_claim
    | rfl
    | with_reducible apply rx_ordered_emit
    | split)

theorem rx_ordered_basic_init (ctx : zhpe_rx_ctx) (e : Nat) (m : rx_send_msg)
    (a b c d : Nat) (h : rx_ordered ctx) : rx_ordered (rx_basic_init ctx e m a b c d) :=
  rx_ordered_of_eq ctx _ rfl rfl rfl h

theorem rx_ordered_riov_init (ctx : zhpe_rx_ctx) (e : Nat) (m : rx_send_msg)
    (h : rx_ordered ctx) : rx_ordered (rx_riov_init ctx e m) :=
  rx_ordered_of_eq ctx _ rfl rfl rfl h

theorem rx_ordered_buffered_init (K : zhpe_defs) (ctx : zhpe_rx_ctx) (e : Nat) (m : rx_send_msg)
    (u : Option Nat) (h : rx_ordered ctx) : rx_ordered (rx_buffered_init K ctx e m u).1 := by
  unfold rx_buffered_init
  simp only []
  repeat (first
    | assumption
    | with_reducible apply rx_ordered_set_state
    | with_reducible apply rx_ordered_riov_init
    | with_reducible apply rx_ordered_set
    | split)

theorem rx_ordered_buf_alloc (K : zhpe_defs) (o : rx_env) (ctx : zhpe_rx_ctx) (e : Nat)
    (n : Nat) (h : rx_ordered ctx) : rx_ordered (rx_buf_alloc K o ctx e n).1 := by
  unfold rx_buf_alloc
  simp only []
  repeat (first
    | assumption
    | with_reducible exact rx_ordered_of_eq ctx _ rfl rfl rfl h
    | split)

theorem rx_ordered_handle_send (K : zhpe_defs) (M : rx_matcher) (o : rx_env)
    (ctx : zhpe_rx_ctx) (m : rx_send_msg) (h : rx_ordered ctx) :
    rx_ordered (zhpe_pe_rx_handle_send K M o ctx m).1 := by
  unfold zhpe_pe_rx_handle_send
  split
  rename_i msg_len tag cq_data flags _
  split
  · split
    · exact h
    · rename_i rx_entry _
      have h1 := rx_ordered_buffered_init K _ rx_entry m none
        (rx_ordered_buffered_insert _ rx_entry
          (rx_ordered_basic_init ctx rx_entry m msg_len tag cq_data flags h))
      simp only []
      split
      · rename_i c1 heq
        rw [heq] at h1
        exact h1
      · rename_i c1 heq
        rw [heq] at h1
        have h2 := rx_ordered_buf_alloc K o c1 rx_entry msg_len h1
        split
        · exact rx_ordered_set_state _ _ _ h2
        · exact rx_ordered_get K o _ _ _ h2
  · rename_i rx_posted _
    split
    · split
      · exact h
      · rename_i rx_entry _
        simp only []
        apply rx_ordered_user_claim
        apply rx_ordered_buffered_init
        apply rx_ordered_work_insert
        apply rx_ordered_basic_init
        exact h
    · have h3 : rx_ordered (rx_set (rx_basic_init (rx_work_insert_tail
          (rx_dlist_remove ctx rx_posted) rx_posted) rx_posted m msg_len tag cq_data flags)
          rx_posted (fun e => { e with buf := K.zhpe_ziov_state_ptr e.lstate })) := by
        apply rx_ordered_set
        apply rx_ordered_basic_init
        apply rx_ordered_work_insert
        apply rx_ordered_remove
        exact h
      simp only []
      split
      · apply rx_ordered_complete
        apply rx_ordered_set
        exact h3
      · apply rx_ordered_get
        apply rx_ordered_set_state
        apply rx_ordered_riov_init
        exact h3

theorem rx_ordered_tx_handle_rx_get (K : zhpe_defs) (o : rx_env) (ctx : zhpe_rx_ctx) (e : Nat)
    (success : Bool) (h : rx_ordered ctx) :
    rx_ordered (zhpe_pe_tx_handle_rx_get K o ctx e success) := by
  unfold zhpe_pe_tx_handle_rx_get
  simp only []
  repeat (first
    | assumption
    | with_reducible apply rx_ordered_get
    | with_reducible apply rx_ordered_set
    | split)

theorem rx_ordered_step (K : zhpe_defs) (M : rx_matcher) (ctx : zhpe_rx_ctx)
    (s : rx_step × rx_env) (h : rx_ordered ctx) : rx_ordered (rx_step_apply K M ctx s) := by
  unfold rx_step_apply
  split
  · exact h
  · split
    · exact rx_ordered_post_recv K M _ _ _ h
    · exact rx_ordered_peek_recv K M _ _ _ _ _ _ h
    · exact rx_ordered_claim_recv K _ _ _ _ h
    · exact rx_ordered_handle_send K M _ _ _ h
    · exact rx_ordered_tx_handle_rx_get K _ _ _ _ h
    · exact rx_ordered_get K _ _ _ _ h

theorem rx_ordered_run (K : zhpe_defs) (M : rx_matcher) (steps : List (rx_step × rx_env))
    (ctx : zhpe_rx_ctx) (h : rx_ordered ctx) : rx_ordered (rx_run K M ctx steps) := by
  induction steps generalizing ctx with
  | nil => exact h
  | cons s t ih => exact ih _ (rx_ordered_step K M ctx s h)

theorem run_of_mem_takeWhile {α : Type} (p : α → Bool) (a : α) (l1 l2 : List α)
    (h : a ∈ (l1 ++ a :: l2).takeWhile p) (hn : a ∉ l1) : ∀ x ∈ l1, p x = true := by
  induction l1 with
  | nil => intro x hx; cases hx
  | cons b t ih =>
    have hab : a ≠ b := fun hab => hn (hab ▸ List.mem_cons_self _ _)
    have hat : a ∉ t := fun hat => hn (List.mem_cons_of_mem _ hat)
    rw [List.cons_append, List.takeWhile_cons] at h
    cases hb : p b with
    | false => rw [hb] at h; simp at h
    | true =>
      rw [hb] at h
      simp only [if_true, List.mem_cons] at h
      rcases h with h | h
      · exact absurd h hab
      · intro x hx
        rcases List.mem_cons.1 hx with hx | hx
        · rw [hx]; exact hb
        · exact ih h hat x hx

/-- C3: from any context in which nothing has been reported yet, after any
sequence of post_recv, peek_recv, claim_recv, SEND-arrival and
transfer-completion (or retry) steps, whatever the collaborators return, the
history of appends to `rx_work_list` splits in two parts such that the entries
reported by `zhpe_pe_rx_complete` so far are, in the order of their reports, a
subsequence of the first part, and the entries on the work list are, in list
order, a subsequence of the second: entries are reported in the order in which
they were appended, and every entry still on the list was appended after every
entry reported.  In each single call of `zhpe_pe_rx_complete`, the entries
reported are in work-list order and every entry that precedes a reported entry
on the work list is COMPLETE or DROP and the list left by the call is a tail
of what followed the reported entry, so no entry
is reported past an earlier entry that is still in flight. -/
theorem rx_reports_follow_append_order (K : zhpe_defs) (M : rx_matcher) (ctx0 : zhpe_rx_ctx)
    (steps : List (rx_step × rx_env))
    (hrep : rx_reported ctx0.out = []) (hhist : ctx0.rx_work_hist = ctx0.rx_work_list) :
    (∃ h1 h2, (rx_run K M ctx0 steps).rx_work_hist = h1 ++ h2 ∧
        (rx_reported (rx_run K M ctx0 steps).out).Sublist h1 ∧
        (rx_run K M ctx0 steps).rx_work_list.Sublist h2) ∧
    (∀ (c : zhpe_rx_ctx) (e : Nat) (status : Int),
      (rx_reported (rx_complete_emitted K c e status)).Sublist c.rx_work_list ∧
      (∀ id ∈ rx_reported (rx_complete_emitted K c e status),
        ∀ l1 l2, c.rx_work_list = l1 ++ id :: l2 → id ∉ l1 →
          (∀ x ∈ l1, rx_terminal (zhpe_pe_rx_complete K c e status).entries x = true) ∧
          (∃ l3, l2 = l3 ++ (zhpe_pe_rx_complete K c e status).rx_work_list))) := by
  constructor
  · have h0 : rx_ordered ctx0 :=
      ⟨[], ctx0.rx_work_hist, rfl, by rw [hrep], by rw [hhist]⟩
    exact rx_ordered_run K M steps ctx0 h0
  · intro c e status
    rw [rx_reported_emitted]
    constructor
    · unfold rx_dcomplete
      exact (List.filter_sublist _).trans (List.takeWhile_sublist _)
    · intro id hid l1 l2 hl hn
      have hmem := ((mem_rx_dcomplete _ _ _).1 hid).1
      rw [hl] at hmem
      have hall := run_of_mem_takeWhile _ id l1 l2 hmem hn
      refine ⟨hall, ?_⟩
      have hid_t : rx_terminal (zhpe_pe_rx_complete K c e status).entries id = true :=
        List.mem_takeWhile_imp hmem
      have hdw : (zhpe_pe_rx_complete K c e status).rx_work_list =
          l2.dropWhile (rx_terminal (zhpe_pe_rx_complete K c e status).entries) := by
        rw [rx_complete_work_list, hl]
        have : ∀ (l : List Nat), (∀ y ∈ l, rx_terminal
            (zhpe_pe_rx_complete K c e status).entries y = true) →
            (l ++ id :: l2).dropWhile (rx_terminal (zhpe_pe_rx_complete K c e status).entries) =
              l2.dropWhile (rx_terminal (zhpe_pe_rx_complete K c e status).entries) := by
          intro l
          induction l with
          | nil => intro _; simp [List.dropWhile_cons, hid_t]
          | cons b t ih =>
            intro hb
            rw [List.cons_append, List.dropWhile_cons, hb b (List.mem_cons_self _ _)]
            exact ih (fun y hy => hb y (List.mem_cons_of_mem _ hy))
        exact this l1 hall
      refine ⟨l2.takeWhile (rx_terminal (zhpe_pe_rx_complete K c e status).entries), ?_⟩
      rw [hdw]
      exact (List.takeWhile_append_dropWhile _ _).symm

/-- Two transfers completing out of order are reported in work-list order. -/
theorem rx_reports_follow_append_order_witness :
    rx_reported (rx_run zhpe_defs_example rx_match_example (rx_ctx_example [1, 2])
      (rx_steps_example.take 3)).out = [] ∧
    rx_reported (rx_run zhpe_defs_example rx_match_example (rx_ctx_example [1, 2])
      rx_steps_example).out = [1, 2] ∧
    (rx_run zhpe_defs_example rx_match_example (rx_ctx_example [1, 2])
      rx_steps_example).rx_work_hist = [1, 2] ∧
    ∃ h1 h2, (rx_run zhpe_defs_example rx_match_example (rx_ctx_example [1, 2])
        rx_steps_example).rx_work_hist = h1 ++ h2 ∧
      (rx_reported (rx_run zhpe_defs_example rx_match_example (rx_ctx_example [1, 2])
        rx_steps_example).out).Sublist h1 ∧
      (rx_run zhpe_defs_example rx_match_example (rx_ctx_example [1, 2])
        rx_steps_example).rx_work_list.Sublist h2 :=
  ⟨by decide, by decide, by decide,
    (rx_reports_follow_append_order zhpe_defs_example rx_match_example (rx_ctx_example [1, 2])
      rx_steps_example rfl rfl).1⟩

/-! ## Helper lemmas: the ring reader -/

theorem and_two_pow_ne_zero (h p : Nat) : h &&& 2 ^ p ≠ 0 ↔ h / 2 ^ p % 2 = 1 := by
  have key : h &&& 2 ^ p = 0 ↔ h.testBit p = false := by
    constructor
    · intro h0
      have := Nat.testBit_and h (2 ^ p) p
      rw [h0, Nat.zero_testBit, Nat.testBit_two_pow_self, Bool.and_true] at this
      exact this.symm
    · intro hb
      apply Nat.eq_of_testBit_eq
      intro i
      rw [Nat.testBit_and, Nat.zero_testBit, Nat.testBit_two_pow]
      by_cases hpi : p = i
      · subst hpi; simp [hb]
      · simp [hpi]
  rw [Ne, key, Nat.testBit_to_div_mod]
  simp

theorem div_two_pow_mod_32 (x p : Nat) (hp : p < 32) :
    x % 2 ^ 32 / 2 ^ p % 2 = x / 2 ^ p % 2 := by
  have h32 : (2 : Nat) ^ 32 = 2 ^ p * 2 ^ (32 - p) := by
    rw [← Nat.pow_add]
    congr 1
    omega
  rw [h32, Nat.mod_mul_right_div_self]
  have hd : 2 ∣ 2 ^ (32 - p) := by
    have : 32 - p = (32 - p - 1) + 1 := by omega
    rw [this, Nat.pow_succ]
    exact Nat.dvd_mul_left 2 _
  exact Nat.mod_mod_of_dvd _ hd

theorem rx_ring_valid_eq (K : zhpe_defs) (mask p h : Nat) (hm : mask + 1 = 2 ^ p) :
    rx_ring_valid K mask h =
      if h / 2 ^ p % 2 = 1 then 0 else K.ZHPE_MSG_VALID_TOGGLE % 256 := by
  unfold rx_ring_valid
  rw [hm]
  by_cases hb : h / 2 ^ p % 2 = 1
  · rw [if_pos ((and_two_pow_ne_zero h p).2 hb), if_pos hb]
  · rw [if_neg (fun hc => hb ((and_two_pow_ne_zero h p).1 hc)), if_neg hb]

theorem rx_ring_valid_add (K : zhpe_defs) (mask p h : Nat) (hp : p < 32)
    (hm : mask + 1 = 2 ^ p) :
    rx_ring_valid K mask ((h + (mask + 1)) % 2 ^ 32) =
      if h / 2 ^ p % 2 = 1 then K.ZHPE_MSG_VALID_TOGGLE % 256 else 0 := by
  rw [rx_ring_valid_eq K mask p _ hm, div_two_pow_mod_32 _ p hp, hm,
    Nat.add_div_right _ (Nat.two_pow_pos p)]
  by_cases hb : h / 2 ^ p % 2 = 1
  · have : ¬ ((h / 2 ^ p).succ % 2 = 1) := by omega
    rw [if_neg this, if_pos hb]
  · have : (h / 2 ^ p).succ % 2 = 1 := by omega
    rw [if_pos this, if_neg hb]

theorem rx_ring_valid_add_ne (K : zhpe_defs) (mask p h : Nat) (hp : p < 32)
    (hm : mask + 1 = 2 ^ p)
    (hT : 0 < K.ZHPE_MSG_VALID_TOGGLE ∧ K.ZHPE_MSG_VALID_TOGGLE < 256) :
    rx_ring_valid K mask ((h + (mask + 1)) % 2 ^ 32) ≠ rx_ring_valid K mask h := by
  have hTm : K.ZHPE_MSG_VALID_TOGGLE % 256 = K.ZHPE_MSG_VALID_TOGGLE := Nat.mod_eq_of_lt hT.2
  rw [rx_ring_valid_add K mask p h hp hm, rx_ring_valid_eq K mask p h hm, hTm]
  by_cases hb : h / 2 ^ p % 2 = 1
  · rw [if_pos hb, if_pos hb]
    omega
  · rw [if_neg hb, if_neg hb]
    omega

/-- C6: for a ring of capacity `N = mask + 1 = 2 ^ p` (with `p < 32`, so that
`N` is a bit of a 32-bit index) and every index `h`, the expected
toggle computed by the ring reader is `ZHPE_MSG_VALID_TOGGLE` when bit `N` of
`h` is clear and 0 when it is set; it is the same for all indices of one
revolution, differs between `h` and `h + N` and is equal for `h` and `h + 2N`,
the index arithmetic being modulo `2 ^ 32`. -/
theorem rx_ring_expected_toggle (K : zhpe_defs) (mask p h : Nat) (hp : p < 32)
    (hm : mask + 1 = 2 ^ p)
    (hT : 0 < K.ZHPE_MSG_VALID_TOGGLE ∧ K.ZHPE_MSG_VALID_TOGGLE < 256) :
    rx_ring_valid K mask h = (if h.testBit p then 0 else K.ZHPE_MSG_VALID_TOGGLE) ∧
    rx_ring_valid K mask h = (if h &&& (mask + 1) ≠ 0 then 0 else K.ZHPE_MSG_VALID_TOGGLE) ∧
    (∀ h2, h2 / (mask + 1) = h / (mask + 1) →
      rx_ring_valid K mask h2 = rx_ring_valid K mask h) ∧
    rx_ring_valid K mask ((h + (mask + 1)) % 2 ^ 32) ≠ rx_ring_valid K mask h ∧
    rx_ring_valid K mask ((h + 2 * (mask + 1)) % 2 ^ 32) = rx_ring_valid K mask h := by
  have hTm : K.ZHPE_MSG_VALID_TOGGLE % 256 = K.ZHPE_MSG_VALID_TOGGLE := Nat.mod_eq_of_lt hT.2
  refine ⟨?_, ?_, ?_, ?_, ?_⟩
  · rw [rx_ring_valid_eq K mask p h hm, hTm, Nat.testBit_to_div_mod]
    by_cases hb : h / 2 ^ p % 2 = 1
    · simp [hb]
    · simp [hb]
  · unfold rx_ring_valid
    rw [hTm]
  · intro h2 hq
    rw [hm] at hq
    rw [rx_ring_valid_eq K mask p h hm, rx_ring_valid_eq K mask p h2 hm, hq]
  · exact rx_ring_valid_add_ne K mask p h hp hm hT
  · have e1 : (h + 2 * (mask + 1)) % 2 ^ 32 =
        ((h + (mask + 1)) % 2 ^ 32 + (mask + 1)) % 2 ^ 32 := by
      rw [Nat.mod_add_mod]
      congr 1
      omega
    rw [e1, rx_ring_valid_add K mask p _ hp hm, div_two_pow_mod_32 _ p hp, hm,
      Nat.add_div_right _ (Nat.two_pow_pos p), rx_ring_valid_eq K mask p h hm]
    by_cases hb : h / 2 ^ p % 2 = 1
    · have : ¬ ((h / 2 ^ p).succ % 2 = 1) := by omega
      rw [if_neg this, if_pos hb]
    · have : (h / 2 ^ p).succ % 2 = 1 := by omega
      rw [if_pos this, if_neg hb]

/-- A ring of 4 slots: indices 0..3 expect the toggle, 4..7 expect 0. -/
theorem rx_ring_expected_toggle_witness :
    rx_ring_valid zhpe_defs_example 3 5 = 0 ∧
    rx_ring_valid zhpe_defs_example 3 ((5 + (3 + 1)) % 2 ^ 32) = 128 ∧
    rx_ring_valid zhpe_defs_example 3 ((5 + (3 + 1)) % 2 ^ 32) ≠
      rx_ring_valid zhpe_defs_example 3 5 ∧
    rx_ring_valid zhpe_defs_example 3 ((5 + 2 * (3 + 1)) % 2 ^ 32) =
      rx_ring_valid zhpe_defs_example 3 5 :=
  ⟨by decide, by decide,
    (rx_ring_expected_toggle zhpe_defs_example 3 2 5 (by decide) (by decide)
      (by decide)).2.2.2.1,
    (rx_ring_expected_toggle zhpe_defs_example 3 2 5 (by decide) (by decide)
      (by decide)).2.2.2.2⟩

theorem rx_ready_slots_length_le (K : zhpe_defs) (ring : zhpe_rx_local) (n r : Nat) :
    (rx_ready_slots K ring n r).length ≤ n := by
  induction n generalizing r with
  | zero => simp [rx_ready_slots]
  | succ n ih =>
    unfold rx_ready_slots
    split
    · simp only [List.length_cons]
      exact Nat.succ_le_succ (ih _)
    · simp

theorem rx_ready_slots_ready (K : zhpe_defs) (ring : zhpe_rx_local) (n r : Nat) :
    ∀ x ∈ rx_ready_slots K ring n r, rx_slot_ready K ring x = true := by
  induction n generalizing r with
  | zero => intro x hx; simp [rx_ready_slots] at hx
  | succ n ih =>
    intro x hx
    unfold rx_ready_slots at hx
    split at hx
    · rename_i hr
      rcases List.mem_cons.1 hx with h | h
      · rw [h]; exact hr
      · exact ih _ x h
    · cases hx

theorem rx_ready_slots_stop (K : zhpe_defs) (ring : zhpe_rx_local) (n r : Nat)
    (hr : r < 2 ^ 32) (hlt : (rx_ready_slots K ring n r).length < n) :
    rx_slot_ready K ring ((r + (rx_ready_slots K ring n r).length) % 2 ^ 32) = false := by
  induction n generalizing r with
  | zero => omega
  | succ n ih =>
    unfold rx_ready_slots at hlt ⊢
    split
    · rename_i hrd
      rw [if_pos hrd] at hlt
      simp only [List.length_cons] at hlt ⊢
      have h1 := ih ((r + 1) % 2 ^ 32) (Nat.mod_lt _ (by decide)) (by omega)
      have e : ((r + 1) % 2 ^ 32 + (rx_ready_slots K ring n ((r + 1) % 2 ^ 32)).length) % 2 ^ 32
          = (r + ((rx_ready_slots K ring n ((r + 1) % 2 ^ 32)).length + 1)) % 2 ^ 32 := by
        rw [Nat.mod_add_mod]
        congr 1
        omega
      rw [e] at h1
      exact h1
    · rename_i hrd
      simp only [List.length_nil, Nat.add_zero]
      rw [Nat.mod_eq_of_lt hr]
      simpa using hrd

theorem rx_ready_slots_range (K : zhpe_defs) (ring : zhpe_rx_local) (n r : Nat)
    (hr : r < 2 ^ 32) :
    rx_ready_slots K ring n r =
      (List.range (rx_ready_slots K ring n r).length).map (fun j => (r + j) % 2 ^ 32) := by
  induction n generalizing r with
  | zero => simp [rx_ready_slots]
  | succ n ih =>
    unfold rx_ready_slots
    split
    · have h1 := ih ((r + 1) % 2 ^ 32) (Nat.mod_lt _ (by decide))
      simp only [List.length_cons]
      rw [List.range_succ_eq_map, List.map_cons, List.map_map]
      have e0 : (r + 0) % 2 ^ 32 = r := by rw [Nat.add_zero, Nat.mod_eq_of_lt hr]
      rw [e0]
      congr 1
      conv_lhs => rw [h1]
      apply List.map_congr_left
      intro j _
      simp only [Function.comp, Nat.mod_add_mod]
      congr 1
      omega
    · simp

/-- After a full revolution the slot read first is no longer ready. -/
theorem rx_slot_not_ready_after_revolution (K : zhpe_defs) (ring : zhpe_rx_local) (p r : Nat)
    (hp : p < 32) (hm : ring.mask + 1 = 2 ^ p)
    (hT : 0 < K.ZHPE_MSG_VALID_TOGGLE ∧ K.ZHPE_MSG_VALID_TOGGLE < 256)
    (hrd : rx_slot_ready K ring r = true) :
    rx_slot_ready K ring ((r + (ring.mask + 1)) % 2 ^ 32) = false := by
  have hmask : ring.mask = 2 ^ p - 1 := by omega
  have hidx : ((r + (ring.mask + 1)) % 2 ^ 32) &&& ring.mask = r &&& ring.mask := by
    rw [hm, hmask, Nat.and_pow_two_sub_one_eq_mod, Nat.and_pow_two_sub_one_eq_mod]
    have hd : 2 ^ p ∣ 2 ^ 32 := Nat.pow_dvd_pow 2 (by omega)
    rw [Nat.mod_mod_of_dvd _ hd, Nat.add_mod_right]
  have hne := rx_ring_valid_add_ne K ring.mask p r hp hm hT
  unfold rx_slot_ready at hrd ⊢
  rw [hidx]
  simp only [decide_eq_true_eq] at hrd
  simp only [decide_eq_false_iff_not]
  rw [hrd]
  exact fun h => hne h.symm

/-- The run of ready slots found from `head` within one revolution ends at a
slot that is not ready. -/
theorem rx_ready_slots_end (K : zhpe_defs) (ring : zhpe_rx_local) (p r : Nat)
    (hp : p < 32) (hm : ring.mask + 1 = 2 ^ p) (hr : r < 2 ^ 32)
    (hT : 0 < K.ZHPE_MSG_VALID_TOGGLE ∧ K.ZHPE_MSG_VALID_TOGGLE < 256) :
    rx_slot_ready K ring
      ((r + (rx_ready_slots K ring (ring.mask + 1) r).length) % 2 ^ 32) = false := by
  rcases Nat.lt_or_ge (rx_ready_slots K ring (ring.mask + 1) r).length (ring.mask + 1) with h | h
  · exact rx_ready_slots_stop K ring _ r hr h
  · have hle := rx_ready_slots_length_le K ring (ring.mask + 1) r
    have heq : (rx_ready_slots K ring (ring.mask + 1) r).length = ring.mask + 1 := by omega
    rw [heq]
    apply rx_slot_not_ready_after_revolution K ring p r hp hm hT
    have hmem : r ∈ rx_ready_slots K ring (ring.mask + 1) r := by
      have hrd : rx_slot_ready K ring r = true := by
        cases hb : rx_slot_ready K ring r
        · exfalso
          have : rx_ready_slots K ring (ring.mask + 1) r = [] := by
            unfold rx_ready_slots
            rw [hb]
            rfl
          rw [this] at heq
          simp at heq
        · rfl
      unfold rx_ready_slots
      rw [if_pos hrd]
      exact List.mem_cons_self _ _
    exact rx_ready_slots_ready K ring _ r r hmem

/-- The inner loop dispatches and releases the run of ready slots, in order,
and stops at the first slot that is not ready. -/
theorem rx_ring_scan_eq {σ : Type} (K : zhpe_defs) (H : rx_handlers σ) (ci : Nat)
    (ring : zhpe_rx_local) (n : Nat) :
    ∀ (fuel r : Nat) (ret : Int) (s : σ) (tr : List rx_ring_event), r < 2 ^ 32 →
      (rx_ready_slots K ring n r).length < fuel →
      rx_slot_ready K ring ((r + (rx_ready_slots K ring n r).length) % 2 ^ 32) = false →
      rx_ring_scan K H ci ring fuel r ret s tr =
        some ((r + (rx_ready_slots K ring n r).length) % 2 ^ 32,
          (rx_slots_run K H ci ring (rx_ready_slots K ring n r) s ret).2,
          (rx_slots_run K H ci ring (rx_ready_slots K ring n r) s ret).1,
          tr ++ rx_slots_trace ci ring (rx_ready_slots K ring n r)) := by
  have stop : ∀ (fuel r : Nat) (ret : Int) (s : σ) (tr : List rx_ring_event), 0 < fuel →
      rx_slot_ready K ring r = false →
      rx_ring_scan K H ci ring fuel r ret s tr = some (r, ret, s, tr) := by
    intro fuel r ret s tr hf hnr
    obtain ⟨f, rfl⟩ : ∃ f, fuel = f + 1 := ⟨fuel - 1, by omega⟩
    unfold rx_ring_scan
    unfold rx_slot_ready at hnr
    simp only [decide_eq_false_iff_not] at hnr
    simp only []
    rw [if_pos hnr]
  induction n with
  | zero =>
    intro fuel r ret s tr hr hf hnr
    simp only [rx_ready_slots, List.length_nil, Nat.add_zero] at hf hnr ⊢
    rw [Nat.mod_eq_of_lt hr] at hnr ⊢
    rw [stop fuel r ret s tr hf hnr]
    simp [rx_slots_run, rx_slots_trace]
  | succ n ih =>
    intro fuel r ret s tr hr hf hnr
    cases hrd : rx_slot_ready K ring r with
    | false =>
      have hnil : rx_ready_slots K ring (n + 1) r = [] := by
        unfold rx_ready_slots
        rw [hrd]
        rfl
      rw [hnil] at hf hnr ⊢
      simp only [List.length_nil, Nat.add_zero] at hf hnr ⊢
      rw [Nat.mod_eq_of_lt hr]
      rw [stop fuel r ret s tr hf hrd]
      simp [rx_slots_run, rx_slots_trace]
    | true =>
      have hcons : rx_ready_slots K ring (n + 1) r =
          r :: rx_ready_slots K ring n ((r + 1) % 2 ^ 32) := by
        conv_lhs => unfold rx_ready_slots
        rw [if_pos hrd]
      rw [hcons] at hf hnr ⊢
      simp only [List.length_cons] at hf hnr ⊢
      obtain ⟨f, rfl⟩ : ∃ f, fuel = f + 1 := ⟨fuel - 1, by omega⟩
      have e : ((r + 1) % 2 ^ 32 + (rx_ready_slots K ring n ((r + 1) % 2 ^ 32)).length) % 2 ^ 32
          = (r + ((rx_ready_slots K ring n ((r + 1) % 2 ^ 32)).length + 1)) % 2 ^ 32 := by
        rw [Nat.mod_add_mod]
        congr 1
        omega
      have hrd2 := hrd
      unfold rx_slot_ready at hrd2
      simp only [decide_eq_true_eq] at hrd2
      conv_lhs => unfold rx_ring_scan
      simp only []
      rw [if_neg (not_not.2 hrd2)]
      rw [ih f ((r + 1) % 2 ^ 32) _ _ _ (Nat.mod_lt _ (by decide)) (by omega)
        (by rw [e]; exact hnr), e]
      simp [rx_slots_run, rx_slots_trace, List.append_assoc]

theorem rx_conn_visit_not_ready (K : zhpe_defs) (conn : zhpe_conn)
    (h : conn.state ≠ ZHPE_CONN_STATE_READY) : rx_conn_visit K conn = conn := by
  unfold rx_conn_visit rx_conn_head
  rw [if_pos h]

/-- The outer loop visits the connections in table order up to the first one
whose scan ends with an error result. -/
theorem rx_ep_loop_eq {σ : Type} (K : zhpe_defs) (H : rx_handlers σ) (fuel : Nat)
    (hT : 0 < K.ZHPE_MSG_VALID_TOGGLE ∧ K.ZHPE_MSG_VALID_TOGGLE < 256)
    (table : List zhpe_conn) :
    ∀ (i : Nat) (ret : Int) (s : σ) (tr : List rx_ring_event),
      (∀ conn ∈ table, rx_ring_wf conn.rx_local ∧ conn.rx_local.mask + 1 < fuel) →
      ∃ ret2 s2 n,
        rx_ep_loop K H fuel i table ret s tr =
          some (ret2, (table.take n).map (rx_conn_visit K) ++ table.drop n, s2,
            tr ++ rx_ep_trace K i (table.take n)) ∧
        n ≤ table.length ∧ (n < table.length → 0 < n ∧ K.OFI_UNLIKELY ret2 < 0) := by
  induction table with
  | nil =>
    intro i ret s tr _
    exact ⟨ret, s, 0, by simp [rx_ep_loop, rx_ep_trace], Nat.le_refl _, fun h => absurd h (by simp)⟩
  | cons conn rest ih =>
    intro i ret s tr hwf
    have hrest : ∀ c ∈ rest, rx_ring_wf c.rx_local ∧ c.rx_local.mask + 1 < fuel :=
      fun c hc => hwf c (List.mem_cons_of_mem _ hc)
    by_cases hst : conn.state ≠ ZHPE_CONN_STATE_READY
    · obtain ⟨ret2, s2, n, heq, hn, hab⟩ := ih (i + 1) ret s tr hrest
      refine ⟨ret2, s2, n + 1, ?_, by simp; omega, ?_⟩
      · unfold rx_ep_loop
        rw [if_pos hst, heq]
        simp [rx_ep_trace, rx_conn_trace, hst, rx_conn_visit_not_ready K conn hst]
      · intro hlt
        simp only [List.length_cons] at hlt
        exact ⟨Nat.succ_pos _, (hab (by omega)).2⟩
    · obtain ⟨⟨p, hp, hm, hh⟩, hfuel⟩ := hwf conn (List.mem_cons_self _ _)
      have hend := rx_ready_slots_end K conn.rx_local p conn.rx_local.head hp hm hh hT
      have hlen := rx_ready_slots_length_le K conn.rx_local (conn.rx_local.mask + 1)
        conn.rx_local.head
      have hscan := rx_ring_scan_eq K H i conn.rx_local (conn.rx_local.mask + 1) fuel
        conn.rx_local.head ret s tr hh (by omega) hend
      have hvisit : rx_conn_visit K conn =
          { conn with rx_local := { conn.rx_local with head :=
              (conn.rx_local.head + (rx_ready_slots K conn.rx_local (conn.rx_local.mask + 1)
                conn.rx_local.head).length) % 2 ^ 32 } } := by
        unfold rx_conn_visit rx_conn_head
        rw [if_neg hst]
      have htrace : rx_conn_trace K i conn = rx_slots_trace i conn.rx_local
          (rx_ready_slots K conn.rx_local (conn.rx_local.mask + 1) conn.rx_local.head) := by
        unfold rx_conn_trace
        rw [if_neg hst]
      by_cases hneg : K.OFI_UNLIKELY (rx_slots_run K H i conn.rx_local
          (rx_ready_slots K conn.rx_local (conn.rx_local.mask + 1) conn.rx_local.head) s ret).2 < 0
      · refine ⟨(rx_slots_run K H i conn.rx_local (rx_ready_slots K conn.rx_local
            (conn.rx_local.mask + 1) conn.rx_local.head) s ret).2,
          (rx_slots_run K H i conn.rx_local (rx_ready_slots K conn.rx_local
            (conn.rx_local.mask + 1) conn.rx_local.head) s ret).1, 1, ?_, by simp,
          fun _ => ⟨Nat.one_pos, hneg⟩⟩
        unfold rx_ep_loop
        rw [if_neg hst, hscan]
        simp only []
        rw [if_pos hneg]
        simp [rx_ep_trace, htrace, hvisit]
      · obtain ⟨ret2, s2, n, heq, hn, hab⟩ := ih (i + 1)
          (rx_slots_run K H i conn.rx_local (rx_ready_slots K conn.rx_local
            (conn.rx_local.mask + 1) conn.rx_local.head) s ret).2
          (rx_slots_run K H i conn.rx_local (rx_ready_slots K conn.rx_local
            (conn.rx_local.mask + 1) conn.rx_local.head) s ret).1
          (tr ++ rx_slots_trace i conn.rx_local (rx_ready_slots K conn.rx_local
            (conn.rx_local.mask + 1) conn.rx_local.head)) hrest
        refine ⟨ret2, s2, n + 1, ?_, by simp; omega, ?_⟩
        · unfold rx_ep_loop
          rw [if_neg hst, hscan]
          simp only []
          rw [if_neg hneg, heq]
          simp [rx_ep_trace, htrace, hvisit, List.append_assoc]
        · intro hlt
          simp only [List.length_cons] at hlt
          exact ⟨Nat.succ_pos _, (hab (by omega)).2⟩

/-- C7: on a connection map whose rings are well formed and do not change
during the call, `zhpe_pe_progress_rx_ep` returns, having visited the
connections in table order (all of them unless the call ends with an error
result, see C8).  A visited READY connection has the slots `head`, `head + 1`,
..., `k - 1` (indices modulo `2 ^ 32`) dispatched in that order, each released
once right after its dispatch, and `k` stored in `head`, where `k` is the
first index at or after `head` whose slot is not ready; `k - head` is at most
`mask + 1`, so the scan ends.  A connection that is not READY has no slot
dispatched or released and keeps its `head`; so does a connection that is not
visited. -/
theorem progress_rx_ep_scans_ready_run {σ : Type} (K : zhpe_defs) (H : rx_handlers σ)
    (fuel : Nat) (table : List zhpe_conn) (s : σ)
    (hT : 0 < K.ZHPE_MSG_VALID_TOGGLE ∧ K.ZHPE_MSG_VALID_TOGGLE < 256)
    (hwf : ∀ conn ∈ table, rx_ring_wf conn.rx_local ∧ conn.rx_local.mask + 1 < fuel) :
    (∃ ret s2 n,
      zhpe_pe_progress_rx_ep K H fuel table s =
        some (ret, (table.take n).map (rx_conn_visit K) ++ table.drop n, s2,
          rx_ep_trace K 0 (table.take n)) ∧
      n ≤ table.length ∧ (n < table.length → 0 < n ∧ K.OFI_UNLIKELY ret < 0)) ∧
    (∀ conn ∈ table, ∀ i : Nat,
      (conn.state ≠ ZHPE_CONN_STATE_READY →
        rx_conn_trace K i conn = [] ∧ rx_conn_visit K conn = conn) ∧
      (conn.state = ZHPE_CONN_STATE_READY →
        ∃ cnt, cnt ≤ conn.rx_local.mask + 1 ∧
          (rx_conn_visit K conn).rx_local.head = (conn.rx_local.head + cnt) % 2 ^ 32 ∧
          (rx_conn_visit K conn).rx_local.mask = conn.rx_local.mask ∧
          (rx_conn_visit K conn).state = conn.state ∧
          (∀ j, j < cnt →
            rx_slot_ready K conn.rx_local ((conn.rx_local.head + j) % 2 ^ 32) = true) ∧
          rx_slot_ready K conn.rx_local ((conn.rx_local.head + cnt) % 2 ^ 32) = false ∧
          rx_conn_trace K i conn =
            (List.range cnt).flatMap (fun j =>
              [rx_ring_event.dispatch i ((conn.rx_local.head + j) % 2 ^ 32)
                 (conn.rx_local.zentries
                   (((conn.rx_local.head + j) % 2 ^ 32) &&& conn.rx_local.mask)),
               rx_ring_event.release i
                 (((conn.rx_local.head + j) % 2 ^ 32) &&& conn.rx_local.mask)]))) := by
  constructor
  · unfold zhpe_pe_progress_rx_ep
    by_cases h0 : table.length = 0
    · rw [if_pos h0]
      have : table = [] := List.length_eq_zero.1 h0
      subst this
      exact ⟨0, s, 0, by simp [rx_ep_trace], Nat.le_refl _, fun h => absurd h (by simp)⟩
    · rw [if_neg h0]
      obtain ⟨ret2, s2, n, heq, hn, hab⟩ := rx_ep_loop_eq K H fuel hT table 0 0 s [] hwf
      exact ⟨ret2, s2, n, by simpa using heq, hn, hab⟩
  · intro conn hc i
    constructor
    · intro hst
      exact ⟨by unfold rx_conn_trace; rw [if_pos hst], rx_conn_visit_not_ready K conn hst⟩
    · intro hst
      obtain ⟨⟨p, hp, hm, hh⟩, _⟩ := hwf conn hc
      have hst2 : ¬ (conn.state ≠ ZHPE_CONN_STATE_READY) := not_not.2 hst
      refine ⟨(rx_ready_slots K conn.rx_local (conn.rx_local.mask + 1)
        conn.rx_local.head).length, rx_ready_slots_length_le _ _ _ _, ?_, rfl, rfl, ?_,
        rx_ready_slots_end K conn.rx_local p conn.rx_local.head hp hm hh hT, ?_⟩
      · unfold rx_conn_visit rx_conn_head
        rw [if_neg hst2]
      · intro j hj
        apply rx_ready_slots_ready K conn.rx_local (conn.rx_local.mask + 1) conn.rx_local.head
        rw [rx_ready_slots_range K conn.rx_local _ _ hh]
        exact List.mem_map.2 ⟨j, List.mem_range.2 hj, rfl⟩
      · unfold rx_conn_trace
        rw [if_neg hst2]
        unfold rx_slots_trace
        conv_lhs => rw [rx_ready_slots_range K conn.rx_local _ _ hh]
        rw [List.flatMap_map]

/-- A ring of 4 slots with two ready slots at `head = 2`, followed in the map
by a connection that is not READY. -/
theorem progress_rx_ep_scans_ready_run_witness :
    (zhpe_pe_progress_rx_ep zhpe_defs_example rx_handlers_example 5
        [rx_conn_example, rx_conn_idle_example] 0).map
      (fun r => (r.1, r.2.1.map (fun c => c.rx_local.head), r.2.2.1, r.2.2.2)) =
      some (0, [4, 2], 2,
        [rx_ring_event.dispatch 0 2 ⟨ZHPE_OP_WRITEDATA, 128, 0⟩, rx_ring_event.release 0 2,
         rx_ring_event.dispatch 0 3 ⟨ZHPE_OP_WRITEDATA, 128, 0⟩, rx_ring_event.release 0 3]) ∧
    ∃ ret s2 n,
      zhpe_pe_progress_rx_ep zhpe_defs_example rx_handlers_example 5
          [rx_conn_example, rx_conn_idle_example] 0 =
        some (ret, ([rx_conn_example, rx_conn_idle_example].take n).map
            (rx_conn_visit zhpe_defs_example) ++ [rx_conn_example, rx_conn_idle_example].drop n,
          s2, rx_ep_trace zhpe_defs_example 0 ([rx_conn_example, rx_conn_idle_example].take n)) ∧
      n ≤ [rx_conn_example, rx_conn_idle_example].length ∧
      (n < [rx_conn_example, rx_conn_idle_example].length →
        0 < n ∧ zhpe_defs_example.OFI_UNLIKELY ret < 0) :=
  ⟨by decide,
    (progress_rx_ep_scans_ready_run zhpe_defs_example rx_handlers_example 5
      [rx_conn_example, rx_conn_idle_example] 0 (by decide)
      (by
        intro conn hc
        simp only [List.mem_cons, List.mem_singleton, List.not_mem_nil, or_false] at hc
        rcases hc with rfl | rfl
        · exact ⟨⟨2, by decide, by decide, by decide⟩, by decide⟩
        · exact ⟨⟨2, by decide, by decide, by decide⟩, by decide⟩)).1⟩

/-- C8 (the code at the failing input): the first ready descriptor of the
first connection has the unknown opcode 99 and is followed by a ready
WRITEDATA descriptor; a second READY connection follows in the map.  The
reader dispatches the WRITEDATA descriptor after the unknown one, goes on to
the second connection and returns 0, not `-FI_ENOSYS`. -/
theorem progress_rx_ep_illegal_opcode_continues :
    (zhpe_pe_progress_rx_ep zhpe_defs_example rx_handlers_example 5
        [rx_conn_illegal_example, rx_conn_example] 0).map
      (fun r => (r.1, r.2.1.map (fun c => c.rx_local.head), r.2.2.2)) =
      some (0, [2, 4],
        [rx_ring_event.dispatch 0 0 ⟨zhpe_op.other 99, 128, 0⟩, rx_ring_event.release 0 0,
         rx_ring_event.dispatch 0 1 ⟨ZHPE_OP_WRITEDATA, 128, 0⟩, rx_ring_event.release 0 1,
         rx_ring_event.dispatch 1 2 ⟨ZHPE_OP_WRITEDATA, 128, 0⟩, rx_ring_event.release 1 2,
         rx_ring_event.dispatch 1 3 ⟨ZHPE_OP_WRITEDATA, 128, 0⟩, rx_ring_event.release 1 3]) ∧
    rx_dispatch zhpe_defs_example rx_handlers_example 0 ⟨zhpe_op.other 99, 128, 0⟩ 0 =
      (0, -38) := by
  decide

/-! ## Helper lemmas: target memory -/

theorem mem_store_frame (n : Nat) :
    ∀ (mem : Nat → Nat) (dst v a : Nat), (a < dst ∨ dst + n ≤ a) →
      mem_store mem dst n v a = mem a := by
  induction n with
  | zero => intro mem dst v a _; rfl
  | succ n ih =>
    intro mem dst v a ha
    unfold mem_store
    rw [ih _ _ _ _ (by omega)]
    exact Function.update_noteq (by omega) _ _

theorem mem_load_store (n : Nat) :
    ∀ (mem : Nat → Nat) (dst v : Nat),
      mem_load (mem_store mem dst n v) dst n = v % 256 ^ n := by
  induction n with
  | zero => intro mem dst v; simp [mem_load, Nat.mod_one]
  | succ n ih =>
    intro mem dst v
    unfold mem_load mem_store
    rw [ih, mem_store_frame n _ _ _ _ (Or.inl (Nat.lt_succ_self dst)), Function.update_same,
      Nat.mod_mod, Nat.pow_succ, Nat.mul_comm (256 ^ n) 256, Nat.mod_mul]

theorem mem_load_lt (mem : Nat → Nat) (n : Nat) : ∀ dst, mem_load mem dst n < 256 ^ n := by
  induction n with
  | zero => intro dst; simp [mem_load]
  | succ n ih =>
    intro dst
    unfold mem_load
    have h1 := ih (dst + 1)
    have h2 : mem dst % 256 < 256 := Nat.mod_lt _ (by decide)
    rw [Nat.pow_succ]
    omega

theorem two_pow_size (size : Nat) (hs : size = 8 ∨ size = 16 ∨ size = 32 ∨ size = 64) :
    256 ^ (size / 8) = 2 ^ size := by
  rcases hs with rfl | rfl | rfl | rfl <;> decide

/-- The macro `ATOMIC_OP` on its own: for every width `w` in {8, 16, 32, 64},
with `old` the `w`-bit word at the target and `o`, `c` the operand and compare
values truncated to `w` bits, READ leaves memory
unchanged and returns `old`; WRITE stores `o`; BAND, BOR and BXOR store
`old AND o`, `old OR o`, `old XOR o` and return `old`; CSWAP stores `o` if and
only if `old = c` and returns `old`; SUM stores `(old + o) mod 2 ^ w` and
returns `old`; and whatever the operation, no byte outside the word changes. -/
theorem atomic_op_matches_sequential (size : Nat)
    (hs : size = 8 ∨ size = 16 ∨ size = 32 ∨ size = 64)
    (mem : Nat → Nat) (dst o64 c64 rem : Nat) :
    mem_load mem dst (size / 8) < 2 ^ size ∧
    ATOMIC_OP size FI_ATOMIC_READ mem dst o64 c64 rem = (mem, mem_load mem dst (size / 8)) ∧
    mem_load (ATOMIC_OP size FI_ATOMIC_WRITE mem dst o64 c64 rem).1 dst (size / 8) =
      o64 % 2 ^ size ∧
    (mem_load (ATOMIC_OP size FI_BAND mem dst o64 c64 rem).1 dst (size / 8) =
        mem_load mem dst (size / 8) &&& (o64 % 2 ^ size) ∧
      (ATOMIC_OP size FI_BAND mem dst o64 c64 rem).2 = mem_load mem dst (size / 8)) ∧
    (mem_load (ATOMIC_OP size FI_BOR mem dst o64 c64 rem).1 dst (size / 8) =
        mem_load mem dst (size / 8) ||| (o64 % 2 ^ size) ∧
      (ATOMIC_OP size FI_BOR mem dst o64 c64 rem).2 = mem_load mem dst (size / 8)) ∧
    (mem_load (ATOMIC_OP size FI_BXOR mem dst o64 c64 rem).1 dst (size / 8) =
        mem_load mem dst (size / 8) ^^^ (o64 % 2 ^ size) ∧
      (ATOMIC_OP size FI_BXOR mem dst o64 c64 rem).2 = mem_load mem dst (size / 8)) ∧
    (mem_load (ATOMIC_OP size FI_CSWAP mem dst o64 c64 rem).1 dst (size / 8) =
        (if mem_load mem dst (size / 8) = c64 % 2 ^ size then o64 % 2 ^ size
         else mem_load mem dst (size / 8)) ∧
      (mem_load mem dst (size / 8) ≠ c64 % 2 ^ size →
        (ATOMIC_OP size FI_CSWAP mem dst o64 c64 rem).1 = mem) ∧
      (ATOMIC_OP size FI_CSWAP mem dst o64 c64 rem).2 = mem_load mem dst (size / 8)) ∧
    (mem_load (ATOMIC_OP size FI_SUM mem dst o64 c64 rem).1 dst (size / 8) =
        (mem_load mem dst (size / 8) + o64 % 2 ^ size) % 2 ^ size ∧
      (ATOMIC_OP size FI_SUM mem dst o64 c64 rem).2 = mem_load mem dst (size / 8)) ∧
    (∀ (op : fi_op) (a : Nat), (a < dst ∨ dst + size / 8 ≤ a) →
      (ATOMIC_OP size op mem dst o64 c64 rem).1 a = mem a) := by
  have hpow := two_pow_size size hs
  have hold : mem_load mem dst (size / 8) < 2 ^ size := by
    rw [← hpow]
    exact mem_load_lt mem _ dst
  have ho : o64 % 2 ^ size < 2 ^ size := Nat.mod_lt _ (Nat.two_pow_pos size)
  have hst : ∀ v, v < 2 ^ size →
      mem_load (mem_store mem dst (size / 8) v) dst (size / 8) = v := by
    intro v hv
    rw [mem_load_store, hpow, Nat.mod_eq_of_lt hv]
  refine ⟨hold, rfl, ?_, ⟨?_, rfl⟩, ⟨?_, rfl⟩, ⟨?_, rfl⟩, ⟨?_, ?_, ?_⟩, ⟨?_, rfl⟩, ?_⟩
  · exact hst _ ho
  · exact hst _ (Nat.and_lt_two_pow _ ho)
  · exact hst _ (Nat.or_lt_two_pow hold ho)
  · exact hst _ (Nat.xor_lt_two_pow hold ho)
  · unfold ATOMIC_OP
    simp only []
    split
    · exact hst _ ho
    · rfl
  · intro hne
    unfold ATOMIC_OP
    simp only []
    rw [if_neg hne]
  · unfold ATOMIC_OP
    rfl
  · exact hst _ (Nat.mod_lt _ (Nat.two_pow_pos size))
  · intro op a ha
    unfold ATOMIC_OP
    cases op <;> simp only [] <;> try rfl
    all_goals first
      | exact mem_store_frame _ _ _ _ _ ha
      | (split
         · exact mem_store_frame _ _ _ _ _ ha
         · rfl)

/-- A 16-bit compare-and-swap on the bytes `0x34 0x12` at address 100. -/
theorem atomic_op_matches_sequential_witness :
    mem_load (fun a => if a = 100 then 0x34 else if a = 101 then 0x12 else 0xff) 100 (16 / 8)
      = 0x1234 ∧
    mem_load (ATOMIC_OP 16 FI_CSWAP
        (fun a => if a = 100 then 0x34 else if a = 101 then 0x12 else 0xff)
        100 0xabcd5678 0x1234 0).1 100 (16 / 8) =
      (if mem_load (fun a => if a = 100 then 0x34 else if a = 101 then 0x12 else 0xff) 100
          (16 / 8) = 0x1234 % 2 ^ 16 then 0xabcd5678 % 2 ^ 16
       else mem_load (fun a => if a = 100 then 0x34 else if a = 101 then 0x12 else 0xff) 100
          (16 / 8)) ∧
    mem_load (ATOMIC_OP 16 FI_CSWAP
        (fun a => if a = 100 then 0x34 else if a = 101 then 0x12 else 0xff)
        100 0xabcd5678 0x1234 0).1 100 (16 / 8) = 0x5678 :=
  ⟨by decide,
    (atomic_op_matches_sequential 16 (by decide)
      (fun a => if a = 100 then 0x34 else if a = 101 then 0x12 else 0xff)
      100 0xabcd5678 0x1234 0).2.2.2.2.2.2.1.1,
    by decide⟩

/-- C9 (the code at the failing input): the key of the request resolves to no
memory region (`zhpe_mr_find` returns null for every key) and the request asks
for a STATUS reply.  `zhpe_pe_rx_handle_atomic` still executes the write at the
unvalidated address 4096 and replies with status 0 instead of `-FI_ENOKEY`;
when a region is found and the access check fails with -13, it writes nothing
and replies with -13. -/
theorem rx_handle_atomic_unresolved_key_executes :
    (zhpe_pe_rx_handle_atomic zhpe_defs_example (fun _ _ => none) (fun _ _ _ => 0)
        (fun _ => 0) ⟨ZHPE_OP_ATOMIC, 16, 0⟩ atomic_req_example 0).send_status =
      some (0, 0) ∧
    mem_load (zhpe_pe_rx_handle_atomic zhpe_defs_example (fun _ _ => none) (fun _ _ _ => 0)
        (fun _ => 0) ⟨ZHPE_OP_ATOMIC, 16, 0⟩ atomic_req_example 0).mem 4096 8 = 0xdead ∧
    mem_load (fun _ => 0) 4096 8 = 0 ∧
    (zhpe_pe_rx_handle_atomic zhpe_defs_example (fun _ _ => some 1) (fun _ _ _ => -13)
        (fun _ => 0) ⟨ZHPE_OP_ATOMIC, 16, 0⟩ atomic_req_example 0).send_status =
      some (-13, 0) ∧
    mem_load (zhpe_pe_rx_handle_atomic zhpe_defs_example (fun _ _ => some 1) (fun _ _ _ => -13)
        (fun _ => 0) ⟨ZHPE_OP_ATOMIC, 16, 0⟩ atomic_req_example 0).mem 4096 8 = 0 := by
  decide

/-! ## Helper lemmas: first match and list frames -/

theorem find_first_match {p : Nat → Bool} (l l1 l2 : List Nat) (b : Nat)
    (hl : l = l1 ++ b :: l2) (hno : ∀ x ∈ l1, p x = false) (hb : p b = true) :
    l.find? p = some b := by
  rw [List.find?_eq_some]
  exact ⟨hb, l1, l2, hl, fun a ha => by simp [hno a ha]⟩

theorem erase_first_match (l1 l2 : List Nat) (b : Nat) (hb : b ∉ l1) :
    (l1 ++ b :: l2).erase b = l1 ++ l2 := by
  rw [List.erase_append_right _ hb, List.erase_cons_head]

/-- C19: when no entry of `rx_buffered_list` matches, `zhpe_pe_rx_peek_recv`
makes exactly one call of the completion reporter, with the negative status
`-FI_ENOMSG`, `rem = 0` and a descriptor carrying the caller's address, flags,
tag and context, and changes nothing else: the three lists and all entries are
as before. -/
theorem peek_recv_no_match_reports_enomsg (K : zhpe_defs) (M : rx_matcher)
    (ctx : zhpe_rx_ctx) (fiaddr tag ignore flags context : Nat)
    (hK : 0 < K.FI_ENOMSG)
    (hno : ∀ b ∈ ctx.rx_buffered_list,
      M (ctx.entries b) true fiaddr tag ignore flags = false) :
    (zhpe_pe_rx_peek_recv K M ctx fiaddr tag ignore flags context).out =
      ctx.out ++ [rx_out.report_direct
        { addr := fiaddr,
          cqe := { op_context := context, flags := flags, len := 0, buf := 0, data := 0,
                   tag := tag } }
        (-(K.FI_ENOMSG : Int)) 0] ∧
    (-(K.FI_ENOMSG : Int)) < 0 ∧
    (zhpe_pe_rx_peek_recv K M ctx fiaddr tag ignore flags context).rx_posted_list =
      ctx.rx_posted_list ∧
    (zhpe_pe_rx_peek_recv K M ctx fiaddr tag ignore flags context).rx_buffered_list =
      ctx.rx_buffered_list ∧
    (zhpe_pe_rx_peek_recv K M ctx fiaddr tag ignore flags context).rx_work_list =
      ctx.rx_work_list ∧
    (zhpe_pe_rx_peek_recv K M ctx fiaddr tag ignore flags context).entries = ctx.entries := by
  have hfind : ctx.rx_buffered_list.find?
      (fun b => M (ctx.entries b) true fiaddr tag ignore flags) = none := by
    rw [List.find?_eq_none]
    intro x hx
    simp [hno x hx]
  unfold zhpe_pe_rx_peek_recv
  rw [hfind]
  exact ⟨rfl, by omega, rfl, rfl, rfl, rfl⟩

/-- Scenario S5: a peek for tag 1 with no buffered entry. -/
theorem peek_recv_no_match_reports_enomsg_witness :
    (zhpe_pe_rx_peek_recv zhpe_defs_example rx_match_example (rx_ctx_example [2]) 0 1 0
        (2 ^ 19) 77).out =
      [rx_out.report_direct ⟨0, ⟨77, 2 ^ 19, 0, 0, 0, 1⟩⟩ (-42) 0] ∧
    (zhpe_pe_rx_peek_recv zhpe_defs_example rx_match_example (rx_ctx_example [2]) 0 1 0
        (2 ^ 19) 77).rx_posted_list = [2] :=
  ⟨(peek_recv_no_match_reports_enomsg zhpe_defs_example rx_match_example (rx_ctx_example [2])
      0 1 0 (2 ^ 19) 77 (by decide) (by intro b hb; cases hb)).1,
   by decide⟩

/-- C20: when `zhpe_pe_rx_peek_recv` is called without `FI_CLAIM` and without
`FI_DISCARD` and `b` is the first entry of `rx_buffered_list` that matches, it
makes exactly one call of the completion reporter, with status 0 and a
descriptor carrying the address, total length, tag and `cq_data` of `b`, and
changes nothing else: the three lists and all entries, the state of `b`
included, are as before. -/
theorem peek_recv_match_reports_metadata (K : zhpe_defs) (M : rx_matcher)
    (ctx : zhpe_rx_ctx) (fiaddr tag ignore flags context : Nat) (l1 l2 : List Nat) (b : Nat)
    (hd : flags &&& K.FI_DISCARD = 0) (hc : flags &&& K.FI_CLAIM = 0)
    (hl : ctx.rx_buffered_list = l1 ++ b :: l2)
    (hno : ∀ x ∈ l1, M (ctx.entries x) true fiaddr tag ignore flags = false)
    (hb : M (ctx.entries b) true fiaddr tag ignore flags = true) :
    (zhpe_pe_rx_peek_recv K M ctx fiaddr tag ignore flags context).out =
      ctx.out ++ [rx_out.report_direct (rx_peek_zcqe K (ctx.entries b) flags context) 0 0] ∧
    (rx_peek_zcqe K (ctx.entries b) flags context).addr = (ctx.entries b).addr ∧
    (rx_peek_zcqe K (ctx.entries b) flags context).cqe.len = (ctx.entries b).total_len ∧
    (rx_peek_zcqe K (ctx.entries b) flags context).cqe.tag = (ctx.entries b).tag ∧
    (rx_peek_zcqe K (ctx.entries b) flags context).cqe.data = (ctx.entries b).cq_data ∧
    (zhpe_pe_rx_peek_recv K M ctx fiaddr tag ignore flags context).rx_posted_list =
      ctx.rx_posted_list ∧
    (zhpe_pe_rx_peek_recv K M ctx fiaddr tag ignore flags context).rx_buffered_list =
      ctx.rx_buffered_list ∧
    (zhpe_pe_rx_peek_recv K M ctx fiaddr tag ignore flags context).rx_work_list =
      ctx.rx_work_list ∧
    (zhpe_pe_rx_peek_recv K M ctx fiaddr tag ignore flags context).entries = ctx.entries := by
  have hfind := find_first_match (p := fun b => M (ctx.entries b) true fiaddr tag ignore flags)
    ctx.rx_buffered_list l1 l2 b hl hno hb
  unfold zhpe_pe_rx_peek_recv
  rw [hfind]
  simp only [hd, hc, ne_eq, not_true_eq_false, if_false]
  exact ⟨rfl, rfl, rfl, rfl, rfl, rfl, rfl, rfl, rfl⟩

/-- A peek for tag 4 finds the second buffered entry and leaves it in place. -/
theorem peek_recv_match_reports_metadata_witness :
    (zhpe_pe_rx_peek_recv zhpe_defs_example rx_match_example rx_ctx_buffered_example 0 4 0
        (2 ^ 19) 77).out =
      [rx_out.report_direct ⟨0, ⟨77, 1024, 32, 0, 0, 4⟩⟩ 0 0] ∧
    (zhpe_pe_rx_peek_recv zhpe_defs_example rx_match_example rx_ctx_buffered_example 0 4 0
        (2 ^ 19) 77).rx_buffered_list = [3, 4] :=
  ⟨(peek_recv_match_reports_metadata zhpe_defs_example rx_match_example
      rx_ctx_buffered_example 0 4 0 (2 ^ 19) 77 [3] [] 4 (by decide) (by decide) rfl
      (by decide) (by decide)).1,
   by decide⟩

theorem rx_pb_set (p b : List Nat) (ctx : zhpe_rx_ctx) (id : Nat)
    (f : zhpe_rx_entry → zhpe_rx_entry) (h : rx_pb p b ctx) : rx_pb p b (rx_set ctx id f) := h

theorem rx_pb_set_state (p b : List Nat) (ctx : zhpe_rx_ctx) (id : Nat) (s : zhpe_rx_state)
    (h : rx_pb p b ctx) : rx_pb p b (set_rx_state ctx id s) := h

theorem rx_pb_emit (p b : List Nat) (ctx : zhpe_rx_ctx) (o : List rx_out)
    (h : rx_pb p b ctx) : rx_pb p b (rx_emit ctx o) := h

theorem rx_pb_work_insert (p b : List Nat) (ctx : zhpe_rx_ctx) (id : Nat)
    (h : rx_pb p b ctx) : rx_pb p b (rx_work_insert_tail ctx id) := h

theorem rx_pb_aborted (p b : List Nat) (ctx : zhpe_rx_ctx)
    (h : rx_pb p b ctx) : rx_pb p b { ctx with aborted := true } := h

theorem rx_pb_complete (K : zhpe_defs) (p b : List Nat) (ctx : zhpe_rx_ctx) (e : Nat)
    (status : Int) (h : rx_pb p b ctx) : rx_pb p b (zhpe_pe_rx_complete K ctx e status) := by
  unfold rx_pb at h ⊢
  rw [(rx_complete_frame K ctx e status).1, (rx_complete_frame K ctx e status).2.1]
  exact h

theorem rx_pb_get_copy_complete (K : zhpe_defs) (o : rx_env) (p b : List Nat)
    (ctx : zhpe_rx_ctx) (e : Nat) (h : rx_pb p b ctx) :
    rx_pb p b (rx_get_copy_complete K o ctx e) := by
  unfold rx_get_copy_complete
  simp only []
  repeat (first
    | assumption
    | with_reducible apply rx_pb_complete
    | with_reducible apply rx_pb_set)

/-- The part of `zhpe_pe_rx_get` after the label `complete` never unlinks an
entry from the posted or the buffered list. -/
theorem rx_pb_get_complete (K : zhpe_defs) (o : rx_env) (p b : List Nat)
    (ctx : zhpe_rx_ctx) (e : Nat) (h : rx_pb p b ctx) :
    rx_pb p b (rx_get_complete K o ctx e) := by
  unfold rx_get_complete
  simp only []
  split
  · exact h
  · split
    · exact rx_pb_complete K p b ctx e 0 h
    · rename_i heq
      rw [if_neg (by rw [heq]; decide)]
      repeat (first
        | assumption
        | with_reducible apply rx_pb_get_copy_complete
        | with_reducible apply rx_pb_emit
        | with_reducible apply rx_pb_set_state
        | with_reducible apply rx_pb_set
        | split)
    · rename_i heq
      rw [if_neg (by rw [heq]; decide)]
      repeat (first
        | assumption
        | with_reducible apply rx_pb_get_copy_complete
        | with_reducible apply rx_pb_emit
        | with_reducible apply rx_pb_set_state
        | with_reducible apply rx_pb_set
        | split)
    · exact rx_pb_get_copy_complete K o p b ctx e h
    · exact h

theorem rx_pb_get_issue (K : zhpe_defs) (o : rx_env) (p b : List Nat)
    (ctx : zhpe_rx_ctx) (e : Nat) (h : rx_pb p b ctx) :
    rx_pb p b (rx_get_issue K o ctx e) := by
  unfold rx_get_issue
  simp only []
  repeat (first
    | assumption
    | with_reducible apply rx_pb_get_complete
    | with_reducible apply rx_pb_set
    | with_reducible apply rx_pb_emit
    | split)

/-- `zhpe_pe_rx_get` on an entry that is not in state DISCARD leaves the
posted and the buffered list as they are. -/
theorem rx_pb_get (K : zhpe_defs) (o : rx_env) (p b : List Nat) (ctx : zhpe_rx_ctx) (e : Nat)
    (retry : Bool) (hst : (ctx.entries e).rx_state ≠ ZHPE_RX_STATE_DISCARD)
    (h : rx_pb p b ctx) : rx_pb p b (zhpe_pe_rx_get K o ctx e retry) := by
  unfold zhpe_pe_rx_get
  simp only []
  split
  · exact rx_pb_get_complete K o p b ctx e h
  · split
    · repeat (first
        | assumption
        | with_reducible apply rx_pb_get_complete
        | with_reducible apply rx_pb_get_issue
        | with_reducible apply rx_pb_set
        | split)
    · repeat (first
        | assumption
        | with_reducible apply rx_pb_get_complete
        | with_reducible apply rx_pb_get_issue
        | with_reducible apply rx_pb_set
        | split)
    · repeat (first
        | assumption
        | with_reducible apply rx_pb_get_complete
        | with_reducible apply rx_pb_get_issue
        | with_reducible apply rx_pb_set
        | split)
    · repeat (first
        | assumption
        | with_reducible apply rx_pb_get_complete
        | with_reducible apply rx_pb_get_issue
        | with_reducible apply rx_pb_set
        | split)
    · rename_i heq
      exact absurd heq hst
    · exact rx_pb_aborted p b ctx h

theorem rx_user_claim_take_frame (K : zhpe_defs) (ctx : zhpe_rx_ctx) (b u : Nat) :
    (rx_user_claim_take K ctx b u).rx_posted_list = ctx.rx_posted_list ∧
    (rx_user_claim_take K ctx b u).rx_buffered_list = ctx.rx_buffered_list ∧
    (rx_user_claim_take K ctx b u).rx_work_list = ctx.rx_work_list ∧
    (rx_user_claim_take K ctx b u).out = ctx.out ∧
    (rx_user_claim_take K ctx b u).min_multi_recv = ctx.min_multi_recv ∧
    (rx_user_claim_take K ctx b u).rx_work_hist = ctx.rx_work_hist := by
  unfold rx_user_claim_take
  simp only []
  split <;> exact ⟨rfl, rfl, rfl, rfl, rfl, rfl⟩

theorem rx_pb_user_claim_switch (K : zhpe_defs) (o : rx_env) (p b : List Nat)
    (ctx : zhpe_rx_ctx) (e : Nat) (state : zhpe_rx_state) (msg_len : Nat)
    (h : rx_pb p b ctx) : rx_pb p b (rx_user_claim_switch K o ctx e state msg_len) := by
  unfold rx_user_claim_switch
  split
  · simp only []
    apply rx_pb_get
    · simp [rx_set, set_rx_state]
    · exact h
  · exact h
  · exact rx_pb_complete K p b _ e 0 h
  · exact rx_pb_complete K p b _ e 0 h
  · exact h

/-- With `user_linked = false`, `rx_user_claim` does not touch the buffered
list. -/
theorem rx_user_claim_buffered (K : zhpe_defs) (o : rx_env) (ctx : zhpe_rx_ctx) (b u : Nat) :
    (rx_user_claim K o ctx b u false).rx_buffered_list = ctx.rx_buffered_list := by
  unfold rx_user_claim
  simp only []
  have hlink : ∀ (c : zhpe_rx_ctx) (avail msg_len : Nat),
      (rx_user_claim_link K c b u false avail msg_len).rx_buffered_list =
        c.rx_buffered_list := by
    intro c avail msg_len
    unfold rx_user_claim_link rx_user_drop
    simp only []
    split
    · split
      · rfl
      · rfl
    · rfl
  have := rx_pb_user_claim_switch K o _ _ _ b
    (if (ctx.entries b).rx_state = ZHPE_RX_STATE_EAGER then ZHPE_RX_STATE_EAGER_CLAIMED
      else (ctx.entries b).rx_state)
    (if ((rx_user_claim_take K ctx b u).entries b).total_len >
        K.zhpe_ziov_state_avail ((rx_user_claim_take K ctx b u).entries b).ustate
      then K.zhpe_ziov_state_avail ((rx_user_claim_take K ctx b u).entries b).ustate
      else ((rx_user_claim_take K ctx b u).entries b).total_len)
    (⟨rfl, rfl⟩ : rx_pb _ _ (rx_user_claim_link K (rx_user_claim_take K ctx b u) b u false
      (K.zhpe_ziov_state_avail ((rx_user_claim_take K ctx b u).entries b).ustate)
      (if ((rx_user_claim_take K ctx b u).entries b).total_len >
          K.zhpe_ziov_state_avail ((rx_user_claim_take K ctx b u).entries b).ustate
        then K.zhpe_ziov_state_avail ((rx_user_claim_take K ctx b u).entries b).ustate
        else ((rx_user_claim_take K ctx b u).entries b).total_len)))
  rw [this.2, hlink, (rx_user_claim_take_frame K ctx b u).2.1]

/-- C11: `zhpe_pe_rx_post_recv` on a context whose lists are duplicate-free and
disjoint.  When no buffered entry matches, the user entry is appended to the
tail of `rx_posted_list` and the buffered and work lists are unchanged.  When
`b` is the first buffered entry, in list order, that `zhpe_rx_match_entry`
accepts, `b` and no other entry is unlinked from the buffered list (the other
buffered entries keep their order, also after the call) and appended to the
tail of `rx_work_list`, and the resulting context is handed to
`rx_user_claim(b, rx_user, locked, user_linked = false)`. -/
theorem post_recv_first_buffered_match (K : zhpe_defs) (M : rx_matcher) (o : rx_env)
    (ctx : zhpe_rx_ctx) (rx_user : Nat) (hok : rx_lists_ok ctx) :
    ((∀ b ∈ ctx.rx_buffered_list,
        M (ctx.entries b) true (ctx.entries rx_user).addr (ctx.entries rx_user).tag
          (ctx.entries rx_user).ignore (ctx.entries rx_user).flags = false) →
      (zhpe_pe_rx_post_recv K M o ctx rx_user).rx_posted_list =
          ctx.rx_posted_list ++ [rx_user] ∧
      (zhpe_pe_rx_post_recv K M o ctx rx_user).rx_buffered_list = ctx.rx_buffered_list ∧
      (zhpe_pe_rx_post_recv K M o ctx rx_user).rx_work_list = ctx.rx_work_list ∧
      (zhpe_pe_rx_post_recv K M o ctx rx_user).entries = ctx.entries) ∧
    (∀ (l1 l2 : List Nat) (b : Nat), ctx.rx_buffered_list = l1 ++ b :: l2 →
      (∀ x ∈ l1, M (ctx.entries x) true (ctx.entries rx_user).addr (ctx.entries rx_user).tag
          (ctx.entries rx_user).ignore (ctx.entries rx_user).flags = false) →
      M (ctx.entries b) true (ctx.entries rx_user).addr (ctx.entries rx_user).tag
          (ctx.entries rx_user).ignore (ctx.entries rx_user).flags = true →
      (rx_work_insert_tail (rx_dlist_remove ctx b) b).rx_buffered_list = l1 ++ l2 ∧
      (rx_work_insert_tail (rx_dlist_remove ctx b) b).rx_work_list =
          ctx.rx_work_list ++ [b] ∧
      (rx_work_insert_tail (rx_dlist_remove ctx b) b).rx_posted_list = ctx.rx_posted_list ∧
      (rx_work_insert_tail (rx_dlist_remove ctx b) b).entries = ctx.entries ∧
      zhpe_pe_rx_post_recv K M o ctx rx_user =
        rx_emit (rx_user_claim K o (rx_work_insert_tail (rx_dlist_remove ctx b) b) b rx_user
          false) [rx_out.pe_signal] ∧
      (zhpe_pe_rx_post_recv K M o ctx rx_user).rx_buffered_list = l1 ++ l2) := by
  constructor
  · intro hno
    have hfind : ctx.rx_buffered_list.find?
        (fun b => M (ctx.entries b) true (ctx.entries rx_user).addr (ctx.entries rx_user).tag
          (ctx.entries rx_user).ignore (ctx.entries rx_user).flags) = none := by
      rw [List.find?_eq_none]
      intro x hx
      simp [hno x hx]
    unfold zhpe_pe_rx_post_recv
    simp only []
    rw [hfind]
    exact ⟨rfl, rfl, rfl, rfl⟩
  · intro l1 l2 b hl hno hb
    have hfind := find_first_match
      (p := fun b => M (ctx.entries b) true (ctx.entries rx_user).addr
        (ctx.entries rx_user).tag (ctx.entries rx_user).ignore (ctx.entries rx_user).flags)
      ctx.rx_buffered_list l1 l2 b hl hno hb
    have hbl1 : b ∉ l1 := by
      intro hmem
      have := hno b hmem
      rw [hb] at this
      cases this
    unfold rx_lists_ok at hok
    rw [hl] at hok
    have hbp : b ∉ ctx.rx_posted_list := by
      intro hmem
      have := (List.nodup_append.1 (List.nodup_append.1 hok).1).2.2
      exact this hmem (by simp)
    have hbw : b ∉ ctx.rx_work_list := by
      intro hmem
      have := (List.nodup_append.1 hok).2.2
      exact this (by simp) hmem
    have e1 : (rx_work_insert_tail (rx_dlist_remove ctx b) b).rx_buffered_list = l1 ++ l2 := by
      show ctx.rx_buffered_list.erase b = l1 ++ l2
      rw [hl]
      exact erase_first_match l1 l2 b hbl1
    have e2 : (rx_work_insert_tail (rx_dlist_remove ctx b) b).rx_work_list =
        ctx.rx_work_list ++ [b] := by
      show ctx.rx_work_list.erase b ++ [b] = ctx.rx_work_list ++ [b]
      rw [List.erase_of_not_mem hbw]
    have e3 : (rx_work_insert_tail (rx_dlist_remove ctx b) b).rx_posted_list =
        ctx.rx_posted_list := by
      show ctx.rx_posted_list.erase b = ctx.rx_posted_list
      rw [List.erase_of_not_mem hbp]
    have e5 : zhpe_pe_rx_post_recv K M o ctx rx_user =
        rx_emit (rx_user_claim K o (rx_work_insert_tail (rx_dlist_remove ctx b) b) b rx_user
          false) [rx_out.pe_signal] := by
      unfold zhpe_pe_rx_post_recv
      simp only []
      rw [hfind]
    refine ⟨e1, e2, e3, rfl, e5, ?_⟩
    rw [e5]
    show (rx_user_claim K o (rx_work_insert_tail (rx_dlist_remove ctx b) b) b rx_user
      false).rx_buffered_list = l1 ++ l2
    rw [rx_user_claim_buffered, e1]

/-- Scenario S1: a receive for tag 4 is posted while inline messages with tags
3 and 4 are buffered; the second one is claimed, copied and completed, the
first stays buffered. -/
theorem post_recv_first_buffered_match_witness :
    (zhpe_pe_rx_post_recv zhpe_defs_example rx_match_example (rx_env_copy_example 32)
        rx_ctx_buffered_example 14).rx_buffered_list = [3] ++ [] ∧
    (zhpe_pe_rx_post_recv zhpe_defs_example rx_match_example (rx_env_copy_example 32)
        rx_ctx_buffered_example 14).rx_work_list = [] ∧
    (zhpe_pe_rx_post_recv zhpe_defs_example rx_match_example (rx_env_copy_example 32)
        rx_ctx_buffered_example 14).out =
      [rx_out.report_complete 4 ⟨0, ⟨4, 1024, 32, 4096 * 4, 0, 4⟩⟩ 0 0,
       rx_out.release_entry 4, rx_out.release_entry 14, rx_out.pe_signal] :=
  ⟨((post_recv_first_buffered_match zhpe_defs_example rx_match_example
      (rx_env_copy_example 32) rx_ctx_buffered_example 14 (by decide)).2 [3] [] 4 rfl
      (by decide) (by decide)).2.2.2.2.2,
   by decide, by decide⟩

/-! ## Helper lemmas: the log only grows -/

theorem rx_pre_set (base : List rx_out) (ctx : zhpe_rx_ctx) (id : Nat)
    (f : zhpe_rx_entry → zhpe_rx_entry) (h : base <+: ctx.out) :
    base <+: (rx_set ctx id f).out := h

theorem rx_pre_set_state (base : List rx_out) (ctx : zhpe_rx_ctx) (id : Nat)
    (s : zhpe_rx_state) (h : base <+: ctx.out) : base <+: (set_rx_state ctx id s).out := h

theorem rx_pre_emit (base : List rx_out) (ctx : zhpe_rx_ctx) (o : List rx_out)
    (h : base <+: ctx.out) : base <+: (rx_emit ctx o).out :=
  h.trans (List.prefix_append _ _)

theorem rx_pre_remove (base : List rx_out) (ctx : zhpe_rx_ctx) (id : Nat)
    (h : base <+: ctx.out) : base <+: (rx_dlist_remove ctx id).out := h

theorem rx_pre_work_insert (base : List rx_out) (ctx : zhpe_rx_ctx) (id : Nat)
    (h : base <+: ctx.out) : base <+: (rx_work_insert_tail ctx id).out := h

theorem rx_pre_posted_insert (base : List rx_out) (ctx : zhpe_rx_ctx) (id : Nat)
    (h : base <+: ctx.out) : base <+: (rx_posted_insert_tail ctx id).out := h

theorem rx_pre_buffered_insert (base : List rx_out) (ctx : zhpe_rx_ctx) (id : Nat)
    (h : base <+: ctx.out) : base <+: (rx_buffered_insert_tail ctx id).out := h

theorem rx_pre_aborted (base : List rx_out) (ctx : zhpe_rx_ctx)
    (h : base <+: ctx.out) : base <+: ({ ctx with aborted := true } : zhpe_rx_ctx).out := h

theorem rx_pre_complete (K : zhpe_defs) (base : List rx_out) (ctx : zhpe_rx_ctx) (e : Nat)
    (status : Int) (h : base <+: ctx.out) :
    base <+: (zhpe_pe_rx_complete K ctx e status).out := by
  rw [rx_complete_out_emitted]
  exact h.trans (List.prefix_append _ _)

theorem rx_pre_discard (K : zhpe_defs) (base : List rx_out) (ctx : zhpe_rx_ctx) (e : Nat)
    (h : base <+: ctx.out) : base <+: (zhpe_pe_rx_discard_recv K ctx e).out := by
  unfold zhpe_pe_rx_discard_recv
  simp only []
  repeat (first
    | assumption
    | with_reducible apply rx_pre_set_state
    | with_reducible apply rx_pre_work_insert
    | with_reducible apply rx_pre_remove
    | with_reducible apply rx_pre_emit
    | split)

theorem rx_pre_get_copy_complete (K : zhpe_defs) (o : rx_env) (base : List rx_out)
    (ctx : zhpe_rx_ctx) (e : Nat) (h : base <+: ctx.out) :
    base <+: (rx_get_copy_complete K o ctx e).out := by
  unfold rx_get_copy_complete
  simp only []
  repeat (first
    | assumption
    | with_reducible apply rx_pre_complete
    | with_reducible apply rx_pre_set)

theorem rx_pre_get_complete (K : zhpe_defs) (o : rx_env) (base : List rx_out)
    (ctx : zhpe_rx_ctx) (e : Nat) (h : base <+: ctx.out) :
    base <+: (rx_get_complete K o ctx e).out := by
  unfold rx_get_complete
  simp only []
  repeat (first
    | assumption
    | with_reducible apply rx_pre_complete
    | with_reducible apply rx_pre_get_copy_complete
    | with_reducible apply rx_pre_discard
    | with_reducible apply rx_pre_emit
    | with_reducible apply rx_pre_set_state
    | with_reducible apply rx_pre_set
    | split)

theorem rx_pre_get_issue (K : zhpe_defs) (o : rx_env) (base : List rx_out)
    (ctx : zhpe_rx_ctx) (e : Nat) (h : base <+: ctx.out) :
    base <+: (rx_get_issue K o ctx e).out := by
  unfold rx_get_issue
  simp only []
  repeat (first
    | assumption
    | with_reducible apply rx_pre_get_complete
    | with_reducible apply rx_pre_emit
    | with_reducible apply rx_pre_set
    | split)

theorem rx_pre_get (K : zhpe_defs) (o : rx_env) (base : List rx_out)
    (ctx : zhpe_rx_ctx) (e : Nat) (retry : Bool) (h : base <+: ctx.out) :
    base <+: (zhpe_pe_rx_get K o ctx e retry).out := by
  unfold zhpe_pe_rx_get
  simp only []
  split
  · exact rx_pre_get_complete K o base ctx e h
  · split
    · repeat (first
        | assumption
        | with_reducible apply rx_pre_get_complete
        | with_reducible apply rx_pre_get_issue
        | with_reducible apply rx_pre_set
        | split)
    · repeat (first
        | assumption
        | with_reducible apply rx_pre_get_complete
        | with_reducible apply rx_pre_get_issue
        | with_reducible apply rx_pre_set
        | split)
    · repeat (first
        | assumption
        | with_reducible apply rx_pre_get_complete
        | with_reducible apply rx_pre_get_issue
        | with_reducible apply rx_pre_set
        | split)
    · repeat (first
        | assumption
        | with_reducible apply rx_pre_get_complete
        | with_reducible apply rx_pre_get_issue
        | with_reducible apply rx_pre_set
        | split)
    · split
      · exact h
      · exact rx_pre_discard K base ctx e h
    · exact rx_pre_aborted base ctx h

/-! ## Helper lemmas: when `zhpe_pe_rx_get` issues a GET -/

/-- With a non-negative recorded status and a transfer state, a retry or a
transfer already under way takes `zhpe_pe_rx_get` straight to the chunking
code. -/
theorem rx_get_skips_setup (K : zhpe_defs) (o : rx_env) (ctx : zhpe_rx_ctx) (e : Nat)
    (retry : Bool) (hstat : 0 ≤ (ctx.entries e).pe_root.status)
    (hst : (ctx.entries e).rx_state = ZHPE_RX_STATE_EAGER ∨
      (ctx.entries e).rx_state = ZHPE_RX_STATE_EAGER_CLAIMED ∨
      (ctx.entries e).rx_state = ZHPE_RX_STATE_RND_BUF ∨
      (ctx.entries e).rx_state = ZHPE_RX_STATE_RND_DIRECT)
    (hskip : (ctx.entries e).total_len ≠ (ctx.entries e).rem ∨ retry = true) :
    zhpe_pe_rx_get K o ctx e retry = rx_get_issue K o ctx e := by
  unfold zhpe_pe_rx_get
  simp only []
  rw [if_neg (show ¬ (ctx.entries e).pe_root.status < 0 by omega)]
  rcases hst with h | h | h | h <;> rw [h] <;> simp only [] <;> rw [if_pos hskip]

/-- With a non-negative recorded status and a transfer state, the first call
for a transfer (`total_len = rem`, no retry) reaches the chunking code when the
key setup succeeds; the remote iov state is the one that `zhpe_pe_rem_setup`
leaves. -/
theorem rx_get_reaches_issue (K : zhpe_defs) (o : rx_env) (ctx : zhpe_rx_ctx) (e : Nat)
    (hstat : 0 ≤ (ctx.entries e).pe_root.status)
    (hst : (ctx.entries e).rx_state = ZHPE_RX_STATE_EAGER ∨
      (ctx.entries e).rx_state = ZHPE_RX_STATE_EAGER_CLAIMED ∨
      (ctx.entries e).rx_state = ZHPE_RX_STATE_RND_BUF ∨
      (ctx.entries e).rx_state = ZHPE_RX_STATE_RND_DIRECT)
    (hlen : (ctx.entries e).total_len = (ctx.entries e).rem)
    (hkey : ((ctx.entries e).lstate.missing ≠ 0 → 0 ≤ o.zhpe_mr_reg_int_iov) ∧
      0 ≤ (zhpe_pe_rem_setup K o.zhpe_conn_rkey_get o.zhpeq_rem_key_access
        (ctx.entries e).rstate true).2) :
    zhpe_pe_rx_get K o ctx e false =
      rx_get_issue K o (rx_set ctx e (fun x =>
        { x with rstate := (zhpe_pe_rem_setup K o.zhpe_conn_rkey_get o.zhpeq_rem_key_access
            (ctx.entries e).rstate true).1 })) e := by
  unfold zhpe_pe_rx_get
  simp only []
  rw [if_neg (show ¬ (ctx.entries e).pe_root.status < 0 by omega)]
  have hskip : ¬ ((ctx.entries e).total_len ≠ (ctx.entries e).rem ∨ false = true) := by
    simp [hlen]
  have hrc : (if (ctx.entries e).lstate.missing ≠ 0 then o.zhpe_mr_reg_int_iov else 0) ≥ 0 := by
    by_cases hm : (ctx.entries e).lstate.missing ≠ 0
    · rw [if_pos hm]
      exact hkey.1 hm
    · rw [if_neg hm]
  have hok : ¬ (zhpe_pe_rem_setup K o.zhpe_conn_rkey_get o.zhpeq_rem_key_access
      (ctx.entries e).rstate true).2 < 0 := by
    have := hkey.2
    omega
  rcases hst with h | h | h | h <;> rw [h] <;> simp only [] <;>
    rw [if_neg hskip, if_pos hrc, if_neg hok]

/-- The chunking code calls `zhpe_iov_op` when an operation slot is free and
bytes remain: the call is the first thing added to the log. -/
theorem rx_get_issue_emits (K : zhpe_defs) (o : rx_env) (ctx : zhpe_rx_ctx) (e : Nat)
    (hops : (ctx.entries e).pe_root.completions < K.ZHPE_EP_MAX_IO_OPS)
    (hrem : 0 < (ctx.entries e).rem) (hbytes : 0 < K.ZHPE_EP_MAX_IO_BYTES) :
    (ctx.out ++ [rx_out.iov_op_get e
        (if (ctx.entries e).rem > K.ZHPE_EP_MAX_IO_BYTES then K.ZHPE_EP_MAX_IO_BYTES
          else (ctx.entries e).rem)
        (K.ZHPE_EP_MAX_IO_OPS - (ctx.entries e).pe_root.completions)])
      <+: (rx_get_issue K o ctx e).out := by
  unfold rx_get_issue
  simp only []
  rw [if_neg (show ¬ ((ctx.entries e).pe_root.completions ≥ K.ZHPE_EP_MAX_IO_OPS) by omega)]
  have hnz : ¬ ((if (ctx.entries e).rem > K.ZHPE_EP_MAX_IO_BYTES then K.ZHPE_EP_MAX_IO_BYTES
      else (ctx.entries e).rem) = 0 ∨
      K.ZHPE_EP_MAX_IO_OPS - (ctx.entries e).pe_root.completions = 0) := by
    intro h
    rcases h with h | h
    · split at h <;> omega
    · omega
  rw [if_neg hnz]
  generalize (if (ctx.entries e).rem > K.ZHPE_EP_MAX_IO_BYTES then K.ZHPE_EP_MAX_IO_BYTES
      else (ctx.entries e).rem) = mb
  have hbase : (ctx.out ++ [rx_out.iov_op_get e mb
      (K.ZHPE_EP_MAX_IO_OPS - (ctx.entries e).pe_root.completions)]) <+:
      (rx_emit ctx [rx_out.iov_op_get e mb
        (K.ZHPE_EP_MAX_IO_OPS - (ctx.entries e).pe_root.completions)]).out :=
    List.prefix_refl _
  repeat (first
    | assumption
    | with_reducible apply rx_pre_get_complete
    | with_reducible apply rx_pre_emit
    | with_reducible apply rx_pre_set
    | split)

/-! ## Helper lemmas: no entry is linked twice -/

theorem nodup_append3 (a b c : List Nat) :
    (a ++ b ++ c).Nodup ↔ a.Nodup ∧ b.Nodup ∧ c.Nodup ∧
      (∀ x ∈ a, x ∉ b) ∧ (∀ x ∈ a, x ∉ c) ∧ (∀ x ∈ b, x ∉ c) := by
  simp only [List.nodup_append, List.Disjoint, List.mem_append]
  constructor
  · rintro ⟨⟨ha, hb, hab⟩, hc, habc⟩
    exact ⟨ha, hb, hc, fun x hx hxb => hab hx hxb, fun x hx hxc => habc (Or.inl hx) hxc,
      fun x hx hxc => habc (Or.inr hx) hxc⟩
  · rintro ⟨ha, hb, hc, hab, hac, hbc⟩
    refine ⟨⟨ha, hb, fun {x} hx hxb => hab x hx hxb⟩, hc, fun {x} hx hxc => ?_⟩
    rcases hx with hx | hx
    · exact hac x hx hxc
    · exact hbc x hx hxc

theorem rx_lists_ok_iff (ctx : zhpe_rx_ctx) :
    rx_lists_ok ctx ↔ ctx.rx_posted_list.Nodup ∧ ctx.rx_buffered_list.Nodup ∧
      ctx.rx_work_list.Nodup ∧ (∀ x ∈ ctx.rx_posted_list, x ∉ ctx.rx_buffered_list) ∧
      (∀ x ∈ ctx.rx_posted_list, x ∉ ctx.rx_work_list) ∧
      (∀ x ∈ ctx.rx_buffered_list, x ∉ ctx.rx_work_list) :=
  nodup_append3 _ _ _

/-! ## SEND arrival -/

/-- The moved entry: after `dlist_remove` and `dlist_insert_tail` on the work
list, the first match `p` of the posted list `l1 ++ p :: l2` has left it and is
the last entry of the work list, provided no entry is linked twice. -/
theorem rx_move_posted_to_work (ctx : zhpe_rx_ctx) (l1 l2 : List Nat) (p : Nat)
    (hok : rx_lists_ok ctx) (hl : ctx.rx_posted_list = l1 ++ p :: l2) :
    (rx_work_insert_tail (rx_dlist_remove ctx p) p).rx_posted_list = l1 ++ l2 ∧
    (rx_work_insert_tail (rx_dlist_remove ctx p) p).rx_buffered_list = ctx.rx_buffered_list ∧
    (rx_work_insert_tail (rx_dlist_remove ctx p) p).rx_work_list = ctx.rx_work_list ++ [p] := by
  rw [rx_lists_ok_iff] at hok
  obtain ⟨hp, _, _, hpb, hpw, _⟩ := hok
  have hmem : p ∈ ctx.rx_posted_list := by rw [hl]; simp
  have h1 : p ∉ l1 := by
    intro h
    rw [hl] at hp
    have := (List.nodup_append.1 hp).2.2
    exact this h (List.mem_cons_self _ _)
  simp only [rx_work_insert_tail, rx_dlist_remove]
  rw [hl, erase_first_match l1 l2 p h1, List.erase_of_not_mem (hpb p hmem),
    List.erase_of_not_mem (hpw p hmem)]
  exact ⟨rfl, rfl, rfl⟩

/-- C12: on SEND arrival the first entry `p` of `rx_posted_list` that the
matcher accepts is selected (`l1` holds the posted entries before it, none of
which matches).  When `p` is a single receive (no `FI_MULTI_RECV`), the call
returns 0, `p` leaves the posted list, whose other entries keep their order,
and is appended to the work list (context `c`).  An inline message is copied
(`rem` is the length less the bytes copied) and completed at once by
`zhpe_pe_rx_complete`, which leaves `p` in state COMPLETE.  For a non-inline
message `p` is in state RND_DIRECT with its own `lstate` (the user buffer) as
the local side when `zhpe_pe_rx_get` is called, and when the recorded status
is not negative, the key setup succeeds and the message is not empty, the
first thing that call does is to issue the GET for the entry. -/
theorem handle_send_single_posted (K : zhpe_defs) (M : rx_matcher) (o : rx_env)
    (ctx : zhpe_rx_ctx) (m : rx_send_msg) (l1 l2 : List Nat) (p : Nat)
    (hok : rx_lists_ok ctx)
    (hl : ctx.rx_posted_list = l1 ++ p :: l2)
    (hno : ∀ x ∈ l1, M (ctx.entries x) false m.fi_addr (rx_send_parse K m).2.1
      (ctx.entries x).ignore (rx_send_parse K m).2.2.2 = false)
    (hp : M (ctx.entries p) false m.fi_addr (rx_send_parse K m).2.1
      (ctx.entries p).ignore (rx_send_parse K m).2.2.2 = true)
    (hsingle : (ctx.entries p).flags &&& K.FI_MULTI_RECV = 0) :
    (zhpe_pe_rx_handle_send K M o ctx m).2 = 0 ∧
    (zhpe_pe_rx_handle_send K M o ctx m).1.rx_posted_list = l1 ++ l2 ∧
    (zhpe_pe_rx_handle_send K M o ctx m).1.rx_buffered_list = ctx.rx_buffered_list ∧
    ∃ c : zhpe_rx_ctx,
      c.rx_posted_list = l1 ++ l2 ∧ c.rx_buffered_list = ctx.rx_buffered_list ∧
      c.rx_work_list = ctx.rx_work_list ++ [p] ∧ c.out = ctx.out ∧
      (c.entries p).total_len = (rx_send_parse K m).1 ∧
      (c.entries p).lstate = (ctx.entries p).lstate ∧
      (c.entries p).buf = K.zhpe_ziov_state_ptr (ctx.entries p).lstate ∧
      (m.zhdr.flags &&& K.ZHPE_MSG_INLINE ≠ 0 →
        (c.entries p).rem = sub64 (rx_send_parse K m).1 o.copied ∧
        (zhpe_pe_rx_handle_send K M o ctx m).1 = zhpe_pe_rx_complete K c p 0 ∧
        ((zhpe_pe_rx_handle_send K M o ctx m).1.entries p).rx_state =
          ZHPE_RX_STATE_COMPLETE) ∧
      (m.zhdr.flags &&& K.ZHPE_MSG_INLINE = 0 →
        (c.entries p).rem = (rx_send_parse K m).1 ∧
        (c.entries p).rx_state = ZHPE_RX_STATE_RND_DIRECT ∧
        (zhpe_pe_rx_handle_send K M o ctx m).1 = zhpe_pe_rx_get K o c p false ∧
        (0 ≤ (ctx.entries p).pe_root.status →
          ((ctx.entries p).lstate.missing ≠ 0 → 0 ≤ o.zhpe_mr_reg_int_iov) →
          0 ≤ (zhpe_pe_rem_setup K o.zhpe_conn_rkey_get o.zhpeq_rem_key_access
            (c.entries p).rstate true).2 →
          0 < (rx_send_parse K m).1 →
          0 < K.ZHPE_EP_MAX_IO_OPS → 0 < K.ZHPE_EP_MAX_IO_BYTES →
          (ctx.out ++ [rx_out.iov_op_get p
              (if (rx_send_parse K m).1 > K.ZHPE_EP_MAX_IO_BYTES then K.ZHPE_EP_MAX_IO_BYTES
                else (rx_send_parse K m).1) K.ZHPE_EP_MAX_IO_OPS])
            <+: (zhpe_pe_rx_handle_send K M o ctx m).1.out)) := by
  have hfind := find_first_match ctx.rx_posted_list l1 l2 p hl hno hp
  obtain ⟨hmp, hmb, hmw⟩ := rx_move_posted_to_work ctx l1 l2 p hok hl
  rcases hparse : rx_send_parse K m with ⟨msg_len, tag, cq_data, flags⟩
  rw [hparse] at hfind
  simp only [] at hfind
  have hpb0 : rx_pb (l1 ++ l2) ctx.rx_buffered_list
      (rx_work_insert_tail (rx_dlist_remove ctx p) p) := ⟨hmp, hmb⟩
  unfold zhpe_pe_rx_handle_send
  rw [hparse]
  simp only []
  rw [hfind]
  simp only [hsingle, ne_eq, not_true_eq_false, if_false]
  have hz : ((rx_set (rx_basic_init (rx_work_insert_tail (rx_dlist_remove ctx p) p) p m msg_len
      tag cq_data flags) p (fun e => { e with buf := K.zhpe_ziov_state_ptr e.lstate })).entries
      p).zhdr = m.zhdr := by
    simp [rx_set, rx_basic_init]
  rw [hz]
  by_cases hin : m.zhdr.flags &&& K.ZHPE_MSG_INLINE = 0
  · rw [if_neg (by simp [hin])]
    simp only []
    obtain ⟨c, hc⟩ : ∃ c, c = set_rx_state (rx_riov_init (rx_set (rx_basic_init
        (rx_work_insert_tail (rx_dlist_remove ctx p) p) p m msg_len tag cq_data flags) p
        (fun e => { e with buf := K.zhpe_ziov_state_ptr e.lstate })) p m) p
        ZHPE_RX_STATE_RND_DIRECT := ⟨_, rfl⟩
    rw [← hc]
    have hcpb : rx_pb (l1 ++ l2) ctx.rx_buffered_list c := by rw [hc]; exact hpb0
    have hcw : c.rx_work_list = ctx.rx_work_list ++ [p] := by rw [hc]; exact hmw
    have hco : c.out = ctx.out := by rw [hc]; rfl
    have hcs : (c.entries p).rx_state = ZHPE_RX_STATE_RND_DIRECT := by
      rw [hc]; simp [set_rx_state, rx_set]
    have hct : (c.entries p).total_len = msg_len := by
      rw [hc]; simp [set_rx_state, rx_set, rx_riov_init, rx_basic_init]
    have hcr : (c.entries p).rem = msg_len := by
      rw [hc]; simp [set_rx_state, rx_set, rx_riov_init, rx_basic_init]
    have hcl : (c.entries p).lstate = (ctx.entries p).lstate := by
      rw [hc]
      simp [set_rx_state, rx_set, rx_riov_init, rx_basic_init, rx_work_insert_tail,
        rx_dlist_remove]
    have hcb : (c.entries p).buf = K.zhpe_ziov_state_ptr (ctx.entries p).lstate := by
      rw [hc]
      simp [set_rx_state, rx_set, rx_riov_init, rx_basic_init, rx_work_insert_tail,
        rx_dlist_remove]
    have hcc : (c.entries p).pe_root.completions = 0 := by
      rw [hc]; simp [set_rx_state, rx_set, rx_riov_init, rx_basic_init]
    have hcst : (c.entries p).pe_root.status = (ctx.entries p).pe_root.status := by
      rw [hc]
      simp [set_rx_state, rx_set, rx_riov_init, rx_basic_init, rx_work_insert_tail,
        rx_dlist_remove]
    have hget := rx_pb_get K o (l1 ++ l2) ctx.rx_buffered_list c p false
      (by rw [hcs]; decide) hcpb
    refine ⟨trivial, hget.1, hget.2, c, hcpb.1, hcpb.2, hcw, hco, hct, hcl, hcb,
      fun h => absurd hin h, fun _ => ⟨hcr, hcs, rfl, ?_⟩⟩
    intro hstat hreg hsetup hlen hops hbytes
    rw [rx_get_reaches_issue K o c p (by rw [hcst]; exact hstat)
      (Or.inr (Or.inr (Or.inr hcs))) (hct.trans hcr.symm) ⟨by rw [hcl]; exact hreg, hsetup⟩]
    obtain ⟨c2, hc2⟩ : ∃ c2, c2 = rx_set c p (fun x =>
        { x with rstate := (zhpe_pe_rem_setup K o.zhpe_conn_rkey_get o.zhpeq_rem_key_access
            (c.entries p).rstate true).1 }) := ⟨_, rfl⟩
    rw [← hc2]
    have h2c : (c2.entries p).pe_root.completions = 0 := by
      rw [hc2]; simp [rx_set, hcc]
    have h2r : (c2.entries p).rem = msg_len := by
      rw [hc2]; simp [rx_set, hcr]
    have h2o : c2.out = ctx.out := by rw [hc2]; exact hco
    have := rx_get_issue_emits K o c2 p (by rw [h2c]; exact hops) (by rw [h2r]; exact hlen)
      hbytes
    rw [h2r, h2c, h2o, Int.sub_zero] at this
    exact this
  · rw [if_pos hin]
    simp only []
    obtain ⟨c, hc⟩ : ∃ c, c = rx_set (rx_set (rx_basic_init
        (rx_work_insert_tail (rx_dlist_remove ctx p) p) p m msg_len tag cq_data flags) p
        (fun e => { e with buf := K.zhpe_ziov_state_ptr e.lstate })) p
        (fun e => { e with rem := sub64 e.rem o.copied }) := ⟨_, rfl⟩
    rw [← hc]
    have hcpb : rx_pb (l1 ++ l2) ctx.rx_buffered_list c := by rw [hc]; exact hpb0
    have hcw : c.rx_work_list = ctx.rx_work_list ++ [p] := by rw [hc]; exact hmw
    have hco : c.out = ctx.out := by rw [hc]; rfl
    have hct : (c.entries p).total_len = msg_len := by
      rw [hc]; simp [rx_set, rx_basic_init]
    have hcr : (c.entries p).rem = sub64 msg_len o.copied := by
      rw [hc]; simp [rx_set, rx_basic_init]
    have hcl : (c.entries p).lstate = (ctx.entries p).lstate := by
      rw [hc]
      simp [rx_set, rx_basic_init, rx_work_insert_tail, rx_dlist_remove]
    have hcb : (c.entries p).buf = K.zhpe_ziov_state_ptr (ctx.entries p).lstate := by
      rw [hc]
      simp [rx_set, rx_basic_init, rx_work_insert_tail, rx_dlist_remove]
    have hcomp := rx_pb_complete K (l1 ++ l2) ctx.rx_buffered_list c p 0 hcpb
    refine ⟨trivial, hcomp.1, hcomp.2, c, hcpb.1, hcpb.2, hcw, hco, hct, hcl, hcb,
      fun _ => ⟨hcr, rfl, ?_⟩, fun h => absurd h hin⟩
    rw [rx_complete_entries]
    simp [rx_completed_entry]

/-- A rendezvous SEND with tag 2 arrives while receives 1 and 2 are posted:
receive 2 is moved to the work list in state RND_DIRECT and the GET is
issued. -/
theorem handle_send_single_posted_witness :
    (zhpe_pe_rx_handle_send zhpe_defs_example rx_match_example rx_env_example
        (rx_ctx_example [1, 2]) (rx_send_example 1000 2)).1.rx_posted_list = [1] ++ [] ∧
    (zhpe_pe_rx_handle_send zhpe_defs_example rx_match_example rx_env_example
        (rx_ctx_example [1, 2]) (rx_send_example 1000 2)).1.rx_work_list = [2] ∧
    ((zhpe_pe_rx_handle_send zhpe_defs_example rx_match_example rx_env_example
        (rx_ctx_example [1, 2]) (rx_send_example 1000 2)).1.entries 2).rx_state =
      ZHPE_RX_STATE_RND_DIRECT ∧
    (zhpe_pe_rx_handle_send zhpe_defs_example rx_match_example rx_env_example
        (rx_ctx_example [1, 2]) (rx_send_example 1000 2)).1.out =
      [rx_out.iov_op_get 2 1000 2] :=
  ⟨(handle_send_single_posted zhpe_defs_example rx_match_example rx_env_example
      (rx_ctx_example [1, 2]) (rx_send_example 1000 2) [1] [] 2 (by decide) rfl (by decide)
      (by decide) (by decide)).2.1,
   by decide, by decide, by decide⟩

/-! ## Helper lemmas: `zhpe_pe_rx_get` on an EAGER entry -/

theorem rx_eager_set (p b w : List Nat) (e : Nat) (ctx : zhpe_rx_ctx)
    (f : zhpe_rx_entry → zhpe_rx_entry) (hf : ∀ x, (f x).rx_state = x.rx_state)
    (h : rx_eager_at p b w e ctx) : rx_eager_at p b w e (rx_set ctx e f) := by
  obtain ⟨h1, h2, h3, h4⟩ := h
  refine ⟨h1, h2, h3, ?_⟩
  simp only [rx_set, Function.update_same, hf]
  exact h4

theorem rx_eager_emit (p b w : List Nat) (e : Nat) (ctx : zhpe_rx_ctx) (o : List rx_out)
    (h : rx_eager_at p b w e ctx) : rx_eager_at p b w e (rx_emit ctx o) := h

theorem rx_eager_done (p b w : List Nat) (e : Nat) (ctx : zhpe_rx_ctx)
    (h : rx_eager_at p b w e ctx) :
    rx_eager_at p b w e (set_rx_state ctx e ZHPE_RX_STATE_EAGER_DONE) := by
  obtain ⟨h1, h2, h3, _⟩ := h
  exact ⟨h1, h2, h3, Or.inr (by simp [set_rx_state, rx_set])⟩

theorem rx_eager_get_complete (K : zhpe_defs) (o : rx_env) (p b w : List Nat) (e : Nat)
    (ctx : zhpe_rx_ctx) (h : rx_eager_at p b w e ctx) :
    rx_eager_at p b w e (rx_get_complete K o ctx e) := by
  unfold rx_get_complete
  split
  · exact h
  · rcases h.2.2.2 with hst | hst
    · rw [hst]
      simp only []
      rw [if_neg (by decide)]
      simp only [if_true]
      have hs : ((rx_set (set_rx_state ctx e ZHPE_RX_STATE_EAGER_DONE) e (fun e =>
          { e with zhdr := { e.zhdr with
              flags := bit_clear e.zhdr.flags K.ZHPE_MSG_TRANSMIT_COMPLETE } })).entries e).rx_state
          = ZHPE_RX_STATE_EAGER_DONE := by
        simp [rx_set, set_rx_state]
      rw [if_pos hs]
      repeat (first
        | assumption
        | with_reducible apply rx_eager_emit
        | with_reducible apply rx_eager_set
        | with_reducible apply rx_eager_done
        | (intro x; rfl)
        | split)
    · rw [hst]
      exact h

theorem rx_eager_get_issue (K : zhpe_defs) (o : rx_env) (p b w : List Nat) (e : Nat)
    (ctx : zhpe_rx_ctx) (h : rx_eager_at p b w e ctx) :
    rx_eager_at p b w e (rx_get_issue K o ctx e) := by
  unfold rx_get_issue
  simp only []
  repeat (first
    | assumption
    | with_reducible apply rx_eager_get_complete
    | with_reducible apply rx_eager_emit
    | with_reducible apply rx_eager_set
    | (intro x; rfl)
    | split)

theorem rx_eager_get (K : zhpe_defs) (o : rx_env) (p b w : List Nat) (e : Nat)
    (ctx : zhpe_rx_ctx) (retry : Bool) (hst : (ctx.entries e).rx_state = ZHPE_RX_STATE_EAGER)
    (h : rx_eager_at p b w e ctx) :
    rx_eager_at p b w e (zhpe_pe_rx_get K o ctx e retry) := by
  unfold zhpe_pe_rx_get
  simp only []
  split
  · exact rx_eager_get_complete K o p b w e ctx h
  · rw [hst]
    simp only []
    repeat (first
      | assumption
      | with_reducible apply rx_eager_get_complete
      | with_reducible apply rx_eager_get_issue
      | with_reducible apply rx_eager_set
      | (intro x; rfl)
      | split)

/-- When the GET issued by the chunking code is outstanding (`zhpe_iov_op`
returns a positive value, or 0 with operations in flight), `zhpe_pe_rx_get`
returns with the entry updated by `zhpe_iov_op` and nothing else changed. -/
theorem rx_get_issue_outstanding (K : zhpe_defs) (o : rx_env) (ctx : zhpe_rx_ctx) (e : Nat)
    (hops : (ctx.entries e).pe_root.completions < K.ZHPE_EP_MAX_IO_OPS)
    (hrem : 0 < (ctx.entries e).rem) (hbytes : 0 < K.ZHPE_EP_MAX_IO_BYTES)
    (hout : 0 < o.zhpe_iov_op ∨ (o.zhpe_iov_op = 0 ∧ o.iov_op_completions ≠ 0)) :
    rx_get_issue K o ctx e =
      rx_set (rx_emit ctx [rx_out.iov_op_get e
          (if (ctx.entries e).rem > K.ZHPE_EP_MAX_IO_BYTES then K.ZHPE_EP_MAX_IO_BYTES
            else (ctx.entries e).rem)
          (K.ZHPE_EP_MAX_IO_OPS - (ctx.entries e).pe_root.completions)]) e
        (fun x => { x with pe_root := { x.pe_root with completions := o.iov_op_completions },
                           rem := o.iov_op_rem }) := by
  unfold rx_get_issue
  simp only []
  rw [if_neg (show ¬ ((ctx.entries e).pe_root.completions ≥ K.ZHPE_EP_MAX_IO_OPS) by omega)]
  have hnz : ¬ ((if (ctx.entries e).rem > K.ZHPE_EP_MAX_IO_BYTES then K.ZHPE_EP_MAX_IO_BYTES
      else (ctx.entries e).rem) = 0 ∨
      K.ZHPE_EP_MAX_IO_OPS - (ctx.entries e).pe_root.completions = 0) := by
    intro h
    rcases h with h | h
    · split at h <;> omega
    · omega
  rw [if_neg hnz]
  generalize (if (ctx.entries e).rem > K.ZHPE_EP_MAX_IO_BYTES then K.ZHPE_EP_MAX_IO_BYTES
      else (ctx.entries e).rem) = mb
  rcases hout with h | ⟨h0, hc⟩
  · rw [if_pos (show o.zhpe_iov_op > 0 from h)]
  · rw [if_neg (show ¬ o.zhpe_iov_op > 0 by omega),
      if_neg (show ¬ o.zhpe_iov_op < 0 by omega)]
    unfold rx_get_complete
    rw [if_pos]
    simp [rx_set]
    exact hc

/-- The result code of `rx_buf_alloc` does not depend on the entries. -/
theorem rx_buf_alloc_rc (K : zhpe_defs) (o : rx_env) (ctx : zhpe_rx_ctx) (e : Nat)
    (msg_len : Nat) :
    (rx_buf_alloc K o ctx e msg_len).2 =
      if ctx.buffered_len + msg_len > ctx.total_buffered_recv then -(K.FI_ENOSPC : Int)
      else o.zhpe_slab_alloc := by
  unfold rx_buf_alloc
  simp only []
  split
  · rfl
  · split <;> rfl

theorem rx_buf_alloc_frame (K : zhpe_defs) (o : rx_env) (ctx : zhpe_rx_ctx) (e : Nat)
    (msg_len : Nat) :
    (rx_buf_alloc K o ctx e msg_len).1.rx_posted_list = ctx.rx_posted_list ∧
    (rx_buf_alloc K o ctx e msg_len).1.rx_buffered_list = ctx.rx_buffered_list ∧
    (rx_buf_alloc K o ctx e msg_len).1.rx_work_list = ctx.rx_work_list ∧
    (rx_buf_alloc K o ctx e msg_len).1.out = ctx.out ∧
    ((rx_buf_alloc K o ctx e msg_len).1.entries e).rx_state = (ctx.entries e).rx_state ∧
    ((rx_buf_alloc K o ctx e msg_len).1.entries e).total_len = (ctx.entries e).total_len ∧
    ((rx_buf_alloc K o ctx e msg_len).1.entries e).rem = (ctx.entries e).rem ∧
    ((rx_buf_alloc K o ctx e msg_len).1.entries e).pe_root = (ctx.entries e).pe_root ∧
    ((rx_buf_alloc K o ctx e msg_len).1.entries e).lstate.missing =
      (ctx.entries e).lstate.missing := by
  unfold rx_buf_alloc
  simp only []
  split
  · exact ⟨rfl, rfl, rfl, rfl, rfl, rfl, rfl, rfl, rfl⟩
  · split
    · simp [rx_set]
    · simp [rx_set]

/-- A successful `rx_buf_alloc` gives the entry an eager buffer. -/
theorem rx_buf_alloc_ok (K : zhpe_defs) (o : rx_env) (ctx : zhpe_rx_ctx) (e : Nat)
    (msg_len : Nat) (hK : 0 < K.FI_ENOSPC)
    (h : ¬ (rx_buf_alloc K o ctx e msg_len).2 < 0) :
    ((rx_buf_alloc K o ctx e msg_len).1.entries e).buffered = K.ZHPE_RX_BUF_EAGER ∧
    ((rx_buf_alloc K o ctx e msg_len).1.entries e).lstate.cnt = 1 := by
  revert h
  unfold rx_buf_alloc
  simp only []
  split
  · intro h
    exact absurd (show -(K.FI_ENOSPC : Int) < 0 by omega) h
  · split
    · intro _
      simp [rx_set]
    · intro h
      rename_i h2
      exact absurd (show o.zhpe_slab_alloc < 0 by omega) h

/-- C13: when a SEND matches no posted receive and an entry `e` is
allocated, the call returns 0 and `e` is appended to the tail of
`rx_buffered_list`; the posted and the work list are unchanged.  The state of
`e` is INLINE for an inline header; otherwise RND when the message is longer
than `zhpe_ep_max_eager_sz` or `rx_buf_alloc` fails; otherwise `e` is EAGER
with an eager buffer when `zhpe_pe_rx_get` is called, and when the recorded
status is not negative, the key setup succeeds and the message is not empty,
the first thing that call does is to issue the GET, the entry staying EAGER
while the GET is outstanding.  When no entry can be allocated the call returns
`-FI_ENOMEM` and the context is unchanged. -/
theorem handle_send_unmatched (K : zhpe_defs) (M : rx_matcher) (o : rx_env)
    (ctx : zhpe_rx_ctx) (m : rx_send_msg) (hK : 0 < K.FI_ENOSPC)
    (hno : ∀ x ∈ ctx.rx_posted_list, M (ctx.entries x) false m.fi_addr (rx_send_parse K m).2.1
      (ctx.entries x).ignore (rx_send_parse K m).2.2.2 = false) :
    (o.zhpe_rx_new_entry = none →
      zhpe_pe_rx_handle_send K M o ctx m = (ctx, -(K.FI_ENOMEM : Int))) ∧
    (∀ e, o.zhpe_rx_new_entry = some e →
      (zhpe_pe_rx_handle_send K M o ctx m).2 = 0 ∧
      (zhpe_pe_rx_handle_send K M o ctx m).1.rx_posted_list = ctx.rx_posted_list ∧
      (zhpe_pe_rx_handle_send K M o ctx m).1.rx_buffered_list = ctx.rx_buffered_list ++ [e] ∧
      (zhpe_pe_rx_handle_send K M o ctx m).1.rx_work_list = ctx.rx_work_list ∧
      (m.zhdr.flags &&& K.ZHPE_MSG_INLINE ≠ 0 →
        ((zhpe_pe_rx_handle_send K M o ctx m).1.entries e).rx_state = ZHPE_RX_STATE_INLINE) ∧
      (m.zhdr.flags &&& K.ZHPE_MSG_INLINE = 0 →
        ((rx_send_parse K m).1 > K.zhpe_ep_max_eager_sz ∨
          (rx_buf_alloc K o ctx e (rx_send_parse K m).1).2 < 0) →
        ((zhpe_pe_rx_handle_send K M o ctx m).1.entries e).rx_state = ZHPE_RX_STATE_RND) ∧
      (m.zhdr.flags &&& K.ZHPE_MSG_INLINE = 0 →
        ¬ (rx_send_parse K m).1 > K.zhpe_ep_max_eager_sz →
        ¬ (rx_buf_alloc K o ctx e (rx_send_parse K m).1).2 < 0 →
        ∃ c : zhpe_rx_ctx,
          (zhpe_pe_rx_handle_send K M o ctx m).1 = zhpe_pe_rx_get K o c e false ∧
          c.out = ctx.out ∧
          (c.entries e).rx_state = ZHPE_RX_STATE_EAGER ∧
          (c.entries e).buffered = K.ZHPE_RX_BUF_EAGER ∧
          (c.entries e).lstate.cnt = 1 ∧
          (c.entries e).total_len = (rx_send_parse K m).1 ∧
          (((zhpe_pe_rx_handle_send K M o ctx m).1.entries e).rx_state = ZHPE_RX_STATE_EAGER ∨
            ((zhpe_pe_rx_handle_send K M o ctx m).1.entries e).rx_state =
              ZHPE_RX_STATE_EAGER_DONE) ∧
          (0 ≤ (ctx.entries e).pe_root.status →
            ((ctx.entries e).lstate.missing ≠ 0 → 0 ≤ o.zhpe_mr_reg_int_iov) →
            0 ≤ (zhpe_pe_rem_setup K o.zhpe_conn_rkey_get o.zhpeq_rem_key_access
              (c.entries e).rstate true).2 →
            0 < (rx_send_parse K m).1 →
            0 < K.ZHPE_EP_MAX_IO_OPS → 0 < K.ZHPE_EP_MAX_IO_BYTES →
            (ctx.out ++ [rx_out.iov_op_get e
                (if (rx_send_parse K m).1 > K.ZHPE_EP_MAX_IO_BYTES then K.ZHPE_EP_MAX_IO_BYTES
                  else (rx_send_parse K m).1) K.ZHPE_EP_MAX_IO_OPS])
              <+: (zhpe_pe_rx_handle_send K M o ctx m).1.out ∧
            ((0 < o.zhpe_iov_op ∨ (o.zhpe_iov_op = 0 ∧ o.iov_op_completions ≠ 0)) →
              ((zhpe_pe_rx_handle_send K M o ctx m).1.entries e).rx_state =
                ZHPE_RX_STATE_EAGER)))) := by
  rcases hparse : rx_send_parse K m with ⟨msg_len, tag, cq_data, flags⟩
  rw [hparse] at hno
  simp only [] at hno
  have hfind : ctx.rx_posted_list.find?
      (fun p => M (ctx.entries p) false m.fi_addr tag (ctx.entries p).ignore flags) = none := by
    rw [List.find?_eq_none]
    intro x hx
    simp [hno x hx]
  constructor
  · intro hnone
    unfold zhpe_pe_rx_handle_send
    rw [hparse]
    simp only []
    rw [hfind]
    simp only []
    rw [hnone]
  · intro e hsome
    unfold zhpe_pe_rx_handle_send
    rw [hparse]
    simp only []
    rw [hfind]
    simp only []
    rw [hsome]
    simp only []
    obtain ⟨c0, hc0⟩ : ∃ c0, c0 = rx_set (rx_buffered_insert_tail
        (rx_basic_init ctx e m msg_len tag cq_data flags) e) e
        (fun b => { b with buffered := K.ZHPE_RX_BUF }) := ⟨_, rfl⟩
    have hz : (c0.entries e).zhdr = m.zhdr := by
      rw [hc0]; simp [rx_set, rx_basic_init, rx_buffered_insert_tail]
    have ht : ((rx_riov_init c0 e m).entries e).total_len = msg_len := by
      rw [hc0]; simp [rx_set, rx_basic_init, rx_buffered_insert_tail, rx_riov_init]
    have hbi : rx_buffered_init K (rx_buffered_insert_tail
        (rx_basic_init ctx e m msg_len tag cq_data flags) e) e m none =
        if m.zhdr.flags &&& K.ZHPE_MSG_INLINE ≠ 0 then
          (set_rx_state c0 e ZHPE_RX_STATE_INLINE, false)
        else if msg_len > K.zhpe_ep_max_eager_sz then
          (set_rx_state (rx_riov_init c0 e m) e ZHPE_RX_STATE_RND, false)
        else (set_rx_state (rx_riov_init c0 e m) e ZHPE_RX_STATE_EAGER, true) := by
      unfold rx_buffered_init
      simp only []
      rw [← hc0, hz, ht]
      simp
    rw [hbi]
    have hl0 : c0.rx_posted_list = ctx.rx_posted_list ∧
        c0.rx_buffered_list = ctx.rx_buffered_list ++ [e] ∧
        c0.rx_work_list = ctx.rx_work_list ∧ c0.out = ctx.out ∧
        c0.buffered_len = ctx.buffered_len ∧
        c0.total_buffered_recv = ctx.total_buffered_recv := by
      rw [hc0]; exact ⟨rfl, rfl, rfl, rfl, rfl, rfl⟩
    obtain ⟨hl0p, hl0b, hl0w, hl0o, hl0n, hl0t⟩ := hl0
    by_cases hin : m.zhdr.flags &&& K.ZHPE_MSG_INLINE ≠ 0
    · rw [if_pos hin]
      refine ⟨rfl, hl0p, hl0b, hl0w, fun _ => by simp [set_rx_state, rx_set],
        fun h => absurd h hin, fun h => absurd h hin⟩
    · rw [if_neg hin]
      by_cases hbig : msg_len > K.zhpe_ep_max_eager_sz
      · rw [if_pos hbig]
        refine ⟨rfl, hl0p, hl0b, hl0w, fun h => absurd h hin,
          fun _ _ => by simp [set_rx_state, rx_set], fun _ h => absurd hbig h⟩
      · rw [if_neg hbig]
        simp only []
        obtain ⟨c1, hc1⟩ : ∃ c1, c1 = set_rx_state (rx_riov_init c0 e m) e
            ZHPE_RX_STATE_EAGER := ⟨_, rfl⟩
        rw [← hc1]
        have hl1 : c1.rx_posted_list = ctx.rx_posted_list ∧
            c1.rx_buffered_list = ctx.rx_buffered_list ++ [e] ∧
            c1.rx_work_list = ctx.rx_work_list ∧ c1.out = ctx.out ∧
            c1.buffered_len = ctx.buffered_len ∧
            c1.total_buffered_recv = ctx.total_buffered_recv := by
          rw [hc1]; exact ⟨hl0p, hl0b, hl0w, hl0o, hl0n, hl0t⟩
        obtain ⟨hl1p, hl1b, hl1w, hl1o, hl1n, hl1t⟩ := hl1
        have hrc : (rx_buf_alloc K o c1 e msg_len).2 = (rx_buf_alloc K o ctx e msg_len).2 := by
          rw [rx_buf_alloc_rc, rx_buf_alloc_rc, hl1n, hl1t]
        rw [hrc]
        obtain ⟨hfp, hfb, hfw, hfo, hfs, hft, hfr, hfpe, hfm⟩ :=
          rx_buf_alloc_frame K o c1 e msg_len
        have h1s : (c1.entries e).rx_state = ZHPE_RX_STATE_EAGER := by
          rw [hc1]; simp [set_rx_state, rx_set]
        have h1t : (c1.entries e).total_len = msg_len := by
          rw [hc1, hc0]
          simp [set_rx_state, rx_set, rx_riov_init, rx_basic_init, rx_buffered_insert_tail]
        have h1r : (c1.entries e).rem = msg_len := by
          rw [hc1, hc0]
          simp [set_rx_state, rx_set, rx_riov_init, rx_basic_init, rx_buffered_insert_tail]
        have h1c : (c1.entries e).pe_root.completions = 0 := by
          rw [hc1, hc0]
          simp [set_rx_state, rx_set, rx_riov_init, rx_basic_init, rx_buffered_insert_tail]
        have h1st : (c1.entries e).pe_root.status = (ctx.entries e).pe_root.status := by
          rw [hc1, hc0]
          simp [set_rx_state, rx_set, rx_riov_init, rx_basic_init, rx_buffered_insert_tail]
        have h1m : (c1.entries e).lstate.missing = (ctx.entries e).lstate.missing := by
          rw [hc1, hc0]
          simp [set_rx_state, rx_set, rx_riov_init, rx_basic_init, rx_buffered_insert_tail]
        by_cases hneg : (rx_buf_alloc K o ctx e msg_len).2 < 0
        · rw [if_pos hneg]
          refine ⟨rfl, hfp.trans hl1p, hfb.trans hl1b, hfw.trans hl1w, fun h => absurd h hin,
            fun _ _ => by simp [set_rx_state, rx_set], fun _ _ h => absurd hneg h⟩
        · rw [if_neg hneg]
          simp only []
          obtain ⟨c, hc⟩ : ∃ c, c = (rx_buf_alloc K o c1 e msg_len).1 := ⟨_, rfl⟩
          rw [← hc] at hfp hfb hfw hfo hfs hft hfr hfpe hfm ⊢
          have hcs : (c.entries e).rx_state = ZHPE_RX_STATE_EAGER := hfs.trans h1s
          have heg := rx_eager_get K o ctx.rx_posted_list (ctx.rx_buffered_list ++ [e])
            ctx.rx_work_list e c false hcs
            ⟨hfp.trans hl1p, hfb.trans hl1b, hfw.trans hl1w, Or.inl hcs⟩
          obtain ⟨hok1, hok2⟩ := rx_buf_alloc_ok K o c1 e msg_len hK (by rw [hrc]; exact hneg)
          rw [← hc] at hok1 hok2
          refine ⟨trivial, heg.1, heg.2.1, heg.2.2.1, fun h => absurd h hin,
            fun _ h => ?_, fun _ _ _ => ⟨c, rfl, hfo.trans hl1o, hcs, hok1, hok2,
              hft.trans h1t, heg.2.2.2, ?_⟩⟩
          · rcases h with h | h
            · exact absurd h hbig
            · exact absurd h hneg
          · intro hstat hreg hsetup hlen hops hbytes
            have hcc : (c.entries e).pe_root.completions = 0 := by rw [hfpe]; exact h1c
            have hcr : (c.entries e).rem = msg_len := hfr.trans h1r
            have hreach := rx_get_reaches_issue K o c e
              (by rw [hfpe, h1st]; exact hstat) (Or.inl hcs) ((hft.trans h1t).trans hcr.symm)
              ⟨by rw [hfm, h1m]; exact hreg, hsetup⟩
            rw [hreach]
            obtain ⟨c2, hc2⟩ : ∃ c2, c2 = rx_set c e (fun x =>
                { x with rstate := (zhpe_pe_rem_setup K o.zhpe_conn_rkey_get
                    o.zhpeq_rem_key_access (c.entries e).rstate true).1 }) := ⟨_, rfl⟩
            rw [← hc2]
            have h2c : (c2.entries e).pe_root.completions = 0 := by
              rw [hc2]; simp [rx_set, hcc]
            have h2r : (c2.entries e).rem = msg_len := by
              rw [hc2]; simp [rx_set, hcr]
            have h2s : (c2.entries e).rx_state = ZHPE_RX_STATE_EAGER := by
              rw [hc2]; simp [rx_set, hcs]
            have h2o : c2.out = ctx.out := by rw [hc2]; exact hfo.trans hl1o
            constructor
            · have := rx_get_issue_emits K o c2 e (by rw [h2c]; exact hops)
                (by rw [h2r]; exact hlen) hbytes
              rw [h2r, h2c, h2o, Int.sub_zero] at this
              exact this
            · intro hout
              rw [rx_get_issue_outstanding K o c2 e (by rw [h2c]; exact hops)
                (by rw [h2r]; exact hlen) hbytes hout]
              simp [rx_set, rx_emit, h2s]

/-- A rendezvous SEND of 1000 bytes with tag 5 arrives while only receive 1 is
posted: the new entry 7 is buffered in state EAGER and the GET is issued. -/
theorem handle_send_unmatched_witness :
    (zhpe_pe_rx_handle_send zhpe_defs_example rx_match_example (rx_env_new_example 7)
        (rx_ctx_example [1]) (rx_send_example 1000 5)).1.rx_buffered_list = [] ++ [7] ∧
    ((zhpe_pe_rx_handle_send zhpe_defs_example rx_match_example (rx_env_new_example 7)
        (rx_ctx_example [1]) (rx_send_example 1000 5)).1.entries 7).rx_state =
      ZHPE_RX_STATE_EAGER ∧
    (zhpe_pe_rx_handle_send zhpe_defs_example rx_match_example (rx_env_new_example 7)
        (rx_ctx_example [1]) (rx_send_example 1000 5)).1.out = [rx_out.iov_op_get 7 1000 2] ∧
    (zhpe_pe_rx_handle_send zhpe_defs_example rx_match_example rx_env_example
        (rx_ctx_example [1]) (rx_send_example 1000 5)).2 = -12 :=
  ⟨((handle_send_unmatched zhpe_defs_example rx_match_example (rx_env_new_example 7)
      (rx_ctx_example [1]) (rx_send_example 1000 5) (by decide) (by decide)).2 7 rfl).2.2.1,
   by decide, by decide, by decide⟩

/-! ## Helper lemmas: the stages of `rx_user_claim` -/

/-- The buffered entry after the first stage of `rx_user_claim`. -/
theorem rx_user_claim_take_entries (K : zhpe_defs) (ctx : zhpe_rx_ctx) (b u : Nat)
    (hne : b ≠ u) :
    (rx_user_claim_take K ctx b u).entries =
      Function.update ctx.entries b
        { ctx.entries b with
            rx_state :=
              if (ctx.entries b).rx_state = ZHPE_RX_STATE_EAGER then ZHPE_RX_STATE_EAGER_CLAIMED
              else (ctx.entries b).rx_state,
            flags := (ctx.entries b).flags ||| ((ctx.entries u).flags &&& K.FI_COMPLETION),
            context := (ctx.entries u).context,
            ustate := (ctx.entries u).lstate,
            buf := K.zhpe_ziov_state_ptr (ctx.entries u).lstate } := by
  unfold rx_user_claim_take
  simp only []
  have hub : u ≠ b := fun h => hne h.symm
  split
  · rename_i hst
    funext x
    by_cases hx : x = b
    · subst hx
      simp [rx_set, set_rx_state, Function.update_noteq hub, hst]
    · simp [rx_set, set_rx_state, Function.update_noteq hx]
  · rename_i hst
    funext x
    by_cases hx : x = b
    · subst hx
      simp [rx_set, Function.update_noteq hub, hst]
    · simp [rx_set, Function.update_noteq hx]

/-- The second stage of `rx_user_claim` for a MULTI_RECV user entry: the
entries, and the lists in the two cases of the watermark test. -/
theorem rx_user_claim_link_multi (K : zhpe_defs) (ctx : zhpe_rx_ctx) (b u : Nat)
    (linked : Bool) (avail msg_len : Nat) (hne : b ≠ u)
    (hmulti : (ctx.entries u).flags &&& K.FI_MULTI_RECV ≠ 0) :
    (rx_user_claim_link K ctx b u linked avail msg_len).entries b =
      { ctx.entries b with
          ustate := { (ctx.entries b).ustate with missing := 0 },
          flags := if avail - msg_len < ctx.min_multi_recv
            then (ctx.entries b).flags ||| K.FI_MULTI_RECV else (ctx.entries b).flags } ∧
    (rx_user_claim_link K ctx b u linked avail msg_len).entries u =
      { ctx.entries u with
          lstate := K.zhpe_ziov_state_adv (ctx.entries u).lstate msg_len,
          rx_state := if avail - msg_len < ctx.min_multi_recv
            then ZHPE_RX_STATE_DROP else (ctx.entries u).rx_state } ∧
    (rx_user_claim_link K ctx b u linked avail msg_len).out = ctx.out ∧
    (avail - msg_len < ctx.min_multi_recv →
      rx_user_claim_link K ctx b u linked avail msg_len =
        rx_user_drop (rx_set (rx_set (rx_set ctx b (fun x =>
          { x with ustate := { x.ustate with missing := 0 } })) u (fun x =>
          { x with lstate := K.zhpe_ziov_state_adv x.lstate msg_len })) b (fun x =>
          { x with flags := x.flags ||| K.FI_MULTI_RECV })) u linked) ∧
    (¬ avail - msg_len < ctx.min_multi_recv →
      (rx_user_claim_link K ctx b u linked avail msg_len).rx_posted_list =
        (if linked then ctx.rx_posted_list else ctx.rx_posted_list ++ [u]) ∧
      (rx_user_claim_link K ctx b u linked avail msg_len).rx_buffered_list =
        ctx.rx_buffered_list ∧
      (rx_user_claim_link K ctx b u linked avail msg_len).rx_work_list = ctx.rx_work_list) := by
  have hub : u ≠ b := fun h => hne h.symm
  have hm : ((rx_set ctx b (fun x =>
      { x with ustate := { x.ustate with missing := 0 } })).entries u).flags &&&
      K.FI_MULTI_RECV ≠ 0 := by
    simp only [rx_set, Function.update_noteq hub]
    exact hmulti
  unfold rx_user_claim_link
  rw [if_pos hmulti]
  simp only []
  have hmin : (rx_set (rx_set ctx b (fun x =>
      { x with ustate := { x.ustate with missing := 0 } })) u (fun x =>
      { x with lstate := K.zhpe_ziov_state_adv x.lstate msg_len })).min_multi_recv
      = ctx.min_multi_recv := rfl
  rw [hmin]
  by_cases hw : avail - msg_len < ctx.min_multi_recv
  · rw [if_pos hw, if_pos hw, if_pos hw]
    refine ⟨?_, ?_, ?_, fun _ => rfl, fun h => absurd hw h⟩
    · cases linked <;>
        simp [rx_user_drop, rx_set, set_rx_state, rx_work_insert_tail, rx_dlist_remove,
          Function.update_noteq hub, Function.update_noteq hne]
    · cases linked <;>
        simp [rx_user_drop, rx_set, set_rx_state, rx_work_insert_tail, rx_dlist_remove,
          Function.update_noteq hub, Function.update_noteq hne]
    · cases linked <;> rfl
  · rw [if_neg hw, if_neg hw, if_neg hw]
    refine ⟨?_, ?_, ?_, fun h => absurd h hw, fun _ => ?_⟩
    · cases linked <;>
        simp [rx_set, rx_posted_insert_tail, Function.update_noteq hub,
          Function.update_noteq hne]
    · cases linked <;>
        simp [rx_set, rx_posted_insert_tail, Function.update_noteq hub,
          Function.update_noteq hne]
    · cases linked <;> rfl
    · cases linked <;> exact ⟨rfl, rfl, rfl⟩

/-- C15: for a message entry `b` claimed against a MULTI_RECV posted receive
`u` with `avail` bytes left, `rx_user_claim` is its last stage (the `switch`
on the state of `b`) run on a context `c2` in which `msg_len =
min(total_len, avail)` bytes of the buffer of `u` are consumed.  If
`avail - msg_len < min_multi_recv`, `u` is retired: it is on the work list and
not on the posted list, in state DROP, and the flags of `b`, from which its
completion is built, have gained `FI_MULTI_RECV`; otherwise `u` is on the
posted list and not on the work list, its state is unchanged and the flags of
`b` have gained nothing but the completion flag of `u`.  In scenario S3 (8 KiB
buffer, `min_multi_recv = 2048`, messages of 3000, 3000 and 2500 bytes) there
are three completions, for the entries 1, 2 and 3, and only the last carries
`FI_MULTI_RECV`. -/
theorem user_claim_multi_recv_watermark (K : zhpe_defs) (o : rx_env) (ctx : zhpe_rx_ctx)
    (b u : Nat) (linked : Bool) (hne : b ≠ u)
    (hmulti : (ctx.entries u).flags &&& K.FI_MULTI_RECV ≠ 0)
    (hok : rx_lists_ok ctx)
    (hu : if linked then u ∈ ctx.rx_posted_list else ¬ rx_on_list ctx u) :
    (∃ c2 : zhpe_rx_ctx,
      rx_user_claim K o ctx b u linked =
        rx_user_claim_switch K o c2 b
          (if (ctx.entries b).rx_state = ZHPE_RX_STATE_EAGER then ZHPE_RX_STATE_EAGER_CLAIMED
            else (ctx.entries b).rx_state)
          (min (ctx.entries b).total_len (K.zhpe_ziov_state_avail (ctx.entries u).lstate)) ∧
      (c2.entries u).lstate = K.zhpe_ziov_state_adv (ctx.entries u).lstate
        (min (ctx.entries b).total_len (K.zhpe_ziov_state_avail (ctx.entries u).lstate)) ∧
      (K.zhpe_ziov_state_avail (ctx.entries u).lstate -
          min (ctx.entries b).total_len (K.zhpe_ziov_state_avail (ctx.entries u).lstate)
          < ctx.min_multi_recv →
        u ∈ c2.rx_work_list ∧ u ∉ c2.rx_posted_list ∧
        (c2.entries u).rx_state = ZHPE_RX_STATE_DROP ∧
        (c2.entries b).flags =
          ((ctx.entries b).flags ||| ((ctx.entries u).flags &&& K.FI_COMPLETION))
            ||| K.FI_MULTI_RECV) ∧
      (¬ K.zhpe_ziov_state_avail (ctx.entries u).lstate -
          min (ctx.entries b).total_len (K.zhpe_ziov_state_avail (ctx.entries u).lstate)
          < ctx.min_multi_recv →
        u ∈ c2.rx_posted_list ∧ u ∉ c2.rx_work_list ∧
        (c2.entries u).rx_state = (ctx.entries u).rx_state ∧
        (c2.entries b).flags =
          (ctx.entries b).flags ||| ((ctx.entries u).flags &&& K.FI_COMPLETION))) ∧
    (rx_completions (rx_run zhpe_defs_example rx_match_example rx_ctx_multi_example
        rx_steps_multi_example).out).map (fun r => (r.1, r.2.1 &&& 2 ^ 16)) =
      [(1, 0), (2, 0), (3, 2 ^ 16)] := by
  refine ⟨?_, by decide⟩
  have hub : u ≠ b := fun h => hne h.symm
  obtain ⟨hfp, hfb, hfw, hfo, hfm, _⟩ := rx_user_claim_take_frame K ctx b u
  have hte := rx_user_claim_take_entries K ctx b u hne
  have htb : ((rx_user_claim_take K ctx b u).entries b).ustate = (ctx.entries u).lstate := by
    rw [hte]; simp
  have htt : ((rx_user_claim_take K ctx b u).entries b).total_len = (ctx.entries b).total_len := by
    rw [hte]; simp
  have htf : ((rx_user_claim_take K ctx b u).entries b).flags =
      (ctx.entries b).flags ||| ((ctx.entries u).flags &&& K.FI_COMPLETION) := by
    rw [hte]; simp
  have htu : (rx_user_claim_take K ctx b u).entries u = ctx.entries u := by
    rw [hte, Function.update_noteq hub]
  have hmin : ∀ t a : Nat, (if t > a then a else t) = min t a := by
    intro t a
    split
    · exact (Nat.min_eq_right (by omega)).symm
    · exact (Nat.min_eq_left (by omega)).symm
  obtain ⟨hlb, hlu, hlo, hlr, hls⟩ := rx_user_claim_link_multi K (rx_user_claim_take K ctx b u)
    b u linked (K.zhpe_ziov_state_avail (ctx.entries u).lstate)
    (min (ctx.entries b).total_len (K.zhpe_ziov_state_avail (ctx.entries u).lstate)) hne
    (by rw [htu]; exact hmulti)
  rw [hfm] at hlb hlu hlr hls
  refine ⟨rx_user_claim_link K (rx_user_claim_take K ctx b u) b u linked
    (K.zhpe_ziov_state_avail (ctx.entries u).lstate)
    (min (ctx.entries b).total_len (K.zhpe_ziov_state_avail (ctx.entries u).lstate)), ?_, ?_, ?_, ?_⟩
  · unfold rx_user_claim
    simp only []
    rw [htb, htt, hmin]
  · rw [hlu, htu]
  · intro hw
    have hokc := (rx_lists_ok_iff ctx).1 hok
    refine ⟨?_, ?_, ?_, ?_⟩
    · rw [hlr hw]
      simp [rx_user_drop, set_rx_state, rx_set, rx_work_insert_tail]
    · rw [hlr hw]
      cases linked
      · simp only [rx_user_drop, set_rx_state, rx_set, rx_work_insert_tail]
        rw [hfp]
        intro h
        exact hu (Or.inl h)
      · simp only [rx_user_drop, set_rx_state, rx_set, rx_work_insert_tail, rx_dlist_remove]
        rw [hfp]
        intro h
        exact ((List.Nodup.mem_erase_iff hokc.1).1 h).1 rfl
    · rw [hlu, if_pos hw]
    · rw [hlb, if_pos hw, htf]
  · intro hw
    have hokc := (rx_lists_ok_iff ctx).1 hok
    obtain ⟨hsp, _, hsw⟩ := hls hw
    refine ⟨?_, ?_, ?_, ?_⟩
    · rw [hsp, hfp]
      cases linked
      · simp
      · simpa using hu
    · rw [hsw, hfw]
      cases linked
      · intro h
        exact hu (Or.inr (Or.inr h))
      · intro h
        exact hokc.2.2.2.2.1 u (by simpa using hu) h
    · rw [hlu, if_neg hw, htu]
    · rw [hlb, if_neg hw, htf]

/-- The first message of scenario S3 is claimed: 3000 of the 8192 bytes are
consumed, 5192 are left, and the receive stays posted; over the whole
scenario only the third completion carries `FI_MULTI_RECV`. -/
theorem user_claim_multi_recv_watermark_witness :
    (rx_completions (rx_run zhpe_defs_example rx_match_example rx_ctx_multi_example
        rx_steps_multi_example).out).map (fun r => (r.1, r.2.1 &&& 2 ^ 16)) =
      [(1, 0), (2, 0), (3, 2 ^ 16)] ∧
    (rx_user_claim zhpe_defs_example rx_env_example rx_ctx_claim_example 1 20
        true).rx_posted_list = [20] ∧
    ((rx_user_claim zhpe_defs_example rx_env_example rx_ctx_claim_example 1 20
        true).entries 20).lstate.off = 3000 ∧
    ((rx_user_claim zhpe_defs_example rx_env_example rx_ctx_claim_example 1 20
        true).entries 1).flags &&& 2 ^ 16 = 0 :=
  ⟨(user_claim_multi_recv_watermark zhpe_defs_example rx_env_example rx_ctx_claim_example
      1 20 true (by decide) (by decide) (by decide) (by decide)).2,
   by decide, by decide, by decide⟩

/-! ## Helper lemmas: `zhpe_pe_rx_get` on a RND_DIRECT entry -/

theorem rx_direct_set (e : Nat) (ctx : zhpe_rx_ctx)
    (f : zhpe_rx_entry → zhpe_rx_entry) (hf : ∀ x, (f x).rx_state = x.rx_state)
    (h : rx_direct_at e ctx) : rx_direct_at e (rx_set ctx e f) := by
  unfold rx_direct_at at *
  simp only [rx_set, Function.update_same, hf]
  exact h

theorem rx_direct_emit (e : Nat) (ctx : zhpe_rx_ctx) (o : List rx_out)
    (h : rx_direct_at e ctx) : rx_direct_at e (rx_emit ctx o) := h

theorem rx_direct_complete (K : zhpe_defs) (e : Nat) (ctx : zhpe_rx_ctx) (status : Int) :
    rx_direct_at e (zhpe_pe_rx_complete K ctx e status) := by
  unfold rx_direct_at
  rw [rx_complete_entries]
  simp [rx_completed_entry]

theorem rx_direct_get_complete (K : zhpe_defs) (o : rx_env) (e : Nat)
    (ctx : zhpe_rx_ctx) (h : rx_direct_at e ctx) :
    rx_direct_at e (rx_get_complete K o ctx e) := by
  unfold rx_get_complete
  split
  · exact h
  · rcases h with hst | hst
    · rw [hst]
      exact rx_direct_complete K e ctx 0
    · rw [hst]
      exact Or.inr hst

theorem rx_direct_get_issue (K : zhpe_defs) (o : rx_env) (e : Nat)
    (ctx : zhpe_rx_ctx) (h : rx_direct_at e ctx) :
    rx_direct_at e (rx_get_issue K o ctx e) := by
  unfold rx_get_issue
  simp only []
  repeat (first
    | assumption
    | with_reducible apply rx_direct_get_complete
    | with_reducible apply rx_direct_emit
    | with_reducible apply rx_direct_set
    | (intro x; rfl)
    | split)

theorem rx_direct_get (K : zhpe_defs) (o : rx_env) (e : Nat)
    (ctx : zhpe_rx_ctx) (retry : Bool)
    (hst : (ctx.entries e).rx_state = ZHPE_RX_STATE_RND_DIRECT) :
    rx_direct_at e (zhpe_pe_rx_get K o ctx e retry) := by
  have h : rx_direct_at e ctx := Or.inl hst
  unfold zhpe_pe_rx_get
  simp only []
  split
  · exact rx_direct_get_complete K o e ctx h
  · rw [hst]
    simp only []
    repeat (first
      | assumption
      | with_reducible apply rx_direct_get_complete
      | with_reducible apply rx_direct_get_issue
      | with_reducible apply rx_direct_set
      | (intro x; rfl)
      | split)

/-- C14 (amended): for a non-inline SEND whose first matching posted receive
`p` has `FI_MULTI_RECV`, the entry `e` created for the message is initialised
by `rx_buffered_init` in state RND, not EAGER, and is claimed at once by
`rx_user_claim`, which calls `zhpe_pe_rx_get` with `e` in state RND_DIRECT and
the iov state of the posted buffer as the local side: the data is fetched
directly into the user buffer.  The entry has no eager buffer (`buffered` is
`ZHPE_RX_BUF`), and after the call its state is RND_DIRECT or COMPLETE. -/
theorem handle_send_multi_recv_direct (K : zhpe_defs) (M : rx_matcher) (o : rx_env)
    (ctx : zhpe_rx_ctx) (m : rx_send_msg) (l1 l2 : List Nat) (p e : Nat)
    (hl : ctx.rx_posted_list = l1 ++ p :: l2)
    (hno : ∀ x ∈ l1, M (ctx.entries x) false m.fi_addr (rx_send_parse K m).2.1
      (ctx.entries x).ignore (rx_send_parse K m).2.2.2 = false)
    (hp : M (ctx.entries p) false m.fi_addr (rx_send_parse K m).2.1
      (ctx.entries p).ignore (rx_send_parse K m).2.2.2 = true)
    (hmulti : (ctx.entries p).flags &&& K.FI_MULTI_RECV ≠ 0)
    (hin : m.zhdr.flags &&& K.ZHPE_MSG_INLINE = 0)
    (hnew : o.zhpe_rx_new_entry = some e) (hne : e ≠ p) :
    (zhpe_pe_rx_handle_send K M o ctx m).2 = 0 ∧
    ((rx_buffered_init K (rx_work_insert_tail (rx_basic_init ctx e m (rx_send_parse K m).1
        (rx_send_parse K m).2.1 (rx_send_parse K m).2.2.1 (rx_send_parse K m).2.2.2) e) e m
        (some p)).1.entries e).rx_state = ZHPE_RX_STATE_RND ∧
    ∃ c : zhpe_rx_ctx,
      (zhpe_pe_rx_handle_send K M o ctx m).1 = zhpe_pe_rx_get K o c e false ∧
      c.out = ctx.out ∧
      (c.entries e).rx_state = ZHPE_RX_STATE_RND_DIRECT ∧
      (c.entries e).lstate = { (ctx.entries p).lstate with missing := 0 } ∧
      (c.entries e).buf = K.zhpe_ziov_state_ptr (ctx.entries p).lstate ∧
      (c.entries e).buffered = K.ZHPE_RX_BUF ∧
      (c.entries e).total_len = (rx_send_parse K m).1 ∧
      rx_direct_at e (zhpe_pe_rx_handle_send K M o ctx m).1 := by
  have hfind := find_first_match ctx.rx_posted_list l1 l2 p hl hno hp
  rcases hparse : rx_send_parse K m with ⟨msg_len, tag, cq_data, flags⟩
  rw [hparse] at hfind
  simp only [] at hfind
  have hpe : p ≠ e := fun h => hne h.symm
  obtain ⟨c0, hc0⟩ : ∃ c0, c0 = rx_set (rx_work_insert_tail
      (rx_basic_init ctx e m msg_len tag cq_data flags) e) e
      (fun b => { b with buffered := K.ZHPE_RX_BUF }) := ⟨_, rfl⟩
  have hz : (c0.entries e).zhdr = m.zhdr := by
    rw [hc0]; simp [rx_set, rx_basic_init, rx_work_insert_tail]
  have hbi : rx_buffered_init K (rx_work_insert_tail
      (rx_basic_init ctx e m msg_len tag cq_data flags) e) e m (some p) =
      (set_rx_state (rx_riov_init c0 e m) e ZHPE_RX_STATE_RND, false) := by
    unfold rx_buffered_init
    simp only []
    rw [← hc0, hz, if_neg (by simp [hin])]
    simp
  obtain ⟨cA, hcA⟩ : ∃ cA, cA = set_rx_state (rx_riov_init c0 e m) e ZHPE_RX_STATE_RND :=
    ⟨_, rfl⟩
  have hAs : (cA.entries e).rx_state = ZHPE_RX_STATE_RND := by
    rw [hcA]; simp [set_rx_state, rx_set]
  have hAt : (cA.entries e).total_len = msg_len := by
    rw [hcA, hc0]
    simp [set_rx_state, rx_set, rx_riov_init, rx_basic_init, rx_work_insert_tail]
  have hAb : (cA.entries e).buffered = K.ZHPE_RX_BUF := by
    rw [hcA, hc0]
    simp [set_rx_state, rx_set, rx_riov_init, rx_basic_init, rx_work_insert_tail]
  have hAp : cA.entries p = ctx.entries p := by
    rw [hcA, hc0]
    simp [set_rx_state, rx_set, rx_riov_init, rx_basic_init, rx_work_insert_tail,
      Function.update_noteq hpe]
  have hAo : cA.out = ctx.out := by rw [hcA, hc0]; rfl
  refine ⟨?_, ?_, ?_⟩
  · unfold zhpe_pe_rx_handle_send
    rw [hparse]
    simp only []
    rw [hfind]
    simp only []
    rw [if_pos hmulti, hnew]
  · rw [hbi, ← hcA]
    exact hAs
  · unfold zhpe_pe_rx_handle_send
    rw [hparse]
    simp only []
    rw [hfind]
    simp only []
    rw [if_pos hmulti, hnew]
    simp only []
    rw [hbi]
    simp only []
    rw [← hcA]
    obtain ⟨_, _, _, hfo, hfm, _⟩ := rx_user_claim_take_frame K cA e p
    have hte := rx_user_claim_take_entries K cA e p hne
    have htu : (rx_user_claim_take K cA e p).entries p = cA.entries p := by
      rw [hte, Function.update_noteq hpe]
    have hT : (rx_user_claim_take K cA e p).entries e =
        { cA.entries e with
            flags := (cA.entries e).flags ||| ((cA.entries p).flags &&& K.FI_COMPLETION),
            context := (cA.entries p).context,
            ustate := (cA.entries p).lstate,
            buf := K.zhpe_ziov_state_ptr (cA.entries p).lstate } := by
      rw [hte, Function.update_same]
      simp
      intro h
      rw [hAs] at h
      exact absurd h (by decide)
    unfold rx_user_claim
    simp only []
    rw [hAs]
    simp only [if_neg (show ¬ (ZHPE_RX_STATE_RND = ZHPE_RX_STATE_EAGER) by decide)]
    generalize hav : K.zhpe_ziov_state_avail ((rx_user_claim_take K cA e p).entries e).ustate
      = avail
    generalize hml : (if ((rx_user_claim_take K cA e p).entries e).total_len > avail
      then avail else ((rx_user_claim_take K cA e p).entries e).total_len) = ml
    obtain ⟨hlb, _, hlo, _, _⟩ := rx_user_claim_link_multi K (rx_user_claim_take K cA e p)
      e p true avail ml hne (by rw [htu, hAp]; exact hmulti)
    obtain ⟨cL, hcL⟩ : ∃ cL, cL = rx_user_claim_link K (rx_user_claim_take K cA e p)
      e p true avail ml := ⟨_, rfl⟩
    rw [← hcL] at hlb hlo ⊢
    rw [hT] at hlb
    unfold rx_user_claim_switch
    simp only []
    obtain ⟨c, hc⟩ : ∃ c, c = rx_set (set_rx_state (rx_set cL e (fun b =>
        { b with rstate := { b.rstate with viov :=
            match b.rstate.viov with
            | [] => []
            | r :: t =>
              { r with iov_len := (r.iov_len &&& K.ZHPE_ZIOV_LEN_KEY_INT) ||| ml } :: t } }))
        e ZHPE_RX_STATE_RND_DIRECT) e (fun b => { b with lstate := b.ustate }) := ⟨_, rfl⟩
    rw [← hc]
    have hcs : (c.entries e).rx_state = ZHPE_RX_STATE_RND_DIRECT := by
      rw [hc]; simp [rx_set, set_rx_state]
    refine ⟨c, rfl, ?_, hcs, ?_, ?_, ?_, ?_, rx_direct_get K o e c false hcs⟩
    · rw [hc]
      exact hlo.trans (hfo.trans hAo)
    · rw [hc]
      simp [rx_set, set_rx_state, hlb, hAp]
    · rw [hc]
      simp [rx_set, set_rx_state, hlb, hAp]
    · rw [hc]
      simp [rx_set, set_rx_state, hlb, hAb]
    · rw [hc]
      simp [rx_set, set_rx_state, hlb, hAt]

/-- The first message of scenario S3 is fetched directly into the posted
buffer at `4096 * 20`. -/
theorem handle_send_multi_recv_direct_witness :
    (zhpe_pe_rx_handle_send zhpe_defs_example rx_match_example (rx_env_new_example 1)
        rx_ctx_multi_example (rx_send_example 3000 20)).2 = 0 ∧
    ((zhpe_pe_rx_handle_send zhpe_defs_example rx_match_example (rx_env_new_example 1)
        rx_ctx_multi_example (rx_send_example 3000 20)).1.entries 1).buf = 4096 * 20 ∧
    (zhpe_pe_rx_handle_send zhpe_defs_example rx_match_example (rx_env_new_example 1)
        rx_ctx_multi_example (rx_send_example 3000 20)).1.rx_work_list = [1] ∧
    (zhpe_pe_rx_handle_send zhpe_defs_example rx_match_example (rx_env_new_example 1)
        rx_ctx_multi_example (rx_send_example 3000 20)).1.rx_posted_list = [20] :=
  ⟨(handle_send_multi_recv_direct zhpe_defs_example rx_match_example (rx_env_new_example 1)
      rx_ctx_multi_example (rx_send_example 3000 20) [] [] 20 1 rfl (by decide) (by decide)
      (by decide) (by decide) rfl (by decide)).1,
   by decide, by decide, by decide⟩

/-- C14 (counterexample): in scenario S3 the first message, a non-inline SEND
of 3000 bytes, arrives while the only posted receive, which matches, has
`FI_MULTI_RECV`.  The entry created for it is put in state RND by
`rx_buffered_init` and is RND_DIRECT after `zhpe_pe_rx_handle_send`, with the
posted buffer as the target of the GET and without an eager buffer
(`buffered` is `ZHPE_RX_BUF = 1`, not `ZHPE_RX_BUF_EAGER = 2`): it is not
EAGER. -/
theorem handle_send_multi_recv_not_eager :
    rx_ctx_multi_example.rx_posted_list.find?
        (fun p => rx_match_example (rx_ctx_multi_example.entries p) false 0 20 0 8) = some 20 ∧
    (rx_ctx_multi_example.entries 20).flags &&& zhpe_defs_example.FI_MULTI_RECV ≠ 0 ∧
    (rx_send_example 3000 20).zhdr.flags &&& zhpe_defs_example.ZHPE_MSG_INLINE = 0 ∧
    ((rx_buffered_init zhpe_defs_example (rx_work_insert_tail (rx_basic_init
        rx_ctx_multi_example 1 (rx_send_example 3000 20) 3000 20 0 8) 1) 1
        (rx_send_example 3000 20) (some 20)).1.entries 1).rx_state = ZHPE_RX_STATE_RND ∧
    ((zhpe_pe_rx_handle_send zhpe_defs_example rx_match_example (rx_env_new_example 1)
        rx_ctx_multi_example (rx_send_example 3000 20)).1.entries 1).rx_state =
      ZHPE_RX_STATE_RND_DIRECT ∧
    ((zhpe_pe_rx_handle_send zhpe_defs_example rx_match_example (rx_env_new_example 1)
        rx_ctx_multi_example (rx_send_example 3000 20)).1.entries 1).rx_state ≠
      ZHPE_RX_STATE_EAGER ∧
    ((zhpe_pe_rx_handle_send zhpe_defs_example rx_match_example (rx_env_new_example 1)
        rx_ctx_multi_example (rx_send_example 3000 20)).1.entries 1).buffered = 1 ∧
    ((zhpe_pe_rx_handle_send zhpe_defs_example rx_match_example (rx_env_new_example 1)
        rx_ctx_multi_example (rx_send_example 3000 20)).1.entries 1).lstate.viov =
      [⟨4096 * 20, 8192, 0, 0⟩] ∧
    (zhpe_pe_rx_handle_send zhpe_defs_example rx_match_example (rx_env_new_example 1)
        rx_ctx_multi_example (rx_send_example 3000 20)).1.out = [rx_out.iov_op_get 1 3000 2] := by
  decide

/-- C16 (counterexample): in scenario S3 the messages of 3000, 3000 and 2500
bytes add up to 8500 bytes, more than the 8192 bytes of the buffer.  When the
third message is claimed, 2192 bytes are left: the remote length of its GET is
cut to 2192 bytes, and with the 308 bytes that are not moved it completes with
`rem = 308` and status `-FI_ETRUNC`, not with `rem = 0` and a non-negative
status. -/
theorem multi_recv_third_message_truncated :
    zhpe_defs_example.zhpe_ziov_state_avail
        ((rx_run zhpe_defs_example rx_match_example rx_ctx_multi_example
          (rx_steps_multi_example.take 4)).entries 20).lstate = 2192 ∧
    ((rx_run zhpe_defs_example rx_match_example rx_ctx_multi_example
        (rx_steps_multi_example.take 5)).entries 3).total_len = 2500 ∧
    (((rx_run zhpe_defs_example rx_match_example rx_ctx_multi_example
        (rx_steps_multi_example.take 5)).entries 3).rstate.viov.map (fun v => v.iov_len)) =
      [2192] ∧
    rx_completions (rx_run zhpe_defs_example rx_match_example rx_ctx_multi_example
        rx_steps_multi_example).out =
      [(1, 1032, 0, 0), (2, 1032, 0, 0), (3, 66568, -265, 308)] ∧
    ¬ ∀ r ∈ rx_completions (rx_run zhpe_defs_example rx_match_example rx_ctx_multi_example
        rx_steps_multi_example).out, r.2.2.2 = 0 ∧ 0 ≤ r.2.2.1 := by
  decide

/-- C16 (amended): in scenario S3 the three messages are given consecutive
regions of the posted buffer (at `4096 * 20`), at the offsets 0, 3000 and
6000.  The first two are delivered in full: their completions have status 0
and `rem = 0`.  For the third message of 2500 bytes only 2192 bytes are left:
the remote length of its GET is 2192, and it completes with status
`-FI_ETRUNC` and `rem = 308`; its completion carries `FI_MULTI_RECV` and the
posted receive is released with it. -/
theorem multi_recv_scenario_completions :
    (rx_run zhpe_defs_example rx_match_example rx_ctx_multi_example
        rx_steps_multi_example).out =
      [rx_out.iov_op_get 1 3000 2,
       rx_out.report_complete 1 ⟨0, ⟨20, 2 ^ 10 ||| 2 ^ 3, 3000, 4096 * 20 + 0, 0, 20⟩⟩ 0 0,
       rx_out.release_entry 1,
       rx_out.iov_op_get 2 3000 2,
       rx_out.report_complete 2 ⟨0, ⟨20, 2 ^ 10 ||| 2 ^ 3, 3000, 4096 * 20 + 3000, 0, 20⟩⟩ 0 0,
       rx_out.release_entry 2,
       rx_out.iov_op_get 3 2500 2,
       rx_out.iov_op_get 3 308 2,
       rx_out.report_complete 3
         ⟨0, ⟨20, 2 ^ 10 ||| 2 ^ 3 ||| 2 ^ 16, 2500, 4096 * 20 + 6000, 0, 20⟩⟩
         (-(zhpe_defs_example.FI_ETRUNC : Int)) 308,
       rx_out.release_entry 3,
       rx_out.release_entry 20] ∧
    (((rx_run zhpe_defs_example rx_match_example rx_ctx_multi_example
        (rx_steps_multi_example.take 5)).entries 3).rstate.viov.map (fun v => v.iov_len)) =
      [8192 - 6000] ∧
    (rx_run zhpe_defs_example rx_match_example rx_ctx_multi_example
        rx_steps_multi_example).rx_posted_list = [] ∧
    (rx_run zhpe_defs_example rx_match_example rx_ctx_multi_example
        rx_steps_multi_example).rx_work_list = [] := by
  decide

/-! ## Helper lemmas: no entry is lost -/

theorem rx_cov_set (base : List rx_out) (id : Nat) (ctx : zhpe_rx_ctx) (i : Nat)
    (f : zhpe_rx_entry → zhpe_rx_entry) (h : rx_cov base id ctx) :
    rx_cov base id (rx_set ctx i f) := h

theorem rx_cov_set_state (base : List rx_out) (id : Nat) (ctx : zhpe_rx_ctx) (i : Nat)
    (s : zhpe_rx_state) (h : rx_cov base id ctx) :
    rx_cov base id (set_rx_state ctx i s) := h

theorem rx_cov_aborted (base : List rx_out) (id : Nat) (ctx : zhpe_rx_ctx)
    (h : rx_cov base id ctx) :
    rx_cov base id ({ ctx with aborted := true } : zhpe_rx_ctx) := h

theorem rx_cov_emit (base : List rx_out) (id : Nat) (ctx : zhpe_rx_ctx) (o : List rx_out)
    (h : rx_cov base id ctx) : rx_cov base id (rx_emit ctx o) := by
  obtain ⟨s, hs, h⟩ := h
  refine ⟨s ++ o, ?_, ?_⟩
  · simp only [rx_emit]
    rw [hs, List.append_assoc]
  · rcases h with h | h
    · exact Or.inl h
    · exact Or.inr (List.mem_append_left _ h)

theorem rx_cov_of_pre (base : List rx_out) (id : Nat) (ctx : zhpe_rx_ctx)
    (h : base <+: ctx.out) (hon : rx_on_list ctx id) : rx_cov base id ctx := by
  obtain ⟨s, hs⟩ := h
  exact ⟨s, hs.symm, Or.inl hon⟩

theorem rx_cov_pre (base : List rx_out) (id : Nat) (ctx : zhpe_rx_ctx)
    (h : rx_cov base id ctx) : base <+: ctx.out := by
  obtain ⟨s, hs, _⟩ := h
  exact ⟨s, hs.symm⟩

theorem rx_cov_release (base : List rx_out) (id : Nat) (ctx : zhpe_rx_ctx)
    (h : base <+: ctx.out) : rx_cov base id (rx_emit ctx [rx_out.release_entry id]) := by
  obtain ⟨s, hs⟩ := h
  refine ⟨s ++ [rx_out.release_entry id], ?_, Or.inr (by simp)⟩
  simp only [rx_emit]
  rw [← hs, List.append_assoc]

theorem rx_on_list_work_insert (ctx : zhpe_rx_ctx) (id x : Nat) (h : rx_on_list ctx id) :
    rx_on_list (rx_work_insert_tail ctx x) id := by
  rcases h with h | h | h
  · exact Or.inl h
  · exact Or.inr (Or.inl h)
  · exact Or.inr (Or.inr (List.mem_append_left _ h))

theorem rx_on_list_remove (ctx : zhpe_rx_ctx) (id x : Nat) (hne : id ≠ x)
    (h : rx_on_list ctx id) : rx_on_list (rx_dlist_remove ctx x) id := by
  rcases h with h | h | h
  · exact Or.inl ((List.mem_erase_of_ne hne).2 h)
  · exact Or.inr (Or.inl ((List.mem_erase_of_ne hne).2 h))
  · exact Or.inr (Or.inr ((List.mem_erase_of_ne hne).2 h))

theorem rx_cov_work_insert (base : List rx_out) (id : Nat) (ctx : zhpe_rx_ctx) (x : Nat)
    (h : rx_cov base id ctx) : rx_cov base id (rx_work_insert_tail ctx x) := by
  obtain ⟨s, hs, h⟩ := h
  exact ⟨s, hs, h.imp (rx_on_list_work_insert ctx id x) (fun y => y)⟩

theorem rx_cov_posted_insert (base : List rx_out) (id : Nat) (ctx : zhpe_rx_ctx) (x : Nat)
    (h : rx_cov base id ctx) : rx_cov base id (rx_posted_insert_tail ctx x) := by
  obtain ⟨s, hs, h⟩ := h
  refine ⟨s, hs, h.imp ?_ (fun y => y)⟩
  rintro (h | h | h)
  · exact Or.inl (List.mem_append_left _ h)
  · exact Or.inr (Or.inl h)
  · exact Or.inr (Or.inr h)

theorem rx_cov_buffered_insert (base : List rx_out) (id : Nat) (ctx : zhpe_rx_ctx) (x : Nat)
    (h : rx_cov base id ctx) : rx_cov base id (rx_buffered_insert_tail ctx x) := by
  obtain ⟨s, hs, h⟩ := h
  refine ⟨s, hs, h.imp ?_ (fun y => y)⟩
  rintro (h | h | h)
  · exact Or.inl h
  · exact Or.inr (Or.inl (List.mem_append_left _ h))
  · exact Or.inr (Or.inr h)

/-- Moving an entry to the tail of the work list loses no entry. -/
theorem rx_cov_move (base : List rx_out) (id : Nat) (ctx : zhpe_rx_ctx) (x : Nat)
    (h : rx_cov base id ctx) :
    rx_cov base id (rx_work_insert_tail (rx_dlist_remove ctx x) x) := by
  obtain ⟨s, hs, h⟩ := h
  refine ⟨s, hs, ?_⟩
  rcases h with h | h
  · left
    by_cases hx : id = x
    · subst hx
      exact Or.inr (Or.inr (List.mem_append_right _ (List.mem_singleton.2 rfl)))
    · exact rx_on_list_work_insert _ id x (rx_on_list_remove ctx id x hx h)
  · exact Or.inr h

theorem rx_cov_complete (K : zhpe_defs) (base : List rx_out) (id : Nat) (ctx : zhpe_rx_ctx)
    (e : Nat) (status : Int) (h : rx_cov base id ctx) :
    rx_cov base id (zhpe_pe_rx_complete K ctx e status) := by
  obtain ⟨s, hs, h⟩ := h
  obtain ⟨hp, hb, _, _⟩ := rx_complete_frame K ctx e status
  refine ⟨s ++ rx_complete_emitted K ctx e status, ?_, ?_⟩
  · rw [rx_complete_out_emitted, hs, List.append_assoc]
  · rcases h with (h | h | h) | h
    · exact Or.inl (Or.inl (hp ▸ h))
    · exact Or.inl (Or.inr (Or.inl (hb ▸ h)))
    · have hsplit := List.takeWhile_append_dropWhile
        (rx_terminal (zhpe_pe_rx_complete K ctx e status).entries) ctx.rx_work_list
      rw [← hsplit, List.mem_append] at h
      rcases h with h | h
      · right
        apply List.mem_append_right
        rw [mem_rx_complete_emitted]
        have ht := (rx_terminal_iff _ _).1 (rx_terminal_of_mem_takeWhile _ _ _ h)
        rcases ht with ht | ht
        · exact Or.inr (Or.inl ⟨id, (mem_rx_dcomplete _ _ _).2 ⟨h, ht⟩, rfl⟩)
        · exact Or.inr (Or.inr ⟨id, (mem_rx_ddrop _ _ _).2 ⟨h, ht⟩, rfl⟩)
      · left
        right; right
        rw [rx_complete_work_list]
        exact h
    · exact Or.inr (List.mem_append_left _ h)

theorem rx_cov_discard (K : zhpe_defs) (base : List rx_out) (id : Nat) (ctx : zhpe_rx_ctx)
    (e : Nat) (h : rx_cov base id ctx) :
    rx_cov base id (zhpe_pe_rx_discard_recv K ctx e) := by
  unfold zhpe_pe_rx_discard_recv
  simp only []
  split
  · exact rx_cov_set_state base id _ e _ (rx_cov_move base id ctx e h)
  · have hpre : base <+: (rx_dlist_remove ctx e).out := rx_cov_pre base id ctx h
    have hrel : rx_cov base id (rx_emit (rx_dlist_remove ctx e) [rx_out.release_entry e]) := by
      by_cases hx : id = e
      · subst hx
        exact rx_cov_release base id _ hpre
      · apply rx_cov_emit
        obtain ⟨s, hs, h⟩ := h
        exact ⟨s, hs, h.imp (rx_on_list_remove ctx id e hx) (fun y => y)⟩
    split
    · exact rx_cov_emit base id _ _ hrel
    · exact hrel

theorem rx_cov_get_copy_complete (K : zhpe_defs) (o : rx_env) (base : List rx_out) (id : Nat)
    (ctx : zhpe_rx_ctx) (e : Nat) (h : rx_cov base id ctx) :
    rx_cov base id (rx_get_copy_complete K o ctx e) := by
  unfold rx_get_copy_complete
  simp only []
  repeat (first
    | assumption
    | with_reducible apply rx_cov_complete
    | with_reducible apply rx_cov_set)

theorem rx_cov_get_complete (K : zhpe_defs) (o : rx_env) (base : List rx_out) (id : Nat)
    (ctx : zhpe_rx_ctx) (e : Nat) (h : rx_cov base id ctx) :
    rx_cov base id (rx_get_complete K o ctx e) := by
  unfold rx_get_complete
  simp only []
  repeat (first
    | assumption
    | with_reducible apply rx_cov_complete
    | with_reducible apply rx_cov_get_copy_complete
    | with_reducible apply rx_cov_discard
    | with_reducible apply rx_cov_emit
    | with_reducible apply rx_cov_set_state
    | with_reducible apply rx_cov_set
    | split)

theorem rx_cov_get_issue (K : zhpe_defs) (o : rx_env) (base : List rx_out) (id : Nat)
    (ctx : zhpe_rx_ctx) (e : Nat) (h : rx_cov base id ctx) :
    rx_cov base id (rx_get_issue K o ctx e) := by
  unfold rx_get_issue
  simp only []
  repeat (first
    | assumption
    | with_reducible apply rx_cov_get_complete
    | with_reducible apply rx_cov_emit
    | with_reducible apply rx_cov_set
    | split)

theorem rx_cov_get (K : zhpe_defs) (o : rx_env) (base : List rx_out) (id : Nat)
    (ctx : zhpe_rx_ctx) (e : Nat) (retry : Bool) (h : rx_cov base id ctx) :
    rx_cov base id (zhpe_pe_rx_get K o ctx e retry) := by
  unfold zhpe_pe_rx_get
  simp only []
  split
  · exact rx_cov_get_complete K o base id ctx e h
  · split
    · repeat (first
        | assumption
        | with_reducible apply rx_cov_get_complete
        | with_reducible apply rx_cov_get_issue
        | with_reducible apply rx_cov_set
        | split)
    · repeat (first
        | assumption
        | with_reducible apply rx_cov_get_complete
        | with_reducible apply rx_cov_get_issue
        | with_reducible apply rx_cov_set
        | split)
    · repeat (first
        | assumption
        | with_reducible apply rx_cov_get_complete
        | with_reducible apply rx_cov_get_issue
        | with_reducible apply rx_cov_set
        | split)
    · repeat (first
        | assumption
        | with_reducible apply rx_cov_get_complete
        | with_reducible apply rx_cov_get_issue
        | with_reducible apply rx_cov_set
        | split)
    · split
      · exact h
      · exact rx_cov_discard K base id ctx e h
    · exact rx_cov_aborted base id ctx h

theorem rx_cov_user_drop (base : List rx_out) (id : Nat) (ctx : zhpe_rx_ctx) (u : Nat)
    (linked : Bool) (h : rx_cov base id ctx) :
    rx_cov base id (rx_user_drop ctx u linked) := by
  unfold rx_user_drop
  cases linked
  · exact rx_cov_set_state base id _ u _ (rx_cov_work_insert base id ctx u h)
  · exact rx_cov_set_state base id _ u _ (rx_cov_move base id ctx u h)

theorem rx_cov_user_claim_take (K : zhpe_defs) (base : List rx_out) (id : Nat)
    (ctx : zhpe_rx_ctx) (b u : Nat) (h : rx_cov base id ctx) :
    rx_cov base id (rx_user_claim_take K ctx b u) := by
  unfold rx_user_claim_take
  simp only []
  split <;> exact h

theorem rx_cov_user_claim_link (K : zhpe_defs) (base : List rx_out) (id : Nat)
    (ctx : zhpe_rx_ctx) (b u : Nat) (linked : Bool) (avail msg_len : Nat)
    (h : rx_cov base id ctx) :
    rx_cov base id (rx_user_claim_link K ctx b u linked avail msg_len) := by
  unfold rx_user_claim_link
  simp only []
  repeat (first
    | assumption
    | with_reducible apply rx_cov_user_drop
    | with_reducible apply rx_cov_posted_insert
    | with_reducible apply rx_cov_set
    | split)

theorem rx_cov_user_claim_switch (K : zhpe_defs) (o : rx_env) (base : List rx_out) (id : Nat)
    (ctx : zhpe_rx_ctx) (b : Nat) (state : zhpe_rx_state) (msg_len : Nat)
    (h : rx_cov base id ctx) :
    rx_cov base id (rx_user_claim_switch K o ctx b state msg_len) := by
  unfold rx_user_claim_switch
  split
  · exact rx_cov_get K o base id _ b false h
  · exact h
  · exact rx_cov_complete K base id _ b 0 h
  · exact rx_cov_complete K base id _ b 0 h
  · exact h

theorem rx_cov_user_claim (K : zhpe_defs) (o : rx_env) (base : List rx_out) (id : Nat)
    (ctx : zhpe_rx_ctx) (b u : Nat) (linked : Bool) (h : rx_cov base id ctx) :
    rx_cov base id (rx_user_claim K o ctx b u linked) := by
  unfold rx_user_claim
  simp only []
  exact rx_cov_user_claim_switch K o base id _ b _ _
    (rx_cov_user_claim_link K base id _ b u linked _ _
      (rx_cov_user_claim_take K base id ctx b u h))

/-! ## Helper lemmas: the lists stay duplicate-free and disjoint -/

theorem rx_ok_set (ctx : zhpe_rx_ctx) (i : Nat) (f : zhpe_rx_entry → zhpe_rx_entry)
    (h : rx_lists_ok ctx) : rx_lists_ok (rx_set ctx i f) := h

theorem rx_ok_set_state (ctx : zhpe_rx_ctx) (i : Nat) (s : zhpe_rx_state)
    (h : rx_lists_ok ctx) : rx_lists_ok (set_rx_state ctx i s) := h

theorem rx_ok_emit (ctx : zhpe_rx_ctx) (o : List rx_out)
    (h : rx_lists_ok ctx) : rx_lists_ok (rx_emit ctx o) := h

theorem rx_ok_aborted (ctx : zhpe_rx_ctx)
    (h : rx_lists_ok ctx) : rx_lists_ok ({ ctx with aborted := true } : zhpe_rx_ctx) := h

theorem rx_ok_remove (ctx : zhpe_rx_ctx) (x : Nat) (h : rx_lists_ok ctx) :
    rx_lists_ok (rx_dlist_remove ctx x) := by
  rw [rx_lists_ok_iff] at h ⊢
  obtain ⟨hp, hb, hw, hpb, hpw, hbw⟩ := h
  simp only [rx_dlist_remove]
  exact ⟨hp.erase x, hb.erase x, hw.erase x,
    fun y hy hyb => hpb y (List.mem_of_mem_erase hy) (List.mem_of_mem_erase hyb),
    fun y hy hyw => hpw y (List.mem_of_mem_erase hy) (List.mem_of_mem_erase hyw),
    fun y hy hyw => hbw y (List.mem_of_mem_erase hy) (List.mem_of_mem_erase hyw)⟩

theorem rx_not_on_removed (ctx : zhpe_rx_ctx) (x : Nat) (h : rx_lists_ok ctx) :
    ¬ rx_on_list (rx_dlist_remove ctx x) x := by
  rw [rx_lists_ok_iff] at h
  obtain ⟨hp, hb, hw, _, _, _⟩ := h
  simp only [rx_dlist_remove, rx_on_list]
  rintro (h | h | h)
  · exact ((List.Nodup.mem_erase_iff hp).1 h).1 rfl
  · exact ((List.Nodup.mem_erase_iff hb).1 h).1 rfl
  · exact ((List.Nodup.mem_erase_iff hw).1 h).1 rfl

theorem rx_ok_work_insert (ctx : zhpe_rx_ctx) (x : Nat) (h : rx_lists_ok ctx)
    (hx : ¬ rx_on_list ctx x) : rx_lists_ok (rx_work_insert_tail ctx x) := by
  rw [rx_lists_ok_iff] at h ⊢
  obtain ⟨hp, hb, hw, hpb, hpw, hbw⟩ := h
  simp only [rx_on_list, not_or] at hx
  obtain ⟨hxp, hxb, hxw⟩ := hx
  simp only [rx_work_insert_tail]
  refine ⟨hp, hb, ?_, hpb, ?_, ?_⟩
  · rw [List.nodup_append]
    refine ⟨hw, List.nodup_singleton x, ?_⟩
    intro y hy hy1
    rw [List.mem_singleton] at hy1
    exact hxw (hy1 ▸ hy)
  · intro y hy hyw
    rw [List.mem_append, List.mem_singleton] at hyw
    rcases hyw with hyw | hyw
    · exact hpw y hy hyw
    · exact hxp (hyw ▸ hy)
  · intro y hy hyw
    rw [List.mem_append, List.mem_singleton] at hyw
    rcases hyw with hyw | hyw
    · exact hbw y hy hyw
    · exact hxb (hyw ▸ hy)

theorem rx_ok_posted_insert (ctx : zhpe_rx_ctx) (x : Nat) (h : rx_lists_ok ctx)
    (hx : ¬ rx_on_list ctx x) : rx_lists_ok (rx_posted_insert_tail ctx x) := by
  rw [rx_lists_ok_iff] at h ⊢
  obtain ⟨hp, hb, hw, hpb, hpw, hbw⟩ := h
  simp only [rx_on_list, not_or] at hx
  obtain ⟨hxp, hxb, hxw⟩ := hx
  simp only [rx_posted_insert_tail]
  refine ⟨?_, hb, hw, ?_, ?_, hbw⟩
  · rw [List.nodup_append]
    refine ⟨hp, List.nodup_singleton x, ?_⟩
    intro y hy hy1
    rw [List.mem_singleton] at hy1
    exact hxp (hy1 ▸ hy)
  · intro y hy hyb
    rw [List.mem_append, List.mem_singleton] at hy
    rcases hy with hy | hy
    · exact hpb y hy hyb
    · exact hxb (hy ▸ hyb)
  · intro y hy hyw
    rw [List.mem_append, List.mem_singleton] at hy
    rcases hy with hy | hy
    · exact hpw y hy hyw
    · exact hxw (hy ▸ hyw)

theorem rx_ok_buffered_insert (ctx : zhpe_rx_ctx) (x : Nat) (h : rx_lists_ok ctx)
    (hx : ¬ rx_on_list ctx x) : rx_lists_ok (rx_buffered_insert_tail ctx x) := by
  rw [rx_lists_ok_iff] at h ⊢
  obtain ⟨hp, hb, hw, hpb, hpw, hbw⟩ := h
  simp only [rx_on_list, not_or] at hx
  obtain ⟨hxp, hxb, hxw⟩ := hx
  simp only [rx_buffered_insert_tail]
  refine ⟨hp, ?_, hw, ?_, hpw, ?_⟩
  · rw [List.nodup_append]
    refine ⟨hb, List.nodup_singleton x, ?_⟩
    intro y hy hy1
    rw [List.mem_singleton] at hy1
    exact hxb (hy1 ▸ hy)
  · intro y hy hyb
    rw [List.mem_append, List.mem_singleton] at hyb
    rcases hyb with hyb | hyb
    · exact hpb y hy hyb
    · exact hxp (hyb ▸ hy)
  · intro y hy hyw
    rw [List.mem_append, List.mem_singleton] at hy
    rcases hy with hy | hy
    · exact hbw y hy hyw
    · exact hxw (hy ▸ hyw)

/-- Moving an entry to the tail of the work list links no entry twice. -/
theorem rx_ok_move (ctx : zhpe_rx_ctx) (x : Nat) (h : rx_lists_ok ctx) :
    rx_lists_ok (rx_work_insert_tail (rx_dlist_remove ctx x) x) :=
  rx_ok_work_insert _ x (rx_ok_remove ctx x h) (rx_not_on_removed ctx x h)

theorem rx_ok_complete (K : zhpe_defs) (ctx : zhpe_rx_ctx) (e : Nat) (status : Int)
    (h : rx_lists_ok ctx) : rx_lists_ok (zhpe_pe_rx_complete K ctx e status) := by
  rw [rx_lists_ok_iff] at h ⊢
  obtain ⟨hp, hb, hw, hpb, hpw, hbw⟩ := h
  obtain ⟨hfp, hfb, _, _⟩ := rx_complete_frame K ctx e status
  have hsub : (zhpe_pe_rx_complete K ctx e status).rx_work_list.Sublist ctx.rx_work_list := by
    rw [rx_complete_work_list]
    exact List.dropWhile_sublist _
  rw [hfp, hfb]
  exact ⟨hp, hb, hw.sublist hsub, hpb, fun y hy hyw => hpw y hy (hsub.subset hyw),
    fun y hy hyw => hbw y hy (hsub.subset hyw)⟩

theorem rx_ok_discard (K : zhpe_defs) (ctx : zhpe_rx_ctx) (e : Nat)
    (h : rx_lists_ok ctx) : rx_lists_ok (zhpe_pe_rx_discard_recv K ctx e) := by
  unfold zhpe_pe_rx_discard_recv
  simp only []
  split
  · exact rx_ok_move ctx e h
  · split
    · exact rx_ok_remove ctx e h
    · exact rx_ok_remove ctx e h

theorem rx_ok_get_copy_complete (K : zhpe_defs) (o : rx_env) (ctx : zhpe_rx_ctx) (e : Nat)
    (h : rx_lists_ok ctx) : rx_lists_ok (rx_get_copy_complete K o ctx e) := by
  unfold rx_get_copy_complete
  simp only []
  repeat (first
    | assumption
    | with_reducible apply rx_ok_complete
    | with_reducible apply rx_ok_set)

theorem rx_ok_get_complete (K : zhpe_defs) (o : rx_env) (ctx : zhpe_rx_ctx) (e : Nat)
    (h : rx_lists_ok ctx) : rx_lists_ok (rx_get_complete K o ctx e) := by
  unfold rx_get_complete
  simp only []
  repeat (first
    | assumption
    | with_reducible apply rx_ok_complete
    | with_reducible apply rx_ok_get_copy_complete
    | with_reducible apply rx_ok_discard
    | with_reducible apply rx_ok_emit
    | with_reducible apply rx_ok_set_state
    | with_reducible apply rx_ok_set
    | split)

theorem rx_ok_get_issue (K : zhpe_defs) (o : rx_env) (ctx : zhpe_rx_ctx) (e : Nat)
    (h : rx_lists_ok ctx) : rx_lists_ok (rx_get_issue K o ctx e) := by
  unfold rx_get_issue
  simp only []
  repeat (first
    | assumption
    | with_reducible apply rx_ok_get_complete
    | with_reducible apply rx_ok_emit
    | with_reducible apply rx_ok_set
    | split)

theorem rx_ok_get (K : zhpe_defs) (o : rx_env) (ctx : zhpe_rx_ctx) (e : Nat) (retry : Bool)
    (h : rx_lists_ok ctx) : rx_lists_ok (zhpe_pe_rx_get K o ctx e retry) := by
  unfold zhpe_pe_rx_get
  simp only []
  split
  · exact rx_ok_get_complete K o ctx e h
  · split
    · repeat (first
        | assumption
        | with_reducible apply rx_ok_get_complete
        | with_reducible apply rx_ok_get_issue
        | with_reducible apply rx_ok_set
        | split)
    · repeat (first
        | assumption
        | with_reducible apply rx_ok_get_complete
        | with_reducible apply rx_ok_get_issue
        | with_reducible apply rx_ok_set
        | split)
    · repeat (first
        | assumption
        | with_reducible apply rx_ok_get_complete
        | with_reducible apply rx_ok_get_issue
        | with_reducible apply rx_ok_set
        | split)
    · repeat (first
        | assumption
        | with_reducible apply rx_ok_get_complete
        | with_reducible apply rx_ok_get_issue
        | with_reducible apply rx_ok_set
        | split)
    · split
      · exact h
      · exact rx_ok_discard K ctx e h
    · exact rx_ok_aborted ctx h

theorem rx_ok_user_drop (ctx : zhpe_rx_ctx) (u : Nat) (linked : Bool)
    (h : rx_lists_ok ctx) (hu : linked = false → ¬ rx_on_list ctx u) :
    rx_lists_ok (rx_user_drop ctx u linked) := by
  unfold rx_user_drop
  cases linked
  · exact rx_ok_work_insert ctx u h (hu rfl)
  · exact rx_ok_move ctx u h

theorem rx_ok_user_claim_take (K : zhpe_defs) (ctx : zhpe_rx_ctx) (b u : Nat)
    (h : rx_lists_ok ctx) : rx_lists_ok (rx_user_claim_take K ctx b u) := by
  unfold rx_user_claim_take
  simp only []
  split <;> exact h

theorem rx_on_list_user_claim_take (K : zhpe_defs) (ctx : zhpe_rx_ctx) (b u x : Nat) :
    rx_on_list (rx_user_claim_take K ctx b u) x ↔ rx_on_list ctx x := by
  obtain ⟨hp, hb, hw, _⟩ := rx_user_claim_take_frame K ctx b u
  unfold rx_on_list
  rw [hp, hb, hw]

theorem rx_ok_user_claim_link (K : zhpe_defs) (ctx : zhpe_rx_ctx) (b u : Nat)
    (linked : Bool) (avail msg_len : Nat) (h : rx_lists_ok ctx)
    (hu : linked = false → ¬ rx_on_list ctx u) :
    rx_lists_ok (rx_user_claim_link K ctx b u linked avail msg_len) := by
  unfold rx_user_claim_link
  simp only []
  split
  · split
    · exact rx_ok_user_drop _ u linked h hu
    · split
      · rename_i hl
        exact rx_ok_posted_insert _ u h (hu hl)
      · exact h
  · exact rx_ok_user_drop _ u linked h hu

theorem rx_ok_user_claim_switch (K : zhpe_defs) (o : rx_env) (ctx : zhpe_rx_ctx) (b : Nat)
    (state : zhpe_rx_state) (msg_len : Nat) (h : rx_lists_ok ctx) :
    rx_lists_ok (rx_user_claim_switch K o ctx b state msg_len) := by
  unfold rx_user_claim_switch
  split
  · exact rx_ok_get K o _ b false h
  · exact h
  · exact rx_ok_complete K _ b 0 h
  · exact rx_ok_complete K _ b 0 h
  · exact h

theorem rx_ok_user_claim (K : zhpe_defs) (o : rx_env) (ctx : zhpe_rx_ctx) (b u : Nat)
    (linked : Bool) (h : rx_lists_ok ctx) (hu : linked = false → ¬ rx_on_list ctx u) :
    rx_lists_ok (rx_user_claim K o ctx b u linked) := by
  unfold rx_user_claim
  simp only []
  exact rx_ok_user_claim_switch K o _ b _ _
    (rx_ok_user_claim_link K _ b u linked _ _ (rx_ok_user_claim_take K ctx b u h)
      (fun hl => (rx_on_list_user_claim_take K ctx b u u).not.2 (hu hl)))

/-! ## Helper lemmas: the entry points keep the lists apart and lose no entry -/

theorem rx_not_on_move (ctx : zhpe_rx_ctx) (u b : Nat) (hu : ¬ rx_on_list ctx u)
    (hne : u ≠ b) : ¬ rx_on_list (rx_work_insert_tail (rx_dlist_remove ctx b) b) u := by
  simp only [rx_on_list, not_or] at hu
  obtain ⟨hp, hb, hw⟩ := hu
  simp only [rx_on_list, rx_work_insert_tail, rx_dlist_remove]
  rintro (h | h | h)
  · exact hp (List.mem_of_mem_erase h)
  · exact hb (List.mem_of_mem_erase h)
  · rw [List.mem_append, List.mem_singleton] at h
    rcases h with h | h
    · exact hw (List.mem_of_mem_erase h)
    · exact hne h

/-- With `user_linked = false` the user entry is on a list after the second
stage of `rx_user_claim`. -/
theorem rx_cov_user_claim_link_new (K : zhpe_defs) (base : List rx_out) (ctx : zhpe_rx_ctx)
    (b u : Nat) (avail msg_len : Nat) (h : base <+: ctx.out) :
    rx_cov base u (rx_user_claim_link K ctx b u false avail msg_len) := by
  have hdrop : ∀ c : zhpe_rx_ctx, base <+: c.out → rx_cov base u (rx_user_drop c u false) := by
    intro c hc
    refine rx_cov_of_pre base u (rx_user_drop c u false) hc ?_
    simp [rx_on_list, rx_user_drop, set_rx_state, rx_set, rx_work_insert_tail]
  unfold rx_user_claim_link
  simp only []
  split
  · split
    · exact hdrop _ h
    · simp only [if_true]
      refine rx_cov_of_pre base u (rx_posted_insert_tail _ u) h ?_
      simp [rx_on_list, rx_set, rx_posted_insert_tail]
  · exact hdrop _ h

theorem rx_cov_user_claim_new (K : zhpe_defs) (o : rx_env) (base : List rx_out)
    (ctx : zhpe_rx_ctx) (b u : Nat) (h : base <+: ctx.out) :
    rx_cov base u (rx_user_claim K o ctx b u false) := by
  unfold rx_user_claim
  simp only []
  apply rx_cov_user_claim_switch
  apply rx_cov_user_claim_link_new
  rw [(rx_user_claim_take_frame K ctx b u).2.2.2.1]
  exact h

theorem rx_ok_post_recv (K : zhpe_defs) (M : rx_matcher) (o : rx_env) (ctx : zhpe_rx_ctx)
    (u : Nat) (h : rx_lists_ok ctx) (hu : ¬ rx_on_list ctx u) :
    rx_lists_ok (zhpe_pe_rx_post_recv K M o ctx u) := by
  unfold zhpe_pe_rx_post_recv
  simp only []
  split
  · rename_i b hb
    have hmem : b ∈ ctx.rx_buffered_list := List.mem_of_find?_eq_some hb
    have hne : u ≠ b := fun hub => hu (Or.inr (Or.inl (hub ▸ hmem)))
    exact rx_ok_emit _ _ (rx_ok_user_claim K o _ b u false (rx_ok_move ctx b h)
      (fun _ => rx_not_on_move ctx u b hu hne))
  · exact rx_ok_emit _ _ (rx_ok_posted_insert ctx u h hu)

theorem rx_cov_post_recv (K : zhpe_defs) (M : rx_matcher) (o : rx_env) (ctx : zhpe_rx_ctx)
    (u id : Nat) (h : rx_on_list ctx id ∨ id = u) :
    rx_cov ctx.out id (zhpe_pe_rx_post_recv K M o ctx u) := by
  have hpre : ctx.out <+: ctx.out := List.prefix_refl _
  unfold zhpe_pe_rx_post_recv
  simp only []
  split
  · rename_i b hb
    apply rx_cov_emit
    rcases h with h | h
    · exact rx_cov_user_claim K o _ id _ b u false
        (rx_cov_move _ id ctx b (rx_cov_of_pre _ id ctx hpre h))
    · subst h
      exact rx_cov_user_claim_new K o _ _ b id hpre
  · apply rx_cov_emit
    rcases h with h | h
    · exact rx_cov_posted_insert _ id ctx u (rx_cov_of_pre _ id ctx hpre h)
    · subst h
      refine rx_cov_of_pre _ id (rx_posted_insert_tail ctx id) hpre ?_
      simp [rx_on_list, rx_posted_insert_tail]

theorem rx_ok_peek_recv (K : zhpe_defs) (M : rx_matcher) (ctx : zhpe_rx_ctx)
    (fiaddr tag ignore flags context : Nat) (h : rx_lists_ok ctx) :
    rx_lists_ok (zhpe_pe_rx_peek_recv K M ctx fiaddr tag ignore flags context) := by
  unfold zhpe_pe_rx_peek_recv
  simp only []
  split
  · exact h
  · rename_i b hb
    apply rx_ok_emit
    split
    · exact rx_ok_discard K ctx b h
    · split
      · exact rx_ok_move
          { ctx with internal0 := Function.update ctx.internal0 context (some b) } b h
      · exact h

theorem rx_cov_peek_recv (K : zhpe_defs) (M : rx_matcher) (ctx : zhpe_rx_ctx)
    (fiaddr tag ignore flags context id : Nat) (h : rx_on_list ctx id) :
    rx_cov ctx.out id (zhpe_pe_rx_peek_recv K M ctx fiaddr tag ignore flags context) := by
  have h0 : rx_cov ctx.out id ctx := rx_cov_of_pre _ id ctx (List.prefix_refl _) h
  unfold zhpe_pe_rx_peek_recv
  simp only []
  split
  · exact rx_cov_emit _ id ctx _ h0
  · rename_i b hb
    apply rx_cov_emit
    split
    · exact rx_cov_discard K _ id ctx b h0
    · split
      · exact rx_cov_move _ id
          { ctx with internal0 := Function.update ctx.internal0 context (some b) } b h0
      · exact h0

theorem rx_ok_claim_recv (K : zhpe_defs) (o : rx_env) (ctx : zhpe_rx_ctx)
    (c u : Nat) (h : rx_lists_ok ctx) (hu : ¬ rx_on_list ctx u) :
    rx_lists_ok (zhpe_pe_rx_claim_recv K o ctx c u) := by
  unfold zhpe_pe_rx_claim_recv
  simp only []
  split
  · exact rx_ok_discard K _ c h
  · exact rx_ok_user_claim K o ctx c u false h (fun _ => hu)

theorem rx_cov_claim_recv (K : zhpe_defs) (o : rx_env) (ctx : zhpe_rx_ctx)
    (c u id : Nat) (h : rx_on_list ctx id ∨ id = u) :
    rx_cov ctx.out id (zhpe_pe_rx_claim_recv K o ctx c u) := by
  have hpre : ctx.out <+: ctx.out := List.prefix_refl _
  unfold zhpe_pe_rx_claim_recv
  simp only []
  split
  · apply rx_cov_discard
    rcases h with h | h
    · exact rx_cov_emit _ id _ _ (rx_cov_emit _ id ctx _ (rx_cov_of_pre _ id ctx hpre h))
    · subst h
      exact rx_cov_release _ id _ (rx_pre_emit _ ctx _ hpre)
  · rcases h with h | h
    · exact rx_cov_user_claim K o _ id ctx c u false (rx_cov_of_pre _ id ctx hpre h)
    · subst h
      exact rx_cov_user_claim_new K o _ ctx c id hpre

theorem rx_buffered_init_frame (K : zhpe_defs) (ctx : zhpe_rx_ctx) (e : Nat)
    (m : rx_send_msg) (u : Option Nat) :
    (rx_buffered_init K ctx e m u).1.rx_posted_list = ctx.rx_posted_list ∧
    (rx_buffered_init K ctx e m u).1.rx_buffered_list = ctx.rx_buffered_list ∧
    (rx_buffered_init K ctx e m u).1.rx_work_list = ctx.rx_work_list ∧
    (rx_buffered_init K ctx e m u).1.out = ctx.out := by
  unfold rx_buffered_init
  simp only []
  split
  · exact ⟨rfl, rfl, rfl, rfl⟩
  · split <;> exact ⟨rfl, rfl, rfl, rfl⟩

/-- A context with the same lists and log is as good. -/
theorem rx_ok_of_frame (c ctx : zhpe_rx_ctx) (hp : c.rx_posted_list = ctx.rx_posted_list)
    (hb : c.rx_buffered_list = ctx.rx_buffered_list)
    (hw : c.rx_work_list = ctx.rx_work_list) (h : rx_lists_ok ctx) : rx_lists_ok c := by
  unfold rx_lists_ok at *
  rw [hp, hb, hw]
  exact h

theorem rx_cov_of_frame (base : List rx_out) (id : Nat) (c ctx : zhpe_rx_ctx)
    (hp : c.rx_posted_list = ctx.rx_posted_list)
    (hb : c.rx_buffered_list = ctx.rx_buffered_list)
    (hw : c.rx_work_list = ctx.rx_work_list) (ho : c.out = ctx.out)
    (h : rx_cov base id ctx) : rx_cov base id c := by
  unfold rx_cov rx_on_list at *
  rw [hp, hb, hw, ho]
  exact h

theorem rx_ok_handle_send (K : zhpe_defs) (M : rx_matcher) (o : rx_env) (ctx : zhpe_rx_ctx)
    (m : rx_send_msg) (h : rx_lists_ok ctx)
    (hnew : ∀ e, o.zhpe_rx_new_entry = some e → ¬ rx_on_list ctx e) :
    rx_lists_ok (zhpe_pe_rx_handle_send K M o ctx m).1 := by
  rcases hparse : rx_send_parse K m with ⟨msg_len, tag, cq_data, flags⟩
  unfold zhpe_pe_rx_handle_send
  rw [hparse]
  simp only []
  split
  · split
    · exact h
    · rename_i e he
      have hfresh := hnew e he
      have h0 : rx_lists_ok (rx_buffered_insert_tail
          (rx_basic_init ctx e m msg_len tag cq_data flags) e) :=
        rx_ok_buffered_insert _ e h hfresh
      obtain ⟨hp, hb, hw, _⟩ := rx_buffered_init_frame K (rx_buffered_insert_tail
          (rx_basic_init ctx e m msg_len tag cq_data flags) e) e m none
      have h1 := rx_ok_of_frame _ _ hp hb hw h0
      rcases hbi : rx_buffered_init K (rx_buffered_insert_tail
          (rx_basic_init ctx e m msg_len tag cq_data flags) e) e m none with ⟨c1, flag⟩
      rw [hbi] at h1
      obtain ⟨hp2, hb2, hw2, _⟩ := rx_buf_alloc_frame K o c1 e msg_len
      have h2 := rx_ok_of_frame _ _ hp2 hb2 hw2 h1
      cases flag
      · exact h1
      · simp only []
        split
        · exact rx_ok_set_state _ e _ h2
        · exact rx_ok_get K o _ e false h2
  · rename_i p hp
    split
    · split
      · exact h
      · rename_i e he
        have hfresh := hnew e he
        have h0 : rx_lists_ok (rx_work_insert_tail
            (rx_basic_init ctx e m msg_len tag cq_data flags) e) :=
          rx_ok_work_insert _ e h hfresh
        obtain ⟨hp1, hb1, hw1, _⟩ := rx_buffered_init_frame K (rx_work_insert_tail
            (rx_basic_init ctx e m msg_len tag cq_data flags) e) e m (some p)
        exact rx_ok_user_claim K o _ e p true (rx_ok_of_frame _ _ hp1 hb1 hw1 h0)
          (fun hl => absurd hl (by decide))
    · have h0 : rx_lists_ok (rx_set (rx_basic_init (rx_work_insert_tail (rx_dlist_remove ctx p) p)
          p m msg_len tag cq_data flags) p
          (fun e => { e with buf := K.zhpe_ziov_state_ptr e.lstate })) := rx_ok_move ctx p h
      split
      · exact rx_ok_complete K _ p 0 h0
      · exact rx_ok_get K o _ p false h0

theorem rx_cov_handle_send (K : zhpe_defs) (M : rx_matcher) (o : rx_env) (ctx : zhpe_rx_ctx)
    (m : rx_send_msg) (id : Nat) (h : rx_on_list ctx id) :
    rx_cov ctx.out id (zhpe_pe_rx_handle_send K M o ctx m).1 := by
  have hc : rx_cov ctx.out id ctx := rx_cov_of_pre _ id ctx (List.prefix_refl _) h
  rcases hparse : rx_send_parse K m with ⟨msg_len, tag, cq_data, flags⟩
  unfold zhpe_pe_rx_handle_send
  rw [hparse]
  simp only []
  split
  · split
    · exact hc
    · rename_i e he
      have h0 : rx_cov ctx.out id (rx_buffered_insert_tail
          (rx_basic_init ctx e m msg_len tag cq_data flags) e) :=
        rx_cov_buffered_insert _ id _ e hc
      obtain ⟨hp, hb, hw, ho⟩ := rx_buffered_init_frame K (rx_buffered_insert_tail
          (rx_basic_init ctx e m msg_len tag cq_data flags) e) e m none
      have h1 := rx_cov_of_frame _ id _ _ hp hb hw ho h0
      rcases hbi : rx_buffered_init K (rx_buffered_insert_tail
          (rx_basic_init ctx e m msg_len tag cq_data flags) e) e m none with ⟨c1, flag⟩
      rw [hbi] at h1
      obtain ⟨hp2, hb2, hw2, ho2, _⟩ := rx_buf_alloc_frame K o c1 e msg_len
      have h2 := rx_cov_of_frame _ id _ _ hp2 hb2 hw2 ho2 h1
      cases flag
      · exact h1
      · simp only []
        split
        · exact rx_cov_set_state _ id _ e _ h2
        · exact rx_cov_get K o _ id _ e false h2
  · rename_i p hp
    split
    · split
      · exact hc
      · rename_i e he
        have h0 : rx_cov ctx.out id (rx_work_insert_tail
            (rx_basic_init ctx e m msg_len tag cq_data flags) e) :=
          rx_cov_work_insert _ id _ e hc
        obtain ⟨hp1, hb1, hw1, ho1⟩ := rx_buffered_init_frame K (rx_work_insert_tail
            (rx_basic_init ctx e m msg_len tag cq_data flags) e) e m (some p)
        exact rx_cov_user_claim K o _ id _ e p true (rx_cov_of_frame _ id _ _ hp1 hb1 hw1 ho1 h0)
    · have h0 : rx_cov ctx.out id (rx_set (rx_basic_init
          (rx_work_insert_tail (rx_dlist_remove ctx p) p)
          p m msg_len tag cq_data flags) p
          (fun e => { e with buf := K.zhpe_ziov_state_ptr e.lstate })) :=
        rx_cov_move _ id ctx p hc
      split
      · exact rx_cov_complete K _ id _ p 0 h0
      · exact rx_cov_get K o _ id _ p false h0

/-- The entry allocated for a SEND that matches no posted receive, or a
MULTI_RECV one, is on a list after the call or has been released. -/
theorem rx_cov_handle_send_new (K : zhpe_defs) (M : rx_matcher) (o : rx_env)
    (ctx : zhpe_rx_ctx) (m : rx_send_msg) (e : Nat) (he : o.zhpe_rx_new_entry = some e)
    (hm : ∀ p, ctx.rx_posted_list.find?
        (fun p => M (ctx.entries p) false m.fi_addr (rx_send_parse K m).2.1
          (ctx.entries p).ignore (rx_send_parse K m).2.2.2) = some p →
      (ctx.entries p).flags &&& K.FI_MULTI_RECV ≠ 0) :
    rx_cov ctx.out e (zhpe_pe_rx_handle_send K M o ctx m).1 := by
  have hpre : ctx.out <+: ctx.out := List.prefix_refl _
  rcases hparse : rx_send_parse K m with ⟨msg_len, tag, cq_data, flags⟩
  rw [hparse] at hm
  simp only [] at hm
  unfold zhpe_pe_rx_handle_send
  rw [hparse]
  simp only []
  split
  · rw [he]
    simp only []
    have h0 : rx_cov ctx.out e (rx_buffered_insert_tail
        (rx_basic_init ctx e m msg_len tag cq_data flags) e) := by
      refine rx_cov_of_pre _ e _ hpre ?_
      simp [rx_on_list, rx_buffered_insert_tail, rx_basic_init, rx_set]
    obtain ⟨hp, hb, hw, ho⟩ := rx_buffered_init_frame K (rx_buffered_insert_tail
        (rx_basic_init ctx e m msg_len tag cq_data flags) e) e m none
    have h1 := rx_cov_of_frame _ e _ _ hp hb hw ho h0
    rcases hbi : rx_buffered_init K (rx_buffered_insert_tail
        (rx_basic_init ctx e m msg_len tag cq_data flags) e) e m none with ⟨c1, flag⟩
    rw [hbi] at h1
    simp only [] at h1
    obtain ⟨hp2, hb2, hw2, ho2, _⟩ := rx_buf_alloc_frame K o c1 e msg_len
    have h2 := rx_cov_of_frame _ e _ _ hp2 hb2 hw2 ho2 h1
    cases flag
    · exact h1
    · simp only []
      split
      · exact rx_cov_set_state _ e _ e _ h2
      · exact rx_cov_get K o _ e _ e false h2
  · rename_i p hp
    rw [if_pos (hm p hp), he]
    simp only []
    have h0 : rx_cov ctx.out e (rx_work_insert_tail
        (rx_basic_init ctx e m msg_len tag cq_data flags) e) := by
      refine rx_cov_of_pre _ e _ hpre ?_
      simp [rx_on_list, rx_work_insert_tail, rx_basic_init, rx_set]
    obtain ⟨hp1, hb1, hw1, ho1⟩ := rx_buffered_init_frame K (rx_work_insert_tail
        (rx_basic_init ctx e m msg_len tag cq_data flags) e) e m (some p)
    exact rx_cov_user_claim K o _ e _ e p true (rx_cov_of_frame _ e _ _ hp1 hb1 hw1 ho1 h0)

/-- C17: if no entry is linked twice before one of `zhpe_pe_rx_handle_send`,
`zhpe_pe_rx_post_recv`, `zhpe_pe_rx_peek_recv`, `zhpe_pe_rx_claim_recv`,
`zhpe_pe_rx_discard_recv` and `zhpe_pe_rx_complete` (the three lists are
duplicate-free and pairwise disjoint), then the same holds after it, and every
entry that was on a list is still on a list unless `zhpe_rx_release_entry` was
called for it during the operation.  The entries the operation brings in are
new to the lists: the user entry of `zhpe_pe_rx_post_recv` and
`zhpe_pe_rx_claim_recv` and the entry that `zhpe_rx_new_entry` returns to
`zhpe_pe_rx_handle_send`; they too end up on a list or released (for the new
entry: when the SEND matches no posted receive or a MULTI_RECV one, the cases
in which it is used). -/
theorem rx_lists_invariant (K : zhpe_defs) (M : rx_matcher) (o : rx_env) (ctx : zhpe_rx_ctx)
    (hok : rx_lists_ok ctx) :
    (∀ m : rx_send_msg, (∀ e, o.zhpe_rx_new_entry = some e → ¬ rx_on_list ctx e) →
      rx_lists_ok (zhpe_pe_rx_handle_send K M o ctx m).1 ∧
      (∀ id, rx_on_list ctx id → rx_cov ctx.out id (zhpe_pe_rx_handle_send K M o ctx m).1) ∧
      (∀ e, o.zhpe_rx_new_entry = some e →
        (∀ p, ctx.rx_posted_list.find?
            (fun p => M (ctx.entries p) false m.fi_addr (rx_send_parse K m).2.1
              (ctx.entries p).ignore (rx_send_parse K m).2.2.2) = some p →
          (ctx.entries p).flags &&& K.FI_MULTI_RECV ≠ 0) →
        rx_cov ctx.out e (zhpe_pe_rx_handle_send K M o ctx m).1)) ∧
    (∀ rx_user, ¬ rx_on_list ctx rx_user →
      rx_lists_ok (zhpe_pe_rx_post_recv K M o ctx rx_user) ∧
      ∀ id, rx_on_list ctx id ∨ id = rx_user →
        rx_cov ctx.out id (zhpe_pe_rx_post_recv K M o ctx rx_user)) ∧
    (∀ fiaddr tag ignore flags context : Nat,
      rx_lists_ok (zhpe_pe_rx_peek_recv K M ctx fiaddr tag ignore flags context) ∧
      ∀ id, rx_on_list ctx id →
        rx_cov ctx.out id (zhpe_pe_rx_peek_recv K M ctx fiaddr tag ignore flags context)) ∧
    (∀ rx_claimed rx_user, ¬ rx_on_list ctx rx_user →
      rx_lists_ok (zhpe_pe_rx_claim_recv K o ctx rx_claimed rx_user) ∧
      ∀ id, rx_on_list ctx id ∨ id = rx_user →
        rx_cov ctx.out id (zhpe_pe_rx_claim_recv K o ctx rx_claimed rx_user)) ∧
    (∀ rx_entry,
      rx_lists_ok (zhpe_pe_rx_discard_recv K ctx rx_entry) ∧
      ∀ id, rx_on_list ctx id → rx_cov ctx.out id (zhpe_pe_rx_discard_recv K ctx rx_entry)) ∧
    (∀ rx_entry status,
      rx_lists_ok (zhpe_pe_rx_complete K ctx rx_entry status) ∧
      ∀ id, rx_on_list ctx id →
        rx_cov ctx.out id (zhpe_pe_rx_complete K ctx rx_entry status)) := by
  have hc : ∀ id, rx_on_list ctx id → rx_cov ctx.out id ctx :=
    fun id h => rx_cov_of_pre _ id ctx (List.prefix_refl _) h
  refine ⟨?_, ?_, ?_, ?_, ?_, ?_⟩
  · intro m hnew
    exact ⟨rx_ok_handle_send K M o ctx m hok hnew,
      fun id h => rx_cov_handle_send K M o ctx m id h,
      fun e he hm => rx_cov_handle_send_new K M o ctx m e he hm⟩
  · intro u hu
    exact ⟨rx_ok_post_recv K M o ctx u hok hu, fun id h => rx_cov_post_recv K M o ctx u id h⟩
  · intro fiaddr tag ignore flags context
    exact ⟨rx_ok_peek_recv K M ctx fiaddr tag ignore flags context hok,
      fun id h => rx_cov_peek_recv K M ctx fiaddr tag ignore flags context id h⟩
  · intro c u hu
    exact ⟨rx_ok_claim_recv K o ctx c u hok hu, fun id h => rx_cov_claim_recv K o ctx c u id h⟩
  · intro e
    exact ⟨rx_ok_discard K ctx e hok, fun id h => rx_cov_discard K _ id ctx e (hc id h)⟩
  · intro e status
    exact ⟨rx_ok_complete K ctx e status hok,
      fun id h => rx_cov_complete K _ id ctx e status (hc id h)⟩

/-- Scenario S1: with the inline messages 3 and 4 buffered, the receive 14 for
tag 4 is posted.  Afterwards the lists are duplicate-free and disjoint, entry 3
is still buffered, and the entries 4 and 14 have been released. -/
theorem rx_lists_invariant_witness :
    rx_lists_ok (zhpe_pe_rx_post_recv zhpe_defs_example rx_match_example
      (rx_env_copy_example 32) rx_ctx_buffered_example 14) ∧
    (zhpe_pe_rx_post_recv zhpe_defs_example rx_match_example (rx_env_copy_example 32)
      rx_ctx_buffered_example 14).rx_buffered_list = [3] ∧
    rx_out.release_entry 4 ∈ (zhpe_pe_rx_post_recv zhpe_defs_example rx_match_example
      (rx_env_copy_example 32) rx_ctx_buffered_example 14).out ∧
    rx_out.release_entry 14 ∈ (zhpe_pe_rx_post_recv zhpe_defs_example rx_match_example
      (rx_env_copy_example 32) rx_ctx_buffered_example 14).out :=
  ⟨((rx_lists_invariant zhpe_defs_example rx_match_example (rx_env_copy_example 32)
      rx_ctx_buffered_example (by decide)).2.1 14 (by decide)).1,
   by decide, by decide, by decide⟩

/-! ## Discarded entries -/

/-- An entry in state DISCARD whose recorded status is negative is left as it
is by `zhpe_pe_rx_get`: the `goto complete` skips the DISCARD case of the
first `switch`, and the second `switch` has none. -/
theorem rx_get_discard_negative_status (K : zhpe_defs) (o : rx_env) (ctx : zhpe_rx_ctx)
    (e : Nat) (retry : Bool) (hst : (ctx.entries e).rx_state = ZHPE_RX_STATE_DISCARD)
    (hneg : (ctx.entries e).pe_root.status < 0) :
    zhpe_pe_rx_get K o ctx e retry = ctx := by
  unfold zhpe_pe_rx_get
  simp only []
  rw [if_pos hneg]
  unfold rx_get_complete
  split
  · rfl
  · rw [hst]

/-- An entry in state DISCARD whose recorded status is not negative is
discarded by `zhpe_pe_rx_get` once no completion is outstanding. -/
theorem rx_get_discard_ok_status (K : zhpe_defs) (o : rx_env) (ctx : zhpe_rx_ctx)
    (e : Nat) (retry : Bool) (hst : (ctx.entries e).rx_state = ZHPE_RX_STATE_DISCARD)
    (hok : 0 ≤ (ctx.entries e).pe_root.status)
    (hc : (ctx.entries e).pe_root.completions = 0) :
    zhpe_pe_rx_get K o ctx e retry = zhpe_pe_rx_discard_recv K ctx e := by
  unfold zhpe_pe_rx_get
  simp only []
  rw [if_neg (by omega), hst]
  simp only []
  rw [if_neg (by simp [hc])]

/-- C18 (the code at the failing input): the buffered entry 5 is EAGER with
one GET in flight when a peek with `FI_DISCARD` discards it: it is moved to the
work list in state DISCARD.  The GET then fails: `zhpe_pe_tx_handle_rx_get`
records `-FI_EIO`, brings the completion counter to zero and calls
`zhpe_pe_rx_get`, which neither releases the entry nor takes it off the work
list.  Had the GET succeeded, the same call would have released the entry and
sent a STATUS of 0. -/
theorem rx_get_discard_failed_get_not_released :
    (zhpe_pe_rx_peek_recv zhpe_defs_example rx_match_example rx_ctx_eager_example 0 5 0
        (2 ^ 58) 77).rx_work_list = [5] ∧
    (zhpe_pe_rx_peek_recv zhpe_defs_example rx_match_example rx_ctx_eager_example 0 5 0
        (2 ^ 58) 77).rx_buffered_list = [] ∧
    ((zhpe_pe_rx_peek_recv zhpe_defs_example rx_match_example rx_ctx_eager_example 0 5 0
        (2 ^ 58) 77).entries 5).rx_state = ZHPE_RX_STATE_DISCARD ∧
    ((zhpe_pe_tx_handle_rx_get zhpe_defs_example rx_env_example
        (zhpe_pe_rx_peek_recv zhpe_defs_example rx_match_example rx_ctx_eager_example 0 5 0
          (2 ^ 58) 77) 5 false).entries 5).pe_root =
      { conn := 0, context := 0, status := -5, completions := 0 } ∧
    (zhpe_pe_tx_handle_rx_get zhpe_defs_example rx_env_example
        (zhpe_pe_rx_peek_recv zhpe_defs_example rx_match_example rx_ctx_eager_example 0 5 0
          (2 ^ 58) 77) 5 false).rx_work_list = [5] ∧
    ((zhpe_pe_tx_handle_rx_get zhpe_defs_example rx_env_example
        (zhpe_pe_rx_peek_recv zhpe_defs_example rx_match_example rx_ctx_eager_example 0 5 0
          (2 ^ 58) 77) 5 false).entries 5).rx_state = ZHPE_RX_STATE_DISCARD ∧
    rx_out.release_entry 5 ∉ (zhpe_pe_tx_handle_rx_get zhpe_defs_example rx_env_example
        (zhpe_pe_rx_peek_recv zhpe_defs_example rx_match_example rx_ctx_eager_example 0 5 0
          (2 ^ 58) 77) 5 false).out ∧
    (zhpe_pe_tx_handle_rx_get zhpe_defs_example rx_env_example
        (zhpe_pe_rx_peek_recv zhpe_defs_example rx_match_example rx_ctx_eager_example 0 5 0
          (2 ^ 58) 77) 5 true).rx_work_list = [] ∧
    (zhpe_pe_tx_handle_rx_get zhpe_defs_example rx_env_example
        (zhpe_pe_rx_peek_recv zhpe_defs_example rx_match_example rx_ctx_eager_example 0 5 0
          (2 ^ 58) 77) 5 true).out =
      [rx_out.report_direct ⟨0, ⟨77, 2 ^ 10, 1000, 0, 0, 5⟩⟩ 0 0,
       rx_out.release_entry 5,
       rx_out.send_status 5 0 ⟨ZHPE_OP_SEND, 2 ||| 16, 0⟩ 0 0] := by
  decide

/-! ## Peek and claim -/

/-- The moved entry: after `dlist_remove` and `dlist_insert_tail` on the work
list, the first match `b` of the buffered list `l1 ++ b :: l2` has left it and
is the last entry of the work list, provided no entry is linked twice. -/
theorem rx_move_buffered_to_work (ctx : zhpe_rx_ctx) (l1 l2 : List Nat) (b : Nat)
    (hok : rx_lists_ok ctx) (hl : ctx.rx_buffered_list = l1 ++ b :: l2) :
    (rx_work_insert_tail (rx_dlist_remove ctx b) b).rx_posted_list = ctx.rx_posted_list ∧
    (rx_work_insert_tail (rx_dlist_remove ctx b) b).rx_buffered_list = l1 ++ l2 ∧
    (rx_work_insert_tail (rx_dlist_remove ctx b) b).rx_work_list = ctx.rx_work_list ++ [b] := by
  rw [rx_lists_ok_iff] at hok
  obtain ⟨_, hb, _, hpb, _, hbw⟩ := hok
  have hmem : b ∈ ctx.rx_buffered_list := by rw [hl]; simp
  have h1 : b ∉ l1 := by
    intro h
    rw [hl] at hb
    have := (List.nodup_append.1 hb).2.2
    exact this h (List.mem_cons_self _ _)
  have hp : b ∉ ctx.rx_posted_list := fun h => hpb b h hmem
  simp only [rx_work_insert_tail, rx_dlist_remove]
  rw [hl, erase_first_match l1 l2 b h1, List.erase_of_not_mem hp,
    List.erase_of_not_mem (hbw b hmem)]
  exact ⟨rfl, rfl, rfl⟩

/-- C21: `zhpe_pe_rx_peek_recv` with `FI_CLAIM` and without `FI_DISCARD`,
on a context in which no entry is linked twice.  When `b` is the first
buffered entry the matcher accepts (`l1` holds the buffered entries before it),
`b` leaves the buffered list, whose other entries keep their order, and is
appended to the tail of the work list; the posted list and all entries, so
also the state of `b`, are unchanged; `internal[0]` of the user context holds
`b`; and exactly one completion is reported, with status 0 and the address,
flags, length, cq_data and tag of `b`. -/
theorem peek_recv_claim_moves_to_work (K : zhpe_defs) (M : rx_matcher) (ctx : zhpe_rx_ctx)
    (fiaddr tag ignore flags context : Nat) (l1 l2 : List Nat) (b : Nat)
    (hok : rx_lists_ok ctx)
    (hd : flags &&& K.FI_DISCARD = 0) (hc : flags &&& K.FI_CLAIM ≠ 0)
    (hl : ctx.rx_buffered_list = l1 ++ b :: l2)
    (hno : ∀ x ∈ l1, M (ctx.entries x) true fiaddr tag ignore flags = false)
    (hb : M (ctx.entries b) true fiaddr tag ignore flags = true) :
    (zhpe_pe_rx_peek_recv K M ctx fiaddr tag ignore flags context).rx_buffered_list = l1 ++ l2 ∧
    (zhpe_pe_rx_peek_recv K M ctx fiaddr tag ignore flags context).rx_work_list =
      ctx.rx_work_list ++ [b] ∧
    (zhpe_pe_rx_peek_recv K M ctx fiaddr tag ignore flags context).rx_posted_list =
      ctx.rx_posted_list ∧
    (zhpe_pe_rx_peek_recv K M ctx fiaddr tag ignore flags context).entries = ctx.entries ∧
    (zhpe_pe_rx_peek_recv K M ctx fiaddr tag ignore flags context).internal0 =
      Function.update ctx.internal0 context (some b) ∧
    (zhpe_pe_rx_peek_recv K M ctx fiaddr tag ignore flags context).out =
      ctx.out ++ [rx_out.report_direct (rx_peek_zcqe K (ctx.entries b) flags context) 0 0] ∧
    (rx_peek_zcqe K (ctx.entries b) flags context).addr = (ctx.entries b).addr ∧
    (rx_peek_zcqe K (ctx.entries b) flags context).cqe.len = (ctx.entries b).total_len ∧
    (rx_peek_zcqe K (ctx.entries b) flags context).cqe.tag = (ctx.entries b).tag ∧
    (rx_peek_zcqe K (ctx.entries b) flags context).cqe.data = (ctx.entries b).cq_data := by
  have hfind := find_first_match ctx.rx_buffered_list l1 l2 b hl hno hb
  obtain ⟨hmp, hmb, hmw⟩ := rx_move_buffered_to_work
    { ctx with internal0 := Function.update ctx.internal0 context (some b) } l1 l2 b hok hl
  unfold zhpe_pe_rx_peek_recv
  rw [hfind]
  simp only [hd, ne_eq, not_true_eq_false, if_false]
  rw [if_pos hc]
  exact ⟨hmb, hmw, hmp, rfl, rfl, rfl, rfl, rfl, rfl, rfl⟩

/-- Two inline messages with tags 3 and 4 are buffered; a peek for tag 4 with
`FI_CLAIM` (`2 ^ 59`) moves entry 4 to the work list and stores it in the
context 77. -/
theorem peek_recv_claim_moves_to_work_witness :
    (zhpe_pe_rx_peek_recv zhpe_defs_example rx_match_example rx_ctx_buffered_example 0 4 0
      (2 ^ 59) 77).rx_buffered_list = [3] ++ [] ∧
    (zhpe_pe_rx_peek_recv zhpe_defs_example rx_match_example rx_ctx_buffered_example 0 4 0
      (2 ^ 59) 77).rx_work_list = [4] ∧
    (zhpe_pe_rx_peek_recv zhpe_defs_example rx_match_example rx_ctx_buffered_example 0 4 0
      (2 ^ 59) 77).internal0 77 = some 4 ∧
    (zhpe_pe_rx_peek_recv zhpe_defs_example rx_match_example rx_ctx_buffered_example 0 4 0
      (2 ^ 59) 77).out = [rx_out.report_direct ⟨0, ⟨77, 1024, 32, 0, 0, 4⟩⟩ 0 0] :=
  ⟨(peek_recv_claim_moves_to_work zhpe_defs_example rx_match_example rx_ctx_buffered_example
      0 4 0 (2 ^ 59) 77 [3] [] 4 (by decide) (by decide) (by decide) rfl (by decide)
      (by decide)).1,
   by decide, by decide, by decide⟩

/-! ## Retry of a GET -/

theorem rem_setup_bits_none_missing (K : zhpe_defs) (g : zhpe_iov → Option Nat)
    (a : Nat → zhpe_iov → Bool → Int × Nat) (get : Bool) (bits : List Nat)
    (rstate : zhpe_iov_state) (ret : Int) (h : rstate.missing = 0) :
    zhpe_pe_rem_setup_bits K g a get bits rstate ret = (rstate, ret) := by
  induction bits with
  | nil => rfl
  | cons i bits ih =>
    unfold zhpe_pe_rem_setup_bits
    rw [if_neg (by rw [h, Nat.zero_and]; exact fun hne => hne rfl)]
    exact ih

/-- Without missing keys `zhpe_pe_rem_setup` returns 0 and changes nothing. -/
theorem rem_setup_none_missing (K : zhpe_defs) (g : zhpe_iov → Option Nat)
    (a : Nat → zhpe_iov → Bool → Int × Nat) (rstate : zhpe_iov_state) (get : Bool)
    (h : rstate.missing = 0) : zhpe_pe_rem_setup K g a rstate get = (rstate, 0) :=
  rem_setup_bits_none_missing K g a get _ rstate 0 h

theorem rx_set_self (ctx : zhpe_rx_ctx) (e : Nat) (f : zhpe_rx_entry → zhpe_rx_entry)
    (h : f (ctx.entries e) = ctx.entries e) : rx_set ctx e f = ctx := by
  unfold rx_set
  rw [h, Function.update_eq_self]

/-- C30: for an entry in state EAGER, EAGER_CLAIMED, RND_BUF or RND_DIRECT
whose local and remote iov states have no missing keys,
`zhpe_pe_rx_get(entry, retry = true)` and `zhpe_pe_rx_get(entry, retry =
false)` leave the same context: the same entry, the same lists and the same
log of issued GET operations, retries, status messages and completions.  The
retry skips the key setup, and without missing keys the key setup does
nothing. -/
theorem rx_get_retry_same_as_first (K : zhpe_defs) (o : rx_env) (ctx : zhpe_rx_ctx) (e : Nat)
    (hst : (ctx.entries e).rx_state = ZHPE_RX_STATE_EAGER ∨
      (ctx.entries e).rx_state = ZHPE_RX_STATE_EAGER_CLAIMED ∨
      (ctx.entries e).rx_state = ZHPE_RX_STATE_RND_BUF ∨
      (ctx.entries e).rx_state = ZHPE_RX_STATE_RND_DIRECT)
    (hl : (ctx.entries e).lstate.missing = 0) (hr : (ctx.entries e).rstate.missing = 0) :
    zhpe_pe_rx_get K o ctx e true = zhpe_pe_rx_get K o ctx e false := by
  by_cases hneg : (ctx.entries e).pe_root.status < 0
  · unfold zhpe_pe_rx_get
    simp only []
    rw [if_pos hneg, if_pos hneg]
  · have hstat : 0 ≤ (ctx.entries e).pe_root.status := by omega
    rw [rx_get_skips_setup K o ctx e true hstat hst (Or.inr rfl)]
    by_cases hlen : (ctx.entries e).total_len = (ctx.entries e).rem
    · have hrs := rem_setup_none_missing K o.zhpe_conn_rkey_get o.zhpeq_rem_key_access
        (ctx.entries e).rstate true hr
      rw [rx_get_reaches_issue K o ctx e hstat hst hlen
        ⟨fun h => absurd hl h, by rw [hrs]⟩, hrs]
      rw [rx_set_self ctx e _ rfl]
    · rw [rx_get_skips_setup K o ctx e false hstat hst (Or.inl hlen)]

/-- Entry 1 has moved nothing yet and has no missing keys: the retry and the
plain call both issue the GET for its 1000 bytes and leave the same context. -/
theorem rx_get_retry_same_as_first_witness :
    zhpe_pe_rx_get zhpe_defs_example rx_env_example rx_ctx_retry_example 1 true =
      zhpe_pe_rx_get zhpe_defs_example rx_env_example rx_ctx_retry_example 1 false ∧
    (zhpe_pe_rx_get zhpe_defs_example rx_env_example rx_ctx_retry_example 1 true).out =
      [rx_out.iov_op_get 1 1000 2] ∧
    (zhpe_pe_retry_rx_get zhpe_defs_example rx_env_example rx_ctx_retry_example 1).out =
      (zhpe_pe_rx_get zhpe_defs_example rx_env_example rx_ctx_retry_example 1 false).out :=
  ⟨rx_get_retry_same_as_first zhpe_defs_example rx_env_example rx_ctx_retry_example 1
      (by decide) (by decide) (by decide),
   by decide, by decide⟩

/-! ## Key requests -/

theorem key_request_loop_failed (K : zhpe_defs) (find : Nat → Bool → Option Nat)
    (exp : Nat → Int) (zhdr : zhpe_msg_hdr) (zkeys : List zhpe_key) (ret : Int)
    (out : List key_out) (h : ret < 0) :
    key_request_loop K find exp zhdr zkeys ret out =
      (out ++ List.replicate zkeys.length (key_out.send_status zhdr ret 0), ret) := by
  induction zkeys generalizing out with
  | nil => simp [key_request_loop]
  | cons k ks ih =>
    unfold key_request_loop
    simp only []
    rw [if_neg (show ¬ ret ≥ 0 by omega)]
    simp only []
    rw [if_pos h, ih]
    simp [List.replicate_succ]

theorem key_request_loop_cons (K : zhpe_defs) (find : Nat → Bool → Option Nat)
    (exp : Nat → Int) (zhdr : zhpe_msg_hdr) (k : zhpe_key) (ks : List zhpe_key) (ret : Int)
    (out : List key_out) (hret : 0 ≤ ret) :
    key_request_loop K find exp zhdr (k :: ks) ret out =
      key_request_loop K find exp zhdr ks (key_export_rc K find exp k)
        (out ++ key_export_calls find zhdr k ++
          (if key_export_rc K find exp k < 0
            then [key_out.send_status zhdr (key_export_rc K find exp k) 0] else [])) := by
  conv_lhs => unfold key_request_loop
  simp only []
  rw [if_pos (show ret ≥ 0 from hret)]
  unfold key_export_rc key_export_calls
  cases find k.key (decide (k.internal ≠ 0)) with
  | none =>
    simp only []
    split <;> simp
  | some zmr =>
    simp only []
    split <;> simp

theorem key_request_loop_good (K : zhpe_defs) (find : Nat → Bool → Option Nat)
    (exp : Nat → Int) (zhdr : zhpe_msg_hdr) (good rest : List zhpe_key) (ret : Int)
    (out : List key_out) (hret : 0 ≤ ret)
    (hgood : ∀ k ∈ good, 0 ≤ key_export_rc K find exp k) :
    ∃ ret2, 0 ≤ ret2 ∧
      key_request_loop K find exp zhdr (good ++ rest) ret out =
        key_request_loop K find exp zhdr rest ret2
          (out ++ good.flatMap (key_export_calls find zhdr)) := by
  induction good generalizing ret out with
  | nil => exact ⟨ret, hret, by simp⟩
  | cons k ks ih =>
    have hk := hgood k (List.mem_cons_self _ _)
    have hks : ∀ x ∈ ks, 0 ≤ key_export_rc K find exp x :=
      fun x hx => hgood x (List.mem_cons_of_mem _ hx)
    rw [List.cons_append, key_request_loop_cons K find exp zhdr k _ ret out hret,
      if_neg (by omega), List.append_nil]
    obtain ⟨ret2, h2, heq⟩ := ih (key_export_rc K find exp k) _ hk hks
    refine ⟨ret2, h2, ?_⟩
    rw [heq, List.flatMap_cons, List.append_assoc]

/-- C22 (amended): `zhpe_pe_rx_handle_key_request` returns 0 and works through
the keys in order, with one result carried from key to key.  As long as no
key has failed, each key is looked up and, if it has a region, exported (a key
without a region fails with `-FI_ENOKEY`, an export can fail with its own
error).  The first key that fails gets a STATUS with its error, and so does
every key after it: those keys are not looked up and not exported, whether
they have a region or not.  So with `good` the keys before the first failure
and `bad` the key that fails, the calls are the exports of `good`, the export
of `bad` if it has a region, and one STATUS with the error of `bad` for `bad`
and for each of the keys after it; if no key fails, the calls are the exports
of all keys and no STATUS. -/
theorem key_request_first_error_is_sticky (K : zhpe_defs) (find : Nat → Bool → Option Nat)
    (exp : Nat → Int) (zhdr : zhpe_msg_hdr) (good rest : List zhpe_key)
    (hgood : ∀ k ∈ good, 0 ≤ key_export_rc K find exp k) :
    zhpe_pe_rx_handle_key_request K find exp zhdr good =
      (good.flatMap (key_export_calls find zhdr), 0) ∧
    ∀ bad, key_export_rc K find exp bad < 0 →
      zhpe_pe_rx_handle_key_request K find exp zhdr (good ++ bad :: rest) =
        (good.flatMap (key_export_calls find zhdr) ++ key_export_calls find zhdr bad ++
          List.replicate (rest.length + 1)
            (key_out.send_status zhdr (key_export_rc K find exp bad) 0), 0) := by
  constructor
  · obtain ⟨ret2, _, heq⟩ := key_request_loop_good K find exp zhdr good [] 0 [] (le_refl 0) hgood
    unfold zhpe_pe_rx_handle_key_request
    rw [List.append_nil] at heq
    rw [heq]
    simp [key_request_loop]
  · intro bad hbad
    obtain ⟨ret2, h2, heq⟩ := key_request_loop_good K find exp zhdr good (bad :: rest) 0 []
      (le_refl 0) hgood
    unfold zhpe_pe_rx_handle_key_request
    rw [heq, key_request_loop_cons K find exp zhdr bad rest ret2 _ h2, if_pos hbad,
      key_request_loop_failed K find exp zhdr rest _ _ hbad]
    simp [List.replicate_succ]

/-- Keys 2, 3 and 4, of which 3 has no region: key 2 is exported, keys 3 and 4
both get a STATUS with `-FI_ENOKEY`. -/
theorem key_request_first_error_is_sticky_witness :
    zhpe_pe_rx_handle_key_request zhpe_defs_example mr_find_example (fun _ => 0)
        ⟨ZHPE_OP_KEY_REQUEST, 0, 0⟩ ([⟨2, 0⟩] ++ ⟨3, 0⟩ :: [⟨4, 0⟩]) =
      ([key_out.conn_key_export ⟨ZHPE_OP_KEY_REQUEST, 0, 0⟩ 2, key_out.mr_put 2] ++ [] ++
        List.replicate (1 + 1) (key_out.send_status ⟨ZHPE_OP_KEY_REQUEST, 0, 0⟩ (-266) 0), 0) :=
  (key_request_first_error_is_sticky zhpe_defs_example mr_find_example (fun _ => 0)
    ⟨ZHPE_OP_KEY_REQUEST, 0, 0⟩ [⟨2, 0⟩] [⟨4, 0⟩] (by decide)).2 ⟨3, 0⟩ (by decide)

/-- C22 (counterexample): a KEY_REQUEST for the keys 3 and 4, of which 3 has
no region and 4 has one.  Key 4 is not exported: it gets a STATUS with
`-FI_ENOKEY`, like key 3.  With the two keys in the other order, key 4 is
exported. -/
theorem key_request_found_key_after_failure_not_exported :
    mr_find_example 3 false = none ∧ mr_find_example 4 false = some 4 ∧
    zhpe_pe_rx_handle_key_request zhpe_defs_example mr_find_example (fun _ => 0)
        ⟨ZHPE_OP_KEY_REQUEST, 0, 0⟩ [⟨3, 0⟩, ⟨4, 0⟩] =
      ([key_out.send_status ⟨ZHPE_OP_KEY_REQUEST, 0, 0⟩ (-266) 0,
        key_out.send_status ⟨ZHPE_OP_KEY_REQUEST, 0, 0⟩ (-266) 0], 0) ∧
    zhpe_pe_rx_handle_key_request zhpe_defs_example mr_find_example (fun _ => 0)
        ⟨ZHPE_OP_KEY_REQUEST, 0, 0⟩ [⟨4, 0⟩, ⟨3, 0⟩] =
      ([key_out.conn_key_export ⟨ZHPE_OP_KEY_REQUEST, 0, 0⟩ 4, key_out.mr_put 4,
        key_out.send_status ⟨ZHPE_OP_KEY_REQUEST, 0, 0⟩ (-266) 0], 0) := by
  decide

/-! ## Byte order of the WRITEDATA payload -/

/-- The byte at position `m` of a number written as high part, byte, low part. -/
theorem byte_extract (hi b lo m : Nat) (hb : b < 256) (hlo : lo < m) :
    (hi * (256 * m) + b * m + lo) / m % 256 = b := by
  have hm : 0 < m := by omega
  have h1 : hi * (256 * m) + b * m + lo = lo + (hi * 256 + b) * m := by ring
  rw [h1, Nat.add_mul_div_right _ _ hm, Nat.div_eq_of_lt hlo, Nat.zero_add,
    Nat.mul_comm hi 256, Nat.mul_add_mod]
  exact Nat.mod_eq_of_lt hb

/-- The bytes of a 64-bit value, assembled in reverse order and taken apart
again, are the value. -/
theorem bswap64_of_bytes (b0 b1 b2 b3 b4 b5 b6 b7 : Nat) (h0 : b0 < 256) (h1 : b1 < 256)
    (h2 : b2 < 256) (h3 : b3 < 256) (h4 : b4 < 256) (h5 : b5 < 256) (h6 : b6 < 256)
    (h7 : b7 < 256) :
    bswap64 (b0 * 2 ^ 56 + b1 * 2 ^ 48 + b2 * 2 ^ 40 + b3 * 2 ^ 32 + b4 * 2 ^ 24 + b5 * 2 ^ 16 +
      b6 * 2 ^ 8 + b7) =
    b7 * 2 ^ 56 + b6 * 2 ^ 48 + b5 * 2 ^ 40 + b4 * 2 ^ 32 + b3 * 2 ^ 24 + b2 * 2 ^ 16 +
      b1 * 2 ^ 8 + b0 := by
  unfold bswap64
  generalize hy : b0 * 2 ^ 56 + b1 * 2 ^ 48 + b2 * 2 ^ 40 + b3 * 2 ^ 32 + b4 * 2 ^ 24 +
    b5 * 2 ^ 16 + b6 * 2 ^ 8 + b7 = y
  have e0 : y % 256 = b7 := by
    have hy2 : y = (b0 * 2 ^ 48 + b1 * 2 ^ 40 + b2 * 2 ^ 32 + b3 * 2 ^ 24 + b4 * 2 ^ 16 + b5 * 2 ^ 8 + b6) * (256 * 1) + b7 * 1 +
        (0) := by
      rw [← hy]; ring
    have hlo : 0 < 1 := by decide
    have hb := byte_extract (b0 * 2 ^ 48 + b1 * 2 ^ 40 + b2 * 2 ^ 32 + b3 * 2 ^ 24 + b4 * 2 ^ 16 + b5 * 2 ^ 8 + b6) b7 (0) 1 h7 hlo
    rw [Nat.div_one] at hb
    rw [hy2]; exact hb
  have e1 : y / 2 ^ 8 % 256 = b6 := by
    have hy2 : y = (b0 * 2 ^ 40 + b1 * 2 ^ 32 + b2 * 2 ^ 24 + b3 * 2 ^ 16 + b4 * 2 ^ 8 + b5) * (256 * 2 ^ 8) + b6 * 2 ^ 8 +
        (b7) := by
      rw [← hy]; ring
    have hlo : b7 < 2 ^ 8 := by
      simp only [Nat.reducePow]; omega
    rw [hy2]; exact byte_extract _ _ _ _ h6 hlo
  have e2 : y / 2 ^ 16 % 256 = b5 := by
    have hy2 : y = (b0 * 2 ^ 32 + b1 * 2 ^ 24 + b2 * 2 ^ 16 + b3 * 2 ^ 8 + b4) * (256 * 2 ^ 16) + b5 * 2 ^ 16 +
        (b6 * 2 ^ 8 + b7) := by
      rw [← hy]; ring
    have hlo : b6 * 2 ^ 8 + b7 < 2 ^ 16 := by
      simp only [Nat.reducePow]; omega
    rw [hy2]; exact byte_extract _ _ _ _ h5 hlo
  have e3 : y / 2 ^ 24 % 256 = b4 := by
    have hy2 : y = (b0 * 2 ^ 24 + b1 * 2 ^ 16 + b2 * 2 ^ 8 + b3) * (256 * 2 ^ 24) + b4 * 2 ^ 24 +
        (b5 * 2 ^ 16 + b6 * 2 ^ 8 + b7) := by
      rw [← hy]; ring
    have hlo : b5 * 2 ^ 16 + b6 * 2 ^ 8 + b7 < 2 ^ 24 := by
      simp only [Nat.reducePow]; omega
    rw [hy2]; exact byte_extract _ _ _ _ h4 hlo
  have e4 : y / 2 ^ 32 % 256 = b3 := by
    have hy2 : y = (b0 * 2 ^ 16 + b1 * 2 ^ 8 + b2) * (256 * 2 ^ 32) + b3 * 2 ^ 32 +
        (b4 * 2 ^ 24 + b5 * 2 ^ 16 + b6 * 2 ^ 8 + b7) := by
      rw [← hy]; ring
    have hlo : b4 * 2 ^ 24 + b5 * 2 ^ 16 + b6 * 2 ^ 8 + b7 < 2 ^ 32 := by
      simp only [Nat.reducePow]; omega
    rw [hy2]; exact byte_extract _ _ _ _ h3 hlo
  have e5 : y / 2 ^ 40 % 256 = b2 := by
    have hy2 : y = (b0 * 2 ^ 8 + b1) * (256 * 2 ^ 40) + b2 * 2 ^ 40 +
        (b3 * 2 ^ 32 + b4 * 2 ^ 24 + b5 * 2 ^ 16 + b6 * 2 ^ 8 + b7) := by
      rw [← hy]; ring
    have hlo : b3 * 2 ^ 32 + b4 * 2 ^ 24 + b5 * 2 ^ 16 + b6 * 2 ^ 8 + b7 < 2 ^ 40 := by
      simp only [Nat.reducePow]; omega
    rw [hy2]; exact byte_extract _ _ _ _ h2 hlo
  have e6 : y / 2 ^ 48 % 256 = b1 := by
    have hy2 : y = (b0) * (256 * 2 ^ 48) + b1 * 2 ^ 48 +
        (b2 * 2 ^ 40 + b3 * 2 ^ 32 + b4 * 2 ^ 24 + b5 * 2 ^ 16 + b6 * 2 ^ 8 + b7) := by
      rw [← hy]; ring
    have hlo : b2 * 2 ^ 40 + b3 * 2 ^ 32 + b4 * 2 ^ 24 + b5 * 2 ^ 16 + b6 * 2 ^ 8 + b7 < 2 ^ 48 := by
      simp only [Nat.reducePow]; omega
    rw [hy2]; exact byte_extract _ _ _ _ h1 hlo
  have e7 : y / 2 ^ 56 % 256 = b0 := by
    have hy2 : y = (0) * (256 * 2 ^ 56) + b0 * 2 ^ 56 +
        (b1 * 2 ^ 48 + b2 * 2 ^ 40 + b3 * 2 ^ 32 + b4 * 2 ^ 24 + b5 * 2 ^ 16 + b6 * 2 ^ 8 + b7) := by
      rw [← hy]; ring
    have hlo : b1 * 2 ^ 48 + b2 * 2 ^ 40 + b3 * 2 ^ 32 + b4 * 2 ^ 24 + b5 * 2 ^ 16 + b6 * 2 ^ 8 + b7 < 2 ^ 56 := by
      simp only [Nat.reducePow]; omega
    rw [hy2]; exact byte_extract _ _ _ _ h0 hlo
  rw [e0, e1, e2, e3, e4, e5, e6, e7]

theorem bswap64_bswap64 (x : Nat) (h : x < 2 ^ 64) : bswap64 (bswap64 x) = x := by
  have hx : x = x / 2 ^ 56 % 256 * 2 ^ 56 + x / 2 ^ 48 % 256 * 2 ^ 48 + x / 2 ^ 40 % 256 * 2 ^ 40 +
      x / 2 ^ 32 % 256 * 2 ^ 32 + x / 2 ^ 24 % 256 * 2 ^ 24 + x / 2 ^ 16 % 256 * 2 ^ 16 +
      x / 2 ^ 8 % 256 * 2 ^ 8 + x % 256 := by
    simp only [Nat.reducePow] at h ⊢
    omega
  conv_lhs => arg 1; unfold bswap64
  rw [bswap64_of_bytes _ _ _ _ _ _ _ _ (Nat.mod_lt _ (by decide)) (Nat.mod_lt _ (by decide))
    (Nat.mod_lt _ (by decide)) (Nat.mod_lt _ (by decide)) (Nat.mod_lt _ (by decide))
    (Nat.mod_lt _ (by decide)) (Nat.mod_lt _ (by decide)) (Nat.mod_lt _ (by decide))]
  exact hx.symm

theorem be64toh_htobe64 (x : Nat) (h : x < 2 ^ 64) : be64toh (htobe64 x) = x :=
  bswap64_bswap64 x h

/-! ## Completion reporting -/

/-- C26 (amended): for a completion entry without the triggered-op and
no-completion flags whose flags select a completion class with queue `cq`,
event flag `event` and counter `cntr` (each of the two possibly unbound),
`zhpe_pe_report_complete` with `err < 0` adds one to the error count of the
counter if a counter is bound and emits one CQ error record (entry, `rem`,
error code `-err`) if the class has a queue, and nothing else; with
`0 ≤ err` it increments the counter if one is bound and emits a CQ record
exactly when the class has a queue and `event` is 0 or `FI_COMPLETION` is set,
followed by an EQ error of `FI_ENOSPC` when the queue refuses the record and an
event queue is bound.  The class of `FI_REMOTE_READ` never has a queue, the
classes of `FI_REMOTE_READ` and `FI_REMOTE_WRITE` have `event` 0. -/
theorem report_complete_by_class (K : zhpe_defs) (o : comp_env) (comp : zhpe_comp)
    (zcqe : zhpe_cqe) (err : Int) (rem : Nat) (cq : Option Nat) (event : Nat)
    (cntr : Option Nat)
    (ht : zcqe.cqe.flags &&& K.ZHPE_TRIGGERED_OP = 0)
    (hn : zcqe.cqe.flags &&& K.ZHPE_NO_COMPLETION = 0)
    (hclass : report_complete_class K comp zcqe.cqe.flags = some (cq, event, cntr)) :
    (err < 0 →
      zhpe_pe_report_complete K o comp zcqe err rem =
        (cntr.toList.map fun c => comp_out.fi_cntr_adderr c 1) ++
        (cq.toList.map fun q => comp_out.zhpe_cq_report_error q zcqe.cqe rem (-err) (-err))) ∧
    (0 ≤ err → ∀ q, cq = some q → (event = 0 ∨ zcqe.cqe.flags &&& K.FI_COMPLETION ≠ 0) →
      zhpe_pe_report_complete K o comp zcqe err rem =
        (cntr.toList.map fun c => comp_out.zhpe_cntr_inc c) ++
        comp_out.report_completion q zcqe.addr zcqe.cqe ::
          (if o.report_completion < 0 then
            comp.eq.toList.map fun e => comp_out.zhpe_eq_report_error e q K.FI_ENOSPC
           else [])) ∧
    (0 ≤ err → (cq = none ∨ (event ≠ 0 ∧ zcqe.cqe.flags &&& K.FI_COMPLETION = 0)) →
      zhpe_pe_report_complete K o comp zcqe err rem =
        cntr.toList.map fun c => comp_out.zhpe_cntr_inc c) ∧
    ([K.FI_SEND, K.FI_RECV, K.FI_READ, K.FI_WRITE, K.FI_REMOTE_READ,
        K.FI_REMOTE_WRITE].Nodup →
      ∀ sel, sel = zcqe.cqe.flags &&& (K.FI_SEND ||| K.FI_RECV ||| K.FI_READ ||| K.FI_WRITE |||
          K.FI_REMOTE_READ ||| K.FI_REMOTE_WRITE) →
        (sel = K.FI_SEND → (cq, event, cntr) = (comp.send_cq, comp.send_cq_event, comp.send_cntr)) ∧
        (sel = K.FI_RECV → (cq, event, cntr) = (comp.recv_cq, comp.recv_cq_event, comp.recv_cntr)) ∧
        (sel = K.FI_READ → (cq, event, cntr) = (comp.send_cq, comp.send_cq_event, comp.read_cntr)) ∧
        (sel = K.FI_WRITE →
          (cq, event, cntr) = (comp.send_cq, comp.send_cq_event, comp.write_cntr)) ∧
        (sel = K.FI_REMOTE_READ → (cq, event, cntr) = (none, 0, comp.rem_read_cntr)) ∧
        (sel = K.FI_REMOTE_WRITE → (cq, event, cntr) = (comp.recv_cq, 0, comp.rem_write_cntr))) := by
  have hun : zhpe_pe_report_complete K o comp zcqe err rem =
      report_complete_untriggered K o comp zcqe err rem := by
    unfold zhpe_pe_report_complete
    simp only [ht, hn, ne_eq, not_true_eq_false, if_false]
  refine ⟨?_, ?_, ?_, ?_⟩
  · intro he
    rw [hun]
    unfold report_complete_untriggered
    rw [hclass]
    simp only [if_pos he]
    cases cntr <;> cases cq <;> rfl
  · intro he q hq hev
    subst hq
    rw [hun]
    unfold report_complete_untriggered
    rw [hclass]
    simp only [if_neg (not_lt.mpr he), if_pos hev]
    cases cntr <;> cases heq : comp.eq <;> simp
  · intro he hno
    rw [hun]
    unfold report_complete_untriggered
    rw [hclass]
    simp only [if_neg (not_lt.mpr he)]
    rcases hno with hq | ⟨h1, h2⟩
    · subst hq
      cases cntr <;> rfl
    · have hev : ¬ (event = 0 ∨ zcqe.cqe.flags &&& K.FI_COMPLETION ≠ 0) := by
        intro h
        rcases h with h | h
        · exact h1 h
        · exact h h2
      cases cntr <;> cases cq <;> simp [hev]
  · intro hd sel hsel
    simp only [List.nodup_cons, List.mem_cons, List.mem_singleton, List.not_mem_nil, not_or,
      List.nodup_nil] at hd
    obtain ⟨⟨h12, h13, h14, h15, h16⟩, ⟨h23, h24, h25, h26⟩, ⟨h34, h35, h36⟩, ⟨h45, h46⟩,
      ⟨h56, _⟩, _⟩ := hd
    unfold report_complete_class at hclass
    simp only [← hsel] at hclass
    refine ⟨?_, ?_, ?_, ?_, ?_, ?_⟩ <;> intro hs <;> rw [hs] at hclass
    · rw [if_pos rfl] at hclass
      exact (Option.some.inj hclass).symm
    · rw [if_neg (Ne.symm h12), if_pos rfl] at hclass
      exact (Option.some.inj hclass).symm
    · rw [if_neg (Ne.symm h13), if_neg (Ne.symm h23), if_pos rfl] at hclass
      exact (Option.some.inj hclass).symm
    · rw [if_neg (Ne.symm h14), if_neg (Ne.symm h24), if_neg (Ne.symm h34), if_pos rfl] at hclass
      exact (Option.some.inj hclass).symm
    · rw [if_neg (Ne.symm h15), if_neg (Ne.symm h25), if_neg (Ne.symm h35),
        if_neg (Ne.symm h45), if_pos rfl] at hclass
      exact (Option.some.inj hclass).symm
    · rw [if_neg (Ne.symm h16.1), if_neg (Ne.symm h26.1), if_neg (Ne.symm h36.1),
        if_neg (Ne.symm h46.1), if_neg (Ne.symm h56), if_pos rfl] at hclass
      exact (Option.some.inj hclass).symm

/-- C26 witness: a truncated receive (`FI_RECV`, `err = -FI_ETRUNC`, 36 bytes
left over) on a context with everything bound: one error count on the receive
counter and one error record on the receive queue. -/
theorem report_complete_by_class_witness :
    (2 ^ 10 &&& zhpe_defs_example.ZHPE_TRIGGERED_OP = 0) ∧
    (2 ^ 10 &&& zhpe_defs_example.ZHPE_NO_COMPLETION = 0) ∧
    report_complete_class zhpe_defs_example zhpe_comp_example (2 ^ 10) =
      some (some 2, 1, some 12) ∧
    zhpe_pe_report_complete zhpe_defs_example comp_env_example zhpe_comp_example
        ⟨5, ⟨77, 2 ^ 10, 100, 4096, 0, 9⟩⟩ (-265) 36 =
      [comp_out.fi_cntr_adderr 12 1,
       comp_out.zhpe_cq_report_error 2 ⟨77, 2 ^ 10, 100, 4096, 0, 9⟩ 36 265 265] :=
  ⟨by decide, by decide, by decide,
   (report_complete_by_class zhpe_defs_example comp_env_example zhpe_comp_example
      ⟨5, ⟨77, 2 ^ 10, 100, 4096, 0, 9⟩⟩ (-265) 36 (some 2) 1 (some 12)
      (by decide) (by decide) (by decide)).1 (by decide)⟩

/-- C26 (counterexample): on a context with both queues and every counter
bound, a failed completion of the `FI_REMOTE_READ` class counts an error on the
remote-read counter but emits no CQ error record, since the class has no queue;
and on a context whose receive counter is not bound, a failed receive emits
the error record but increments no error counter, and a successful receive
with `FI_COMPLETION` emits the record but increments no counter. -/
theorem report_complete_error_without_record :
    zhpe_pe_report_complete zhpe_defs_example comp_env_example zhpe_comp_example
        ⟨5, ⟨77, 2 ^ 12, 100, 4096, 0, 9⟩⟩ (-5) 36 =
      [comp_out.fi_cntr_adderr 15 1] ∧
    zhpe_pe_report_complete zhpe_defs_example comp_env_example
        { zhpe_comp_example with recv_cntr := none }
        ⟨5, ⟨77, 2 ^ 10, 100, 4096, 0, 9⟩⟩ (-5) 36 =
      [comp_out.zhpe_cq_report_error 2 ⟨77, 2 ^ 10, 100, 4096, 0, 9⟩ 36 5 5] ∧
    zhpe_pe_report_complete zhpe_defs_example comp_env_example
        { zhpe_comp_example with recv_cntr := none }
        ⟨5, ⟨77, 2 ^ 10 ||| 2 ^ 24, 100, 4096, 0, 9⟩⟩ 0 0 =
      [comp_out.report_completion 2 5 ⟨77, 2 ^ 10 ||| 2 ^ 24, 100, 4096, 0, 9⟩] := by
  decide

/-! ## WRITEDATA round trip -/

/-- The fields of a WRITEDATA message survive the wire: the message that
`zhpe_pe_writedata` builds for an entry with (64-bit) flags `f` and `cq_data`
`d` is handed to `zhpe_tx_op` with opcode `ZHPE_OP_WRITEDATA`; when
`zhpe_pe_rx_handle_writedata` receives its payload it makes one call of the
completion reporter with status 0 and `rem` 0 and returns 0, and the descriptor
it hands over has data `d`, the address of the connection, and as flags `f`
restricted to `FI_REMOTE_READ`, `FI_REMOTE_WRITE`,
`FI_REMOTE_CQ_DATA`, `FI_RMA` and `FI_ATOMIC`, with `FI_REMOTE_WRITE` added when
of `FI_REMOTE_WRITE` and `FI_REMOTE_CQ_DATA` only the latter is present. -/
theorem writedata_round_trip (K : zhpe_defs) (o : tx_env) (oc : comp_env) (comp : zhpe_comp)
    (tx : zhpe_tx) (pe_entry fi_addr : Nat)
    (hf : (tx.pentries pe_entry).flags < 2 ^ 64)
    (hd : (tx.pentries pe_entry).cq_data < 2 ^ 64) :
    ∃ zpay : zhpe_msg_writedata,
      (zhpe_pe_writedata K o tx pe_entry).1.out =
        tx.out ++ [tx_out.zhpe_tx_op (tx.pentries pe_entry).pe_root.conn ZHPE_OP_WRITEDATA
          (tx.pentries pe_entry).rx_id (K.ZHPE_PE_PROV ||| K.ZHPE_PE_RETRY) zpay pe_entry] ∧
      (zhpe_pe_writedata K o tx pe_entry).2 = o.zhpe_tx_op ∧
      zhpe_pe_rx_handle_writedata K oc comp fi_addr zpay =
        (zhpe_pe_report_complete K oc comp (rx_writedata_zcqe K fi_addr zpay) 0 0, 0) ∧
      (rx_writedata_zcqe K fi_addr zpay).addr = fi_addr ∧
      (rx_writedata_zcqe K fi_addr zpay).cqe.data = (tx.pentries pe_entry).cq_data ∧
      (rx_writedata_zcqe K fi_addr zpay).cqe.flags =
        (if (tx.pentries pe_entry).flags &&&
              (K.FI_REMOTE_READ ||| K.FI_REMOTE_WRITE ||| K.FI_REMOTE_CQ_DATA ||| K.FI_RMA |||
                K.FI_ATOMIC) &&& (K.FI_REMOTE_WRITE ||| K.FI_REMOTE_CQ_DATA) =
            K.FI_REMOTE_CQ_DATA then
          (tx.pentries pe_entry).flags &&&
              (K.FI_REMOTE_READ ||| K.FI_REMOTE_WRITE ||| K.FI_REMOTE_CQ_DATA ||| K.FI_RMA |||
                K.FI_ATOMIC) ||| K.FI_REMOTE_WRITE
         else
          (tx.pentries pe_entry).flags &&&
              (K.FI_REMOTE_READ ||| K.FI_REMOTE_WRITE ||| K.FI_REMOTE_CQ_DATA ||| K.FI_RMA |||
                K.FI_ATOMIC)) := by
  refine ⟨{ flags := htobe64 (tx.pentries pe_entry).flags,
            cq_data := htobe64 (tx.pentries pe_entry).cq_data }, rfl, rfl, rfl, rfl, ?_, ?_⟩
  · show be64toh (htobe64 (tx.pentries pe_entry).cq_data) = _
    exact be64toh_htobe64 _ hd
  · unfold rx_writedata_zcqe
    simp only [be64toh_htobe64 _ hf]

/-- An RMA WRITE (`FI_RMA | FI_WRITE | FI_REMOTE_CQ_DATA`) with
`cq_data` 0xDEADBEEF to a peer whose receive queue and remote-write counter
are bound: the payload carries both fields byte-swapped, and the peer counts
one remote write and puts one record on its receive queue with flags
`FI_REMOTE_WRITE | FI_REMOTE_CQ_DATA | FI_RMA` and data 0xDEADBEEF. -/
theorem writedata_round_trip_witness :
    (zhpe_pe_writedata zhpe_defs_example tx_env_example
        (zhpe_tx_example { pe_entry_example 77 with
          flags := 2 ^ 2 ||| 2 ^ 9 ||| 2 ^ 17, cq_data := 0xDEADBEEF }) 1).1.out =
      [tx_out.zhpe_tx_op 3 ZHPE_OP_WRITEDATA 9 3 ⟨0x0402020000000000, 0xEFBEADDE00000000⟩ 1] ∧
    zhpe_pe_rx_handle_writedata zhpe_defs_example comp_env_example zhpe_comp_example 5
        ⟨0x0402020000000000, 0xEFBEADDE00000000⟩ =
      ([comp_out.zhpe_cntr_inc 16,
        comp_out.report_completion 2 5 ⟨0, 2 ^ 13 ||| 2 ^ 17 ||| 2 ^ 2, 0, 0, 0xDEADBEEF, 0⟩], 0) ∧
    ∃ zpay : zhpe_msg_writedata,
      (zhpe_pe_writedata zhpe_defs_example tx_env_example
          (zhpe_tx_example { pe_entry_example 77 with
            flags := 2 ^ 2 ||| 2 ^ 9 ||| 2 ^ 17, cq_data := 0xDEADBEEF }) 1).1.out =
        [] ++ [tx_out.zhpe_tx_op 3 ZHPE_OP_WRITEDATA 9 (1 ||| 2) zpay 1] ∧
      (rx_writedata_zcqe zhpe_defs_example 5 zpay).cqe.data = 0xDEADBEEF :=
  ⟨by decide, by decide,
   (writedata_round_trip zhpe_defs_example tx_env_example comp_env_example zhpe_comp_example
      (zhpe_tx_example { pe_entry_example 77 with
        flags := 2 ^ 2 ||| 2 ^ 9 ||| 2 ^ 17, cq_data := 0xDEADBEEF }) 1 5
      (by decide) (by decide)).imp (fun _ h => ⟨h.1, h.2.2.2.2.1⟩)⟩

/-! ## Transmit completions of an entry -/

/-- The status recorded by `zhpe_pe_root_update_status`. -/
theorem update_status_status (r : zhpe_pe_root) (s : Int) :
    (zhpe_pe_root_update_status r s).status = if s < 0 ∧ r.status ≥ 0 then s else r.status := by
  unfold zhpe_pe_root_update_status
  split <;> rfl

/-- The fields `zhpe_pe_root_update_status` leaves alone. -/
theorem update_status_frame (r : zhpe_pe_root) (s : Int) :
    (zhpe_pe_root_update_status r s).completions = r.completions ∧
    (zhpe_pe_root_update_status r s).conn = r.conn ∧
    (zhpe_pe_root_update_status r s).context = r.context ∧
    (zhpe_pe_root_update_status r s).flags = r.flags := by
  unfold zhpe_pe_root_update_status
  split <;> exact ⟨rfl, rfl, rfl, rfl⟩

/-- One call of `zhpe_pe_tx_handle_entry` on an entry not made by the
provider: the entry after the call, and the calls made. -/
theorem tx_handle_entry_step (K : zhpe_defs) (tx : zhpe_tx) (id : Nat) (c : Option Bool)
    (hp : (tx.pentries id).pe_root.flags &&& K.ZHPE_PE_PROV = 0) :
    ((zhpe_pe_tx_handle_entry K tx id c).1.pentries id).pe_root.completions =
      (tx.pentries id).pe_root.completions - 1 ∧
    ((zhpe_pe_tx_handle_entry K tx id c).1.pentries id).pe_root.status =
      tx_cqe_status K (tx.pentries id).pe_root.status c ∧
    ((zhpe_pe_tx_handle_entry K tx id c).1.pentries id).pe_root.flags =
      (tx.pentries id).pe_root.flags ∧
    ((zhpe_pe_tx_handle_entry K tx id c).1.pentries id).pe_root.conn =
      (tx.pentries id).pe_root.conn ∧
    ((zhpe_pe_tx_handle_entry K tx id c).1.pentries id).rem = (tx.pentries id).rem ∧
    (zhpe_pe_tx_handle_entry K tx id c).1.out =
      tx.out ++
        (if (tx.pentries id).pe_root.completions - 1 = 0 then
          [tx_out.zhpe_pe_tx_report_complete id
             (K.FI_TRANSMIT_COMPLETE ||| K.FI_DELIVERY_COMPLETE)
             (tx_cqe_status K (tx.pentries id).pe_root.status c) (tx.pentries id).rem,
           tx_out.zhpe_tx_release (tx.pentries id).pe_root.conn id]
         else []) ∧
    (zhpe_pe_tx_handle_entry K tx id c).2 = 0 := by
  have hs : (if c = some false then
        zhpe_pe_root_update_status (tx.pentries id).pe_root (-( K.FI_EIO : Int))
      else (tx.pentries id).pe_root).status =
      tx_cqe_status K (tx.pentries id).pe_root.status c := by
    unfold tx_cqe_status
    by_cases hc : c = some false
    · rw [if_pos hc, update_status_status]
      by_cases h1 : 0 < K.FI_EIO
      · by_cases h2 : (tx.pentries id).pe_root.status ≥ 0
        · rw [if_pos ⟨by omega, h2⟩, if_pos ⟨hc, h1, h2⟩]
        · rw [if_neg (fun h => h2 h.2), if_neg (fun h => h2 h.2.2)]
      · rw [if_neg (fun h => h1 (by omega)), if_neg (fun h => h1 h.2.1)]
    · rw [if_neg hc, if_neg (fun h => hc h.1)]
  have hf : ∀ (P : zhpe_pe_root → Prop), P (tx.pentries id).pe_root →
      P (zhpe_pe_root_update_status (tx.pentries id).pe_root (-( K.FI_EIO : Int))) →
      P (if c = some false then
        zhpe_pe_root_update_status (tx.pentries id).pe_root (-( K.FI_EIO : Int))
      else (tx.pentries id).pe_root) := by
    intro P h1 h2
    split
    · exact h2
    · exact h1
  have hfr := update_status_frame (tx.pentries id).pe_root (-( K.FI_EIO : Int))
  have hcomp := hf (fun r => r.completions = (tx.pentries id).pe_root.completions) rfl hfr.1
  have hconn := hf (fun r => r.conn = (tx.pentries id).pe_root.conn) rfl hfr.2.1
  have hflags := hf (fun r => r.flags = (tx.pentries id).pe_root.flags) rfl hfr.2.2.2
  simp only [] at hcomp hconn hflags
  unfold zhpe_pe_tx_handle_entry
  by_cases hc : c = some false
  · simp only [hc, if_true] at hs hcomp hconn hflags ⊢
    simp only [tx_set, tx_emit, Function.update_same, hcomp, hflags, hp, hconn, hs]
    by_cases h0 : (tx.pentries id).pe_root.completions - 1 = 0
    · simp only [h0, if_true, Function.update_same, List.append_assoc, List.singleton_append,
        and_self]
    · simp only [h0, if_false, Function.update_same, List.append_nil, and_self]
  · simp only [hc, if_false] at hs hcomp hconn hflags ⊢
    simp only [tx_set, tx_emit, Function.update_same, hp, ← hs]
    by_cases h0 : (tx.pentries id).pe_root.completions - 1 = 0
    · simp only [h0, if_true, Function.update_same, List.append_assoc, List.singleton_append,
        and_self]
    · simp only [h0, if_false, Function.update_same, List.append_nil, and_self]

/-- Calls of the handler one after the other. -/
theorem tx_handle_entry_calls_append (K : zhpe_defs) (id : Nat) (cs1 cs2 : List (Option Bool)) :
    ∀ tx, tx_handle_entry_calls K id (cs1 ++ cs2) tx =
      tx_handle_entry_calls K id cs2 (tx_handle_entry_calls K id cs1 tx) := by
  induction cs1 with
  | nil => intro tx; rfl
  | cons c cs ih => intro tx; exact ih _

/-- The status after a run of transport completions. -/
theorem tx_cqe_status_foldl (K : zhpe_defs) (hE : 0 < K.FI_EIO) (cs : List (Option Bool)) :
    ∀ st : Int, cs.foldl (tx_cqe_status K) st =
      if st < 0 then st else if some false ∈ cs then -( K.FI_EIO : Int) else st := by
  induction cs with
  | nil => intro st; simp
  | cons c cs ih =>
    intro st
    rw [List.foldl_cons]
    have hneg : -( K.FI_EIO : Int) < 0 := by omega
    by_cases hst : st < 0
    · have h1 : tx_cqe_status K st c = st := by
        unfold tx_cqe_status
        rw [if_neg (fun h => absurd h.2.2 (by omega))]
      rw [h1, ih, if_pos hst, if_pos hst]
    · by_cases hc : c = some false
      · have h1 : tx_cqe_status K st c = -( K.FI_EIO : Int) := by
          unfold tx_cqe_status
          rw [if_pos ⟨hc, hE, by omega⟩]
        rw [h1, ih, if_pos hneg, if_neg hst, if_pos (by simp [hc])]
      · have h1 : tx_cqe_status K st c = st := by
          unfold tx_cqe_status
          rw [if_neg (fun h => hc h.1)]
        have hm : (some false ∈ c :: cs) ↔ some false ∈ cs := by
          simp [List.mem_cons, Ne.symm hc]
        rw [h1, ih, if_neg hst, if_neg hst]
        simp only [hm]

/-- While fewer calls have been made than the counter says are due, the
handler only decrements the counter and records the status. -/
theorem tx_handle_entry_calls_pending (K : zhpe_defs) (id : Nat) (cs : List (Option Bool)) :
    ∀ tx : zhpe_tx, (tx.pentries id).pe_root.flags &&& K.ZHPE_PE_PROV = 0 →
      (cs.length : Int) < (tx.pentries id).pe_root.completions →
      (tx_handle_entry_calls K id cs tx).out = tx.out ∧
      ((tx_handle_entry_calls K id cs tx).pentries id).pe_root.completions =
        (tx.pentries id).pe_root.completions - cs.length ∧
      ((tx_handle_entry_calls K id cs tx).pentries id).pe_root.status =
        cs.foldl (tx_cqe_status K) (tx.pentries id).pe_root.status ∧
      ((tx_handle_entry_calls K id cs tx).pentries id).pe_root.flags =
        (tx.pentries id).pe_root.flags ∧
      ((tx_handle_entry_calls K id cs tx).pentries id).pe_root.conn =
        (tx.pentries id).pe_root.conn ∧
      ((tx_handle_entry_calls K id cs tx).pentries id).rem = (tx.pentries id).rem := by
  induction cs with
  | nil =>
    intro tx _ _
    simp [tx_handle_entry_calls]
  | cons c cs ih =>
    intro tx hp hn
    obtain ⟨s1, s2, s3, s4, s5, s6, _⟩ := tx_handle_entry_step K tx id c hp
    simp only [List.length_cons, Nat.cast_add, Nat.cast_one] at hn
    have h0 : ¬ ((tx.pentries id).pe_root.completions - 1 = 0) := by omega
    rw [if_neg h0, List.append_nil] at s6
    obtain ⟨i1, i2, i3, i4, i5, i6⟩ := ih (zhpe_pe_tx_handle_entry K tx id c).1
      (by rw [s3]; exact hp) (by rw [s1]; omega)
    have e : tx_handle_entry_calls K id (c :: cs) tx =
        tx_handle_entry_calls K id cs (zhpe_pe_tx_handle_entry K tx id c).1 := rfl
    rw [e]
    refine ⟨by rw [i1, s6], ?_, ?_, by rw [i4, s3], by rw [i5, s4], by rw [i6, s5]⟩
    · rw [i2, s1]
      simp only [List.length_cons, Nat.cast_add, Nat.cast_one]
      omega
    · rw [i3, s2, List.foldl_cons]

/-- C24: for a transmit entry not made by the provider whose completion
counter is `n ≥ 1`, over the `n` calls of `zhpe_pe_tx_handle_entry` the calls
made are exactly one `zhpe_pe_tx_report_complete` followed by one
`zhpe_tx_release`; before the last call nothing has been reported or released
and the counter equals the number of calls still due; the reported status is
the recorded one if that was negative, else `-FI_EIO` if any of the transport
completions failed, else the recorded one.  Every single call decrements the
counter by one, returns 0, and reports and releases the entry exactly when the
counter reaches 0 in that call. -/
theorem tx_handle_entry_reports_once (K : zhpe_defs) (tx : zhpe_tx) (id : Nat)
    (cs : List (Option Bool))
    (hp : (tx.pentries id).pe_root.flags &&& K.ZHPE_PE_PROV = 0)
    (hn : (tx.pentries id).pe_root.completions = cs.length)
    (hcs : cs ≠ [])
    (hE : 0 < K.FI_EIO) :
    (tx_handle_entry_calls K id cs tx).out =
      tx.out ++
        [tx_out.zhpe_pe_tx_report_complete id
           (K.FI_TRANSMIT_COMPLETE ||| K.FI_DELIVERY_COMPLETE)
           (if (tx.pentries id).pe_root.status < 0 then (tx.pentries id).pe_root.status
            else if some false ∈ cs then -( K.FI_EIO : Int)
            else (tx.pentries id).pe_root.status)
           (tx.pentries id).rem,
         tx_out.zhpe_tx_release (tx.pentries id).pe_root.conn id] ∧
    ((tx_handle_entry_calls K id cs tx).pentries id).pe_root.completions = 0 ∧
    (∀ cs1 cs2, cs = cs1 ++ cs2 → cs2 ≠ [] →
      (tx_handle_entry_calls K id cs1 tx).out = tx.out ∧
      ((tx_handle_entry_calls K id cs1 tx).pentries id).pe_root.completions = cs2.length) ∧
    (∀ (t : zhpe_tx) (c : Option Bool), (t.pentries id).pe_root.flags &&& K.ZHPE_PE_PROV = 0 →
      ((zhpe_pe_tx_handle_entry K t id c).1.pentries id).pe_root.completions =
        (t.pentries id).pe_root.completions - 1 ∧
      (zhpe_pe_tx_handle_entry K t id c).2 = 0 ∧
      (((zhpe_pe_tx_handle_entry K t id c).1.pentries id).pe_root.completions = 0 →
        (zhpe_pe_tx_handle_entry K t id c).1.out =
          t.out ++
            [tx_out.zhpe_pe_tx_report_complete id
               (K.FI_TRANSMIT_COMPLETE ||| K.FI_DELIVERY_COMPLETE)
               (tx_cqe_status K (t.pentries id).pe_root.status c) (t.pentries id).rem,
             tx_out.zhpe_tx_release (t.pentries id).pe_root.conn id]) ∧
      (((zhpe_pe_tx_handle_entry K t id c).1.pentries id).pe_root.completions ≠ 0 →
        (zhpe_pe_tx_handle_entry K t id c).1.out = t.out)) := by
  have hpre : ∀ cs1 cs2, cs = cs1 ++ cs2 → cs2 ≠ [] →
      (cs1.length : Int) < (tx.pentries id).pe_root.completions := by
    intro cs1 cs2 h h2
    have hl : 0 < cs2.length := List.length_pos.mpr h2
    rw [hn, h, List.length_append]
    push_cast
    omega
  refine ⟨?_, ?_, ?_, ?_⟩
  · obtain ⟨cs1, c, rfl⟩ : ∃ cs1 c, cs = cs1 ++ [c] :=
      ⟨cs.dropLast, cs.getLast hcs, (List.dropLast_append_getLast hcs).symm⟩
    obtain ⟨i1, i2, i3, i4, i5, i6⟩ := tx_handle_entry_calls_pending K id cs1 tx hp
      (hpre cs1 [c] rfl (by simp))
    rw [tx_handle_entry_calls_append]
    show (zhpe_pe_tx_handle_entry K (tx_handle_entry_calls K id cs1 tx) id c).1.out = _
    obtain ⟨_, _, _, _, _, s6, _⟩ := tx_handle_entry_step K (tx_handle_entry_calls K id cs1 tx)
      id c (by rw [i4]; exact hp)
    rw [s6, i1, i2, i3, i5, i6, hn]
    have h0 : ((cs1 ++ [c]).length : Int) - cs1.length - 1 = 0 := by
      rw [List.length_append]; push_cast; simp
    rw [if_pos h0]
    have hfold : List.foldl (tx_cqe_status K) (tx.pentries id).pe_root.status (cs1 ++ [c]) =
        tx_cqe_status K (List.foldl (tx_cqe_status K) (tx.pentries id).pe_root.status cs1) c := by
      rw [List.foldl_append]; rfl
    rw [← hfold, tx_cqe_status_foldl K hE]
  · obtain ⟨cs1, c, rfl⟩ : ∃ cs1 c, cs = cs1 ++ [c] :=
      ⟨cs.dropLast, cs.getLast hcs, (List.dropLast_append_getLast hcs).symm⟩
    obtain ⟨i1, i2, i3, i4, i5, i6⟩ := tx_handle_entry_calls_pending K id cs1 tx hp
      (hpre cs1 [c] rfl (by simp))
    rw [tx_handle_entry_calls_append]
    show ((zhpe_pe_tx_handle_entry K (tx_handle_entry_calls K id cs1 tx) id c).1.pentries
      id).pe_root.completions = 0
    obtain ⟨s1, _⟩ := tx_handle_entry_step K (tx_handle_entry_calls K id cs1 tx)
      id c (by rw [i4]; exact hp)
    rw [s1, i2, hn, List.length_append]
    push_cast
    simp
  · intro cs1 cs2 h h2
    obtain ⟨i1, i2, _⟩ := tx_handle_entry_calls_pending K id cs1 tx hp (hpre cs1 cs2 h h2)
    refine ⟨i1, ?_⟩
    rw [i2, hn, h, List.length_append]
    push_cast
    omega
  · intro t c ht
    obtain ⟨s1, _, _, _, _, s6, s7⟩ := tx_handle_entry_step K t id c ht
    refine ⟨s1, s7, ?_, ?_⟩
    · intro h0
      rw [s1] at h0
      rw [s6, if_pos h0]
    · intro h0
      rw [s1] at h0
      rw [s6, if_neg h0, List.append_nil]

/-- C24 witness: an entry of the user with three transport completions due,
the second of which fails: after the three calls the entry has been reported
once, with status `-FI_EIO`, and released once; after two calls nothing has
been reported. -/
theorem tx_handle_entry_reports_once_witness :
    ((zhpe_tx_example { pe_entry_example 77 with
        pe_root := { conn := 3, context := 77, status := 0, completions := 3 } }).pentries
      1).pe_root.flags &&& zhpe_defs_example.ZHPE_PE_PROV = 0 ∧
    (tx_handle_entry_calls zhpe_defs_example 1 [some true, some false, none]
      (zhpe_tx_example { pe_entry_example 77 with
        pe_root := { conn := 3, context := 77, status := 0, completions := 3 } })).out =
      [tx_out.zhpe_pe_tx_report_complete 1 (2 ^ 27 ||| 2 ^ 28) (-5) 0,
       tx_out.zhpe_tx_release 3 1] ∧
    (tx_handle_entry_calls zhpe_defs_example 1 [some true, some false]
      (zhpe_tx_example { pe_entry_example 77 with
        pe_root := { conn := 3, context := 77, status := 0, completions := 3 } })).out = [] :=
  ⟨by decide,
   (tx_handle_entry_reports_once zhpe_defs_example
      (zhpe_tx_example { pe_entry_example 77 with
        pe_root := { conn := 3, context := 77, status := 0, completions := 3 } })
      1 [some true, some false, none] (by decide) (by decide) (by decide) (by decide)).1.trans
      (by decide),
   ((tx_handle_entry_reports_once zhpe_defs_example
      (zhpe_tx_example { pe_entry_example 77 with
        pe_root := { conn := 3, context := 77, status := 0, completions := 3 } })
      1 [some true, some false, none] (by decide) (by decide) (by decide) (by decide)).2.2.1
      [some true, some false] [none] rfl (by decide)).1⟩

/-! ## Result of a fetching atomic -/

/-- The entry after the status update and the decrement at the head of the
transmit handlers. -/
theorem tx_head_entry (K : zhpe_defs) (tx : zhpe_tx) (id : Nat) (c : Option Bool) :
    ∃ r : zhpe_pe_root,
      r.completions = (tx.pentries id).pe_root.completions - 1 ∧
      r.conn = (tx.pentries id).pe_root.conn ∧
      (tx_set
        (if c = some false then
          tx_set tx id (fun e =>
            { e with pe_root := zhpe_pe_root_update_status e.pe_root (-( K.FI_EIO : Int)) })
         else tx) id (fun e =>
          { e with pe_root := { e.pe_root with completions := e.pe_root.completions - 1 } })) =
      { tx with pentries := Function.update tx.pentries id { tx.pentries id with pe_root := r } } := by
  by_cases hc : c = some false
  · refine ⟨{ zhpe_pe_root_update_status (tx.pentries id).pe_root (-( K.FI_EIO : Int)) with
        completions := (zhpe_pe_root_update_status (tx.pentries id).pe_root
          (-( K.FI_EIO : Int))).completions - 1 }, ?_, ?_, ?_⟩
    · exact congrArg (· - 1) (update_status_frame _ _).1
    · exact (update_status_frame _ _).2.1
    · simp only [if_pos hc, tx_set, Function.update_same, Function.update_idem]
  · refine ⟨{ (tx.pentries id).pe_root with
        completions := (tx.pentries id).pe_root.completions - 1 }, rfl, rfl, ?_⟩
    simp only [if_neg hc, tx_set]

/-- The memory after `zhpe_pe_tx_handle_atomic`. -/
theorem tx_handle_atomic_mem (K : zhpe_defs) (o : tx_env) (tx : zhpe_tx) (id : Nat)
    (c : Option Bool) :
    (zhpe_pe_tx_handle_atomic K o tx id c).1.mem =
      if (tx.pentries id).pe_root.completions - 1 = 0 ∧ (tx.pentries id).result ≠ 0 then
        match (tx.pentries id).result_type with
        | FI_UINT8 => mem_store tx.mem (tx.pentries id).result 1 (tx.pentries id).rem
        | FI_UINT16 => mem_store tx.mem (tx.pentries id).result 2 (tx.pentries id).rem
        | FI_UINT32 => mem_store tx.mem (tx.pentries id).result 4 (tx.pentries id).rem
        | FI_UINT64 => mem_store tx.mem (tx.pentries id).result 8 (tx.pentries id).rem
        | fi_datatype.other _ => tx.mem
      else tx.mem := by
  obtain ⟨r, hr1, _, hr3⟩ := tx_head_entry K tx id c
  unfold zhpe_pe_tx_handle_atomic
  simp only [hr3, Function.update_same, hr1]
  by_cases h0 : (tx.pentries id).pe_root.completions - 1 = 0
  · by_cases hres : (tx.pentries id).result = 0
    · simp only [h0, hres, if_true, ne_eq, not_true_eq_false, if_false, and_false]
      split_ifs <;> rfl
    · simp only [h0, hres, if_true, ne_eq, not_false_eq_true, and_self]
      cases (tx.pentries id).result_type <;> simp only [] <;> split_ifs <;> rfl
  · simp only [h0, if_false, false_and]

/-- C25: in `zhpe_pe_tx_handle_atomic`, when the completion counter reaches 0
in the call and the result pointer is not null, the memory at `result` holds
afterwards `rem mod 2^8` in one byte for `FI_UINT8`, `rem mod 2^16` in two
bytes for `FI_UINT16`, `rem mod 2^32` in four bytes for `FI_UINT32`, and `rem`
(a 64-bit value) in eight bytes for `FI_UINT64`, and no byte outside the
stored width is changed; while the counter is not 0 after the decrement, or
when the result pointer is null, the memory is unchanged, as it is for any
other `result_type`. -/
theorem tx_handle_atomic_result_store (K : zhpe_defs) (o : tx_env) (tx : zhpe_tx) (id : Nat)
    (c : Option Bool) :
    ((tx.pentries id).pe_root.completions - 1 = 0 → (tx.pentries id).result ≠ 0 →
      ((tx.pentries id).result_type = FI_UINT8 →
        mem_load (zhpe_pe_tx_handle_atomic K o tx id c).1.mem (tx.pentries id).result 1 =
          (tx.pentries id).rem % 2 ^ 8 ∧
        ∀ a, a < (tx.pentries id).result ∨ (tx.pentries id).result + 1 ≤ a →
          (zhpe_pe_tx_handle_atomic K o tx id c).1.mem a = tx.mem a) ∧
      ((tx.pentries id).result_type = FI_UINT16 →
        mem_load (zhpe_pe_tx_handle_atomic K o tx id c).1.mem (tx.pentries id).result 2 =
          (tx.pentries id).rem % 2 ^ 16 ∧
        ∀ a, a < (tx.pentries id).result ∨ (tx.pentries id).result + 2 ≤ a →
          (zhpe_pe_tx_handle_atomic K o tx id c).1.mem a = tx.mem a) ∧
      ((tx.pentries id).result_type = FI_UINT32 →
        mem_load (zhpe_pe_tx_handle_atomic K o tx id c).1.mem (tx.pentries id).result 4 =
          (tx.pentries id).rem % 2 ^ 32 ∧
        ∀ a, a < (tx.pentries id).result ∨ (tx.pentries id).result + 4 ≤ a →
          (zhpe_pe_tx_handle_atomic K o tx id c).1.mem a = tx.mem a) ∧
      ((tx.pentries id).result_type = FI_UINT64 →
        mem_load (zhpe_pe_tx_handle_atomic K o tx id c).1.mem (tx.pentries id).result 8 =
          (tx.pentries id).rem % 2 ^ 64 ∧
        ((tx.pentries id).rem < 2 ^ 64 →
          mem_load (zhpe_pe_tx_handle_atomic K o tx id c).1.mem (tx.pentries id).result 8 =
            (tx.pentries id).rem) ∧
        ∀ a, a < (tx.pentries id).result ∨ (tx.pentries id).result + 8 ≤ a →
          (zhpe_pe_tx_handle_atomic K o tx id c).1.mem a = tx.mem a) ∧
      (∀ d, (tx.pentries id).result_type = fi_datatype.other d →
        (zhpe_pe_tx_handle_atomic K o tx id c).1.mem = tx.mem)) ∧
    (((tx.pentries id).pe_root.completions - 1 ≠ 0 ∨ (tx.pentries id).result = 0) →
      (zhpe_pe_tx_handle_atomic K o tx id c).1.mem = tx.mem) := by
  rw [tx_handle_atomic_mem]
  refine ⟨?_, ?_⟩
  · intro h0 hres
    rw [if_pos ⟨h0, hres⟩]
    refine ⟨?_, ?_, ?_, ?_, ?_⟩
    · intro ht
      rw [ht]
      exact ⟨mem_load_store 1 _ _ _, fun a ha => mem_store_frame 1 _ _ _ a ha⟩
    · intro ht
      rw [ht]
      exact ⟨mem_load_store 2 _ _ _, fun a ha => mem_store_frame 2 _ _ _ a ha⟩
    · intro ht
      rw [ht]
      exact ⟨mem_load_store 4 _ _ _, fun a ha => mem_store_frame 4 _ _ _ a ha⟩
    · intro ht
      rw [ht]
      refine ⟨mem_load_store 8 _ _ _, fun hlt => ?_, fun a ha => mem_store_frame 8 _ _ _ a ha⟩
      exact (mem_load_store 8 _ _ _).trans (Nat.mod_eq_of_lt hlt)
    · intro d ht
      rw [ht]
  · intro h
    rw [if_neg]
    rintro ⟨h0, hres⟩
    rcases h with h | h
    · exact h h0
    · exact hres h

/-- C25 witness: a fetching atomic whose last transport completion arrives,
with `rem = 0x1122334455667788` and a result pointer of 4096: the byte stored
for `FI_UINT8` is 0x88, the four bytes for `FI_UINT32` hold 0x55667788 and the
next byte is untouched; with two completions still due nothing is stored. -/
theorem tx_handle_atomic_result_store_witness :
    mem_load (zhpe_pe_tx_handle_atomic zhpe_defs_example tx_env_example
      (zhpe_tx_example { pe_entry_example 77 with
        pe_root := { conn := 3, context := 77, status := 0, completions := 1 },
        rem := 0x1122334455667788, result := 4096, result_type := FI_UINT8 }) 1
      (some true)).1.mem 4096 1 = 0x1122334455667788 % 2 ^ 8 ∧
    mem_load (zhpe_pe_tx_handle_atomic zhpe_defs_example tx_env_example
      (zhpe_tx_example { pe_entry_example 77 with
        pe_root := { conn := 3, context := 77, status := 0, completions := 1 },
        rem := 0x1122334455667788, result := 4096, result_type := FI_UINT8 }) 1
      (some true)).1.mem 4096 1 = 0x88 ∧
    mem_load (zhpe_pe_tx_handle_atomic zhpe_defs_example tx_env_example
      (zhpe_tx_example { pe_entry_example 77 with
        pe_root := { conn := 3, context := 77, status := 0, completions := 1 },
        rem := 0x1122334455667788, result := 4096, result_type := FI_UINT32 }) 1
      (some true)).1.mem 4096 8 = 0x55667788 ∧
    mem_load (zhpe_pe_tx_handle_atomic zhpe_defs_example tx_env_example
      (zhpe_tx_example { pe_entry_example 77 with
        pe_root := { conn := 3, context := 77, status := 0, completions := 2 },
        rem := 0x1122334455667788, result := 4096, result_type := FI_UINT32 }) 1
      (some true)).1.mem 4096 8 = 0 :=
  ⟨((tx_handle_atomic_result_store zhpe_defs_example tx_env_example
      (zhpe_tx_example { pe_entry_example 77 with
        pe_root := { conn := 3, context := 77, status := 0, completions := 1 },
        rem := 0x1122334455667788, result := 4096, result_type := FI_UINT8 }) 1
      (some true)).1 (by decide) (by decide)).1 rfl |>.1,
   by decide, by decide, by decide⟩

/-! ## WRITEDATA on the error path of an RMA -/

/-- An entry with a negative status, nothing in flight and one of the remote
flags set: `zhpe_pe_tx_rma` hands a WRITEDATA message to `zhpe_tx_op` and, when
that is accepted, does nothing else, whatever `rem` is. -/
theorem tx_rma_negative_status_writedata (K : zhpe_defs) (o : tx_env) (tx : zhpe_tx) (id : Nat)
    (hs : (tx.pentries id).pe_root.status < 0)
    (hc : (tx.pentries id).pe_root.completions = 0)
    (hf : (tx.pentries id).flags &&&
      (K.FI_REMOTE_READ ||| K.FI_REMOTE_WRITE ||| K.FI_REMOTE_CQ_DATA) ≠ 0)
    (ho : 0 ≤ o.zhpe_tx_op) :
    zhpe_pe_tx_rma K o tx id = (zhpe_pe_writedata K o tx id).1 := by
  unfold zhpe_pe_tx_rma
  simp only []
  rw [if_pos hs]
  unfold tx_rma_complete
  simp only []
  rw [if_neg (by simp [hc]), if_pos hf, if_pos (by exact ho)]

/-- C23 (the code at the failing input): an RMA WRITE with remote CQ data has
4096 bytes still to move and one operation in flight; that operation fails.
`zhpe_pe_tx_handle_rma` records `-FI_EIO`, brings the counter to 0 and calls
`zhpe_pe_tx_rma`, which sends the WRITEDATA message although `rem` is 4096, and
neither reports nor releases the entry; the peer that receives the payload
reports a successful remote write with data 0xDEADBEEF.  The same entry without
a remote flag is reported with status `-FI_EIO` and released; and with nothing
left to move and no error the WRITEDATA message is sent as the only call. -/
theorem tx_rma_failed_write_sends_writedata :
    ((zhpe_pe_tx_handle_rma zhpe_defs_example tx_env_example
        (zhpe_tx_example (pe_entry_write_example 4096 0 1)) 1 (some false)).1.pentries 1).pe_root =
      { conn := 3, context := 77, status := -5, completions := 0 } ∧
    ((zhpe_pe_tx_handle_rma zhpe_defs_example tx_env_example
        (zhpe_tx_example (pe_entry_write_example 4096 0 1)) 1 (some false)).1.pentries 1).rem =
      4096 ∧
    (zhpe_pe_tx_handle_rma zhpe_defs_example tx_env_example
        (zhpe_tx_example (pe_entry_write_example 4096 0 1)) 1 (some false)).1.out =
      [tx_out.zhpe_tx_op 3 ZHPE_OP_WRITEDATA 9 (1 ||| 2)
        ⟨0x0402020000000000, 0xEFBEADDE00000000⟩ 1] ∧
    zhpe_pe_rx_handle_writedata zhpe_defs_example comp_env_example zhpe_comp_example 5
        ⟨0x0402020000000000, 0xEFBEADDE00000000⟩ =
      ([comp_out.zhpe_cntr_inc 16,
        comp_out.report_completion 2 5 ⟨0, 2 ^ 13 ||| 2 ^ 17 ||| 2 ^ 2, 0, 0, 0xDEADBEEF, 0⟩], 0) ∧
    (zhpe_pe_tx_handle_rma zhpe_defs_example tx_env_example
        (zhpe_tx_example { pe_entry_write_example 4096 0 1 with flags := 2 ^ 2 ||| 2 ^ 9 }) 1
        (some false)).1.out =
      [tx_out.zhpe_pe_tx_report_complete 1 (2 ^ 27 ||| 2 ^ 28) (-5) 4096,
       tx_out.zhpe_tx_release 3 1] ∧
    (zhpe_pe_tx_handle_rma zhpe_defs_example tx_env_example
        (zhpe_tx_example (pe_entry_write_example 0 0 1)) 1 (some true)).1.out =
      [tx_out.zhpe_tx_op 3 ZHPE_OP_WRITEDATA 9 (1 ||| 2)
        ⟨0x0402020000000000, 0xEFBEADDE00000000⟩ 1] := by
  decide

/-! ## Wake-up of the progress thread -/

/-- With counters of at least one bit, a counter is never its own successor. -/
theorem succ_mod_ne (M r : Nat) (hM : 2 ≤ M) (hr : r < M) : (r + 1) % M ≠ r := by
  by_cases h : r + 1 < M
  · rw [Nat.mod_eq_of_lt h]; omega
  · have : r + 1 = M := by omega
    rw [this, Nat.mod_self]; omega

/-- The distance from `rcnt` to its successor is 1. -/
theorem succ_mod_sub (M r : Nat) (hM : 2 ≤ M) (hr : r < M) :
    ((r + 1) % M + M - r) % M = 1 := by
  by_cases h : r + 1 < M
  · rw [Nat.mod_eq_of_lt h]
    have : r + 1 + M - r = 1 + M := by omega
    rw [this, Nat.add_mod_right, Nat.mod_eq_of_lt (by omega)]
  · have h1 : r + 1 = M := by omega
    rw [h1, Nat.mod_self]
    have : 0 + M - r = 1 := by omega
    rw [this, Nat.mod_eq_of_lt (by omega)]

theorem two_le_two_pow (w : Nat) (hw : 0 < w) : 2 ≤ 2 ^ w := by
  calc 2 = 2 ^ 1 := rfl
    _ ≤ 2 ^ w := Nat.pow_le_pow_right (by decide) hw

/-- A successful `zhpe_pe_signal` keeps the wake-up invariant. -/
theorem pe_signal_inv (K : zhpe_defs) (w : Nat) (pe : zhpe_pe) (hw : 0 < w)
    (hI : pe_wake_inv K w pe) : pe_wake_inv K w (zhpe_pe_signal K w 1 pe) := by
  obtain ⟨hm, hwl, hrl, hd⟩ := hI
  unfold zhpe_pe_signal
  rw [if_neg (by simp [hm])]
  by_cases he : pe.wcnt = pe.rcnt
  · rw [if_pos he, if_neg (by simp)]
    rcases hd with ⟨_, hp⟩ | ⟨h1, _⟩
    · refine ⟨hm, Nat.mod_lt _ (by positivity), hrl, Or.inr ⟨?_, ?_⟩⟩
      · show (pe.wcnt + 1) % 2 ^ w = (pe.rcnt + 1) % 2 ^ w
        rw [he]
      · show pe.pipe + 1 = 1
        rw [hp]
    · exact absurd (h1.symm.trans he) (succ_mod_ne _ _ (two_le_two_pow w hw) hrl)
  · rw [if_neg he]
    exact ⟨hm, hwl, hrl, hd⟩

/-- A `zhpe_pe_wait` whose read succeeds keeps the wake-up invariant. -/
theorem pe_wait_inv (K : zhpe_defs) (w : Nat) (poll_rc : Int) (now : Nat) (pe : zhpe_pe)
    (hI : pe_wake_inv K w pe) : pe_wake_inv K w (zhpe_pe_wait w poll_rc 1 now pe) := by
  obtain ⟨hm, hwl, hrl, hd⟩ := hI
  unfold zhpe_pe_wait
  by_cases hp : poll_rc > 0
  · by_cases he : pe.rcnt ≠ pe.wcnt
    · simp only [if_pos hp, if_pos he, if_true]
      rcases hd with ⟨h1, _⟩ | ⟨h1, h2⟩
      · exact absurd h1.symm he
      · exact ⟨hm, hwl, Nat.mod_lt _ (by positivity), Or.inl ⟨h1, by simp [h2]⟩⟩
    · simp only [if_pos hp, if_neg he]
      exact ⟨hm, hwl, hrl, hd⟩
  · simp only [if_neg hp]
    exact ⟨hm, hwl, hrl, hd⟩

/-- The wake-up invariant holds after any run of steps whose socket calls
succeed. -/
theorem pe_steps_inv (K : zhpe_defs) (w : Nat) (hw : 0 < w) (steps : List pe_step) :
    ∀ pe, pe_wake_inv K w pe → (∀ s ∈ steps, pe_step_ok s) →
      pe_wake_inv K w (pe_steps K w steps pe) := by
  induction steps with
  | nil => intro pe hI _; exact hI
  | cons s steps ih =>
    intro pe hI hok
    have hs := hok s (List.mem_cons_self _ _)
    have hrest : ∀ t ∈ steps, pe_step_ok t := fun t ht => hok t (List.mem_cons_of_mem _ ht)
    cases s with
    | signal write_rc =>
      have : write_rc = 1 := hs
      subst this
      exact ih _ (pe_signal_inv K w pe hw hI) hrest
    | wait poll_rc read_rc now =>
      have : read_rc = 1 := hs
      subst this
      exact ih _ (pe_wait_inv K w poll_rc now pe hI) hrest

/-- C27: starting in AUTO mode from `wcnt = rcnt` with an empty socket, after
any sequence of `zhpe_pe_signal` and `zhpe_pe_wait` steps whose socket writes
and reads succeed (whatever `poll` returns), for counters of `w ≥ 1` bits:
`wcnt - rcnt` (in `w`-bit arithmetic) is 0 or 1 and equals the number of unread
bytes in the socket.  In such a state a signal writes one byte when
`wcnt = rcnt` and none otherwise, so two signals in a row leave the state one
signal leaves.  In another progress mode `zhpe_pe_signal` changes nothing. -/
theorem pe_signal_wait_coalesce (K : zhpe_defs) (w : Nat) (pe : zhpe_pe) (steps : List pe_step)
    (hw : 0 < w)
    (hauto : pe.progress_mode = K.FI_PROGRESS_AUTO)
    (heq : pe.wcnt = pe.rcnt)
    (hlt : pe.wcnt < 2 ^ w)
    (hpipe : pe.pipe = 0)
    (hok : ∀ s ∈ steps, pe_step_ok s) :
    ((pe_steps K w steps pe).wcnt + 2 ^ w - (pe_steps K w steps pe).rcnt) % 2 ^ w =
      (pe_steps K w steps pe).pipe ∧
    (pe_steps K w steps pe).pipe ≤ 1 ∧
    ((pe_steps K w steps pe).wcnt = (pe_steps K w steps pe).rcnt →
      (zhpe_pe_signal K w 1 (pe_steps K w steps pe)).pipe = (pe_steps K w steps pe).pipe + 1 ∧
      (zhpe_pe_signal K w 1 (pe_steps K w steps pe)).wcnt =
        ((pe_steps K w steps pe).wcnt + 1) % 2 ^ w) ∧
    ((pe_steps K w steps pe).wcnt ≠ (pe_steps K w steps pe).rcnt →
      zhpe_pe_signal K w 1 (pe_steps K w steps pe) = pe_steps K w steps pe) ∧
    zhpe_pe_signal K w 1 (zhpe_pe_signal K w 1 (pe_steps K w steps pe)) =
      zhpe_pe_signal K w 1 (pe_steps K w steps pe) ∧
    (∀ (q : zhpe_pe) (write_rc : Int), q.progress_mode ≠ K.FI_PROGRESS_AUTO →
      zhpe_pe_signal K w write_rc q = q) := by
  have hI0 : pe_wake_inv K w pe := ⟨hauto, hlt, heq ▸ hlt, Or.inl ⟨heq, hpipe⟩⟩
  have hI := pe_steps_inv K w hw steps pe hI0 hok
  have hM := two_le_two_pow w hw
  generalize pe_steps K w steps pe = p at hI ⊢
  obtain ⟨hm, hwl, hrl, hd⟩ := hI
  have hsig1 : p.wcnt = p.rcnt → zhpe_pe_signal K w 1 p =
      { p with wcnt := (p.wcnt + 1) % 2 ^ w, pipe := p.pipe + 1 } := by
    intro he
    unfold zhpe_pe_signal
    rw [if_neg (by simp [hm]), if_pos he, if_neg (by simp)]
  have hsig2 : p.wcnt ≠ p.rcnt → zhpe_pe_signal K w 1 p = p := by
    intro he
    unfold zhpe_pe_signal
    rw [if_neg (by simp [hm]), if_neg he]
  refine ⟨?_, ?_, ?_, hsig2, ?_, ?_⟩
  · rcases hd with ⟨h1, h2⟩ | ⟨h1, h2⟩
    · rw [h1, h2, Nat.add_sub_cancel_left, Nat.mod_self]
    · rw [h1, h2]
      exact succ_mod_sub _ _ hM hrl
  · rcases hd with ⟨_, h2⟩ | ⟨_, h2⟩ <;> omega
  · intro he
    rw [hsig1 he]
    exact ⟨rfl, rfl⟩
  · by_cases he : p.wcnt = p.rcnt
    · rw [hsig1 he]
      unfold zhpe_pe_signal
      rw [if_neg (by simp [hm]), if_neg]
      show ¬ ((p.wcnt + 1) % 2 ^ w = p.rcnt)
      rw [he]
      exact succ_mod_ne _ _ hM hrl
    · rw [hsig2 he, hsig2 he]
  · intro q write_rc hq
    unfold zhpe_pe_signal
    rw [if_pos hq]

/-- C27 witness: 8-bit counters at 255, AUTO mode, empty socket.  Two signals,
a wait that reads, a wait whose poll times out and another signal leave one
unread byte, `wcnt = 1` and `rcnt = 0`; the first signal wrapped `wcnt` to 0. -/
theorem pe_signal_wait_coalesce_witness :
    pe_steps zhpe_defs_example 8
        [pe_step.signal 1, pe_step.signal 1, pe_step.wait 1 1 7, pe_step.wait 0 1 8,
         pe_step.signal 1] zhpe_pe_example =
      { progress_mode := 1, wcnt := 1, rcnt := 0, waittime := 8, pipe := 1 } ∧
    pe_steps zhpe_defs_example 8 [pe_step.signal 1, pe_step.signal 1] zhpe_pe_example =
      { progress_mode := 1, wcnt := 0, rcnt := 255, waittime := 0, pipe := 1 } ∧
    ((pe_steps zhpe_defs_example 8
        [pe_step.signal 1, pe_step.signal 1, pe_step.wait 1 1 7, pe_step.wait 0 1 8,
         pe_step.signal 1] zhpe_pe_example).wcnt + 2 ^ 8 -
      (pe_steps zhpe_defs_example 8
        [pe_step.signal 1, pe_step.signal 1, pe_step.wait 1 1 7, pe_step.wait 0 1 8,
         pe_step.signal 1] zhpe_pe_example).rcnt) % 2 ^ 8 =
      (pe_steps zhpe_defs_example 8
        [pe_step.signal 1, pe_step.signal 1, pe_step.wait 1 1 7, pe_step.wait 0 1 8,
         pe_step.signal 1] zhpe_pe_example).pipe :=
  ⟨by decide, by decide,
   (pe_signal_wait_coalesce zhpe_defs_example 8 zhpe_pe_example
      [pe_step.signal 1, pe_step.signal 1, pe_step.wait 1 1 7, pe_step.wait 0 1 8,
       pe_step.signal 1] (by decide) (by decide) (by decide) (by decide) (by decide)
      (by decide)).1⟩

/-! ## Retry pass of the transmit progress -/

/-- The loop over the completion entries leaves for `done` only with a
negative `ret`. -/
theorem tx_cq_loop_done {σ : Type} (K : zhpe_defs)
    (handler : Nat → zhpeq_cq_entry → zhpe_ep_attr σ → zhpe_ep_attr σ × Int)
    (hE : 0 < K.EIO) (cs : List zhpeq_cq_entry) :
    ∀ p : tx_pass σ, p.done = false → 0 ≤ (tx_cq_loop K handler cs p).ret →
      (tx_cq_loop K handler cs p).done = false := by
  induction cs with
  | nil => intro p hp _; exact hp
  | cons c cs ih =>
    intro p hp hret
    unfold tx_cq_loop at hret ⊢
    cases hc : c.context with
    | none =>
      simp only [hc] at hret ⊢
      by_cases hs : c.success = true
      · rw [if_pos hs] at hret ⊢
        exact ih p hp hret
      · rw [if_neg hs] at hret
        simp only [] at hret
        omega
    | some pe_root =>
      simp only [hc] at hret ⊢
      by_cases hr : (handler pe_root c p.ep_attr).2 < 0
      · rw [if_pos hr] at hret
        simp only [] at hret
        omega
      · rw [if_neg hr] at hret ⊢
        exact ih _ hp hret

/-- The loop over the local list runs the handler of each of its entries once,
in order. -/
theorem tx_retry_loop_spec {σ : Type} (retry_handler : Nat → zhpe_ep_attr σ → zhpe_ep_attr σ)
    (head : List Nat) :
    ∀ p : tx_pass σ,
      (tx_retry_loop retry_handler head p).events =
        p.events ++ head.map tx_event.retry_handler ∧
      (tx_retry_loop retry_handler head p).ep_attr =
        head.foldl (fun e x => retry_handler x e) p.ep_attr ∧
      (tx_retry_loop retry_handler head p).ret = p.ret := by
  induction head with
  | nil => intro p; simp [tx_retry_loop]
  | cons x head ih =>
    intro p
    unfold tx_retry_loop
    obtain ⟨h1, h2, h3⟩ := ih { p with ep_attr := retry_handler x p.ep_attr,
                                       events := p.events ++ [tx_event.retry_handler x] }
    refine ⟨?_, ?_, ?_⟩
    · rw [h1]; simp
    · rw [h2]; rfl
    · rw [h3]

/-- The retry list after handlers that only append to it have run. -/
theorem tx_retry_foldl_list {σ : Type} (retry_handler : Nat → zhpe_ep_attr σ → zhpe_ep_attr σ)
    (enq : Nat → List Nat)
    (henq : ∀ x e, (retry_handler x e).pe_retry_list = e.pe_retry_list ++ enq x)
    (head : List Nat) :
    ∀ e : zhpe_ep_attr σ,
      (head.foldl (fun e x => retry_handler x e) e).pe_retry_list =
        e.pe_retry_list ++ (head.map enq).flatten := by
  induction head with
  | nil => intro e; simp
  | cons x head ih =>
    intro e
    rw [List.foldl_cons, ih, henq]
    simp

/-- C28: when `zhpe_pe_progress_tx_ctx` has a transmit queue and the loop over
the completion entries ends with `ret ≥ 0`, the pass takes the whole retry
list of the endpoint, leaves the endpoint's list empty, and then calls the
retry handler of every entry taken exactly once, in list order, and no other
retry handler; it returns the `ret` of the completion phase.  Whatever the
handlers put on the endpoint's retry list meanwhile stays there: if each
handler appends `enq x` to the list, the list after the pass is the
concatenation of the `enq x` over the entries taken, none of which has been
run. -/
theorem progress_tx_ctx_retry_pass {σ : Type} (K : zhpe_defs)
    (handler : Nat → zhpeq_cq_entry → zhpe_ep_attr σ → zhpe_ep_attr σ × Int)
    (retry_handler : Nat → zhpe_ep_attr σ → zhpe_ep_attr σ)
    (entries : Int) (zq_cqe : List zhpeq_cq_entry) (ep_attr : zhpe_ep_attr σ)
    (hE : 0 < K.EIO)
    (hret : 0 ≤ (tx_cq_phase K handler true entries zq_cqe ep_attr).ret) :
    (zhpe_pe_progress_tx_ctx K handler retry_handler true entries zq_cqe ep_attr).2.1 =
      (tx_cq_phase K handler true entries zq_cqe ep_attr).events ++
        (tx_cq_phase K handler true entries zq_cqe ep_attr).ep_attr.pe_retry_list.map
          tx_event.retry_handler ∧
    (zhpe_pe_progress_tx_ctx K handler retry_handler true entries zq_cqe ep_attr).1 =
      (tx_cq_phase K handler true entries zq_cqe ep_attr).ep_attr.pe_retry_list.foldl
        (fun e x => retry_handler x e)
        { (tx_cq_phase K handler true entries zq_cqe ep_attr).ep_attr with
            pe_retry_list := [] } ∧
    (zhpe_pe_progress_tx_ctx K handler retry_handler true entries zq_cqe ep_attr).2.2 =
      (tx_cq_phase K handler true entries zq_cqe ep_attr).ret ∧
    (∀ enq : Nat → List Nat,
      (∀ x e, (retry_handler x e).pe_retry_list = e.pe_retry_list ++ enq x) →
      (zhpe_pe_progress_tx_ctx K handler retry_handler true entries zq_cqe
          ep_attr).1.pe_retry_list =
        ((tx_cq_phase K handler true entries zq_cqe ep_attr).ep_attr.pe_retry_list.map
          enq).flatten) := by
  have hdone : (tx_cq_phase K handler true entries zq_cqe ep_attr).done = false := by
    unfold tx_cq_phase at hret ⊢
    rw [if_neg (by simp)] at hret ⊢
    by_cases he : entries < 0
    · rw [if_pos he] at hret
      simp only [] at hret
      omega
    · rw [if_neg he] at hret ⊢
      exact tx_cq_loop_done K handler hE _ _ rfl hret
  unfold zhpe_pe_progress_tx_ctx
  simp only []
  generalize tx_cq_phase K handler true entries zq_cqe ep_attr = p at hdone hret ⊢
  have hmain :
      (if p.done = true then p
        else if p.ep_attr.pe_retry_list ≠ [] then
          tx_retry_loop retry_handler p.ep_attr.pe_retry_list
            { p with ep_attr := { p.ep_attr with pe_retry_list := [] } }
        else p) =
      tx_retry_loop retry_handler p.ep_attr.pe_retry_list
        { p with ep_attr := { p.ep_attr with pe_retry_list := [] } } := by
    rw [if_neg (by simp [hdone])]
    by_cases hl : p.ep_attr.pe_retry_list = []
    · rw [if_neg (by simp [hl]), hl]
      unfold tx_retry_loop
      rw [← hl]
    · rw [if_pos hl]
  obtain ⟨h1, h2, h3⟩ := tx_retry_loop_spec retry_handler p.ep_attr.pe_retry_list
    { p with ep_attr := { p.ep_attr with pe_retry_list := [] } }
  rw [hmain]
  refine ⟨h1, h2, h3, ?_⟩
  intro enq henq
  rw [h2, tx_retry_foldl_list retry_handler enq henq]
  simp

/-- C28 witness: the completion queue delivers one ignored and one handled
completion; the retry list holds 4, 7, 6, 9.  The pass runs the four retry
handlers once each in that order; the retries of 7 and 9 fail again and are
back on the endpoint's list, in that order, for the next pass. -/
theorem progress_tx_ctx_retry_pass_witness :
    zhpe_pe_progress_tx_ctx zhpe_defs_example tx_handler_example tx_retry_handler_example
        true 2 [⟨none, true⟩, ⟨some 12, true⟩] ⟨0, [4, 7, 6, 9]⟩ =
      (⟨201, [7, 9]⟩,
       [tx_event.handler 12 ⟨some 12, true⟩, tx_event.retry_handler 4,
        tx_event.retry_handler 7, tx_event.retry_handler 6, tx_event.retry_handler 9], 0) ∧
    (zhpe_pe_progress_tx_ctx zhpe_defs_example tx_handler_example tx_retry_handler_example
        true 2 [⟨none, true⟩, ⟨some 12, true⟩] ⟨0, [4, 7, 6, 9]⟩).2.1 =
      (tx_cq_phase zhpe_defs_example tx_handler_example true 2
          [⟨none, true⟩, ⟨some 12, true⟩] ⟨0, [4, 7, 6, 9]⟩).events ++
        (tx_cq_phase zhpe_defs_example tx_handler_example true 2
          [⟨none, true⟩, ⟨some 12, true⟩] ⟨0, [4, 7, 6, 9]⟩).ep_attr.pe_retry_list.map
          tx_event.retry_handler :=
  ⟨by decide,
   (progress_tx_ctx_retry_pass zhpe_defs_example tx_handler_example tx_retry_handler_example
      2 [⟨none, true⟩, ⟨some 12, true⟩] ⟨0, [4, 7, 6, 9]⟩ (by decide) (by decide)).1⟩

/-! ## Registration of contexts -/

/-- `zhpe_pe_signal` does not touch the lists of contexts. -/
theorem pe_signal_lists (K : zhpe_defs) (w : Nat) (write_rc : Int) (pe : zhpe_pe) :
    (zhpe_pe_signal K w write_rc pe).tx_list = pe.tx_list ∧
    (zhpe_pe_signal K w write_rc pe).rx_list = pe.rx_list := by
  unfold zhpe_pe_signal
  split
  · exact ⟨rfl, rfl⟩
  · split
    · split <;> exact ⟨rfl, rfl⟩
    · exact ⟨rfl, rfl⟩

/-- A receive context whose node is not on `tx_list` is appended to `rx_list`,
whether it is on `rx_list` already or not. -/
theorem add_rx_ctx_ignores_rx_list (K : zhpe_defs) (w : Nat) (write_rc : Int) (pe : zhpe_pe)
    (ctx : Nat) (h : ctx ∉ pe.tx_list) :
    (zhpe_pe_add_rx_ctx K w write_rc pe ctx).rx_list = pe.rx_list ++ [ctx] ∧
    (zhpe_pe_add_rx_ctx K w write_rc pe ctx).tx_list = pe.tx_list := by
  unfold zhpe_pe_add_rx_ctx
  rw [if_neg]
  · exact ⟨(pe_signal_lists K w write_rc _).2, (pe_signal_lists K w write_rc _).1⟩
  · simp only [List.any_eq_true, decide_eq_true_eq, not_exists, not_and]
    intro x hx hxe
    exact h (hxe ▸ hx)

/-- A transmit context that is registered is not registered again, and
`tx_list` never holds a context twice. -/
theorem add_tx_ctx_nodup (K : zhpe_defs) (w : Nat) (write_rc : Int) (pe : zhpe_pe) (ctx : Nat) :
    (ctx ∈ pe.tx_list → zhpe_pe_add_tx_ctx K w write_rc pe ctx = pe) ∧
    (pe.tx_list.Nodup → (zhpe_pe_add_tx_ctx K w write_rc pe ctx).tx_list.Nodup) := by
  unfold zhpe_pe_add_tx_ctx
  by_cases h : ctx ∈ pe.tx_list
  · have hany : pe.tx_list.any (fun curr_ctx => decide (curr_ctx = ctx)) = true := by
      simp only [List.any_eq_true, decide_eq_true_eq]
      exact ⟨ctx, h, rfl⟩
    rw [if_pos hany]
    exact ⟨fun _ => rfl, fun hn => hn⟩
  · have hany : ¬ pe.tx_list.any (fun curr_ctx => decide (curr_ctx = ctx)) = true := by
      simp only [List.any_eq_true, decide_eq_true_eq, not_exists, not_and]
      intro x hx hxe
      exact h (hxe ▸ hx)
    rw [if_neg hany]
    refine ⟨fun h2 => absurd h2 h, fun hn => ?_⟩
    rw [(pe_signal_lists K w write_rc _).1]
    show (pe.tx_list ++ [ctx]).Nodup
    rw [List.nodup_append]
    refine ⟨hn, List.nodup_singleton _, ?_⟩
    intro a ha hb
    rw [List.mem_singleton] at hb
    exact h (hb ▸ ha)

/-- C31 (the code at the failing input): the receive context 5 is on `rx_list`
and the transmit context 7 on `tx_list`.  Registering 5 again with
`zhpe_pe_add_rx_ctx` links it a second time, `rx_list` is [5, 5], and wakes the
progress thread; registering it twice on an engine without contexts gives the
same list.  Registering the transmit context 7 again with
`zhpe_pe_add_tx_ctx` changes nothing. -/
theorem add_rx_ctx_registers_twice :
    (zhpe_pe_add_rx_ctx zhpe_defs_example 8 1 zhpe_pe_ctx_example 5).rx_list = [5, 5] ∧
    (zhpe_pe_add_rx_ctx zhpe_defs_example 8 1 zhpe_pe_ctx_example 5).pipe = 1 ∧
    (zhpe_pe_add_rx_ctx zhpe_defs_example 8 1
      (zhpe_pe_add_rx_ctx zhpe_defs_example 8 1 zhpe_pe_example 5) 5).rx_list = [5, 5] ∧
    zhpe_pe_add_tx_ctx zhpe_defs_example 8 1 zhpe_pe_ctx_example 7 = zhpe_pe_ctx_example ∧
    (zhpe_pe_add_tx_ctx zhpe_defs_example 8 1
      (zhpe_pe_add_tx_ctx zhpe_defs_example 8 1 zhpe_pe_example 7) 7).tx_list = [7] := by
  decide

/-! ## WRITEDATA messages that select no completion class -/

/-- When the flags that `zhpe_pe_rx_handle_writedata` passes on select no
completion class, the completion reporter ends in `abort()`. -/
theorem rx_handle_writedata_aborts (K : zhpe_defs) (o : comp_env) (comp : zhpe_comp)
    (fi_addr : Nat) (zpay : zhpe_msg_writedata)
    (ht : (rx_writedata_zcqe K fi_addr zpay).cqe.flags &&& K.ZHPE_TRIGGERED_OP = 0)
    (hn : (rx_writedata_zcqe K fi_addr zpay).cqe.flags &&& K.ZHPE_NO_COMPLETION = 0)
    (hclass : report_complete_class K comp (rx_writedata_zcqe K fi_addr zpay).cqe.flags = none) :
    zhpe_pe_rx_handle_writedata K o comp fi_addr zpay = ([comp_out.abort], 0) := by
  unfold zhpe_pe_rx_handle_writedata zhpe_pe_report_complete
  simp only [ht, hn, ne_eq, not_true_eq_false, if_false]
  unfold report_complete_untriggered
  rw [hclass]

/-- C33 (the code at the failing inputs): with the flag values of libfabric,
a WRITEDATA message whose wire flags are 0 makes `zhpe_pe_rx_handle_writedata`
end in the `abort()` of `zhpe_pe_report_complete`, and so do the wire flags
`FI_RMA` alone, `FI_REMOTE_READ | FI_REMOTE_WRITE` and
`FI_REMOTE_READ | FI_REMOTE_CQ_DATA`; the last two pass on both remote flags,
the first two none.  Of the 32 combinations of the five flags the handler
keeps, the ones that do not abort are those with exactly one of
`FI_REMOTE_READ` on the one hand and `FI_REMOTE_WRITE` or `FI_REMOTE_CQ_DATA`
on the other; for instance the flags of a write with remote CQ data. -/
theorem rx_handle_writedata_reaches_abort :
    zhpe_pe_rx_handle_writedata zhpe_defs_example comp_env_example zhpe_comp_example 5
        ⟨htobe64 0, htobe64 0xDEADBEEF⟩ = ([comp_out.abort], 0) ∧
    (rx_writedata_zcqe zhpe_defs_example 5 ⟨htobe64 0, htobe64 0xDEADBEEF⟩).cqe.flags = 0 ∧
    zhpe_pe_rx_handle_writedata zhpe_defs_example comp_env_example zhpe_comp_example 5
        ⟨htobe64 (2 ^ 2), htobe64 0⟩ = ([comp_out.abort], 0) ∧
    zhpe_pe_rx_handle_writedata zhpe_defs_example comp_env_example zhpe_comp_example 5
        ⟨htobe64 (2 ^ 12 ||| 2 ^ 13), htobe64 0⟩ = ([comp_out.abort], 0) ∧
    zhpe_pe_rx_handle_writedata zhpe_defs_example comp_env_example zhpe_comp_example 5
        ⟨htobe64 (2 ^ 12 ||| 2 ^ 17), htobe64 0⟩ = ([comp_out.abort], 0) ∧
    (rx_writedata_zcqe zhpe_defs_example 5 ⟨htobe64 (2 ^ 12 ||| 2 ^ 17), htobe64 0⟩).cqe.flags =
      2 ^ 12 ||| 2 ^ 13 ||| 2 ^ 17 ∧
    (∀ f ∈ (List.sublists [2 ^ 12, 2 ^ 13, 2 ^ 17, 2 ^ 2, 2 ^ 4]).map List.sum,
      (zhpe_pe_rx_handle_writedata zhpe_defs_example comp_env_example zhpe_comp_example 5
          ⟨htobe64 f, htobe64 0⟩).1 ≠ [comp_out.abort] ↔
        ((f &&& 2 ^ 12 ≠ 0) ↔ ¬ (f &&& (2 ^ 13 ||| 2 ^ 17) ≠ 0))) ∧
    zhpe_pe_rx_handle_writedata zhpe_defs_example comp_env_example zhpe_comp_example 5
        ⟨htobe64 (2 ^ 2 ||| 2 ^ 9 ||| 2 ^ 17), htobe64 0xDEADBEEF⟩ =
      ([comp_out.zhpe_cntr_inc 16,
        comp_out.report_completion 2 5 ⟨0, 2 ^ 13 ||| 2 ^ 17 ||| 2 ^ 2, 0, 0, 0xDEADBEEF, 0⟩], 0) := by
  decide

/-! ## Thread affinity -/

/-- With a stride of 0 the loop over the CPUs of an item never ends: no
amount of fuel is enough. -/
theorem cpu_set_loop_zero_stride (j last : Int) (h : j ≤ last) :
    ∀ (fuel : Nat) (mycpuset : List Int), cpu_set_loop fuel j last 0 mycpuset = none := by
  intro fuel
  induction fuel with
  | zero => intro mycpuset; rfl
  | succ fuel ih =>
    intro mycpuset
    unfold cpu_set_loop
    rw [if_pos h, Int.add_zero]
    exact ih _

/-- With a positive stride the loop over the CPUs of an item ends and sets
`j`, `j + stride`, `j + 2 * stride`, ... up to `last`, `n` CPUs in all. -/
theorem cpu_set_loop_pos_stride (last stride : Int) (hs : 0 < stride) (n : Nat) :
    ∀ (j : Int) (fuel : Nat) (mycpuset : List Int),
      (if j ≤ last then ((last - j) / stride).toNat + 1 else 0) = n → n < fuel →
      cpu_set_loop fuel j last stride mycpuset =
        some (mycpuset ++ (List.range n).map (fun (k : Nat) => j + (k : Int) * stride)) := by
  induction n with
  | zero =>
    intro j fuel mycpuset hn hf
    have hj : ¬ j ≤ last := by
      intro h
      rw [if_pos h] at hn
      omega
    obtain ⟨f, rfl⟩ : ∃ f, fuel = f + 1 := ⟨fuel - 1, by omega⟩
    unfold cpu_set_loop
    rw [if_neg hj]
    simp
  | succ n ih =>
    intro j fuel mycpuset hn hf
    have hj : j ≤ last := by
      by_contra h
      rw [if_neg h] at hn
      omega
    rw [if_pos hj] at hn
    obtain ⟨f, rfl⟩ : ∃ f, fuel = f + 1 := ⟨fuel - 1, by omega⟩
    unfold cpu_set_loop
    rw [if_pos hj]
    have hdiv : (last - (j + stride)) / stride = (last - j) / stride - 1 := by
      have : last - (j + stride) = (last - j) + (-1) * stride := by ring
      rw [this, Int.add_mul_ediv_right _ _ (ne_of_gt hs)]
      ring
    have hq : 0 ≤ (last - j) / stride := Int.ediv_nonneg (by omega) (le_of_lt hs)
    have hnext : (if j + stride ≤ last then ((last - (j + stride)) / stride).toNat + 1 else 0)
        = n := by
      by_cases h2 : j + stride ≤ last
      · rw [if_pos h2, hdiv]
        have h1 : 1 ≤ (last - j) / stride := by
          have : stride ≤ last - j := by omega
          calc (1 : Int) = stride / stride := (Int.ediv_self (ne_of_gt hs)).symm
            _ ≤ (last - j) / stride := Int.ediv_le_ediv hs this
        omega
      · rw [if_neg h2]
        have : (last - j) / stride = 0 := Int.ediv_eq_zero_of_lt (by omega) (by omega)
        rw [this] at hn
        simp at hn
        omega
    rw [ih (j + stride) f (mycpuset ++ [j]) hnext (by omega)]
    congr 1
    rw [List.append_assoc, List.range_succ_eq_map, List.map_cons, List.map_map]
    congr 1
    simp only [List.singleton_append, Nat.cast_zero, zero_mul, add_zero, List.cons.injEq,
      true_and]
    apply List.map_congr_left
    intro k _
    simp only [Function.comp, Nat.cast_succ]
    ring

/-- C35 (the code at the failing input): for the affinity string `0-3:0` the
item is parsed as first 0, last 3, stride 0, and `zhpe_thread_set_affinity`
does not return, whatever the number of loop tests allowed: the loop
`for (j = first; j <= last; j += stride)` sets CPU 0 for ever.  So does a
string with an item of stride 0 after others.  With a stride of 1 the same
range sets the CPUs 0 to 3, and the string `0-6:2,9` sets 0, 2, 4, 6 and 9. -/
theorem set_affinity_zero_stride_never_returns :
    affinity_item ['0', '-', '3', ':', '0'] = some (0, 3, 0) ∧
    (∀ fuel, zhpe_thread_set_affinity fuel ['0', '-', '3', ':', '0'] = none) ∧
    (∀ fuel, zhpe_thread_set_affinity fuel ['9', ',', '0', '-', '3', ':', '0'] = none) ∧
    zhpe_thread_set_affinity 6 ['0', '-', '3', ':', '1'] =
      some (affinity_result.cpus [0, 1, 2, 3]) ∧
    zhpe_thread_set_affinity 6 ['0', '-', '3'] = some (affinity_result.cpus [0, 1, 2, 3]) ∧
    zhpe_thread_set_affinity 6 ['0', '-', '6', ':', '2', ',', '9'] =
      some (affinity_result.cpus [0, 2, 4, 6, 9]) := by
  refine ⟨by decide, ?_, ?_, by decide, by decide, by decide⟩
  · intro fuel
    cases fuel with
    | zero => rfl
    | succ f =>
      have h1 : strtok_r ',' ['0', '-', '3', ':', '0'] = some (['0', '-', '3', ':', '0'], []) := by
        decide
      have h2 : affinity_item ['0', '-', '3', ':', '0'] = some (0, 3, 0) := by decide
      unfold zhpe_thread_set_affinity
      rw [h1]
      unfold affinity_loop
      rw [h2]
      simp only []
      rw [cpu_set_loop_zero_stride 0 3 (by decide)]
  · intro fuel
    cases fuel with
    | zero => rfl
    | succ f =>
      have h1 : strtok_r ',' ['9', ',', '0', '-', '3', ':', '0'] =
          some (['9'], ['0', '-', '3', ':', '0']) := by decide
      have h2 : affinity_item ['9'] = some (9, 9, 1) := by decide
      have h3 : strtok_r ',' ['0', '-', '3', ':', '0'] = some (['0', '-', '3', ':', '0'], []) := by
        decide
      have h4 : affinity_item ['0', '-', '3', ':', '0'] = some (0, 3, 0) := by decide
      unfold zhpe_thread_set_affinity
      rw [h1]
      unfold affinity_loop
      rw [h2]
      simp only []
      cases hc : cpu_set_loop f 9 9 1 [] with
      | none => rfl
      | some set =>
        simp only []
        rw [h3]
        cases f with
        | zero => rfl
        | succ g =>
          unfold affinity_loop
          rw [h4]
          simp only []
          rw [cpu_set_loop_zero_stride 0 3 (by decide)]

/-! ## Helper lemmas: the set bits of the missing mask -/

theorem find?_eq_head?_filter {α : Type} (p : α → Bool) (l : List α) :
    l.find? p = (l.filter p).head? := by
  induction l with
  | nil => rfl
  | cons a l ih =>
    rw [List.find?_cons, List.filter_cons]
    cases hp : p a
    · simp only [Bool.false_eq_true, if_false]
      exact ih
    · simp only [if_true, List.head?_cons]

theorem and_two_pow_ne_zero_iff (x j : Nat) : x &&& 2 ^ j ≠ 0 ↔ x.testBit j = true := by
  rw [and_two_pow_ne_zero, Nat.testBit_to_div_mod, decide_eq_true_eq]

theorem and_two_pow_eq_zero_iff (x j : Nat) : x &&& 2 ^ j = 0 ↔ x.testBit j = false := by
  have := and_two_pow_ne_zero_iff x j
  constructor
  · intro h
    by_contra hb
    rw [Bool.not_eq_false] at hb
    exact (this.mpr hb) h
  · intro h
    by_contra hb
    rw [this.mp hb] at h
    exact Bool.noConfusion h

/-- Clearing bit `i` leaves every other bit as it is. -/
theorem bit_clear_and_ne (x i j : Nat) (h : j ≠ i) :
    bit_clear x (2 ^ i) &&& 2 ^ j = x &&& 2 ^ j := by
  apply Nat.eq_of_testBit_eq
  intro k
  unfold bit_clear
  simp only [Nat.testBit_and, Nat.testBit_xor, Nat.testBit_two_pow]
  by_cases hk : j = k
  · subst hk
    simp [Ne.symm h]
  · simp [hk]

/-- Clearing bit `i` clears it. -/
theorem bit_clear_and_self (x i : Nat) : bit_clear x (2 ^ i) &&& 2 ^ i = 0 := by
  apply Nat.eq_of_testBit_eq
  intro k
  unfold bit_clear
  simp only [Nat.testBit_and, Nat.testBit_xor, Nat.testBit_two_pow, Nat.zero_testBit]
  by_cases hk : i = k
  · subst hk
    simp
  · simp [hk]

/-- A word without set bits is 0. -/
theorem eq_zero_of_and_two_pow (x : Nat) (h : ∀ j, x &&& 2 ^ j = 0) : x = 0 := by
  apply Nat.eq_of_testBit_eq
  intro j
  rw [Nat.zero_testBit]
  exact (and_two_pow_eq_zero_iff x j).mp (h j)

/-- A 32-bit word has no bit above bit 31. -/
theorem and_two_pow_of_lt (x j : Nat) (hx : x < 2 ^ 32) (hj : 32 ≤ j) : x &&& 2 ^ j = 0 := by
  rw [and_two_pow_eq_zero_iff]
  exact Nat.testBit_lt_two_pow (lt_of_lt_of_le hx (Nat.pow_le_pow_right (by decide) hj))

theorem mem_missing_slots (x i : Nat) : i ∈ missing_slots x ↔ i < 32 ∧ x &&& 2 ^ i ≠ 0 := by
  unfold missing_slots
  rw [List.mem_filter, List.mem_range, decide_eq_true_eq]

theorem missing_slots_sorted (x : Nat) : (missing_slots x).Sorted (fun a b => a < b) :=
  List.Sorted.filter _ (List.sorted_lt_range 32)

theorem missing_slots_nodup (x : Nat) : (missing_slots x).Nodup :=
  List.Nodup.filter _ (List.nodup_range 32)

/-- `ffs` is 0 exactly for a mask without missing slots, and otherwise one more
than the first missing slot. -/
theorem ffs_eq (x : Nat) :
    ffs x = match (missing_slots x).head? with
      | some i => i + 1
      | none => 0 := by
  unfold ffs missing_slots
  rw [find?_eq_head?_filter]

theorem ffs_of_nil (x : Nat) (h : missing_slots x = []) : ffs x = 0 := by
  rw [ffs_eq, h]; rfl

theorem ffs_of_cons (x i : Nat) (t : List Nat) (h : missing_slots x = i :: t) : ffs x = i + 1 := by
  rw [ffs_eq, h]; rfl

/-- Clearing the first missing slot leaves the other missing slots. -/
theorem missing_slots_clear (x i : Nat) (t : List Nat) (h : missing_slots x = i :: t) :
    missing_slots (bit_clear x (2 ^ i)) = t := by
  have hnd := missing_slots_nodup x
  rw [h, List.nodup_cons] at hnd
  have h1 : missing_slots (bit_clear x (2 ^ i)) =
      (missing_slots x).filter (fun j => decide (j ≠ i)) := by
    unfold missing_slots
    rw [List.filter_filter]
    apply List.filter_congr
    intro j _
    by_cases hj : j = i
    · subst hj
      simp [bit_clear_and_self]
    · simp [bit_clear_and_ne x i j hj, hj]
  rw [h1, h, List.filter_cons]
  simp only [ne_eq, not_true_eq_false, decide_False, Bool.false_eq_true, if_false]
  rw [List.filter_eq_self]
  intro a ha
  simp only [decide_eq_true_eq]
  intro hai
  exact hnd.1 (hai ▸ ha)

theorem getD_set_ne (l : List zhpe_iov) (i j : Nat) (a d : zhpe_iov) (h : i ≠ j) :
    (l.set i a).getD j d = l.getD j d := by
  simp [List.getD_eq_getElem?_getD, List.getElem?_set_ne h]

/-! ## The loop of `zhpe_pe_rem_setup` -/

/-- With one more loop test than there are missing slots, the loop of
`zhpe_pe_rem_setup` returns, and it has run its body for the missing slots in
ascending order. -/
theorem rem_setup_loop_eq_slots (K : zhpe_defs) (g : zhpe_iov → Option Nat)
    (a : Nat → zhpe_iov → Bool → Int × Nat) (get : Bool) (sl : List Nat) :
    ∀ (rstate : zhpe_iov_state) (ret : Int) (visits : List (Nat × Option Nat)) (fuel : Nat),
      missing_slots rstate.missing = sl → sl.length < fuel →
      rem_setup_loop K g a get fuel rstate ret visits =
        some (rem_setup_slots K g a get sl rstate ret visits) := by
  induction sl with
  | nil =>
    intro rstate ret visits fuel hs hf
    obtain ⟨f, rfl⟩ : ∃ f, fuel = f + 1 := ⟨fuel - 1, by simp at hf; omega⟩
    unfold rem_setup_loop rem_setup_slots
    rw [if_pos (ffs_of_nil _ hs)]
  | cons i t ih =>
    intro rstate ret visits fuel hs hf
    obtain ⟨f, rfl⟩ : ∃ f, fuel = f + 1 := ⟨fuel - 1, by simp at hf; omega⟩
    have hffs := ffs_of_cons _ i t hs
    unfold rem_setup_loop rem_setup_slots
    rw [if_neg (by rw [hffs]; omega)]
    simp only [hffs, Nat.add_sub_cancel]
    cases hg : g (rstate.viov.getD i ⟨0, 0, 0, 0⟩) with
    | none => rfl
    | some kdata =>
      simp only []
      by_cases hr : (a kdata (rstate.viov.getD i ⟨0, 0, 0, 0⟩) get).1 < 0
      · rw [if_pos hr, if_pos hr]
      · rw [if_neg hr, if_neg hr]
        apply ih
        · exact missing_slots_clear _ i t hs
        · simp only [List.length_cons] at hf
          omega

/-- What the body of the loop, run for the slots of a duplicate-free list, has
done when the loop is left. -/
theorem rem_setup_slots_spec (K : zhpe_defs) (g : zhpe_iov → Option Nat)
    (a : Nat → zhpe_iov → Bool → Int × Nat) (get : Bool) (sl : List Nat) :
    ∀ (rstate : zhpe_iov_state) (ret : Int) (visits : List (Nat × Option Nat)), sl.Nodup →
      ∃ w : List (Nat × Option Nat),
        (rem_setup_slots K g a get sl rstate ret visits).2.2 = visits ++ w ∧
        w.map Prod.fst <+: sl ∧
        (∀ j, (∀ k, (j, some k) ∉ w) →
          (rem_setup_slots K g a get sl rstate ret visits).1.viov.getD j ⟨0, 0, 0, 0⟩ =
            rstate.viov.getD j ⟨0, 0, 0, 0⟩ ∧
          (rem_setup_slots K g a get sl rstate ret visits).1.missing &&& 2 ^ j =
            rstate.missing &&& 2 ^ j) ∧
        (∀ j k, (j, some k) ∈ w →
          g (rstate.viov.getD j ⟨0, 0, 0, 0⟩) = some k ∧
          (rem_setup_slots K g a get sl rstate ret visits).1.missing &&& 2 ^ j = 0) ∧
        (∀ j, (j, none) ∈ w →
          g (rstate.viov.getD j ⟨0, 0, 0, 0⟩) = none ∧
          (rem_setup_slots K g a get sl rstate ret visits).2.1 = -(K.FI_ENOKEY : Int) ∧
          ∃ w0, w = w0 ++ [(j, none)]) ∧
        (0 < K.FI_ENOKEY → 0 ≤ (rem_setup_slots K g a get sl rstate ret visits).2.1 →
          w.map Prod.fst = sl ∧ ∀ p ∈ w, p.2 ≠ none) := by
  induction sl with
  | nil =>
    intro rstate ret visits _
    refine ⟨[], ?_, ?_, ?_, ?_, ?_, ?_⟩
    · simp [rem_setup_slots]
    · exact List.prefix_refl _
    · intro j _; exact ⟨rfl, rfl⟩
    · intro j k h; exact absurd h (List.not_mem_nil _)
    · intro j h; exact absurd h (List.not_mem_nil _)
    · intro _ _; exact ⟨rfl, fun p h => absurd h (List.not_mem_nil _)⟩
  | cons i t ih =>
    intro rstate ret visits hnd
    rw [List.nodup_cons] at hnd
    unfold rem_setup_slots
    simp only []
    cases hg : g (rstate.viov.getD i ⟨0, 0, 0, 0⟩) with
    | none =>
      refine ⟨[(i, none)], rfl, ?_, ?_, ?_, ?_, ?_⟩
      · exact (List.prefix_cons_inj i).mpr (List.nil_prefix)
      · intro j _; exact ⟨rfl, rfl⟩
      · intro j k h
        simp at h
      · intro j h
        simp only [List.mem_singleton, Prod.mk.injEq, and_true] at h
        subst h
        exact ⟨hg, rfl, [], rfl⟩
      · intro hE h0
        simp only [] at h0
        omega
    | some kdata =>
      simp only []
      by_cases hr : (a kdata (rstate.viov.getD i ⟨0, 0, 0, 0⟩) get).1 < 0
      · rw [if_pos hr]
        refine ⟨[(i, some kdata)], rfl, ?_, ?_, ?_, ?_, ?_⟩
        · exact (List.prefix_cons_inj i).mpr (List.nil_prefix)
        · intro j hj
          have hji : j ≠ i := by
            intro h
            exact hj kdata (by rw [h]; exact List.mem_singleton_self _)
          exact ⟨getD_set_ne _ _ _ _ _ (Ne.symm hji), bit_clear_and_ne _ _ _ hji⟩
        · intro j k h
          simp only [List.mem_singleton, Prod.mk.injEq, Option.some.injEq] at h
          obtain ⟨rfl, rfl⟩ := h
          exact ⟨hg, bit_clear_and_self _ _⟩
        · intro j h
          simp at h
        · intro _ h0
          simp only [] at h0
          omega
      · rw [if_neg hr]
        obtain ⟨w, h1, h2, h3, h4, h5, h6⟩ := ih
          { rstate with
              missing := bit_clear rstate.missing (2 ^ i),
              viov := rstate.viov.set i
                { rstate.viov.getD i ⟨0, 0, 0, 0⟩ with
                    iov_zaddr := (a kdata (rstate.viov.getD i ⟨0, 0, 0, 0⟩) get).2 } }
          (a kdata (rstate.viov.getD i ⟨0, 0, 0, 0⟩) get).1 (visits ++ [(i, some kdata)]) hnd.2
        have hiw : ∀ k, (i, some k) ∉ w := by
          intro k hk
          have : i ∈ w.map Prod.fst := List.mem_map.mpr ⟨(i, some k), hk, rfl⟩
          exact hnd.1 (h2.subset this)
        have hmem : ∀ j (o : Option Nat), (j, o) ∈ w → j ≠ i := by
          intro j o hjo hji
          have : j ∈ w.map Prod.fst := List.mem_map.mpr ⟨(j, o), hjo, rfl⟩
          exact hnd.1 (hji ▸ h2.subset this)
        refine ⟨(i, some kdata) :: w, ?_, ?_, ?_, ?_, ?_, ?_⟩
        · rw [h1, List.append_assoc]; rfl
        · exact (List.prefix_cons_inj i).mpr h2
        · intro j hj
          have hji : j ≠ i := by
            intro h
            exact hj kdata (by rw [h]; exact List.mem_cons_self _ _)
          obtain ⟨e1, e2⟩ := h3 j (fun k hk => hj k (List.mem_cons_of_mem _ hk))
          exact ⟨e1.trans (getD_set_ne _ _ _ _ _ (Ne.symm hji)),
            e2.trans (bit_clear_and_ne _ _ _ hji)⟩
        · intro j k h
          rw [List.mem_cons] at h
          rcases h with h | h
          · simp only [Prod.mk.injEq, Option.some.injEq] at h
            obtain ⟨rfl, rfl⟩ := h
            exact ⟨hg, (h3 j hiw).2.trans (bit_clear_and_self _ _)⟩
          · obtain ⟨e1, e2⟩ := h4 j k h
            refine ⟨?_, e2⟩
            rw [← e1]
            exact congrArg g (getD_set_ne _ _ _ _ _ (Ne.symm (hmem j _ h))).symm
        · intro j h
          rw [List.mem_cons] at h
          rcases h with h | h
          · simp at h
          · obtain ⟨e1, e2, w0, e3⟩ := h5 j h
            refine ⟨?_, e2, (i, some kdata) :: w0, by rw [e3]; rfl⟩
            rw [← e1]
            exact congrArg g (getD_set_ne _ _ _ _ _ (Ne.symm (hmem j _ h))).symm
        · intro hE h0
          obtain ⟨e1, e2⟩ := h6 hE h0
          refine ⟨by rw [List.map_cons, e1], ?_⟩
          intro p hp
          rw [List.mem_cons] at hp
          rcases hp with hp | hp
          · rw [hp]; simp
          · exact e2 p hp

/-- The scan of `zhpe_pe_rem_setup_bits` over a duplicate-free list of bit
positions does what the loop body does for those of them that are missing. -/
theorem rem_setup_bits_eq_slots (K : zhpe_defs) (g : zhpe_iov → Option Nat)
    (a : Nat → zhpe_iov → Bool → Int × Nat) (get : Bool) (bits : List Nat) :
    ∀ (rstate : zhpe_iov_state) (ret : Int) (visits : List (Nat × Option Nat)), bits.Nodup →
      zhpe_pe_rem_setup_bits K g a get bits rstate ret =
        ((rem_setup_slots K g a get
            (bits.filter (fun i => decide (rstate.missing &&& 2 ^ i ≠ 0))) rstate ret visits).1,
         (rem_setup_slots K g a get
            (bits.filter (fun i => decide (rstate.missing &&& 2 ^ i ≠ 0))) rstate ret visits).2.1) := by
  induction bits with
  | nil => intro rstate ret visits _; rfl
  | cons i bits ih =>
    intro rstate ret visits hnd
    rw [List.nodup_cons] at hnd
    unfold zhpe_pe_rem_setup_bits
    by_cases hb : rstate.missing &&& 2 ^ i ≠ 0
    · rw [if_pos hb, List.filter_cons, if_pos (by simpa using hb)]
      unfold rem_setup_slots
      simp only []
      cases hg : g (rstate.viov.getD i ⟨0, 0, 0, 0⟩) with
      | none => rfl
      | some kdata =>
        simp only []
        by_cases hr : (a kdata (rstate.viov.getD i ⟨0, 0, 0, 0⟩) get).1 < 0
        · rw [if_pos hr, if_pos hr]
        · rw [if_neg hr, if_neg hr]
          rw [ih _ _ (visits ++ [(i, some kdata)]) hnd.2]
          have hf : bits.filter (fun j => decide (bit_clear rstate.missing (2 ^ i) &&& 2 ^ j ≠ 0)) =
              bits.filter (fun j => decide (rstate.missing &&& 2 ^ j ≠ 0)) := by
            apply List.filter_congr
            intro j hj
            have hji : j ≠ i := fun h => hnd.1 (h ▸ hj)
            rw [bit_clear_and_ne _ _ _ hji]
          simp only [hf]
    · rw [if_neg hb, List.filter_cons, if_neg (by simpa using hb)]
      exact ih rstate ret visits hnd.2

/-- The loop reaches a slot whose key is not cached when the keys of the
slots before it are cached and can be accessed. -/
theorem rem_setup_slots_reaches (K : zhpe_defs) (g : zhpe_iov → Option Nat)
    (a : Nat → zhpe_iov → Bool → Int × Nat) (get : Bool) (pre : List Nat) (i : Nat)
    (post : List Nat) :
    ∀ (rstate : zhpe_iov_state) (ret : Int) (visits : List (Nat × Option Nat)),
      (pre ++ i :: post).Nodup →
      (∀ j ∈ pre, ∃ k, g (rstate.viov.getD j ⟨0, 0, 0, 0⟩) = some k ∧
        0 ≤ (a k (rstate.viov.getD j ⟨0, 0, 0, 0⟩) get).1) →
      g (rstate.viov.getD i ⟨0, 0, 0, 0⟩) = none →
      (i, none) ∈ (rem_setup_slots K g a get (pre ++ i :: post) rstate ret visits).2.2 := by
  induction pre with
  | nil =>
    intro rstate ret visits _ _ hi
    rw [List.nil_append]
    unfold rem_setup_slots
    simp only [hi]
    exact List.mem_append_right _ (List.mem_singleton_self _)
  | cons p pre ih =>
    intro rstate ret visits hnd hpre hi
    rw [List.cons_append] at hnd ⊢
    rw [List.nodup_cons] at hnd
    obtain ⟨k, hk, hr⟩ := hpre p (List.mem_cons_self _ _)
    unfold rem_setup_slots
    simp only [hk]
    rw [if_neg (by omega)]
    have hne : ∀ j ∈ pre ++ i :: post, p ≠ j := fun j hj h => hnd.1 (h ▸ hj)
    apply ih _ _ _ hnd.2
    · intro j hj
      have hpj := hne j (List.mem_append_left _ hj)
      obtain ⟨k2, hk2, hr2⟩ := hpre j (List.mem_cons_of_mem _ hj)
      refine ⟨k2, ?_, ?_⟩
      · show g ((rstate.viov.set p _).getD j _) = _
        rw [getD_set_ne _ _ _ _ _ hpj]
        exact hk2
      · show 0 ≤ (a k2 ((rstate.viov.set p _).getD j _) get).1
        rw [getD_set_ne _ _ _ _ _ hpj]
        exact hr2
    · show g ((rstate.viov.set p _).getD i _) = _
      rw [getD_set_ne _ _ _ _ _ (hne i (List.mem_append_right _ (List.mem_cons_self _ _)))]
      exact hi

/-- C34: for every remote iov state with a 32-bit missing mask, the loop of
`zhpe_pe_rem_setup` returns once it is given one more test of its condition
than the mask has set bits, and what it returns is what the embedding used by
the receive and transmit paths returns.  The slots of its iterations are an
initial part of the ascending list of the missing slots, so there are at most
as many iterations as set bits.  If the value returned is not negative, the
mask is 0 afterwards, every missing slot has been visited and the key found
for it has been installed.  If the lookup of the loop finds no key for a slot,
the value returned is `-FI_ENOKEY`, the bit of that slot is still set, and it
and all higher slots are as they were, in the mask and in the iov array; the
loop gets to the first missing slot without a cached key whenever the keys of
the missing slots before it are cached and can be accessed. -/
theorem rem_setup_loop_visits_missing_slots (K : zhpe_defs) (g : zhpe_iov → Option Nat)
    (a : Nat → zhpe_iov → Bool → Int × Nat) (rstate : zhpe_iov_state) (get : Bool)
    (hm : rstate.missing < 2 ^ 32) (hE : 0 < K.FI_ENOKEY) :
    ∃ (rstate2 : zhpe_iov_state) (ret : Int) (visits : List (Nat × Option Nat)),
      (∀ fuel, (missing_slots rstate.missing).length < fuel →
        rem_setup_loop K g a get fuel rstate 0 [] = some (rstate2, ret, visits)) ∧
      (rstate2, ret) = zhpe_pe_rem_setup K g a rstate get ∧
      visits.map Prod.fst <+: missing_slots rstate.missing ∧
      visits.length ≤ (missing_slots rstate.missing).length ∧
      (missing_slots rstate.missing).Sorted (fun x y => x < y) ∧
      (∀ i, i ∈ missing_slots rstate.missing ↔ i < 32 ∧ rstate.missing &&& 2 ^ i ≠ 0) ∧
      (0 ≤ ret →
        rstate2.missing = 0 ∧ visits.map Prod.fst = missing_slots rstate.missing ∧
        ∀ i ∈ missing_slots rstate.missing,
          ∃ k, g (rstate.viov.getD i ⟨0, 0, 0, 0⟩) = some k ∧ (i, some k) ∈ visits) ∧
      (∀ i, (i, none) ∈ visits →
        g (rstate.viov.getD i ⟨0, 0, 0, 0⟩) = none ∧ ret = -(K.FI_ENOKEY : Int) ∧
        rstate2.missing &&& 2 ^ i ≠ 0 ∧
        ∀ j, i ≤ j →
          rstate2.viov.getD j ⟨0, 0, 0, 0⟩ = rstate.viov.getD j ⟨0, 0, 0, 0⟩ ∧
          rstate2.missing &&& 2 ^ j = rstate.missing &&& 2 ^ j) ∧
      (∀ pre i post, missing_slots rstate.missing = pre ++ i :: post →
        (∀ j ∈ pre, ∃ k, g (rstate.viov.getD j ⟨0, 0, 0, 0⟩) = some k ∧
          0 ≤ (a k (rstate.viov.getD j ⟨0, 0, 0, 0⟩) get).1) →
        g (rstate.viov.getD i ⟨0, 0, 0, 0⟩) = none → (i, none) ∈ visits) := by
  have hnd := missing_slots_nodup rstate.missing
  have hso := missing_slots_sorted rstate.missing
  obtain ⟨w, h1, h2, h3, h4, h5, h6⟩ :=
    rem_setup_slots_spec K g a get (missing_slots rstate.missing) rstate 0 [] hnd
  rw [List.nil_append] at h1
  refine ⟨(rem_setup_slots K g a get (missing_slots rstate.missing) rstate 0 []).1,
    (rem_setup_slots K g a get (missing_slots rstate.missing) rstate 0 []).2.1, w,
    ?_, ?_, h2, ?_, hso, mem_missing_slots rstate.missing, ?_, ?_, ?_⟩
  · intro fuel hf
    rw [rem_setup_loop_eq_slots K g a get _ rstate 0 [] fuel rfl hf, ← h1]
  · unfold zhpe_pe_rem_setup
    rw [rem_setup_bits_eq_slots K g a get _ rstate 0 [] (List.nodup_range 32)]
    rfl
  · have := h2.length_le
    rwa [List.length_map] at this
  · intro h0
    obtain ⟨e1, e2⟩ := h6 hE h0
    have hsome : ∀ i ∈ missing_slots rstate.missing, ∃ k, (i, some k) ∈ w := by
      intro i hi
      rw [← e1, List.mem_map] at hi
      obtain ⟨⟨i2, o⟩, hp, rfl⟩ := hi
      cases o with
      | none => exact absurd rfl (e2 _ hp)
      | some k => exact ⟨k, hp⟩
    refine ⟨?_, e1, ?_⟩
    · apply eq_zero_of_and_two_pow
      intro j
      by_cases hj : ∃ k, (j, some k) ∈ w
      · obtain ⟨k, hk⟩ := hj
        exact (h4 j k hk).2
      · rw [(h3 j (fun k hk => hj ⟨k, hk⟩)).2]
        by_cases hj32 : j < 32
        · by_contra hb
          obtain ⟨k, hk⟩ := hsome j ((mem_missing_slots _ _).mpr ⟨hj32, hb⟩)
          exact hj ⟨k, hk⟩
        · exact and_two_pow_of_lt _ _ hm (by omega)
    · intro i hi
      obtain ⟨k, hk⟩ := hsome i hi
      exact ⟨k, (h4 i k hk).1, hk⟩
  · intro i hi
    obtain ⟨e1, e2, w0, e3⟩ := h5 i hi
    have hpw : (w0.map Prod.fst ++ [i]).Pairwise (fun x y => x < y) := by
      have : w0.map Prod.fst ++ [i] <+: missing_slots rstate.missing := by
        have h2c := h2
        rw [e3, List.map_append] at h2c
        exact h2c
      exact List.Pairwise.sublist this.sublist hso
    have hlt : ∀ x ∈ w0.map Prod.fst, x < i := by
      intro x hx
      exact (List.pairwise_append.mp hpw).2.2 x hx i (List.mem_singleton_self _)
    have hno : ∀ j, i ≤ j → ∀ k, (j, some k) ∉ w := by
      intro j hij k hk
      rw [e3, List.mem_append] at hk
      rcases hk with hk | hk
      · have := hlt j (List.mem_map.mpr ⟨(j, some k), hk, rfl⟩)
        omega
      · simp at hk
    have hi_mem : i ∈ missing_slots rstate.missing :=
      h2.subset (List.mem_map.mpr ⟨(i, none), hi, rfl⟩)
    refine ⟨e1, e2, ?_, fun j hij => h3 j (hno j hij)⟩
    rw [(h3 i (hno i (le_refl i))).2]
    exact ((mem_missing_slots _ _).mp hi_mem).2
  · intro pre i post hs hpre hi
    have := rem_setup_slots_reaches K g a get pre i post rstate 0 [] (hs ▸ hnd) hpre hi
    rw [← hs, h1] at this
    exact this

/-- C34 witness: of four slots, 1 and 3 miss their key (mask 10).  With both
keys cached the loop returns 0 after the iterations for 1 and 3 and the mask is
0; with the key of slot 3 not cached it returns `-FI_ENOKEY` after the same two
iterations and the mask is 8.  Three tests of the loop condition are enough. -/
theorem rem_setup_loop_visits_missing_slots_witness :
    rstate_missing_example.missing < 2 ^ 32 ∧ 0 < zhpe_defs_example.FI_ENOKEY ∧
    missing_slots rstate_missing_example.missing = [1, 3] ∧
    rem_setup_loop zhpe_defs_example (fun riov => some riov.iov_key)
        (fun _ riov _ => (0, riov.iov_base)) true 3 rstate_missing_example 0 [] =
      some ({ rstate_missing_example with
                missing := 0,
                viov := [⟨0, 100, 10, 0⟩, ⟨4096, 100, 11, 4096⟩, ⟨8192, 100, 12, 0⟩,
                         ⟨12288, 100, 13, 12288⟩] },
            0, [(1, some 11), (3, some 13)]) ∧
    rem_setup_loop zhpe_defs_example (fun riov => if riov.iov_key = 13 then none else some 7)
        (fun _ riov _ => (0, riov.iov_base)) true 3 rstate_missing_example 0 [] =
      some ({ rstate_missing_example with
                missing := 8,
                viov := [⟨0, 100, 10, 0⟩, ⟨4096, 100, 11, 4096⟩, ⟨8192, 100, 12, 0⟩,
                         ⟨12288, 100, 13, 0⟩] },
            -266, [(1, some 7), (3, none)]) ∧
    ∃ (rstate2 : zhpe_iov_state) (ret : Int) (visits : List (Nat × Option Nat)),
      (rstate2, ret) = zhpe_pe_rem_setup zhpe_defs_example (fun riov => some riov.iov_key)
        (fun _ riov _ => (0, riov.iov_base)) rstate_missing_example true ∧
      visits.length ≤ (missing_slots rstate_missing_example.missing).length :=
  ⟨by decide, by decide, by decide, by decide, by decide,
   match rem_setup_loop_visits_missing_slots zhpe_defs_example (fun riov => some riov.iov_key)
      (fun _ riov _ => (0, riov.iov_base)) rstate_missing_example true (by decide)
      (by decide) with
   | ⟨r, ret, v, _, h2, _, h4, _⟩ => ⟨r, ret, v, h2, h4⟩⟩

/-! ## Responses to a key request -/

/-- With one more loop test than the mask has set bits, the loop of
`zhpe_pe_rkey_request` returns: it has copied one key for each missing slot,
in ascending order of the slots, and counted one completion for each. -/
theorem rkey_request_loop_eq (to_zkey : zhpe_iov → zhpe_key) (ziov : List zhpe_iov)
    (sl : List Nat) :
    ∀ (missing : Nat) (zkeys : List zhpe_key) (c fuel : Nat),
      missing_slots missing = sl → sl.length < fuel → c < 2 ^ 8 →
      rkey_request_loop to_zkey ziov fuel missing zkeys c =
        some (zkeys ++ sl.map (fun i => to_zkey (ziov.getD i ⟨0, 0, 0, 0⟩)),
              (c + sl.length) % 2 ^ 8) := by
  induction sl with
  | nil =>
    intro missing zkeys c fuel hs hf hc
    obtain ⟨f, rfl⟩ : ∃ f, fuel = f + 1 := ⟨fuel - 1, by simp at hf; omega⟩
    unfold rkey_request_loop
    rw [if_pos (ffs_of_nil _ hs)]
    simp only [List.map_nil, List.append_nil, List.length_nil, Nat.add_zero,
      Nat.mod_eq_of_lt hc]
  | cons i t ih =>
    intro missing zkeys c fuel hs hf hc
    obtain ⟨f, rfl⟩ : ∃ f, fuel = f + 1 := ⟨fuel - 1, by simp at hf; omega⟩
    have hffs := ffs_of_cons _ i t hs
    unfold rkey_request_loop
    rw [if_neg (by rw [hffs]; omega)]
    simp only [hffs, Nat.add_sub_cancel]
    rw [ih _ _ _ f (missing_slots_clear _ i t hs) (by simp only [List.length_cons] at hf; omega)
      (Nat.mod_lt _ (by decide))]
    simp only [List.map_cons, List.append_assoc, List.singleton_append, List.length_cons]
    congr 2
    norm_num
    omega

/-- Every key of a request gets exactly one response. -/
theorem key_request_loop_responses (K : zhpe_defs) (find : Nat → Bool → Option Nat)
    (exp : Nat → Int) (zhdr : zhpe_msg_hdr) (hE : 0 < K.FI_ENOKEY) (zkeys : List zhpe_key) :
    ∀ (ret : Int) (out : List key_out),
      key_responses exp (key_request_loop K find exp zhdr zkeys ret out).1 =
        key_responses exp out + zkeys.length := by
  induction zkeys with
  | nil => intro ret out; simp [key_request_loop]
  | cons k ks ih =>
    intro ret out
    by_cases hret : 0 ≤ ret
    · rw [key_request_loop_cons K find exp zhdr k ks ret out hret, ih]
      unfold key_responses key_export_rc key_export_calls
      rw [List.countP_append, List.countP_append, List.length_cons]
      cases hf : find k.key (decide (k.internal ≠ 0)) with
      | none =>
        simp only []
        rw [if_pos (by omega)]
        simp
        omega
      | some zmr =>
        simp only []
        by_cases hx : exp zmr < 0
        · rw [if_pos hx]
          have : ¬ (0 ≤ exp zmr) := by omega
          simp [List.countP_cons, this]
          omega
        · rw [if_neg hx]
          have : 0 ≤ exp zmr := by omega
          simp [List.countP_cons, this]
          omega
    · rw [key_request_loop_failed K find exp zhdr (k :: ks) ret out (by omega)]
      unfold key_responses
      rw [List.countP_append]
      simp [List.countP_replicate]

/-- C32: `zhpe_pe_rkey_request` returns once its loop is given one more test
than the missing mask has set bits (among its 32 bits); the message it hands
to `zhpe_prov_op` is a KEY_REQUEST that lists one key per set bit, in
ascending order of the slots, and the 8-bit counter `*completions` has grown by
the number of set bits.  `zhpe_pe_rx_handle_key_request` returns 0 and, for
every list of `n` keys, makes exactly `n` responses, counting the exports that
succeed and the STATUS messages; so the number of responses to the request is
the number of completions counted for it, however the keys are decoded. -/
theorem key_request_one_response_per_key (K : zhpe_defs) (find : Nat → Bool → Option Nat)
    (exp : Nat → Int) (zhdr : zhpe_msg_hdr) (to_zkey : zhpe_iov → zhpe_key)
    (decode : zhpe_key → zhpe_key) (rstate : zhpe_iov_state) (completions : Nat)
    (hE : 0 < K.FI_ENOKEY) (hc : completions < 2 ^ 8) :
    (∀ zkeys : List zhpe_key,
      key_responses exp (zhpe_pe_rx_handle_key_request K find exp zhdr zkeys).1 = zkeys.length ∧
      (zhpe_pe_rx_handle_key_request K find exp zhdr zkeys).2 = 0) ∧
    ∃ (zkeys : List zhpe_key) (c2 : Nat),
      (∀ fuel, (missing_slots rstate.missing).length < fuel →
        zhpe_pe_rkey_request K to_zkey fuel rstate completions =
          some (ZHPE_OP_KEY_REQUEST, K.ZHPE_PE_RETRY, zkeys, c2)) ∧
      zkeys = (missing_slots rstate.missing).map
        (fun i => to_zkey (rstate.viov.getD i ⟨0, 0, 0, 0⟩)) ∧
      zkeys.length = (missing_slots rstate.missing).length ∧
      c2 = (completions + (missing_slots rstate.missing).length) % 2 ^ 8 ∧
      (missing_slots rstate.missing).length ≤ 32 ∧
      (missing_slots rstate.missing).Sorted (fun x y => x < y) ∧
      (∀ i, i ∈ missing_slots rstate.missing ↔ i < 32 ∧ rstate.missing &&& 2 ^ i ≠ 0) ∧
      key_responses exp
          (zhpe_pe_rx_handle_key_request K find exp zhdr (zkeys.map decode)).1 =
        (missing_slots rstate.missing).length := by
  have hresp : ∀ zkeys : List zhpe_key,
      key_responses exp (zhpe_pe_rx_handle_key_request K find exp zhdr zkeys).1 = zkeys.length ∧
      (zhpe_pe_rx_handle_key_request K find exp zhdr zkeys).2 = 0 := by
    intro zkeys
    unfold zhpe_pe_rx_handle_key_request
    refine ⟨?_, rfl⟩
    rw [key_request_loop_responses K find exp zhdr hE zkeys 0 []]
    simp [key_responses]
  refine ⟨hresp, (missing_slots rstate.missing).map
    (fun i => to_zkey (rstate.viov.getD i ⟨0, 0, 0, 0⟩)),
    (completions + (missing_slots rstate.missing).length) % 2 ^ 8, ?_, rfl, ?_, rfl, ?_,
    missing_slots_sorted _, mem_missing_slots _, ?_⟩
  · intro fuel hf
    unfold zhpe_pe_rkey_request
    rw [rkey_request_loop_eq to_zkey rstate.viov _ rstate.missing [] completions fuel rfl hf hc]
    rfl
  · rw [List.length_map]
  · unfold missing_slots
    exact (List.length_filter_le _ _).trans (by rw [List.length_range])
  · rw [(hresp _).1, List.length_map, List.length_map]

/-- C32 witness: slots 1 and 3 of four are missing.  The request lists the
keys 11 and 13 and counts two completions; neither key has a region at the
peer, which answers with two STATUS messages. -/
theorem key_request_one_response_per_key_witness :
    zhpe_pe_rkey_request zhpe_defs_example ziov_to_zkey_example 3 rstate_missing_example 0 =
      some (ZHPE_OP_KEY_REQUEST, 2, [⟨11, 0⟩, ⟨13, 0⟩], 2) ∧
    zhpe_pe_rx_handle_key_request zhpe_defs_example mr_find_example (fun _ => 0)
        ⟨ZHPE_OP_KEY_REQUEST, 0, 0⟩ [⟨11, 0⟩, ⟨13, 0⟩] =
      ([key_out.send_status ⟨ZHPE_OP_KEY_REQUEST, 0, 0⟩ (-266) 0,
        key_out.send_status ⟨ZHPE_OP_KEY_REQUEST, 0, 0⟩ (-266) 0], 0) ∧
    key_responses (fun _ => 0)
        (zhpe_pe_rx_handle_key_request zhpe_defs_example mr_find_example (fun _ => 0)
          ⟨ZHPE_OP_KEY_REQUEST, 0, 0⟩ [⟨11, 0⟩, ⟨13, 0⟩]).1 =
      ([⟨11, 0⟩, ⟨13, 0⟩] : List zhpe_key).length :=
  ⟨by decide, by decide,
   ((key_request_one_response_per_key zhpe_defs_example mr_find_example (fun _ => 0)
      ⟨ZHPE_OP_KEY_REQUEST, 0, 0⟩ ziov_to_zkey_example (fun k => k) rstate_missing_example 0
      (by decide) (by decide)).1 [⟨11, 0⟩, ⟨13, 0⟩]).1⟩

/-! ## Target-side execution of an atomic request -/

/-- When `zhpe_pe_rx_handle_atomic` gets past the access check, what it does is
`ATOMIC_OP` at the width of the datatype, on the address, operand and compare
value of the request, followed by the STATUS reply with status 0 and the local
`rem`. -/
theorem rx_handle_atomic_executes (K : zhpe_defs) (find : Nat → Bool → Option Nat)
    (access : Nat → Nat → Nat → Int) (mem : Nat → Nat) (zhdr : zhpe_msg_hdr)
    (zpay : zhpe_msg_atomic_req) (rem size : Nat)
    (hdt : (zpay.datatype = FI_UINT8 ∧ size = 8) ∨ (zpay.datatype = FI_UINT16 ∧ size = 16) ∨
      (zpay.datatype = FI_UINT32 ∧ size = 32) ∨ (zpay.datatype = FI_UINT64 ∧ size = 64))
    (hexec : ∀ kdata, find zpay.zkey_key (decide (zpay.zkey_internal ≠ 0)) = some kdata →
      0 ≤ access kdata zpay.vaddr zpay.datasize) :
    (zhpe_pe_rx_handle_atomic K find access mem zhdr zpay rem).mem =
      (ATOMIC_OP size zpay.op mem zpay.vaddr zpay.operand zpay.compare rem).1 ∧
    (zhpe_pe_rx_handle_atomic K find access mem zhdr zpay rem).send_status =
      (if zhdr.flags &&& K.ZHPE_MSG_DELIVERY_COMPLETE ≠ 0 then
        some (0, (ATOMIC_OP size zpay.op mem zpay.vaddr zpay.operand zpay.compare rem).2)
       else none) ∧
    (zhpe_pe_rx_handle_atomic K find access mem zhdr zpay rem).ret = 0 := by
  unfold zhpe_pe_rx_handle_atomic
  simp only []
  cases hf : find zpay.zkey_key (decide (zpay.zkey_internal ≠ 0)) with
  | none =>
    simp only []
    rcases hdt with ⟨h, rfl⟩ | ⟨h, rfl⟩ | ⟨h, rfl⟩ | ⟨h, rfl⟩ <;> rw [h] <;> exact ⟨rfl, rfl, rfl⟩
  | some kdata =>
    simp only []
    rw [if_neg (by have := hexec kdata hf; omega)]
    rcases hdt with ⟨h, rfl⟩ | ⟨h, rfl⟩ | ⟨h, rfl⟩ | ⟨h, rfl⟩ <;> rw [h] <;> exact ⟨rfl, rfl, rfl⟩

/-- C10: for every request that `zhpe_pe_rx_handle_atomic` executes (its key
has no region, or the access check on the region does not fail), with `w` the
width of its datatype (8, 16, 32 or 64 for `FI_UINT8` to `FI_UINT64`), `old`
the `w`-bit word at the address of the request before the call and `o`, `c`
the operand and compare value of the request truncated to `w` bits: the call
returns 0, the status of the reply is 0, no byte outside the word changes, and
READ leaves the memory unchanged and replies `old`; WRITE stores `o`; BAND,
BOR and BXOR store `old AND o`, `old OR o`, `old XOR o` and reply `old`; CSWAP
stores `o` if `old = c`, changes nothing otherwise, and replies `old`; SUM
stores `(old + o) mod 2 ^ w` and replies `old`.  The reply is sent when the
header asks for it with `ZHPE_MSG_DELIVERY_COMPLETE`; for WRITE it carries the
unassigned local `rem`. -/
theorem rx_handle_atomic_matches_sequential (K : zhpe_defs) (find : Nat → Bool → Option Nat)
    (access : Nat → Nat → Nat → Int) (mem : Nat → Nat) (zhdr : zhpe_msg_hdr)
    (zpay : zhpe_msg_atomic_req) (rem size : Nat)
    (hdt : (zpay.datatype = FI_UINT8 ∧ size = 8) ∨ (zpay.datatype = FI_UINT16 ∧ size = 16) ∨
      (zpay.datatype = FI_UINT32 ∧ size = 32) ∨ (zpay.datatype = FI_UINT64 ∧ size = 64))
    (hexec : ∀ kdata, find zpay.zkey_key (decide (zpay.zkey_internal ≠ 0)) = some kdata →
      0 ≤ access kdata zpay.vaddr zpay.datasize) :
    (zhpe_pe_rx_handle_atomic K find access mem zhdr zpay rem).ret = 0 ∧
    mem_load mem zpay.vaddr (size / 8) < 2 ^ size ∧
    (∀ a, (a < zpay.vaddr ∨ zpay.vaddr + size / 8 ≤ a) →
      (zhpe_pe_rx_handle_atomic K find access mem zhdr zpay rem).mem a = mem a) ∧
    (zpay.op = FI_ATOMIC_READ →
      (zhpe_pe_rx_handle_atomic K find access mem zhdr zpay rem).mem = mem ∧
      (zhpe_pe_rx_handle_atomic K find access mem zhdr zpay rem).send_status =
        (if zhdr.flags &&& K.ZHPE_MSG_DELIVERY_COMPLETE ≠ 0 then
          some (0, mem_load mem zpay.vaddr (size / 8)) else none)) ∧
    (zpay.op = FI_ATOMIC_WRITE →
      mem_load (zhpe_pe_rx_handle_atomic K find access mem zhdr zpay rem).mem zpay.vaddr
        (size / 8) = zpay.operand % 2 ^ size ∧
      (zhpe_pe_rx_handle_atomic K find access mem zhdr zpay rem).send_status =
        (if zhdr.flags &&& K.ZHPE_MSG_DELIVERY_COMPLETE ≠ 0 then some (0, rem) else none)) ∧
    (zpay.op = FI_BAND →
      mem_load (zhpe_pe_rx_handle_atomic K find access mem zhdr zpay rem).mem zpay.vaddr
        (size / 8) = mem_load mem zpay.vaddr (size / 8) &&& (zpay.operand % 2 ^ size) ∧
      (zhpe_pe_rx_handle_atomic K find access mem zhdr zpay rem).send_status =
        (if zhdr.flags &&& K.ZHPE_MSG_DELIVERY_COMPLETE ≠ 0 then
          some (0, mem_load mem zpay.vaddr (size / 8)) else none)) ∧
    (zpay.op = FI_BOR →
      mem_load (zhpe_pe_rx_handle_atomic K find access mem zhdr zpay rem).mem zpay.vaddr
        (size / 8) = mem_load mem zpay.vaddr (size / 8) ||| (zpay.operand % 2 ^ size) ∧
      (zhpe_pe_rx_handle_atomic K find access mem zhdr zpay rem).send_status =
        (if zhdr.flags &&& K.ZHPE_MSG_DELIVERY_COMPLETE ≠ 0 then
          some (0, mem_load mem zpay.vaddr (size / 8)) else none)) ∧
    (zpay.op = FI_BXOR →
      mem_load (zhpe_pe_rx_handle_atomic K find access mem zhdr zpay rem).mem zpay.vaddr
        (size / 8) = mem_load mem zpay.vaddr (size / 8) ^^^ (zpay.operand % 2 ^ size) ∧
      (zhpe_pe_rx_handle_atomic K find access mem zhdr zpay rem).send_status =
        (if zhdr.flags &&& K.ZHPE_MSG_DELIVERY_COMPLETE ≠ 0 then
          some (0, mem_load mem zpay.vaddr (size / 8)) else none)) ∧
    (zpay.op = FI_CSWAP →
      mem_load (zhpe_pe_rx_handle_atomic K find access mem zhdr zpay rem).mem zpay.vaddr
          (size / 8) =
        (if mem_load mem zpay.vaddr (size / 8) = zpay.compare % 2 ^ size then
          zpay.operand % 2 ^ size
         else mem_load mem zpay.vaddr (size / 8)) ∧
      (mem_load mem zpay.vaddr (size / 8) ≠ zpay.compare % 2 ^ size →
        (zhpe_pe_rx_handle_atomic K find access mem zhdr zpay rem).mem = mem) ∧
      (zhpe_pe_rx_handle_atomic K find access mem zhdr zpay rem).send_status =
        (if zhdr.flags &&& K.ZHPE_MSG_DELIVERY_COMPLETE ≠ 0 then
          some (0, mem_load mem zpay.vaddr (size / 8)) else none)) ∧
    (zpay.op = FI_SUM →
      mem_load (zhpe_pe_rx_handle_atomic K find access mem zhdr zpay rem).mem zpay.vaddr
          (size / 8) =
        (mem_load mem zpay.vaddr (size / 8) + zpay.operand % 2 ^ size) % 2 ^ size ∧
      (zhpe_pe_rx_handle_atomic K find access mem zhdr zpay rem).send_status =
        (if zhdr.flags &&& K.ZHPE_MSG_DELIVERY_COMPLETE ≠ 0 then
          some (0, mem_load mem zpay.vaddr (size / 8)) else none)) := by
  obtain ⟨hmem, hst, hret⟩ := rx_handle_atomic_executes K find access mem zhdr zpay rem size
    hdt hexec
  have hs : size = 8 ∨ size = 16 ∨ size = 32 ∨ size = 64 := by
    rcases hdt with ⟨_, h⟩ | ⟨_, h⟩ | ⟨_, h⟩ | ⟨_, h⟩
    · exact Or.inl h
    · exact Or.inr (Or.inl h)
    · exact Or.inr (Or.inr (Or.inl h))
    · exact Or.inr (Or.inr (Or.inr h))
  obtain ⟨hold, hread, hwrite, ⟨hband, hband2⟩, ⟨hbor, hbor2⟩, ⟨hbxor, hbxor2⟩,
    ⟨hcs, hcs2, hcs3⟩, ⟨hsum, hsum2⟩, hframe⟩ :=
    atomic_op_matches_sequential size hs mem zpay.vaddr zpay.operand zpay.compare rem
  rw [hmem, hst]
  refine ⟨hret, hold, fun a ha => hframe zpay.op a ha, ?_, ?_, ?_, ?_, ?_, ?_, ?_⟩
  · intro h
    rw [h, hread]
    exact ⟨rfl, rfl⟩
  · intro h
    rw [h]
    exact ⟨hwrite, rfl⟩
  · intro h
    rw [h, hband2]
    exact ⟨hband, rfl⟩
  · intro h
    rw [h, hbor2]
    exact ⟨hbor, rfl⟩
  · intro h
    rw [h, hbxor2]
    exact ⟨hbxor, rfl⟩
  · intro h
    rw [h, hcs3]
    exact ⟨hcs, hcs2, rfl⟩
  · intro h
    rw [h, hsum2]
    exact ⟨hsum, rfl⟩

/-- C10 witness: a 16-bit compare-and-swap request for the bytes `0x34 0x12`
at address 100, whose key has a region that may be accessed, with a reply
asked for.  The word 0x1234 equals the compare value, so the handler stores
0x5678, leaves the bytes at 99 and 102 alone and replies status 0 with the old
word 0x1234. -/
theorem rx_handle_atomic_matches_sequential_witness :
    (zhpe_pe_rx_handle_atomic zhpe_defs_example (fun _ _ => some 1) (fun _ _ _ => 0)
        atomic_mem_example ⟨ZHPE_OP_ATOMIC, 16, 0⟩ atomic_req_cswap_example 0).send_status =
      some (0, 0x1234) ∧
    mem_load (zhpe_pe_rx_handle_atomic zhpe_defs_example (fun _ _ => some 1) (fun _ _ _ => 0)
        atomic_mem_example ⟨ZHPE_OP_ATOMIC, 16, 0⟩ atomic_req_cswap_example 0).mem 100 2 =
      0x5678 ∧
    mem_load (zhpe_pe_rx_handle_atomic zhpe_defs_example (fun _ _ => some 1) (fun _ _ _ => 0)
        atomic_mem_example ⟨ZHPE_OP_ATOMIC, 16, 0⟩ atomic_req_cswap_example 0).mem 99 4 =
      0xff5678ff ∧
    mem_load (zhpe_pe_rx_handle_atomic zhpe_defs_example (fun _ _ => some 1) (fun _ _ _ => 0)
        atomic_mem_example ⟨ZHPE_OP_ATOMIC, 16, 0⟩ atomic_req_cswap_example 0).mem
        atomic_req_cswap_example.vaddr (16 / 8) =
      (if mem_load atomic_mem_example atomic_req_cswap_example.vaddr (16 / 8) =
          atomic_req_cswap_example.compare % 2 ^ 16 then
        atomic_req_cswap_example.operand % 2 ^ 16
       else mem_load atomic_mem_example atomic_req_cswap_example.vaddr (16 / 8)) :=
  ⟨by decide, by decide, by decide,
   ((rx_handle_atomic_matches_sequential zhpe_defs_example (fun _ _ => some 1)
      (fun _ _ _ => 0) atomic_mem_example ⟨ZHPE_OP_ATOMIC, 16, 0⟩ atomic_req_cswap_example 0 16
      (Or.inr (Or.inl ⟨rfl, rfl⟩)) (fun _ _ => Int.le_refl 0)).2.2.2.2.2.2.2.2.1 rfl).1⟩

/-! ## WRITEDATA for an entry with `FI_REMOTE_READ` and `FI_REMOTE_CQ_DATA` -/

/-- C29 (the code at the failing input): a transmit entry with the flags
`FI_RMA | FI_READ | FI_REMOTE_READ | FI_REMOTE_CQ_DATA` and `cq_data`
0xDEADBEEF has nothing left to move and nothing in flight.  `zhpe_pe_tx_rma`
sends the WRITEDATA message built by `zhpe_pe_writedata`, and nothing else.
The descriptor that `zhpe_pe_rx_handle_writedata` builds from its payload has
data 0xDEADBEEF and the flags
`FI_REMOTE_READ | FI_REMOTE_WRITE | FI_REMOTE_CQ_DATA | FI_RMA`, the flags of
the entry restricted to the five it keeps with `FI_REMOTE_WRITE` added; but
with both `FI_REMOTE_READ` and `FI_REMOTE_WRITE` they select no completion
class, and the handler reports no completion: the reporter ends in `abort()`.
For the RMA WRITE with the same `cq_data` the same path counts one remote write
and puts one record with flags `FI_REMOTE_WRITE | FI_REMOTE_CQ_DATA | FI_RMA`
and data 0xDEADBEEF on the receive queue. -/
theorem writedata_remote_read_cq_data_not_reported :
    (zhpe_pe_tx_rma zhpe_defs_example tx_env_example
        (zhpe_tx_example { pe_entry_example 77 with
          flags := 2 ^ 2 ||| 2 ^ 8 ||| 2 ^ 12 ||| 2 ^ 17, cq_data := 0xDEADBEEF }) 1).out =
      [tx_out.zhpe_tx_op 3 ZHPE_OP_WRITEDATA 9 (1 ||| 2)
        ⟨htobe64 (2 ^ 2 ||| 2 ^ 8 ||| 2 ^ 12 ||| 2 ^ 17), htobe64 0xDEADBEEF⟩ 1] ∧
    (zhpe_pe_writedata zhpe_defs_example tx_env_example
        (zhpe_tx_example { pe_entry_example 77 with
          flags := 2 ^ 2 ||| 2 ^ 8 ||| 2 ^ 12 ||| 2 ^ 17, cq_data := 0xDEADBEEF }) 1).1.out =
      [tx_out.zhpe_tx_op 3 ZHPE_OP_WRITEDATA 9 (1 ||| 2)
        ⟨htobe64 (2 ^ 2 ||| 2 ^ 8 ||| 2 ^ 12 ||| 2 ^ 17), htobe64 0xDEADBEEF⟩ 1] ∧
    rx_writedata_zcqe zhpe_defs_example 5
        ⟨htobe64 (2 ^ 2 ||| 2 ^ 8 ||| 2 ^ 12 ||| 2 ^ 17), htobe64 0xDEADBEEF⟩ =
      ⟨5, ⟨0, 2 ^ 12 ||| 2 ^ 13 ||| 2 ^ 17 ||| 2 ^ 2, 0, 0, 0xDEADBEEF, 0⟩⟩ ∧
    report_complete_class zhpe_defs_example zhpe_comp_example
        (2 ^ 12 ||| 2 ^ 13 ||| 2 ^ 17 ||| 2 ^ 2) = none ∧
    zhpe_pe_rx_handle_writedata zhpe_defs_example comp_env_example zhpe_comp_example 5
        ⟨htobe64 (2 ^ 2 ||| 2 ^ 8 ||| 2 ^ 12 ||| 2 ^ 17), htobe64 0xDEADBEEF⟩ =
      ([comp_out.abort], 0) ∧
    (zhpe_pe_tx_rma zhpe_defs_example tx_env_example
        (zhpe_tx_example { pe_entry_example 77 with
          flags := 2 ^ 2 ||| 2 ^ 9 ||| 2 ^ 17, cq_data := 0xDEADBEEF }) 1).out =
      [tx_out.zhpe_tx_op 3 ZHPE_OP_WRITEDATA 9 (1 ||| 2)
        ⟨htobe64 (2 ^ 2 ||| 2 ^ 9 ||| 2 ^ 17), htobe64 0xDEADBEEF⟩ 1] ∧
    zhpe_pe_rx_handle_writedata zhpe_defs_example comp_env_example zhpe_comp_example 5
        ⟨htobe64 (2 ^ 2 ||| 2 ^ 9 ||| 2 ^ 17), htobe64 0xDEADBEEF⟩ =
      ([comp_out.zhpe_cntr_inc 16,
        comp_out.report_completion 2 5 ⟨0, 2 ^ 13 ||| 2 ^ 17 ||| 2 ^ 2, 0, 0, 0xDEADBEEF, 0⟩], 0) := by
  decide

end Zhpe
